import Mathlib

/-!
# mmd-viewer: animation player, MMD animation decoder and TMD model decoder

A shallow embedding of `src/animationplayer.{h,cpp}`, `src/charactermodel.h`,
`src/buffer.h`, `src/formats/mmd.{h,cpp}`, `src/formats/tmd.{h,cpp}` and
`src/converters/tmd2object3d.h`, followed by theorems about it.

Conventions of the embedding.

* The C++ type `float` is kept abstract: every definition that computes with
  floats takes a `FloatOps F` giving the conversion from integers and the three
  operations the code uses.  A theorem stated for every `FloatOps` holds in
  particular for IEEE single precision.  `ratOps` is the exact instance on `ℚ`,
  used to evaluate the definitions on concrete inputs whose values are exactly
  representable.
* `int` members of `AnimationState` are `Int`; unsigned instruction fields are
  `Nat` and are converted with `toInt32` where the code converts them to `int`.
* An access outside a `std::vector` or a memory region, a read of a partly
  uninitialised value, an exhausted iteration budget and a failed `assert` are
  the `Fault`s; functions that can hit one return `Except Fault`.
-/

namespace MMDViewer

/-! ## Faults -/

/-- Ways in which a run of the embedded code fails to produce a value. -/
inductive Fault
  | outOfBounds
  | outOfFuel
  | shortRead
  | assertFailed
  | divisionByZero
  | overflow
  deriving DecidableEq, Repr

/-! ## Floats -/

/-- The operations on `float` used by the program. -/
structure FloatOps (F : Type) where
  ofInt : Int → F
  add : F → F → F
  mul : F → F → F
  div : F → F → F

/-- Exact rational arithmetic as an instance of the float operations. -/
def ratOps : FloatOps ℚ where
  ofInt := fun i => (i : ℚ)
  add := fun a b => a + b
  mul := fun a b => a * b
  div := fun a b => a / b

/-- Conversion of a `uint32_t` to `int` (two's complement, 32 bits). -/
def toInt32 (n : Nat) : Int :=
  if n % 2 ^ 32 < 2 ^ 31 then ((n % 2 ^ 32 : Nat) : Int) else ((n % 2 ^ 32 : Nat) : Int) - 2 ^ 32

/-! ## `formats/mmd.h`: the animation program -/

/-- The enumeration `MMD_Animation::Axis`, in declaration order. -/
inductive Axis
  | SCALE_X
  | SCALE_Y
  | SCALE_Z
  | ROT_X
  | ROT_Y
  | ROT_Z
  | POS_X
  | POS_Y
  | POS_Z
  deriving DecidableEq, Repr

/-- The cast `static_cast<int>(axis)`, as an index into a nine-element array. -/
def Axis.toFin : Axis → Fin 9
  | .SCALE_X => 0
  | .SCALE_Y => 1
  | .SCALE_Z => 2
  | .ROT_X => 3
  | .ROT_Y => 4
  | .ROT_Z => 5
  | .POS_X => 6
  | .POS_Y => 7
  | .POS_Z => 8

/-- The cast `static_cast<MMD_Animation::Axis>(n)` for `n` in `0..8`
(the only values the decoder casts). -/
def Axis.cast : Nat → Axis
  | 0 => .SCALE_X
  | 1 => .SCALE_Y
  | 2 => .SCALE_Z
  | 3 => .ROT_X
  | 4 => .ROT_Y
  | 5 => .ROT_Z
  | 6 => .POS_X
  | 7 => .POS_Y
  | _ => .POS_Z

/-- The record `MMD_Animation::Position` (nine `int16_t`), with its default
member initialisers as `Position.default`. -/
structure Position where
  scaleX : Int
  scaleY : Int
  scaleZ : Int
  posX : Int
  posY : Int
  posZ : Int
  rotX : Int
  rotY : Int
  rotZ : Int
  deriving DecidableEq, Repr

/-- A default-constructed `Position`: scale `0x1000`, everything else `0`. -/
def Position.default : Position :=
  { scaleX := 0x1000, scaleY := 0x1000, scaleZ := 0x1000,
    posX := 0, posY := 0, posZ := 0, rotX := 0, rotY := 0, rotZ := 0 }

/-- The record `MMD_Animation::KeyframeEntry`. -/
structure KeyframeEntry (F : Type) where
  affectedNode : Nat
  scale : Nat
  values : List (Axis × F)

/-- The record `MMD_Animation::KeyframeInstruction`. -/
structure KeyframeInstruction (F : Type) where
  timecode : Nat
  entries : List (KeyframeEntry F)

/-- The record `MMD_Animation::LoopStartInstruction`. -/
structure LoopStartInstruction where
  loopCount : Nat
  deriving DecidableEq, Repr

/-- The record `MMD_Animation::LoopEndInstruction`. -/
structure LoopEndInstruction where
  timecode : Nat
  newTime : Nat
  deriving DecidableEq, Repr

/-- The record `MMD_Animation::PlaySoundInstruction`. -/
structure PlaySoundInstruction where
  timecode : Nat
  vabId : Nat
  soundId : Nat
  deriving DecidableEq, Repr

/-- The record `MMD_Animation::TextureInstruction`. -/
structure TextureInstruction where
  timecode : Nat
  srcX : Nat
  srcY : Nat
  width : Nat
  height : Nat
  destX : Nat
  destY : Nat
  deriving DecidableEq, Repr

/-- The variant `MMD_Animation::Instruction`. -/
inductive Instruction (F : Type)
  | keyframe (ins : KeyframeInstruction F)
  | loopStart (ins : LoopStartInstruction)
  | loopEnd (ins : LoopEndInstruction)
  | playSound (ins : PlaySoundInstruction)
  | texture (ins : TextureInstruction)

/-- The class `MMD_Animation`. -/
structure MMD_Animation (F : Type) where
  frameCount : Nat
  id : Nat
  initialPositions : List Position
  instructions : List (Instruction F)

/-- A default-constructed `MMD_Animation` (`id = uint32_t(-1)`). -/
def MMD_Animation.empty (F : Type) : MMD_Animation F :=
  { frameCount := 0, id := 2 ^ 32 - 1, initialPositions := [], instructions := [] }

/-! ## Scene graph: `rendering/object3d.h`, `rendering/psxobject3d.h` -/

/-- Three floats (`QVector3D`, `EulerAngles`). -/
structure Vec3 (F : Type) where
  x : F
  y : F
  z : F

/-- Componentwise sum, `operator+` of `QVector3D` and of `EulerAngles`. -/
def Vec3.add {F : Type} (ops : FloatOps F) (a b : Vec3 F) : Vec3 F :=
  { x := ops.add a.x b.x, y := ops.add a.y b.y, z := ops.add a.z b.z }

/-- A `QImage` of format ARGB32: `width * height` pixel words, row by row. -/
structure QImage where
  width : Nat
  height : Nat
  pixels : List Nat
  deriving DecidableEq, Repr

/-- The call `QImage::pixel(x, y)`: the stored word, or Qt's out-of-range
answer `12345` when the coordinate is not inside the image. -/
def QImage.pixel (img : QImage) (x y : Nat) : Nat :=
  if x < img.width ∧ y < img.height then img.pixels.getD (y * img.width + x) 0 else 12345

/-- The call `QImage::setPixel(x, y, v)`: stores the word, and does nothing
when the coordinate is not inside the image. -/
def QImage.setPixel (img : QImage) (x y v : Nat) : QImage :=
  if x < img.width ∧ y < img.height then
    { img with pixels := img.pixels.set (y * img.width + x) v }
  else img

/-- The record `PSX_Texture`.  The `int` counter `revision` is kept as a
mathematical integer: the statements about it are for runs in which
`++revision` stays below `2^31`. -/
structure PSX_Texture where
  image : QImage
  revision : Int
  deriving DecidableEq, Repr

/-- The type `RgbColor` of `color.h`, as the three components that its
constructor is given. -/
structure RgbColor where
  r : Nat
  g : Nat
  b : Nat
  deriving DecidableEq, Repr

/-- The class `PSX_Material`.  The texture pointer `map` is the index of the
texture in the texture store, or `none` for a null pointer. -/
structure PSX_Material where
  vertexColors : Bool := false
  lighting : Bool := false
  color : RgbColor := { r := 255, g := 255, b := 255 }
  map : Option Nat := none
  deriving DecidableEq, Repr

/-- A scene node `Object3D` with its transform.  `materials` is `some` exactly
when the node is a `PSX_Object3D`; it then lists the node's material pointers
as indices into the material store. -/
structure Object3D (F : Type) where
  m_position : Vec3 F
  m_rotation : Vec3 F
  m_scale : Vec3 F
  materials : Option (List Nat)

/-- The class `CharacterModel` as the player sees it: the node list, and the
stores that the shared pointers of materials and textures point into.  The
entries of `nodes` stand for distinct, non-null objects. -/
structure CharacterModel (F : Type) where
  nodes : List (Object3D F)
  materialStore : List PSX_Material
  textureStore : List PSX_Texture

/-- The method `Object3D::setPosition`. -/
def Object3D.setPosition {F : Type} (node : Object3D F) (pos : Vec3 F) : Object3D F :=
  { node with m_position := pos }

/-- The method `Object3D::setScale`. -/
def Object3D.setScale {F : Type} (node : Object3D F) (scale : Vec3 F) : Object3D F :=
  { node with m_scale := scale }

/-- The method `Object3D::setRotation`. -/
def Object3D.setRotation {F : Type} (node : Object3D F) (angles : Vec3 F) : Object3D F :=
  { node with m_rotation := angles }

/-! ## `animationplayer.h`: player state -/

/-- The record `AnimationMomentumData`: `std::array<float, 9>`. -/
structure AnimationMomentumData (F : Type) where
  values : Fin 9 → F

/-- The record `AnimationState`. -/
structure AnimationState (F : Type) where
  frameNum : Int
  timecode : Int
  loopCounter : Int
  loopJumpbackIndex : Int
  pc : Int
  momentumData : List (AnimationMomentumData F)

/-- A default-constructed `AnimationState()`. -/
def AnimationState.fresh (F : Type) : AnimationState F :=
  { frameNum := 0, timecode := 0, loopCounter := 0, loopJumpbackIndex := -1, pc := 0,
    momentumData := [] }

/-- The record `AnimationData`; the pointer `model` is the model itself. -/
structure AnimationData (F : Type) where
  state : AnimationState F
  model : CharacterModel F
  animation : MMD_Animation F
  infinite : Bool

/-- The signals of `AnimationPlayer`. -/
inductive Signal
  | stepped
  | finished
  deriving DecidableEq, Repr

/-- The class `AnimationPlayer`: its data and whether `m_timer` is running. -/
structure AnimationPlayer (F : Type) where
  m_timerActive : Bool
  m_animationData : AnimationData F

/-! ## `animationplayer.cpp` -/

/-- The function `axisFactor`. -/
def axisFactor {F : Type} (ops : FloatOps F) : Axis → F
  | .SCALE_X => ops.div (ops.ofInt 1) (ops.ofInt 4096)
  | .SCALE_Y => ops.div (ops.ofInt 1) (ops.ofInt 4096)
  | .SCALE_Z => ops.div (ops.ofInt 1) (ops.ofInt 4096)
  | .ROT_X => ops.div (ops.ofInt 360) (ops.ofInt 4096)
  | .ROT_Y => ops.div (ops.ofInt 360) (ops.ofInt 4096)
  | .ROT_Z => ops.div (ops.ofInt 360) (ops.ofInt 4096)
  | _ => ops.ofInt 1

/-- The body of the inner loop of the keyframe visitor:
`momentum.values[static_cast<int>(axis)] = value * axisFactor(axis)`. -/
def setAxisValue {F : Type} (ops : FloatOps F) (momentum : AnimationMomentumData F)
    (p : Axis × F) : AnimationMomentumData F :=
  { values := Function.update momentum.values p.1.toFin (ops.mul p.2 (axisFactor ops p.1)) }

/-- One iteration of the outer loop of the keyframe visitor: the reference
`momentumData[e.affectedNode]` is taken, then every value of the entry is
written through it. -/
def applyKeyframeEntry {F : Type} (ops : FloatOps F) (momentumData : List (AnimationMomentumData F))
    (e : KeyframeEntry F) : Except Fault (List (AnimationMomentumData F)) :=
  match momentumData[e.affectedNode]? with
  | none => .error .outOfBounds
  | some momentum =>
    .ok (momentumData.set e.affectedNode (e.values.foldl (setAxisValue ops) momentum))

/-- The outer loop of the keyframe visitor over the entries, in order. -/
def applyKeyframeEntries {F : Type} (ops : FloatOps F) :
    List (AnimationMomentumData F) → List (KeyframeEntry F) →
      Except Fault (List (AnimationMomentumData F))
  | momentumData, [] => .ok momentumData
  | momentumData, e :: es =>
    match applyKeyframeEntry ops momentumData e with
    | .error f => .error f
    | .ok md => applyKeyframeEntries ops md es

/-- The visitor `AnimInstructionExecutor::operator()(const KeyframeInstruction&)`. -/
def executeKeyframe {F : Type} (ops : FloatOps F) (data : AnimationData F)
    (ins : KeyframeInstruction F) : Except Fault (AnimationData F) :=
  match applyKeyframeEntries ops data.state.momentumData ins.entries with
  | .error f => .error f
  | .ok md => .ok { data with state := { data.state with momentumData := md } }

/-- The visitor `AnimInstructionExecutor::operator()(const LoopStartInstruction&)`. -/
def executeLoopStart {F : Type} (data : AnimationData F) (ins : LoopStartInstruction) :
    AnimationData F :=
  { data with state := { data.state with
      loopJumpbackIndex := data.state.pc, loopCounter := toInt32 ins.loopCount } }

/-- The visitor `AnimInstructionExecutor::operator()(const LoopEndInstruction&)`. -/
def executeLoopEnd {F : Type} (data : AnimationData F) (ins : LoopEndInstruction) :
    AnimationData F :=
  if data.state.loopCounter ≠ 255 ∧ data.state.loopCounter ≠ 0 then
    if data.state.loopCounter - 1 = 0 then
      { data with state := { data.state with loopCounter := data.state.loopCounter - 1 } }
    else
      { data with state := { data.state with
          loopCounter := data.state.loopCounter - 1,
          timecode := toInt32 ins.newTime,
          pc := data.state.loopJumpbackIndex } }
  else
    { data with state := { data.state with
        timecode := toInt32 ins.newTime, pc := data.state.loopJumpbackIndex } }

/-- The inner pixel loop of the texture visitor for one row `y`. -/
def blitRow (srcX srcY destX destY width : Nat) (image : QImage) (y : Nat) : QImage :=
  (List.range width).foldl
    (fun img x => img.setPixel (x + destX) (y + destY) (img.pixel (x + srcX) (y + srcY))) image

/-- The two nested pixel loops of the texture visitor, rows outermost. -/
def blitImage (srcX srcY destX destY width height : Nat) (image : QImage) : QImage :=
  (List.range height).foldl (blitRow srcX srcY destX destY width) image

/-- The body of the texture visitor for one material pointer `m` of a node:
`acc` holds the texture store and the set `done`. -/
def blitMaterial (ins : TextureInstruction) (materialStore : List PSX_Material)
    (acc : List PSX_Texture × List Nat) (m : Nat) : Except Fault (List PSX_Texture × List Nat) :=
  match materialStore[m]? with
  | none => .error .outOfBounds
  | some material =>
    match material.map with
    | none => .ok acc
    | some t =>
      if m ∈ acc.2 then .ok acc
      else
        match acc.1[t]? with
        | none => .error .outOfBounds
        | some tex =>
          .ok (acc.1.set t
                { image := blitImage (ins.srcX * 4) ins.srcY (ins.destX * 4) ins.destY
                             (ins.width * 4) ins.height tex.image,
                  revision := tex.revision + 1 },
               m :: acc.2)

/-- The loop of the texture visitor over the materials of one node. -/
def blitMaterials (ins : TextureInstruction) (materialStore : List PSX_Material) :
    List PSX_Texture × List Nat → List Nat → Except Fault (List PSX_Texture × List Nat)
  | acc, [] => .ok acc
  | acc, m :: ms =>
    match blitMaterial ins materialStore acc m with
    | .error f => .error f
    | .ok acc1 => blitMaterials ins materialStore acc1 ms

/-- The loop of the texture visitor over the nodes of the model; a node that is
not a `PSX_Object3D` is passed over. -/
def blitNodes {F : Type} (ins : TextureInstruction) (materialStore : List PSX_Material) :
    List PSX_Texture × List Nat → List (Object3D F) → Except Fault (List PSX_Texture × List Nat)
  | acc, [] => .ok acc
  | acc, node :: rest =>
    match node.materials with
    | none => blitNodes ins materialStore acc rest
    | some ms =>
      match blitMaterials ins materialStore acc ms with
      | .error f => .error f
      | .ok acc1 => blitNodes ins materialStore acc1 rest

/-- The visitor `AnimInstructionExecutor::operator()(const TextureInstruction&)`. -/
def executeTexture {F : Type} (data : AnimationData F) (ins : TextureInstruction) :
    Except Fault (AnimationData F) :=
  match blitNodes ins data.model.materialStore (data.model.textureStore, []) data.model.nodes with
  | .error f => .error f
  | .ok acc => .ok { data with model := { data.model with textureStore := acc.1 } }

/-- The function `execute`: the visitor applied to the instruction. -/
def execute {F : Type} (ops : FloatOps F) (data : AnimationData F) :
    Instruction F → Except Fault (AnimationData F)
  | .keyframe ins => executeKeyframe ops data ins
  | .loopStart ins => .ok (executeLoopStart data ins)
  | .loopEnd ins => .ok (executeLoopEnd data ins)
  | .playSound _ => .ok data
  | .texture ins => executeTexture data ins

/-- The function `get_timecode`. -/
def get_timecode {F : Type} : Instruction F → Option Int
  | .keyframe ins => some (toInt32 ins.timecode)
  | .loopEnd ins => some (toInt32 ins.timecode)
  | .playSound ins => some (toInt32 ins.timecode)
  | .texture ins => some (toInt32 ins.timecode)
  | .loopStart _ => none

/-- The instruction `animation.instructions[state.pc]` when
`state.pc < animation.instructions.size()` holds.  The comparison converts the
`int` to `size_t`, so a negative `pc` is not below the size. -/
def currentInstruction {F : Type} (data : AnimationData F) : Option (Instruction F) :=
  if 0 ≤ data.state.pc then data.animation.instructions[data.state.pc.toNat]? else none

/-- The condition of the `while` loop of `AnimationPlayer::step`; when it holds
the result is the instruction at `pc`. -/
def dispatchable {F : Type} (data : AnimationData F) : Option (Instruction F) :=
  match currentInstruction data with
  | none => none
  | some ins =>
    if (get_timecode ins).getD data.state.timecode = data.state.timecode then some ins else none

/-- The body of the `while` loop of `AnimationPlayer::step`: execute, then `++state.pc`. -/
def dispatchBody {F : Type} (ops : FloatOps F) (data : AnimationData F) (ins : Instruction F) :
    Except Fault (AnimationData F) :=
  match execute ops data ins with
  | .error f => .error f
  | .ok d => .ok { d with state := { d.state with pc := d.state.pc + 1 } }

/-- The `while` loop of `AnimationPlayer::step`, with an iteration budget. -/
def dispatch {F : Type} (ops : FloatOps F) : Nat → AnimationData F → Except Fault (AnimationData F)
  | 0, _ => .error .outOfFuel
  | fuel + 1, data =>
    match dispatchable data with
    | none => .ok data
    | some ins =>
      match dispatchBody ops data ins with
      | .error f => .error f
      | .ok d => dispatch ops fuel d

/-- The function `get_position`. -/
def get_position {F : Type} (momentum : AnimationMomentumData F) : Vec3 F :=
  { x := momentum.values Axis.POS_X.toFin, y := momentum.values Axis.POS_Y.toFin,
    z := momentum.values Axis.POS_Z.toFin }

/-- The function `get_scale`. -/
def get_scale {F : Type} (momentum : AnimationMomentumData F) : Vec3 F :=
  { x := momentum.values Axis.SCALE_X.toFin, y := momentum.values Axis.SCALE_Y.toFin,
    z := momentum.values Axis.SCALE_Z.toFin }

/-- The function `get_rotation`. -/
def get_rotation {F : Type} (momentum : AnimationMomentumData F) : Vec3 F :=
  { x := momentum.values Axis.ROT_X.toFin, y := momentum.values Axis.ROT_Y.toFin,
    z := momentum.values Axis.ROT_Z.toFin }

/-- The body of the loop of `applyMomentum` for one node and its momentum. -/
def applyMomentumNode {F : Type} (ops : FloatOps F) (node : Object3D F)
    (momentum : AnimationMomentumData F) : Object3D F :=
  let n1 := node.setPosition (Vec3.add ops node.m_position (get_position momentum))
  let n2 := n1.setScale (Vec3.add ops n1.m_scale (get_scale momentum))
  n2.setRotation (Vec3.add ops n2.m_rotation (get_rotation momentum))

/-- The loop of `applyMomentum` over the indices `0 .. momentumData.size() - 1`;
a momentum vector without a node is an access outside `model.nodes`. -/
def applyMomentumNodes {F : Type} (ops : FloatOps F) :
    List (Object3D F) → List (AnimationMomentumData F) → Except Fault (List (Object3D F))
  | nodes, [] => .ok nodes
  | [], _ :: _ => .error .outOfBounds
  | node :: nodes, momentum :: rest =>
    match applyMomentumNodes ops nodes rest with
    | .error f => .error f
    | .ok ns => .ok (applyMomentumNode ops node momentum :: ns)

/-- The method `AnimationPlayer::applyMomentum`. -/
def applyMomentum {F : Type} (ops : FloatOps F) (data : AnimationData F) :
    Except Fault (AnimationData F) :=
  match applyMomentumNodes ops data.model.nodes data.state.momentumData with
  | .error f => .error f
  | .ok ns => .ok { data with model := { data.model with nodes := ns } }

/-- The two clock increments of `AnimationPlayer::step`. -/
def advanceClocks {F : Type} (data : AnimationData F) : AnimationData F :=
  { data with state := { data.state with
      frameNum := data.state.frameNum + 1, timecode := data.state.timecode + 1 } }

/-- The test `state.pc == animation.instructions.size()` (the `int` is
converted to `size_t`). -/
def pcAtEnd {F : Type} (data : AnimationData F) : Bool :=
  decide (0 ≤ data.state.pc ∧ data.state.pc.toNat = data.animation.instructions.length)

/-- The method `AnimationPlayer::step`, with an iteration budget for its loop.
The result is the player afterwards and the signals emitted, in order. -/
def step {F : Type} (ops : FloatOps F) (fuel : Nat) (player : AnimationPlayer F) :
    Except Fault (AnimationPlayer F × List Signal) :=
  match applyMomentum ops player.m_animationData with
  | .error f => .error f
  | .ok d1 =>
    match dispatch ops fuel (advanceClocks d1) with
    | .error f => .error f
    | .ok d2 =>
      if pcAtEnd d2 then
        .ok ({ m_timerActive := false, m_animationData := d2 }, [Signal.stepped, Signal.finished])
      else
        .ok ({ player with m_animationData := d2 }, [Signal.stepped])

/-! ## `charactermodel.h` and `AnimationPlayer::playAnimation` -/

/-- The body of the loop of `CharacterModel::setupAnimation` for one node. -/
def setupNode {F : Type} (ops : FloatOps F) (node : Object3D F) (pose : Position) : Object3D F :=
  let n1 := node.setPosition
    { x := ops.ofInt pose.posX, y := ops.ofInt pose.posY, z := ops.ofInt pose.posZ }
  let n2 := n1.setScale
    { x := ops.div (ops.ofInt pose.scaleX) (ops.ofInt 0x1000),
      y := ops.div (ops.ofInt pose.scaleY) (ops.ofInt 0x1000),
      z := ops.div (ops.ofInt pose.scaleZ) (ops.ofInt 0x1000) }
  n2.setRotation
    { x := ops.div (ops.mul (ops.ofInt pose.rotX) (ops.ofInt 360)) (ops.ofInt 0x1000),
      y := ops.div (ops.mul (ops.ofInt pose.rotY) (ops.ofInt 360)) (ops.ofInt 0x1000),
      z := ops.div (ops.mul (ops.ofInt pose.rotZ) (ops.ofInt 360)) (ops.ofInt 0x1000) }

/-- The loop of `CharacterModel::setupAnimation` over the indices
`0 .. initialPositions.size() - 1`; a pose without a node is an access outside
`nodes`. -/
def setupNodes {F : Type} (ops : FloatOps F) :
    List (Object3D F) → List Position → Except Fault (List (Object3D F))
  | nodes, [] => .ok nodes
  | [], _ :: _ => .error .outOfBounds
  | node :: nodes, pose :: rest =>
    match setupNodes ops nodes rest with
    | .error f => .error f
    | .ok ns => .ok (setupNode ops node pose :: ns)

/-- The method `CharacterModel::setupAnimation(const MMD_Animation&)`. -/
def setupAnimation {F : Type} (ops : FloatOps F) (model : CharacterModel F)
    (animation : MMD_Animation F) : Except Fault (CharacterModel F) :=
  match setupNodes ops model.nodes animation.initialPositions with
  | .error f => .error f
  | .ok ns => .ok { model with nodes := ns }

/-- A momentum vector filled with `0.f`. -/
def zeroMomentum {F : Type} (ops : FloatOps F) : AnimationMomentumData F :=
  { values := fun _ => ops.ofInt 0 }

/-- The method `AnimationPlayer::playAnimation(const MMD_Animation&)`. -/
def playAnimation {F : Type} (ops : FloatOps F) (player : AnimationPlayer F)
    (animation : MMD_Animation F) : Except Fault (AnimationPlayer F) :=
  match setupAnimation ops player.m_animationData.model animation with
  | .error f => .error f
  | .ok model =>
    .ok { m_timerActive := true,
          m_animationData :=
            { state := { AnimationState.fresh F with
                          momentumData := List.replicate model.nodes.length (zeroMomentum ops) },
              model := model,
              animation := animation,
              infinite := player.m_animationData.infinite } }

/-! ## The dispatch rule in words -/

/-- The dispatch rule as the specification words it: `DispatchRun ops d l d1`
says that, starting in `d`, the instructions `l` are executed one after the
other, each one found at the program counter while the counter is inside the
list and the instruction has no timecode or the current one, each followed by
`pc += 1`, and that in `d1` no instruction is dispatchable any more. -/
inductive DispatchRun {F : Type} (ops : FloatOps F) :
    AnimationData F → List (Instruction F) → AnimationData F → Prop
  | stop (d : AnimationData F) :
      (∀ ins, currentInstruction d = some ins →
          ∃ t, get_timecode ins = some t ∧ t ≠ d.state.timecode) →
      DispatchRun ops d [] d
  | next (d d1 d2 d3 : AnimationData F) (ins : Instruction F) (l : List (Instruction F)) :
      currentInstruction d = some ins →
      (get_timecode ins = none ∨ get_timecode ins = some d.state.timecode) →
      execute ops d ins = .ok d1 →
      d2 = { d1 with state := { d1.state with pc := d1.state.pc + 1 } } →
      DispatchRun ops d2 l d3 →
      DispatchRun ops d (ins :: l) d3

/-! ## The writes of a keyframe -/

/-- The assignments a keyframe instruction performs, in execution order: the
node, the axis and the decoded value of every value of every entry. -/
def keyframeWrites {F : Type} (ins : KeyframeInstruction F) : List (Nat × Axis × F) :=
  ins.entries.flatMap (fun e => e.values.map (fun p => (e.affectedNode, p.1, p.2)))

/-- The float stored for array slot `k` of node `i` after the assignments `ws`
when it was `old` before: every assignment to that slot replaces the value. -/
def slotAfter {F : Type} (ops : FloatOps F) (i : Nat) (k : Fin 9) :
    List (Nat × Axis × F) → F → F
  | [], old => old
  | w :: ws, old =>
    slotAfter ops i k ws
      (if w.1 = i ∧ w.2.1.toFin = k then ops.mul w.2.2 (axisFactor ops w.2.1) else old)

/-! ## Transform components by axis -/

/-- The component of a node's transform that an axis names: the scale axes
read `scale()`, the rotation axes `rotation()`, the position axes `position()`. -/
def Object3D.component {F : Type} (node : Object3D F) : Axis → F
  | .SCALE_X => node.m_scale.x
  | .SCALE_Y => node.m_scale.y
  | .SCALE_Z => node.m_scale.z
  | .ROT_X => node.m_rotation.x
  | .ROT_Y => node.m_rotation.y
  | .ROT_Z => node.m_rotation.z
  | .POS_X => node.m_position.x
  | .POS_Y => node.m_position.y
  | .POS_Z => node.m_position.z

/-! ## Consecutive ticks and sample inputs -/

/-- The result of `n` consecutive calls of `step`, with the signals of all of
them in order. -/
def stepN {F : Type} (ops : FloatOps F) (fuel : Nat) :
    Nat → AnimationPlayer F → Except Fault (AnimationPlayer F × List Signal)
  | 0, player => .ok (player, [])
  | n + 1, player =>
    match stepN ops fuel n player with
    | .error f => .error f
    | .ok r =>
      match step ops fuel r.1 with
      | .error f => .error f
      | .ok r1 => .ok (r1.1, r.2 ++ r1.2)

/-- The `x` of `position()` of node `i` of the player's model. -/
def nodePosX {F : Type} (player : AnimationPlayer F) (i : Nat) : Option F :=
  (player.m_animationData.model.nodes[i]?).map (fun node => node.m_position.x)

/-- A program whose only instruction is a keyframe with the given timecode
that gives `posX` of node 0 the decoded value `v`. -/
def singleKeyframe {F : Type} (timecode : Nat) (scale : Nat) (v : F)
    (poses : List Position) : MMD_Animation F :=
  { frameCount := 1, id := 0, initialPositions := poses,
    instructions := [Instruction.keyframe ⟨timecode, [⟨0, scale, [(Axis.POS_X, v)]⟩]⟩] }

/-- A node at position `(5, 6, 7)` without materials. -/
def sampleNode : Object3D ℚ :=
  { m_position := ⟨5, 6, 7⟩, m_rotation := ⟨0, 0, 0⟩, m_scale := ⟨1, 1, 1⟩, materials := none }

/-- A model with the one node `sampleNode`. -/
def sampleModel : CharacterModel ℚ :=
  { nodes := [sampleNode], materialStore := [], textureStore := [] }

/-- A player on `sampleModel` that has not played anything yet. -/
def samplePlayer : AnimationPlayer ℚ :=
  { m_timerActive := false,
    m_animationData :=
      { state := AnimationState.fresh ℚ, model := sampleModel,
        animation := MMD_Animation.empty ℚ, infinite := false } }
/-- A program that loops forever inside one tick: an endless loop
(`loopCount = 255`) whose loop end, gated by timecode 1, sets the timecode
back to 1. -/
def livelockProgram : MMD_Animation ℚ :=
  { frameCount := 1, id := 0, initialPositions := [],
    instructions := [Instruction.loopStart ⟨255⟩, Instruction.loopEnd ⟨1, 1⟩] }

/-- The sample player right after `playAnimation(livelockProgram)`. -/
def livelockPlayer : AnimationPlayer ℚ :=
  { m_timerActive := true,
    m_animationData :=
      { state := { AnimationState.fresh ℚ with momentumData := [zeroMomentum ratOps] },
        model := sampleModel, animation := livelockProgram, infinite := false } }

/-- The sample player right after `playAnimation` of the one-keyframe program
with the given timecode, decoded value `1` and one default pose. -/
def keyframePlayer (timecode : Nat) : AnimationPlayer ℚ :=
  { m_timerActive := true,
    m_animationData :=
      { state := { AnimationState.fresh ℚ with momentumData := [zeroMomentum ratOps] },
        model := { sampleModel with nodes := [setupNode ratOps sampleNode Position.default] },
        animation := singleKeyframe timecode 4096 1 [Position.default], infinite := false } }

/-- A state at timecode 1, `pc = 0`, of a program in which a loop end changes
the timecode before the instructions that follow it in the same tick. -/
def gatedData : AnimationData ℚ :=
  { state := { AnimationState.fresh ℚ with timecode := 1, momentumData := [zeroMomentum ratOps] },
    model := sampleModel,
    animation :=
      { frameCount := 3, id := 0, initialPositions := [Position.default],
        instructions :=
          [Instruction.loopStart ⟨2⟩,
           Instruction.keyframe ⟨1, [⟨0, 1, [(Axis.POS_X, 1)]⟩]⟩,
           Instruction.loopEnd ⟨1, 5⟩,
           Instruction.playSound ⟨1, 0, 0⟩] },
    infinite := false }

/-! ## `buffer.h` -/

/-- The class `Buffer`: the bytes of the region (`m_data`, `m_size`) and the
cursor `m_ptr` as its distance from `m_data`. -/
structure Buffer where
  m_data : List Nat
  m_pos : Int
  deriving DecidableEq, Repr

/-- The method `Buffer::size`. -/
def Buffer.size (b : Buffer) : Int := (b.m_data.length : Int)

/-- The method `Buffer::pos`. -/
def Buffer.pos (b : Buffer) : Int := b.m_pos

/-- The method `Buffer::seek`. -/
def Buffer.seek (b : Buffer) (pos : Int) : Buffer := { b with m_pos := pos }

/-- The method `Buffer::skip`. -/
def Buffer.skip (b : Buffer) (bytes : Int) : Buffer := b.seek (b.pos + bytes)

/-- The method `Buffer::bytesAvailable`. -/
def Buffer.bytesAvailable (b : Buffer) : Int := b.size - b.pos

/-- The method `Buffer::atEnd`. -/
def Buffer.atEnd (b : Buffer) : Bool := decide (b.pos = b.size)

/-- The method `Buffer::peek`: the bytes copied.  A cursor before the region or
a negative count (which `memcpy` takes as a huge unsigned one) is an access
outside the region. -/
def Buffer.peek (b : Buffer) (maxSize : Int) : Except Fault (List Nat) :=
  let r := min (b.size - b.pos) maxSize
  if 0 ≤ b.pos ∧ 0 ≤ r then .ok ((b.m_data.drop b.pos.toNat).take r.toNat)
  else .error .outOfBounds

/-- The method `Buffer::read`: the bytes copied and the buffer afterwards. -/
def Buffer.read (b : Buffer) (maxSize : Int) : Except Fault (List Nat × Buffer) :=
  let r := min (b.size - b.pos) maxSize
  if 0 ≤ b.pos ∧ 0 ≤ r then
    .ok ((b.m_data.drop b.pos.toNat).take r.toNat, { b with m_pos := b.m_pos + r })
  else .error .outOfBounds

/-- The value of an unsigned integer stored in little-endian byte order. -/
def leValue : List Nat → Nat
  | [] => 0
  | x :: xs => x % 256 + 256 * leValue xs

/-- The template `peekbuf<T>` for an unsigned `T` of `n` bytes.  When fewer
than `n` bytes are copied the rest of the result is uninitialised. -/
def peekbuf (n : Nat) (b : Buffer) : Except Fault Nat :=
  match b.peek (n : Int) with
  | .error f => .error f
  | .ok bytes => if bytes.length = n then .ok (leValue bytes) else .error .shortRead

/-- The template `readbuf<T>` for an unsigned `T` of `n` bytes. -/
def readbuf (n : Nat) (b : Buffer) : Except Fault (Nat × Buffer) :=
  match b.read (n : Int) with
  | .error f => .error f
  | .ok r => if r.1.length = n then .ok (leValue r.1, r.2) else .error .shortRead

/-- The value of a 16-bit word read as `int16_t`. -/
def toInt16 (v : Nat) : Int :=
  if v % 65536 < 32768 then ((v % 65536 : Nat) : Int) else ((v % 65536 : Nat) : Int) - 65536

/-- The comparison `buffer.bytesAvailable() < n` of an `int64_t` with a
`size_t`: the left side is converted to unsigned 64 bits first. -/
def Buffer.availableBelow (b : Buffer) (n : Nat) : Bool :=
  decide ((b.bytesAvailable % 2 ^ 64).toNat < n)

/-! ## `formats/mmd.cpp`: the decoder -/

/-- The loop of `read_keyframe_entry` over `i = 8, 7, ..., 0`, given as the
list of the remaining values of `i`. -/
def readAxisValues {F : Type} (ops : FloatOps F) (scale enabledAxis : Nat) :
    List Nat → Buffer → Except Fault (List (Axis × F) × Buffer)
  | [], b => .ok ([], b)
  | i :: rest, b =>
    if enabledAxis &&& (1 <<< i) = 0 then readAxisValues ops scale enabledAxis rest b
    else
      match readbuf 2 b with
      | .error f => .error f
      | .ok r =>
        match readAxisValues ops scale enabledAxis rest r.2 with
        | .error f => .error f
        | .ok r1 =>
          .ok ((Axis.cast (8 - i), ops.div (ops.ofInt (toInt16 r.1)) (ops.ofInt scale)) :: r1.1,
               r1.2)

/-- The function `read_keyframe_entry`. -/
def read_keyframe_entry {F : Type} (ops : FloatOps F) (buffer : Buffer) :
    Except Fault (KeyframeEntry F × Buffer) :=
  match readbuf 2 buffer with
  | .error f => .error f
  | .ok r =>
    match readbuf 2 r.2 with
    | .error f => .error f
    | .ok r1 =>
      match readAxisValues ops r1.1 ((r.1 &&& 0x7FC0) >>> 6) [8, 7, 6, 5, 4, 3, 2, 1, 0] r1.2 with
      | .error f => .error f
      | .ok r2 => .ok ({ affectedNode := r.1 &&& 0x3F, scale := r1.1, values := r2.1 }, r2.2)

/-- The `while` loop of `fill_instruction` for a keyframe, with an iteration
budget: entries are read for as long as the next word has its top bit set. -/
def readKeyframeEntries {F : Type} (ops : FloatOps F) :
    Nat → Buffer → List (KeyframeEntry F) → Except Fault (List (KeyframeEntry F) × Buffer)
  | 0, _, _ => .error .outOfFuel
  | fuel + 1, b, entries =>
    match peekbuf 2 b with
    | .error f => .error f
    | .ok w =>
      if w &&& 0x8000 = 0 then .ok (entries, b)
      else
        match read_keyframe_entry ops b with
        | .error f => .error f
        | .ok r => readKeyframeEntries ops fuel r.2 (entries ++ [r.1])

/-- The overload of `fill_instruction` for `KeyframeInstruction`; its loop runs
on a budget of one more than the number of bytes of the region. -/
def fill_instruction_keyframe {F : Type} (ops : FloatOps F) (buffer : Buffer)
    (header : Nat) : Except Fault (KeyframeInstruction F × Buffer) :=
  match readKeyframeEntries ops (buffer.m_data.length + 1) buffer [] with
  | .error f => .error f
  | .ok r => .ok ({ timecode := header &&& 0x0FFF, entries := r.1 }, r.2)

/-- The overload of `fill_instruction` for `LoopStartInstruction`. -/
def fill_instruction_loopStart (buffer : Buffer) (header : Nat) :
    Except Fault (LoopStartInstruction × Buffer) :=
  .ok ({ loopCount := header &&& 0x00FF }, buffer)

/-- The overload of `fill_instruction` for `LoopEndInstruction`. -/
def fill_instruction_loopEnd (buffer : Buffer) (header : Nat) :
    Except Fault (LoopEndInstruction × Buffer) :=
  match readbuf 2 buffer with
  | .error f => .error f
  | .ok r => .ok ({ timecode := header &&& 0x0FFF, newTime := r.1 }, r.2)

/-- The overload of `fill_instruction` for `PlaySoundInstruction`. -/
def fill_instruction_playSound (buffer : Buffer) (header : Nat) :
    Except Fault (PlaySoundInstruction × Buffer) :=
  match readbuf 1 buffer with
  | .error f => .error f
  | .ok r =>
    match readbuf 1 r.2 with
    | .error f => .error f
    | .ok r1 => .ok ({ timecode := header &&& 0x0FFF, soundId := r.1, vabId := r1.1 }, r1.2)

/-- The overload of `fill_instruction` for `TextureInstruction`. -/
def fill_instruction_texture (buffer : Buffer) (header : Nat) :
    Except Fault (TextureInstruction × Buffer) :=
  match readbuf 1 buffer with
  | .error f => .error f
  | .ok r0 =>
    match readbuf 1 r0.2 with
    | .error f => .error f
    | .ok r1 =>
      match readbuf 1 r1.2 with
      | .error f => .error f
      | .ok r2 =>
        match readbuf 1 r2.2 with
        | .error f => .error f
        | .ok r3 =>
          match readbuf 1 r3.2 with
          | .error f => .error f
          | .ok r4 =>
            match readbuf 1 r4.2 with
            | .error f => .error f
            | .ok r5 =>
              .ok ({ timecode := header &&& 0x0FFF, srcY := r0.1, srcX := r1.1, height := r2.1,
                     width := r3.1, destY := r4.1, destX := r5.1 }, r5.2)

/-- The body of the `switch` of `fill_animation` for a header that is not
`0x0000`: the instruction it appends, if any, and the buffer afterwards. -/
def fillOneInstruction {F : Type} (ops : FloatOps F) (buffer : Buffer)
    (header : Nat) : Except Fault (Option (Instruction F) × Buffer) :=
  if header &&& 0xF000 = 0x0000 then
    match fill_instruction_keyframe ops buffer header with
    | .error f => .error f
    | .ok r => .ok (some (Instruction.keyframe r.1), r.2)
  else if header &&& 0xF000 = 0x1000 then
    match fill_instruction_loopStart buffer header with
    | .error f => .error f
    | .ok r => .ok (some (Instruction.loopStart r.1), r.2)
  else if header &&& 0xF000 = 0x2000 then
    match fill_instruction_loopEnd buffer header with
    | .error f => .error f
    | .ok r => .ok (some (Instruction.loopEnd r.1), r.2)
  else if header &&& 0xF000 = 0x3000 then
    match fill_instruction_texture buffer header with
    | .error f => .error f
    | .ok r => .ok (some (Instruction.texture r.1), r.2)
  else if header &&& 0xF000 = 0x4000 then
    match fill_instruction_playSound buffer header with
    | .error f => .error f
    | .ok r => .ok (some (Instruction.playSound r.1), r.2)
  else .ok (none, buffer)

/-- The loop `for (;;)` of `fill_animation`, with an iteration budget: the
value returned by `fill_animation`, the instruction list and the buffer. -/
def fillInstructions {F : Type} (ops : FloatOps F) :
    Nat → Buffer → List (Instruction F) → Except Fault (Bool × List (Instruction F) × Buffer)
  | 0, _, _ => .error .outOfFuel
  | fuel + 1, b, instructions =>
    if b.availableBelow 2 then .ok (false, instructions, b)
    else
      match readbuf 2 b with
      | .error f => .error f
      | .ok r =>
        if r.1 = 0x0000 then .ok (true, instructions, r.2)
        else
          match fillOneInstruction ops r.2 r.1 with
          | .error f => .error f
          | .ok r1 =>
            match r1.1 with
            | some ins => fillInstructions ops fuel r1.2 (instructions ++ [ins])
            | none => fillInstructions ops fuel r1.2 instructions

/-- One pose record of `fill_animation`: three scales when `hasScale`, then three
rotations and three positions, each an `int16_t`. -/
def readPose (hasScale : Bool) (b : Buffer) : Except Fault (Position × Buffer) :=
  let scales : Except Fault ((Int × Int × Int) × Buffer) :=
    if hasScale then
      match readbuf 2 b with
      | .error f => .error f
      | .ok r0 =>
        match readbuf 2 r0.2 with
        | .error f => .error f
        | .ok r1 =>
          match readbuf 2 r1.2 with
          | .error f => .error f
          | .ok r2 => .ok ((toInt16 r0.1, toInt16 r1.1, toInt16 r2.1), r2.2)
    else .ok ((0x1000, 0x1000, 0x1000), b)
  match scales with
  | .error f => .error f
  | .ok s =>
    match readbuf 2 s.2 with
    | .error f => .error f
    | .ok r3 =>
      match readbuf 2 r3.2 with
      | .error f => .error f
      | .ok r4 =>
        match readbuf 2 r4.2 with
        | .error f => .error f
        | .ok r5 =>
          match readbuf 2 r5.2 with
          | .error f => .error f
          | .ok r6 =>
            match readbuf 2 r6.2 with
            | .error f => .error f
            | .ok r7 =>
              match readbuf 2 r7.2 with
              | .error f => .error f
              | .ok r8 =>
                .ok ({ scaleX := s.1.1, scaleY := s.1.2.1, scaleZ := s.1.2.2,
                       rotX := toInt16 r3.1, rotY := toInt16 r4.1, rotZ := toInt16 r5.1,
                       posX := toInt16 r6.1, posY := toInt16 r7.1, posZ := toInt16 r8.1 }, r8.2)

/-- The loop of `fill_animation` over the bones `1 .. boneCount - 1`, given the
number of bones left: whether every pose record was there (`false` stands for
the `return false`), the poses so far and the buffer. -/
def readPoses (hasScale : Bool) :
    Nat → Buffer → List Position → Except Fault (Bool × List Position × Buffer)
  | 0, b, poses => .ok (true, poses, b)
  | n + 1, b, poses =>
    if b.availableBelow ((if hasScale then 9 else 6) * 2) then .ok (false, poses, b)
    else
      match readPose hasScale b with
      | .error f => .error f
      | .ok r => readPoses hasScale n r.2 (poses ++ [r.1])

/-- The function `fill_animation`: the value returned, and the animation and
the buffer as they are left.  The loops run on a budget of one more than the
number of bytes of the region. -/
def fill_animation {F : Type} (ops : FloatOps F) (buffer : Buffer) (boneCount : Nat)
    (animation : MMD_Animation F) : Except Fault (Bool × MMD_Animation F × Buffer) :=
  if buffer.availableBelow 2 then .ok (false, animation, buffer)
  else
    match readbuf 2 buffer with
    | .error f => .error f
    | .ok r =>
      let hasScale : Bool := decide (r.1 &&& 0x8000 ≠ 0)
      let a1 : MMD_Animation F :=
        { animation with frameCount := r.1 &&& 0x7FFF,
                         initialPositions := animation.initialPositions ++ [Position.default] }
      match readPoses hasScale (boneCount - 1) r.2 a1.initialPositions with
      | .error f => .error f
      | .ok r1 =>
        if r1.1 = false then .ok (false, { a1 with initialPositions := r1.2.1 }, r1.2.2)
        else
          match fillInstructions ops (buffer.m_data.length + 1) r1.2.2 a1.instructions with
          | .error f => .error f
          | .ok r2 =>
            .ok (r2.1, { a1 with initialPositions := r1.2.1, instructions := r2.2.1 }, r2.2.2)
/-! ## Byte layouts used to state the decoder theorems -/

/-- A buffer over the bytes `pre ++ post` with the cursor just after `pre`. -/
def bufferAt (pre post : List Nat) : Buffer :=
  { m_data := pre ++ post, m_pos := (pre.length : Int) }

/-- The two bytes of a 16-bit word, low byte first. -/
def le16 (w : Nat) : List Nat := [w % 256, w / 256 % 256]

/-- The set bits of an enabled-axis mask, from bit 8 down to bit 0. -/
def axisBits (mask : Nat) : List Nat :=
  [8, 7, 6, 5, 4, 3, 2, 1, 0].filter (fun k => mask.testBit k)

/-! ## The instruction stream as the specification lays it out -/

/-- The raw words of one keyframe entry: the entry word, the scale and the
values in stream order. -/
structure WireEntry where
  word : Nat
  scale : Nat
  raws : List Nat
  deriving DecidableEq, Repr

/-- The bytes of a keyframe entry. -/
def WireEntry.encode (e : WireEntry) : List Nat :=
  le16 e.word ++ le16 e.scale ++ e.raws.flatMap le16

/-- A keyframe entry as it lies in a stream: the entry word has its top bit
set and there is one value per set mask bit. -/
def WireEntry.valid (e : WireEntry) : Prop :=
  0x8000 ≤ e.word ∧ e.word < 65536 ∧ e.scale < 65536 ∧
    e.raws.length = (axisBits (e.word / 64 % 512)).length

/-- The entry that the words of a keyframe entry stand for. -/
def WireEntry.decode {F : Type} (ops : FloatOps F) (e : WireEntry) : KeyframeEntry F :=
  { affectedNode := e.word % 64, scale := e.scale,
    values := List.zipWith
      (fun k raw => (Axis.cast (8 - k), ops.div (ops.ofInt (toInt16 raw)) (ops.ofInt e.scale)))
      (axisBits (e.word / 64 % 512)) e.raws }

/-- One header word of an instruction stream together with its body, by the
top nibble of the header: 0 keyframe, 1 loop start, 2 loop end, 3 texture
blit, 4 play sound; `skipped` is a header with any other top nibble. -/
inductive WireItem
  | keyframe (header : Nat) (entries : List WireEntry)
  | loopStart (header : Nat)
  | loopEnd (header newTime : Nat)
  | texture (header b0 b1 b2 b3 b4 b5 : Nat)
  | playSound (header b0 b1 : Nat)
  | skipped (header : Nat)
  deriving DecidableEq, Repr

/-- The header word of an item. -/
def WireItem.header : WireItem → Nat
  | .keyframe h _ => h
  | .loopStart h => h
  | .loopEnd h _ => h
  | .texture h _ _ _ _ _ _ => h
  | .playSound h _ _ => h
  | .skipped h => h

/-- The body bytes of an item, in stream order. -/
def WireItem.body : WireItem → List Nat
  | .keyframe _ es => es.flatMap WireEntry.encode
  | .loopStart _ => []
  | .loopEnd _ newTime => le16 newTime
  | .texture _ b0 b1 b2 b3 b4 b5 => [b0, b1, b2, b3, b4, b5]
  | .playSound _ b0 b1 => [b0, b1]
  | .skipped _ => []

/-- The bytes of an item: the header word, then the body. -/
def WireItem.encode (item : WireItem) : List Nat := le16 item.header ++ item.body

/-- An item as it lies in a stream: a header that is not `0x0000`, with the top
nibble of its kind, and body fields that fit their width. -/
def WireItem.valid : WireItem → Prop
  | .keyframe h es => h ≠ 0 ∧ h / 4096 = 0 ∧ ∀ e ∈ es, e.valid
  | .loopStart h => h / 4096 = 1
  | .loopEnd h newTime => h / 4096 = 2 ∧ newTime < 65536
  | .texture h b0 b1 b2 b3 b4 b5 =>
    h / 4096 = 3 ∧ b0 < 256 ∧ b1 < 256 ∧ b2 < 256 ∧ b3 < 256 ∧ b4 < 256 ∧ b5 < 256
  | .playSound h b0 b1 => h / 4096 = 4 ∧ b0 < 256 ∧ b1 < 256
  | .skipped h => 5 ≤ h / 4096 ∧ h < 65536

/-- The instruction the specification assigns to an item: the timecode is the
low 12 bits of the header, the loop count its low byte; a texture body is
srcY, srcX, height, width, destY, destX and a sound body soundId, vabId. -/
def WireItem.decode {F : Type} (ops : FloatOps F) : WireItem → Option (Instruction F)
  | .keyframe h es =>
    some (Instruction.keyframe ⟨h % 4096, es.map (WireEntry.decode ops)⟩)
  | .loopStart h => some (Instruction.loopStart ⟨h % 256⟩)
  | .loopEnd h newTime => some (Instruction.loopEnd ⟨h % 4096, newTime⟩)
  | .texture h b0 b1 b2 b3 b4 b5 =>
    some (Instruction.texture
      { timecode := h % 4096, srcY := b0, srcX := b1, height := b2, width := b3,
        destY := b4, destX := b5 })
  | .playSound h b0 b1 =>
    some (Instruction.playSound { timecode := h % 4096, soundId := b0, vabId := b1 })
  | .skipped _ => none

/-- A stream of items in which every item is valid and the word after the
entries of a keyframe does not have its top bit set (it would be read as one
more entry). -/
def validStream : List WireItem → Prop
  | [] => True
  | item :: rest =>
    item.valid ∧ validStream rest ∧
      ((∃ h es, item = WireItem.keyframe h es) →
        ∀ next ∈ rest.head?, next.header < 0x8000)

/-- A stream with one item of every kind: a loop start, a keyframe with one
entry, a loop end, a texture blit, a play sound and a header with top nibble 5. -/
def sampleStream : List WireItem :=
  [WireItem.loopStart 0x1003,
   WireItem.keyframe 0x0001 [⟨0xC040, 1, [5, 7]⟩],
   WireItem.loopEnd 0x2002 9,
   WireItem.texture 0x3005 1 2 3 4 5 6,
   WireItem.playSound 0x4006 7 8,
   WireItem.skipped 0x5000]

/-! ## Pose records as the specification lays them out -/

/-- The pose that the 16-bit words of one pose record stand for: with
`hasScale` nine words scaleX, scaleY, scaleZ, rotX, rotY, rotZ, posX, posY,
posZ; without it the six words from rotX on, the scale staying `0x1000`. -/
def poseOfWords (hasScale : Bool) (ws : List Nat) : Position :=
  let o := if hasScale then 3 else 0
  { scaleX := if hasScale then toInt16 (ws.getD 0 0) else 0x1000,
    scaleY := if hasScale then toInt16 (ws.getD 1 0) else 0x1000,
    scaleZ := if hasScale then toInt16 (ws.getD 2 0) else 0x1000,
    rotX := toInt16 (ws.getD o 0),
    rotY := toInt16 (ws.getD (o + 1) 0),
    rotZ := toInt16 (ws.getD (o + 2) 0),
    posX := toInt16 (ws.getD (o + 3) 0),
    posY := toInt16 (ws.getD (o + 4) 0),
    posZ := toInt16 (ws.getD (o + 5) 0) }

/-- The number of 16-bit words of a pose record. -/
def poseWords (hasScale : Bool) : Nat := if hasScale then 9 else 6

/-- The bytes of a list of pose records given by their words. -/
def encodePoses (recs : List (List Nat)) : List Nat :=
  recs.flatMap (fun ws => ws.flatMap le16)

/-- The constructor `MMD_Animation(uint32_t id)`. -/
def MMD_Animation.new (F : Type) (id : Nat) : MMD_Animation F :=
  { frameCount := 0, id := id, initialPositions := [], instructions := [] }

/-! ## `formats/mmd.cpp`: the animation table -/

/-- The class `MMD_Animations`: the bytes of the animation table. -/
structure MMD_Animations where
  m_animationData : List Nat
  deriving DecidableEq, Repr

/-- The function `get_number_of_animations`. -/
def get_number_of_animations (buffer : Buffer) : Except Fault Nat :=
  match peekbuf 4 buffer with
  | .error f => .error f
  | .ok first => .ok (first / 4)

/-- The method `MMD_Animations::count`; the `size_t` is returned as `int`. -/
def MMD_Animations.count (anims : MMD_Animations) : Except Fault Int :=
  if anims.m_animationData = [] then .ok 0
  else
    match get_number_of_animations { m_data := anims.m_animationData, m_pos := 0 } with
    | .error f => .error f
    | .ok n => .ok (toInt32 n)

/-- The element `offsets[i]` of the array of `uint32_t` that starts at the
cursor of the buffer; an element that does not lie inside the region is an
access outside it. -/
def offsetAt (buffer : Buffer) (i : Nat) : Except Fault Nat :=
  if 0 ≤ buffer.m_pos ∧ buffer.m_pos.toNat + 4 * i + 4 ≤ buffer.m_data.length then
    .ok (leValue ((buffer.m_data.drop (buffer.m_pos.toNat + 4 * i)).take 4))
  else .error .outOfBounds

/-- The loop of `read_animations` over the slots `i, i + 1, ...`, `count` of
them being left; `table` is the buffer as it was when `offsets` was taken. -/
def readAnimationSlots {F : Type} (ops : FloatOps F) (boneCount : Nat) (table : Buffer) :
    Nat → Nat → Buffer → List (MMD_Animation F) → Except Fault (List (MMD_Animation F) × Buffer)
  | 0, _, buffer, output => .ok (output, buffer)
  | count + 1, i, buffer, output =>
    match offsetAt table i with
    | .error f => .error f
    | .ok a =>
      if a ≠ 0 then
        match fill_animation ops (buffer.seek (a : Int)) boneCount (MMD_Animation.new F i) with
        | .error f => .error f
        | .ok r =>
          if r.1 = false then .ok ([], r.2.2)
          else readAnimationSlots ops boneCount table count (i + 1) r.2.2 (output ++ [r.2.1])
      else
        readAnimationSlots ops boneCount table count (i + 1) buffer
          (output ++ [MMD_Animation.new F i])

/-- The function `read_animations`. -/
def read_animations {F : Type} (ops : FloatOps F) (buffer : Buffer) (boneCount : Nat)
    (output : List (MMD_Animation F)) : Except Fault (List (MMD_Animation F) × Buffer) :=
  if buffer.pos = 0 ∧ buffer.bytesAvailable ≠ 0 then
    match get_number_of_animations buffer with
    | .error f => .error f
    | .ok anim_count => readAnimationSlots ops boneCount buffer anim_count 0 buffer output
  else .error .assertFailed

/-- The method `MMD_Animations::decode`. -/
def MMD_Animations.decode {F : Type} (ops : FloatOps F) (anims : MMD_Animations)
    (boneCount : Nat) : Except Fault (List (MMD_Animation F)) :=
  if anims.m_animationData = [] then .ok []
  else
    match read_animations ops { m_data := anims.m_animationData, m_pos := 0 } boneCount [] with
    | .error f => .error f
    | .ok r => .ok r.1

/-- The offset stored in slot `i` of an animation table. -/
def slotOffset (data : List Nat) (i : Nat) : Nat :=
  leValue ((data.drop (4 * i)).take 4)

/-- A table of three slots, the middle one being empty: the bodies of slots 0
and 2 (for one bone) are a frame count followed by the terminator. -/
def sampleTable : List Nat :=
  [12, 0, 0, 0, 0, 0, 0, 0, 16, 0, 0, 0] ++ [5, 0, 0, 0] ++ [7, 0, 0, 0]

/-- What the slots of `sampleTable` decode to. -/
def sampleTableContent (i : Nat) : MMD_Animation ℚ :=
  if i = 0 then
    { frameCount := 5, id := 0, initialPositions := [Position.default], instructions := [] }
  else if i = 2 then
    { frameCount := 7, id := 2, initialPositions := [Position.default], instructions := [] }
  else MMD_Animation.new ℚ i

/-! ## `formats/tmd.h`: records and primitive packets -/

/-- The record `tmd_header_t`. -/
structure tmd_header_t where
  id : Nat
  flags : Nat
  num_objects : Nat
  deriving DecidableEq, Repr

/-- The record `tmd_object_header_t`; `scale` is an `s32`. -/
structure tmd_object_header_t where
  vertex_offset : Nat
  vertex_count : Nat
  normal_offset : Nat
  normal_count : Nat
  primitive_offset : Nat
  primitive_count : Nat
  scale : Int
  deriving DecidableEq, Repr

/-- The record `tmd_primitive_header_t`: four bytes. -/
structure tmd_primitive_header_t where
  olen : Nat
  ilen : Nat
  flag : Nat
  mode : Nat
  deriving DecidableEq, Repr

/-- The record `tmd_vertex_t`: four `s16`. -/
structure tmd_vertex_t where
  x : Int
  y : Int
  z : Int
  zero : Int
  deriving DecidableEq, Repr

/-- The record `tmd_normal_t`: four `s16`. -/
structure tmd_normal_t where
  x : Int
  y : Int
  z : Int
  zero : Int
  deriving DecidableEq, Repr

/-- The record `tmd_color_t`: three bytes. -/
structure tmd_color_t where
  r : Nat
  g : Nat
  b : Nat
  deriving DecidableEq, Repr

/-- The record `tmd_uv_coord_t`: two bytes. -/
structure tmd_uv_coord_t where
  u : Nat
  v : Nat
  deriving DecidableEq, Repr

/-- The record `tmd_sprite_size_t`: two 16-bit words. -/
structure tmd_sprite_size_t where
  w : Nat
  h : Nat
  deriving DecidableEq, Repr

/-- The enumerator `TMD_Code_INVALID`. -/
def TMD_Code_INVALID : Nat := 0

/-- The enumerator `TMD_Code_POLYGON`. -/
def TMD_Code_POLYGON : Nat := 1

/-- The enumerator `TMD_Code_LINE`. -/
def TMD_Code_LINE : Nat := 2

/-- The enumerator `TMD_Code_SPRITE`. -/
def TMD_Code_SPRITE : Nat := 3

/-- The function `get_primitive_packet_size`: the size of a packet in bytes. -/
def get_primitive_packet_size (header : tmd_primitive_header_t) : Nat :=
  4 + header.ilen * 4

/-- The function `extract_code_from_mode`; the code is kept as its number. -/
def extract_code_from_mode (mode : Nat) : Nat := (mode % 256) >>> 5

/-- The header of the packet that lies at the start of `mem`, the memory from
the packet pointer on. -/
def packetHeader (mem : List Nat) : Except Fault tmd_primitive_header_t :=
  match mem with
  | olen :: ilen :: flag :: mode :: _ =>
    .ok { olen := olen % 256, ilen := ilen % 256, flag := flag % 256, mode := mode % 256 }
  | _ => .error .outOfBounds

/-- The bit-field `TMD_FlagBitfield::isLightSourceDisabled`: bit 0. -/
def isLightSourceDisabled (flags : Nat) : Bool := flags.testBit 0

/-- The bit-field `TMD_FlagBitfield::isDoubleFaced`: bit 1. -/
def isDoubleFaced (flags : Nat) : Bool := flags.testBit 1

/-- The bit-field `TMD_FlagBitfield::isGradated`: bit 2. -/
def isGradated (flags : Nat) : Bool := flags.testBit 2

/-- The bit-field `TMD_ModeBitfield::hasBrightness`: bit 0. -/
def hasBrightness (mode : Nat) : Bool := mode.testBit 0

/-- The bit-field `TMD_ModeBitfield::hasTranslucency`: bit 1. -/
def hasTranslucency (mode : Nat) : Bool := mode.testBit 1

/-- The bit-field `TMD_ModeBitfield::hasTexture`: bit 2. -/
def modeHasTexture (mode : Nat) : Bool := mode.testBit 2

/-- The bit-field `TMD_ModeBitfield::isQuad`: bit 3. -/
def isQuad (mode : Nat) : Bool := mode.testBit 3

/-- The bit-field `TMD_ModeBitfield::isGouraud`: bit 4. -/
def isGouraud (mode : Nat) : Bool := mode.testBit 4

/-- The bit-field `TMD_ModeSpriteBitfield::size`: bits 3 and 4. -/
def spriteSizeBits (mode : Nat) : Nat := mode / 8 % 4

/-- The class `TMD_Primitive`.  Each of the arrays `m_vertices`, `m_normals`,
`m_colors` and `m_uvs` is kept as the list of the elements the constructor has
written, which it writes in index order from 0; the elements after them are
uninitialised.  `m_textureInfo` and `m_clutInfo` are kept as the 16-bit words
read into them. -/
structure TMD_Primitive where
  m_vertices : List Nat
  m_normals : List Nat
  m_colors : List tmd_color_t
  m_uvs : List tmd_uv_coord_t
  m_textureInfo : Nat
  m_clutInfo : Nat
  m_spriteSize : tmd_sprite_size_t
  m_flags : Nat
  m_mode : Nat
  vertexCount : Nat
  normalCount : Nat
  colorCount : Nat
  deriving DecidableEq, Repr

/-- The members of a `TMD_Primitive` as the constructor finds them: the flags
and the mode of the header, counts 0, cleared texture, CLUT and sprite data. -/
def TMD_Primitive.init (header : tmd_primitive_header_t) : TMD_Primitive :=
  { m_vertices := [], m_normals := [], m_colors := [], m_uvs := [],
    m_textureInfo := 0, m_clutInfo := 0, m_spriteSize := { w := 0, h := 0 },
    m_flags := header.flag, m_mode := header.mode,
    vertexCount := 0, normalCount := 0, colorCount := 0 }

/-- The method `TMD_Primitive::getCode`. -/
def TMD_Primitive.getCode (p : TMD_Primitive) : Nat := extract_code_from_mode p.m_mode

/-- The method `TMD_Primitive::hasTexture`. -/
def TMD_Primitive.hasTexture (p : TMD_Primitive) : Bool :=
  decide (p.getCode = TMD_Code_POLYGON) && modeHasTexture p.m_mode

/-- The template `readbuf<tmd_uv_coord_t>`. -/
def readUv (b : Buffer) : Except Fault (tmd_uv_coord_t × Buffer) :=
  match readbuf 2 b with
  | .error f => .error f
  | .ok r => .ok ({ u := r.1 % 256, v := r.1 / 256 }, r.2)

/-- The template `readbuf<tmd_color_t>`. -/
def readColor (b : Buffer) : Except Fault (tmd_color_t × Buffer) :=
  match readbuf 3 b with
  | .error f => .error f
  | .ok r => .ok ({ r := r.1 % 256, g := r.1 / 256 % 256, b := r.1 / 65536 }, r.2)

/-- The counts that the constructor assigns for a polygon: `vertexCount`,
`normalCount` and `colorCount`, the last one starting from 0. -/
def polygonCounts (flags mode : Nat) : Nat × Nat × Nat :=
  let vertexCount := if isQuad mode then 4 else 3
  let normalCount :=
    if isLightSourceDisabled flags || hasBrightness mode then 0
    else if isGouraud mode then vertexCount
    else 1
  let colorCount :=
    if isGradated flags then vertexCount
    else if isLightSourceDisabled flags then (if isGouraud mode then vertexCount else 1)
    else if !modeHasTexture mode then 1
    else 0
  (vertexCount, normalCount, colorCount)

/-- The texture block of a polygon: `uv0`, the CLUT word, `uv1`, the texture
word, `uv2`, two bytes skipped and, with four vertices, `uv3` and two more
bytes skipped. -/
def readTextureBlock (vertexCount : Nat) (p : TMD_Primitive) (b : Buffer) :
    Except Fault (TMD_Primitive × Buffer) :=
  match readUv b with
  | .error f => .error f
  | .ok r0 =>
    match readbuf 2 r0.2 with
    | .error f => .error f
    | .ok r1 =>
      match readUv r1.2 with
      | .error f => .error f
      | .ok r2 =>
        match readbuf 2 r2.2 with
        | .error f => .error f
        | .ok r3 =>
          match readUv r3.2 with
          | .error f => .error f
          | .ok r4 =>
            let b5 := r4.2.skip 2
            let p5 : TMD_Primitive :=
              { p with m_uvs := [r0.1, r2.1, r4.1], m_clutInfo := r1.1, m_textureInfo := r3.1 }
            if vertexCount = 4 then
              match readUv b5 with
              | .error f => .error f
              | .ok r6 => .ok ({ p5 with m_uvs := [r0.1, r2.1, r4.1, r6.1] }, r6.2.skip 2)
            else .ok (p5, b5)

/-- The loop over the colors of a polygon, `count` of them being left. -/
def readColors : Nat → Buffer → List tmd_color_t → Except Fault (List tmd_color_t × Buffer)
  | 0, b, colors => .ok (colors, b)
  | count + 1, b, colors =>
    match readColor b with
    | .error f => .error f
    | .ok r => readColors count (r.2.skip 1) (colors ++ [r.1])

/-- The loop over the vertex slots of a polygon, given as the list of the
remaining values of `i`: a normal index for `i < normalCount`, then a vertex
index. -/
def readIndices (normalCount : Nat) :
    List Nat → Buffer → List Nat → List Nat → Except Fault (List Nat × List Nat × Buffer)
  | [], b, normals, vertices => .ok (normals, vertices, b)
  | i :: rest, b, normals, vertices =>
    if i < normalCount then
      match readbuf 2 b with
      | .error f => .error f
      | .ok r0 =>
        match readbuf 2 r0.2 with
        | .error f => .error f
        | .ok r1 => readIndices normalCount rest r1.2 (normals ++ [r0.1]) (vertices ++ [r1.1])
    else
      match readbuf 2 b with
      | .error f => .error f
      | .ok r1 => readIndices normalCount rest r1.2 normals (vertices ++ [r1.1])

/-- The texture part of the polygon branch: the texture block when the mode
has the texture bit, nothing otherwise. -/
def readTexture (p : TMD_Primitive) (b : Buffer) : Except Fault (TMD_Primitive × Buffer) :=
  if modeHasTexture p.m_mode then readTextureBlock p.vertexCount p b else .ok (p, b)

/-- The polygon branch of the constructor of `TMD_Primitive`. -/
def constructPolygon (header : tmd_primitive_header_t) (p0 : TMD_Primitive) (buffer : Buffer) :
    Except Fault TMD_Primitive :=
  if header.ilen ≤ 0x0A then
    let counts := polygonCounts p0.m_flags p0.m_mode
    let p1 : TMD_Primitive :=
      { p0 with vertexCount := counts.1, normalCount := counts.2.1, colorCount := counts.2.2 }
    match readTexture p1 buffer with
    | .error f => .error f
    | .ok r =>
      match readColors r.1.colorCount r.2 [] with
      | .error f => .error f
      | .ok rc =>
        match readIndices r.1.normalCount (List.range r.1.vertexCount) rc.2 [] [] with
        | .error f => .error f
        | .ok ri => .ok { r.1 with m_colors := rc.1, m_normals := ri.1, m_vertices := ri.2.1 }
  else .error .assertFailed

/-- The colors of a line: one, and a second one when the gouraud bit (read as
gradation for lines) is set; one byte is skipped after each. -/
def readLineColors (mode : Nat) (buffer : Buffer) : Except Fault (List tmd_color_t × Buffer) :=
  match readColor buffer with
  | .error f => .error f
  | .ok r0 =>
    if isGouraud mode then
      match readColor (r0.2.skip 1) with
      | .error f => .error f
      | .ok r1 => .ok ([r0.1, r1.1], r1.2.skip 1)
    else .ok ([r0.1], r0.2.skip 1)

/-- The line branch of the constructor of `TMD_Primitive`. -/
def constructLine (header : tmd_primitive_header_t) (p0 : TMD_Primitive) (buffer : Buffer) :
    Except Fault TMD_Primitive :=
  if header.ilen = 0x02 ∨ header.ilen = 0x03 then
    if p0.m_flags = 0x01 then
      match readLineColors p0.m_mode buffer with
      | .error f => .error f
      | .ok rc =>
        match readbuf 2 rc.2 with
        | .error f => .error f
        | .ok v0 =>
          match readbuf 2 v0.2 with
          | .error f => .error f
          | .ok v1 =>
            .ok { p0 with m_colors := rc.1, colorCount := rc.1.length, normalCount := 0,
                          vertexCount := 2, m_vertices := [v0.1, v1.1] }
    else .error .assertFailed
  else .error .assertFailed

/-- The last branch of the constructor of `TMD_Primitive`, for sprites. -/
def constructSprite (header : tmd_primitive_header_t) (p0 : TMD_Primitive) (buffer : Buffer) :
    Except Fault TMD_Primitive :=
  if p0.getCode = TMD_Code_SPRITE then
    if header.ilen = 0x02 ∨ header.ilen = 0x03 then
      match readbuf 2 buffer with
      | .error f => .error f
      | .ok v0 =>
        match readbuf 2 v0.2 with
        | .error f => .error f
        | .ok ti =>
          match readUv ti.2 with
          | .error f => .error f
          | .ok uv =>
            match readbuf 2 uv.2 with
            | .error f => .error f
            | .ok cl =>
              let p1 : TMD_Primitive :=
                { p0 with vertexCount := 1, m_vertices := [v0.1], m_textureInfo := ti.1,
                          m_uvs := [uv.1], m_clutInfo := cl.1 }
              if spriteSizeBits p0.m_mode = 1 then .ok { p1 with m_spriteSize := ⟨1, 1⟩ }
              else if spriteSizeBits p0.m_mode = 2 then .ok { p1 with m_spriteSize := ⟨8, 8⟩ }
              else if spriteSizeBits p0.m_mode = 3 then .ok { p1 with m_spriteSize := ⟨16, 16⟩ }
              else if header.ilen = 0x03 then
                match readbuf 4 cl.2 with
                | .error f => .error f
                | .ok sz => .ok { p1 with m_spriteSize := ⟨sz.1 % 65536, sz.1 / 65536⟩ }
              else .error .assertFailed
    else .error .assertFailed
  else .error .assertFailed

/-- The constructor `TMD_Primitive(const tmd_primitive_packet_t*)`; `mem` is
the memory from the packet pointer on.  The constructor reads through a
buffer over the `get_primitive_packet_size` bytes of the packet, after the
header. -/
def TMD_Primitive.ofPacket (mem : List Nat) : Except Fault TMD_Primitive :=
  match packetHeader mem with
  | .error f => .error f
  | .ok header =>
    let p0 := TMD_Primitive.init header
    let buffer : Buffer :=
      Buffer.skip { m_data := mem.take (get_primitive_packet_size header), m_pos := 0 } 4
    if p0.getCode = TMD_Code_POLYGON then constructPolygon header p0 buffer
    else if p0.getCode = TMD_Code_LINE then constructLine header p0 buffer
    else constructSprite header p0 buffer

/-! ## Packet payloads as the specification lays them out -/

/-- The 16-bit little-endian word at the byte offset `off` of `xs`. -/
def wordAt (xs : List Nat) (off : Nat) : Nat := leValue ((xs.drop off).take 2)

/-- The texture coordinate at the byte offset `off` of `xs`: `u`, then `v`. -/
def uvAt (xs : List Nat) (off : Nat) : tmd_uv_coord_t :=
  { u := wordAt xs off % 256, v := wordAt xs off / 256 }

/-- The color at the byte offset `off` of `xs`: `r`, `g`, then `b`. -/
def colorAt (xs : List Nat) (off : Nat) : tmd_color_t :=
  { r := leValue ((xs.drop off).take 3) % 256,
    g := leValue ((xs.drop off).take 3) / 256 % 256,
    b := leValue ((xs.drop off).take 3) / 65536 }

/-- The number of bytes of the texture block of a polygon with the given mode. -/
def textureBytes (mode : Nat) : Nat :=
  if modeHasTexture mode then (if isQuad mode then 16 else 12) else 0

/-- The counts of a polygon in the words of the specification: `vertexCount`,
`normalCount` and `colorCount` from the flag bits (light source disabled,
gradated) and the mode bits (brightness, texture, quad, gouraud). -/
def specCounts (flag mode : Nat) : Nat × Nat × Nat :=
  let vertexCount := if isQuad mode then 4 else 3
  let normalCount :=
    if isLightSourceDisabled flag || hasBrightness mode then 0
    else (if isGouraud mode then vertexCount else 1)
  let colorCount :=
    if isGradated flag then vertexCount
    else if isLightSourceDisabled flag && !isGouraud mode then 1
    else if isLightSourceDisabled flag && isGouraud mode then vertexCount
    else if modeHasTexture mode then 0
    else 1
  (vertexCount, normalCount, colorCount)

/-- The polygon that a payload stands for in the layout of the specification:
the texture block of `textureBytes` bytes (uv0, CLUT word, uv1, texture word,
uv2, two bytes of padding and for a quad uv3 and two more), then `colorCount`
colors of three bytes and one byte of padding, then for each vertex slot a
normal index (for the first `normalCount` slots) followed by a vertex index. -/
def layoutPolygon (flag mode : Nat) (payload : List Nat) : TMD_Primitive :=
  let vertexCount := (specCounts flag mode).1
  let normalCount := (specCounts flag mode).2.1
  let colorCount := (specCounts flag mode).2.2
  let t := textureBytes mode
  { m_vertices := (List.range vertexCount).map
      (fun i => wordAt payload (t + 4 * colorCount + 2 * i + 2 * min (i + 1) normalCount)),
    m_normals := (List.range normalCount).map
      (fun i => wordAt payload (t + 4 * colorCount + 4 * i)),
    m_colors := (List.range colorCount).map (fun j => colorAt payload (t + 4 * j)),
    m_uvs :=
      if modeHasTexture mode then
        [uvAt payload 0, uvAt payload 4, uvAt payload 8]
          ++ (if isQuad mode then [uvAt payload 12] else [])
      else [],
    m_textureInfo := if modeHasTexture mode then wordAt payload 6 else 0,
    m_clutInfo := if modeHasTexture mode then wordAt payload 2 else 0,
    m_spriteSize := { w := 0, h := 0 },
    m_flags := flag, m_mode := mode,
    vertexCount := vertexCount, normalCount := normalCount, colorCount := colorCount }

/-- The number of payload bytes that the layout of a polygon takes. -/
def polygonBytes (flag mode : Nat) : Nat :=
  textureBytes mode + 4 * (specCounts flag mode).2.2 + 2 * (specCounts flag mode).1
    + 2 * (specCounts flag mode).2.1

/-! ## `formats/tmd.h`, `formats/tmd.cpp`: objects and the reader -/

/-- The class `TMD_PrimitiveList`.  The vector `m_packets_data` of `u32` is
kept as the bytes it holds, four for each element; the elements of
`m_primitive_offsets` count `u32` elements. -/
structure TMD_PrimitiveList where
  m_packets_data : List Nat
  m_primitive_offsets : List Nat
  deriving DecidableEq, Repr

/-- The method `TMD_PrimitiveList::count`. -/
def TMD_PrimitiveList.count (l : TMD_PrimitiveList) : Int :=
  toInt32 l.m_primitive_offsets.length

/-- The method `TMD_PrimitiveList::at`: the memory from the packet pointer on.
An index outside `m_primitive_offsets` makes `std::vector::at` throw. -/
def TMD_PrimitiveList.at (l : TMD_PrimitiveList) (n : Int) : Except Fault (List Nat) :=
  if 0 ≤ n then
    match l.m_primitive_offsets[n.toNat]? with
    | some offset => .ok (l.m_packets_data.drop (4 * offset))
    | none => .error .outOfBounds
  else .error .outOfBounds

/-- The method `TMD_PrimitiveList::append`; `mem` is the memory from the
packet pointer on, of which `ilen + 1` words are copied. -/
def TMD_PrimitiveList.append (l : TMD_PrimitiveList) (mem : List Nat) :
    Except Fault TMD_PrimitiveList :=
  match packetHeader mem with
  | .error f => .error f
  | .ok header =>
    if 4 * (header.ilen + 1) ≤ mem.length then
      .ok { m_primitive_offsets := l.m_primitive_offsets ++ [l.m_packets_data.length / 4],
            m_packets_data := l.m_packets_data ++ mem.take (4 * (header.ilen + 1)) }
    else .error .outOfBounds

/-- The class `TMD_Object`. -/
structure TMD_Object where
  m_scale : Int
  m_vertices : List tmd_vertex_t
  m_normals : List tmd_normal_t
  m_primitives : TMD_PrimitiveList
  deriving DecidableEq, Repr

/-- The class `TMD_Model`. -/
structure TMD_Model where
  m_objects : List TMD_Object
  deriving DecidableEq, Repr

/-- The record `tmd_object_header_t` that the 28 bytes `bytes` hold. -/
def objectHeaderOfBytes (bytes : List Nat) : tmd_object_header_t :=
  { vertex_offset := leValue ((bytes.drop 0).take 4),
    vertex_count := leValue ((bytes.drop 4).take 4),
    normal_offset := leValue ((bytes.drop 8).take 4),
    normal_count := leValue ((bytes.drop 12).take 4),
    primitive_offset := leValue ((bytes.drop 16).take 4),
    primitive_count := leValue ((bytes.drop 20).take 4),
    scale := toInt32 (leValue ((bytes.drop 24).take 4)) }

/-- The template `readbuf<tmd_object_header_t>`. -/
def readObjectHeader (b : Buffer) : Except Fault (tmd_object_header_t × Buffer) :=
  match b.read 28 with
  | .error f => .error f
  | .ok r => if r.1.length = 28 then .ok (objectHeaderOfBytes r.1, r.2) else .error .shortRead

/-- The first loop of `readModel`, over the object headers, `count` of them
being left. -/
def readObjectHeaders :
    Nat → Buffer → List tmd_object_header_t → Except Fault (List tmd_object_header_t × Buffer)
  | 0, b, hs => .ok (hs, b)
  | count + 1, b, hs =>
    match readObjectHeader b with
    | .error f => .error f
    | .ok r => readObjectHeaders count r.2 (hs ++ [r.1])

/-- The record `tmd_vertex_t` stored at the byte offset `p` of `data`. -/
def vertexAt (data : List Nat) (p : Nat) : tmd_vertex_t :=
  { x := toInt16 (wordAt data p), y := toInt16 (wordAt data (p + 2)),
    z := toInt16 (wordAt data (p + 4)), zero := toInt16 (wordAt data (p + 6)) }

/-- The record `tmd_normal_t` stored at the byte offset `p` of `data`. -/
def normalAt (data : List Nat) (p : Nat) : tmd_normal_t :=
  { x := toInt16 (wordAt data p), y := toInt16 (wordAt data (p + 2)),
    z := toInt16 (wordAt data (p + 4)), zero := toInt16 (wordAt data (p + 6)) }

/-- The call `assign(ptr, ptr + count)` on an array of 8-byte records that
starts at the byte offset `start` of the region `data`, `recordAt` decoding one
record. -/
def sliceRecords {α : Type} (recordAt : List Nat → Nat → α) (data : List Nat) (start : Int)
    (count : Nat) : Except Fault (List α) :=
  if count = 0 then .ok []
  else if 0 ≤ start ∧ start.toNat + 8 * count ≤ data.length then
    .ok ((List.range count).map (fun j => recordAt data (start.toNat + 8 * j)))
  else .error .outOfBounds

/-- The loop of `readModel` over the primitives of one object, `count` of them
being left. -/
def readPrimitives :
    Nat → Buffer → TMD_PrimitiveList → Except Fault (TMD_PrimitiveList × Buffer)
  | 0, b, l => .ok (l, b)
  | count + 1, b, l =>
    if 0 ≤ b.pos then
      match packetHeader (b.m_data.drop b.pos.toNat) with
      | .error f => .error f
      | .ok header =>
        match l.append (b.m_data.drop b.pos.toNat) with
        | .error f => .error f
        | .ok l1 => readPrimitives count (b.skip (get_primitive_packet_size header)) l1
    else .error .outOfBounds

/-- The body of the second loop of `readModel`: the object of one header. -/
def readObject (objheaders_offset : Int) (objheader : tmd_object_header_t) (buffer : Buffer) :
    Except Fault (TMD_Object × Buffer) :=
  match sliceRecords vertexAt buffer.m_data (objheaders_offset + objheader.vertex_offset)
      objheader.vertex_count with
  | .error f => .error f
  | .ok vertices =>
    match sliceRecords normalAt buffer.m_data (objheaders_offset + objheader.normal_offset)
        objheader.normal_count with
    | .error f => .error f
    | .ok normals =>
      match readPrimitives objheader.primitive_count
          (buffer.seek (objheaders_offset + objheader.primitive_offset))
          { m_packets_data := [], m_primitive_offsets := [] } with
      | .error f => .error f
      | .ok r =>
        .ok ({ m_scale := objheader.scale, m_vertices := vertices, m_normals := normals,
               m_primitives := r.1 }, r.2)

/-- The second loop of `readModel`, over the object headers. -/
def readObjects (objheaders_offset : Int) :
    List tmd_object_header_t → Buffer → List TMD_Object → Except Fault (List TMD_Object × Buffer)
  | [], b, objects => .ok (objects, b)
  | objheader :: rest, b, objects =>
    match readObject objheaders_offset objheader b with
    | .error f => .error f
    | .ok r => readObjects objheaders_offset rest r.2 (objects ++ [r.1])

/-- The method `TMD_Reader::readModel(Buffer&, TMD_Model&)`: the value
returned, the output model and the buffer.  Of the header only the bytes
copied are initialised: `id` needs 4 of them and `num_objects` all 12. -/
def readModel (buffer : Buffer) (outputModel : TMD_Model) :
    Except Fault (Bool × TMD_Model × Buffer) :=
  match buffer.read 12 with
  | .error f => .error f
  | .ok r =>
    if r.1.length < 4 then .error .shortRead
    else if leValue (r.1.take 4) ≠ 0x41 then .ok (false, outputModel, r.2)
    else if r.1.length < 12 then .error .shortRead
    else
      match readObjectHeaders (leValue ((r.1.drop 8).take 4)) r.2 [] with
      | .error f => .error f
      | .ok hs =>
        match readObjects r.2.pos hs.1 hs.2 [] with
        | .error f => .error f
        | .ok os => .ok (true, { m_objects := os.1 }, os.2)

/-! ## A TMD region as the format lays it out -/

/-- The object header number `k` of the table that starts at byte 12. -/
def objectHeaderAt (data : List Nat) (k : Nat) : tmd_object_header_t :=
  objectHeaderOfBytes ((data.drop (12 + 28 * k)).take 28)

/-- The field `ilen` of the packet at the byte offset `pos`. -/
def packetIlen (data : List Nat) (pos : Nat) : Nat := data.getD (pos + 1) 0 % 256

/-- Whether `count` packets in a row, the first at the byte offset `pos`, lie
inside the region, each taking `4 + 4 * ilen` bytes. -/
def packetsInRange (data : List Nat) : Nat → Nat → Bool
  | _, 0 => true
  | pos, count + 1 =>
    decide (pos + 4 * (packetIlen data pos + 1) ≤ data.length)
      && packetsInRange data (pos + 4 * (packetIlen data pos + 1)) count

/-- The bytes of `count` packets in a row, the first at the byte offset `pos`. -/
def packetsOf (data : List Nat) : Nat → Nat → List (List Nat)
  | _, 0 => []
  | pos, count + 1 =>
    (data.drop pos).take (4 * (packetIlen data pos + 1))
      :: packetsOf data (pos + 4 * (packetIlen data pos + 1)) count

/-- A primitive list after the packets `ps` have been appended to it. -/
def appendPackets (l : TMD_PrimitiveList) (ps : List (List Nat)) : TMD_PrimitiveList :=
  ps.foldl
    (fun acc p =>
      { m_primitive_offsets := acc.m_primitive_offsets ++ [acc.m_packets_data.length / 4],
        m_packets_data := acc.m_packets_data ++ p })
    l

/-- Whether the arrays and the packets that an object header points to lie
inside the region, the offsets being taken from the byte offset `base`. -/
def objectInRange (data : List Nat) (base : Nat) (h : tmd_object_header_t) : Prop :=
  (h.vertex_count = 0 ∨ base + h.vertex_offset + 8 * h.vertex_count ≤ data.length) ∧
  (h.normal_count = 0 ∨ base + h.normal_offset + 8 * h.normal_count ≤ data.length) ∧
  packetsInRange data (base + h.primitive_offset) h.primitive_count = true

/-- The object that a header stands for when its offsets are taken from the
byte offset `base` of the region. -/
def objectAt (data : List Nat) (base : Nat) (h : tmd_object_header_t) : TMD_Object :=
  { m_scale := h.scale,
    m_vertices := (List.range h.vertex_count).map
      (fun j => vertexAt data (base + h.vertex_offset + 8 * j)),
    m_normals := (List.range h.normal_count).map
      (fun j => normalAt data (base + h.normal_offset + 8 * j)),
    m_primitives := appendPackets { m_packets_data := [], m_primitive_offsets := [] }
      (packetsOf data (base + h.primitive_offset) h.primitive_count) }

/-- The field `num_objects` of the header of a region. -/
def numObjects (data : List Nat) : Nat := leValue ((data.drop 8).take 4)

/-- A region that holds a TMD header with the magic `0x41`, the table of object
headers, and the arrays and packets that the headers point to, with offsets
taken from byte 12, the start of the table. -/
def tmdInRange (data : List Nat) : Prop :=
  12 + 28 * numObjects data ≤ data.length ∧ leValue (data.take 4) = 0x41 ∧
    ∀ k, k < numObjects data → objectInRange data 12 (objectHeaderAt data k)

/-- A TMD region with one object: the header, one object header (vertex
offset 28, normal offset 36, primitive offset 44, one of each, scale 7), the
vertex `(1, 2, 3)` at byte 40, the normal `(0, 0, 4096)` at byte 48, a flat
triangle packet at byte 56 and eight more bytes. -/
def sampleTmd : List Nat :=
  [0x41, 0, 0, 0, 0, 0, 0, 0, 1, 0, 0, 0]
    ++ [28, 0, 0, 0, 1, 0, 0, 0, 36, 0, 0, 0, 1, 0, 0, 0, 44, 0, 0, 0, 1, 0, 0, 0, 7, 0, 0, 0]
    ++ [1, 0, 2, 0, 3, 0, 0, 0]
    ++ [0, 0, 0, 0, 0, 0x10, 0, 0]
    ++ [4, 3, 0, 0x20, 10, 20, 30, 0, 0, 0, 0, 0, 0, 0, 0, 0]
    ++ [9, 9, 9, 9, 9, 9, 9, 9]

/-! ## `converters/tmd2object3d.h`: from TMD objects to meshes -/

/-- A `QVector2D`. -/
structure Vec2 (F : Type) where
  x : F
  y : F

/-- What the converter uses from outside these sources: float subtraction,
the literal `0.0001f`, the vector `QVector3D(-1, -1, -1).normalized()`, and
`PSX_TextureCache::createTextureImage` on the TIM images of the cache, `none`
standing for a null image. -/
structure ConverterEnv (F : Type) where
  ops : FloatOps F
  sub : F → F → F
  epsilon : F
  default_normal : Vec3 F
  createTextureImage : Nat → Nat → Nat → Option QImage

/-- The function `convert(tmd_vertex_t)`. -/
def convertVertex {F : Type} (ops : FloatOps F) (vertex : tmd_vertex_t) : Vec3 F :=
  { x := ops.ofInt vertex.x, y := ops.ofInt vertex.y, z := ops.ofInt vertex.z }

/-- The function `convert(tmd_normal_t)`: each component times `1 / 4096`,
the vector then multiplied by `-1`. -/
def convertNormal {F : Type} (ops : FloatOps F) (n : tmd_normal_t) : Vec3 F :=
  let scale := ops.div (ops.ofInt 1) (ops.ofInt 4096)
  { x := ops.mul (ops.ofInt (-1)) (ops.mul (ops.ofInt n.x) scale),
    y := ops.mul (ops.ofInt (-1)) (ops.mul (ops.ofInt n.y) scale),
    z := ops.mul (ops.ofInt (-1)) (ops.mul (ops.ofInt n.z) scale) }

/-- The function `convert(tmd_color_t)`. -/
def convertColor (c : tmd_color_t) : RgbColor := { r := c.r, g := c.g, b := c.b }

/-- The bit-field `TMD_TextureInfo::page`: the low five bits of the first byte. -/
def texturePage (textureInfo : Nat) : Nat := textureInfo % 32

/-- The bit-field `TMD_TextureInfo::mixtureRate`: bits 5 and 6 of the first byte. -/
def mixtureRate (textureInfo : Nat) : Nat := textureInfo / 32 % 4

/-- The bit-field `TMD_TextureInfo::colorMode`.  A bit-field of type `uint8_t`
does not straddle two bytes, so the compiler puts it in the low two bits of
the second byte. -/
def colorMode (textureInfo : Nat) : Nat := textureInfo / 256 % 4

/-- The bit-field `TMD_CLUT_Info::clutX`: the low six bits. -/
def clutX (clutInfo : Nat) : Nat := clutInfo % 64

/-- The bit-field `TMD_CLUT_Info::clutY`: the nine bits from bit 6 on. -/
def clutY (clutInfo : Nat) : Nat := clutInfo / 64 % 512

/-- The function `get_textureinfo_bpp`. -/
def get_textureinfo_bpp (textureInfo : Nat) : Except Fault Int :=
  if colorMode textureInfo = 0 then .ok 4
  else if colorMode textureInfo = 1 then .ok 8
  else if colorMode textureInfo = 2 then .ok 16
  else .error .assertFailed

/-- The record `PSX_TextureCache::SearchKey`. -/
structure TextureKey where
  texturePage : Int
  bpp : Int
  clutY : Int
  deriving DecidableEq, Repr

/-- The class `PSX_TextureCache`: the textures it has made, and the map
`m_textures` from keys to them. -/
structure PSX_TextureCache where
  store : List PSX_Texture
  m_textures : List (TextureKey × Nat)
  deriving DecidableEq, Repr

/-- The method `PSX_TextureCache::getTexture`: the texture, `none` for a null
pointer, and the cache afterwards. -/
def getTexture {F : Type} (env : ConverterEnv F) (cache : PSX_TextureCache)
    (page bpp : Int) (x y : Nat) : Option Nat × PSX_TextureCache :=
  let key : TextureKey := { texturePage := page, bpp := bpp, clutY := (y : Int) }
  match cache.m_textures.find? (fun e => decide (e.1 = key)) with
  | some e => (some e.2, cache)
  | none =>
    match env.createTextureImage page.toNat x y with
    | none => (none, cache)
    | some image =>
      (some cache.store.length,
       { store := cache.store ++ [{ image := image, revision := 0 }],
         m_textures := cache.m_textures ++ [(key, cache.store.length)] })

/-- The record `PSX_MaterialTracker::SearchKey`. -/
structure MaterialKey where
  texturePage : Int := -1
  bpp : Int := -1
  clutY : Int := -1
  vertexColors : Bool := false
  light : Bool := false
  deriving DecidableEq, Repr

/-- The enumeration `PSX_Object3D::PrimitiveType`. -/
inductive PrimitiveType
  | Line
  | Triangle
  | Quad
  | Sprite
  deriving DecidableEq, Repr

/-- The record `PSX_Object3D::PrimitiveInfo`. -/
structure PrimitiveInfo where
  index : Int
  count : Int
  type : PrimitiveType
  materialIndex : Int
  deriving DecidableEq, Repr

/-- The members that `PSX_Object3D` adds to `Object3D`; the materials are the
objects that the shared pointers point to. -/
structure PSX_Object3D (F : Type) where
  vertices : List (Vec3 F)
  colors : List RgbColor
  uv : List (Vec2 F)
  normals : List (Vec3 F)
  materials : List PSX_Material
  primitives : List PrimitiveInfo

/-- A freshly made `PSX_Object3D`. -/
def PSX_Object3D.empty (F : Type) : PSX_Object3D F :=
  { vertices := [], colors := [], uv := [], normals := [], materials := [], primitives := [] }

/-- What a conversion works on: the mesh `data`, the map `m_materialsmap` of
the material tracker, and the texture cache. -/
structure ConvertState (F : Type) where
  data : PSX_Object3D F
  m_materialsmap : List (MaterialKey × Int)
  textures : PSX_TextureCache

/-- The end of `getMaterialIndex`, from the second `find` on: the index found
for the key, or a new material without texture. -/
def untexturedMaterial {F : Type} (s : ConvertState F) (primitive : TMD_Primitive)
    (key : MaterialKey) : Except Fault (Int × ConvertState F) :=
  match s.m_materialsmap.find? (fun e => decide (e.1 = key)) with
  | some e => .ok (e.2, s)
  | none =>
    match (if primitive.colorCount = 1 then
             (match primitive.m_colors[0]? with
              | some c => Except.ok (convertColor c)
              | none => Except.error Fault.outOfBounds)
           else Except.ok ({ r := 127, g := 0, b := 127 } : RgbColor)) with
    | .error f => .error f
    | .ok color =>
      .ok (toInt32 s.data.materials.length,
           { s with
             data := { s.data with
               materials := s.data.materials ++
                 [{ lighting := key.light, vertexColors := key.vertexColors, color := color }] },
             m_materialsmap :=
               s.m_materialsmap ++ [(key, toInt32 s.data.materials.length)] })

/-- The method `PSX_MaterialTracker::getMaterialIndex`. -/
def getMaterialIndex {F : Type} (env : ConverterEnv F) (s : ConvertState F)
    (primitive : TMD_Primitive) : Except Fault (Int × ConvertState F) :=
  if primitive.hasTexture then
    match get_textureinfo_bpp primitive.m_textureInfo with
    | .error f => .error f
    | .ok bpp =>
      let key : MaterialKey :=
        { bpp := bpp, texturePage := (texturePage primitive.m_textureInfo : Int),
          clutY := (clutY primitive.m_clutInfo : Int),
          light := decide (0 < primitive.normalCount) }
      match s.m_materialsmap.find? (fun e => decide (e.1 = key)) with
      | some e => .ok (e.2, s)
      | none =>
        match getTexture env s.textures key.texturePage key.bpp
            (clutX primitive.m_clutInfo * 16) (clutY primitive.m_clutInfo) with
        | (some texture, cache) =>
          .ok (toInt32 s.data.materials.length,
               { data := { s.data with
                   materials := s.data.materials ++
                     [{ lighting := key.light, map := some texture }] },
                 m_materialsmap :=
                   s.m_materialsmap ++ [(key, toInt32 s.data.materials.length)],
                 textures := cache })
        | (none, cache) =>
          untexturedMaterial { s with textures := cache } primitive
            { key with light := decide (0 < primitive.normalCount),
                       vertexColors := decide (primitive.colorCount = primitive.vertexCount) }
  else
    untexturedMaterial s primitive
      { light := decide (0 < primitive.normalCount),
        vertexColors := decide (primitive.colorCount = primitive.vertexCount) }

/-- The class `TMD_TexCoordsConverter`. -/
structure TMD_TexCoordsConverter (F : Type) where
  m_width : F
  m_height : F

/-- The constructor `TMD_TexCoordsConverter(PSX_Texture*)`: the size of the
image of the texture, and 256 by 256 for a null pointer. -/
def TMD_TexCoordsConverter.ofTexture {F : Type} (ops : FloatOps F) (store : List PSX_Texture)
    (texture : Option Nat) : Except Fault (TMD_TexCoordsConverter F) :=
  match texture with
  | none => .ok { m_width := ops.ofInt 256, m_height := ops.ofInt 256 }
  | some t =>
    match store[t]? with
    | some tex =>
      .ok { m_width := ops.ofInt (tex.image.width : Int),
            m_height := ops.ofInt (tex.image.height : Int) }
    | none => .error .outOfBounds

/-- The method `TMD_TexCoordsConverter::convert`. -/
def TMD_TexCoordsConverter.convert {F : Type} (env : ConverterEnv F)
    (uvconv : TMD_TexCoordsConverter F) (uv : tmd_uv_coord_t) : Vec2 F :=
  { x := env.ops.add (env.ops.div (env.ops.ofInt (uv.u : Int)) uvconv.m_width) env.epsilon,
    y := env.ops.add
      (env.ops.div (env.sub uvconv.m_height (env.ops.ofInt (uv.v : Int))) uvconv.m_height)
      env.epsilon }

/-- The call `std::vector::resize(n, value)`. -/
def resize {α : Type} (l : List α) (n : Nat) (value : α) : List α :=
  if n ≤ l.length then l.take n else l ++ List.replicate (n - l.length) value

/-- The elements of an array at the given indices, in that order; an index at
which the array holds nothing is an access outside it. -/
def elementsAt {α : Type} (l : List α) : List Nat → Except Fault (List α)
  | [] => .ok []
  | i :: rest =>
    match l[i]? with
    | none => .error .outOfBounds
    | some a =>
      match elementsAt l rest with
      | .error f => .error f
      | .ok as => .ok (a :: as)

/-- The block `if (offset > 0) {...}` of `append_triangles` and of
`append_line`, which fills the attribute arrays with default elements;
`added` is the number of vertices that the primitive adds. -/
def fillAttributes {F : Type} (env : ConverterEnv F) (data : PSX_Object3D F)
    (primitive : TMD_Primitive) (added : Nat) : PSX_Object3D F :=
  let default_uv : Vec2 F := { x := env.ops.ofInt 0, y := env.ops.ofInt 0 }
  let default_color : RgbColor := { r := 127, g := 127, b := 127 }
  let offset := data.vertices.length
  if 0 < offset then
    let normals1 :=
      if 0 < primitive.normalCount ∧ data.normals.isEmpty = true then
        resize data.normals offset env.default_normal
      else data.normals
    let colors1 :=
      if 0 < primitive.colorCount ∧ data.colors.isEmpty = true then resize data.colors offset default_color
      else data.colors
    let uv1 :=
      if primitive.hasTexture = true ∧ data.uv.isEmpty = true then resize data.uv offset default_uv
      else data.uv
    let newvertex_count := offset + added
    let normals2 :=
      if normals1.isEmpty = false ∧ primitive.normalCount = 0 then
        resize normals1 newvertex_count env.default_normal
      else normals1
    let colors2 :=
      if primitive.colorCount = 0 ∧ colors1.isEmpty = false then resize colors1 newvertex_count default_color
      else colors1
    let uv2 :=
      if primitive.hasTexture = false ∧ uv1.isEmpty = false then resize uv1 newvertex_count default_uv
      else uv1
    { data with normals := normals2, colors := colors2, uv := uv2 }
  else data

/-- One triangle of `append_triangles`: the normals, vertices, colors and
texture coordinates of the three corners `corners` of the primitive. -/
def appendCorners {F : Type} (env : ConverterEnv F) (data : PSX_Object3D F)
    (tmdObj : TMD_Object) (primitive : TMD_Primitive) (uvconv : TMD_TexCoordsConverter F)
    (corners : List Nat) : Except Fault (PSX_Object3D F) :=
  match (if 0 < primitive.normalCount then
           (match elementsAt primitive.m_normals
               (corners.map (fun i => min i (primitive.normalCount - 1))) with
            | .error f => Except.error f
            | .ok indices =>
              match elementsAt tmdObj.m_normals indices with
              | .error f => Except.error f
              | .ok ns => Except.ok (data.normals ++ ns.map (convertNormal env.ops)))
         else Except.ok data.normals) with
  | .error f => .error f
  | .ok normals =>
    match elementsAt primitive.m_vertices corners with
    | .error f => .error f
    | .ok indices =>
      match elementsAt tmdObj.m_vertices indices with
      | .error f => .error f
      | .ok vs =>
        match (if 0 < primitive.colorCount then
                 (match elementsAt primitive.m_colors
                     (corners.map (fun i => min i (primitive.colorCount - 1))) with
                  | .error f => Except.error f
                  | .ok cs => Except.ok (data.colors ++ cs.map convertColor))
               else Except.ok data.colors) with
        | .error f => .error f
        | .ok colors =>
          match (if primitive.hasTexture then
                   (match elementsAt primitive.m_uvs corners with
                    | .error f => Except.error f
                    | .ok uvs => Except.ok (data.uv ++ uvs.map (uvconv.convert env)))
                 else Except.ok data.uv) with
          | .error f => .error f
          | .ok uv =>
            .ok { data with normals := normals,
                            vertices := data.vertices ++ vs.map (convertVertex env.ops),
                            colors := colors, uv := uv }

/-- The method `TMD_ModelConverter::append_triangles`. -/
def append_triangles {F : Type} (env : ConverterEnv F) (data : PSX_Object3D F)
    (tmdObj : TMD_Object) (primitive : TMD_Primitive) (uvconv : TMD_TexCoordsConverter F) :
    Except Fault (PSX_Object3D F) :=
  let data1 := fillAttributes env data primitive (if primitive.vertexCount = 4 then 6 else 3)
  match appendCorners env data1 tmdObj primitive uvconv [2, 1, 0] with
  | .error f => .error f
  | .ok data2 =>
    if primitive.vertexCount = 4 then appendCorners env data2 tmdObj primitive uvconv [1, 2, 3]
    else .ok data2

/-- The method `TMD_ModelConverter::append_line`. -/
def append_line {F : Type} (env : ConverterEnv F) (data : PSX_Object3D F)
    (tmdObj : TMD_Object) (primitive : TMD_Primitive) : Except Fault (PSX_Object3D F) :=
  let data1 := fillAttributes env data primitive 2
  if primitive.normalCount = 0 ∧ primitive.hasTexture = false then
    match elementsAt primitive.m_vertices [0, 1] with
    | .error f => .error f
    | .ok indices =>
      match elementsAt tmdObj.m_vertices indices with
      | .error f => .error f
      | .ok vs =>
        if 0 < primitive.colorCount then
          match elementsAt primitive.m_colors
              ([0, 1].map (fun i => min i (primitive.colorCount - 1))) with
          | .error f => .error f
          | .ok cs =>
            .ok { data1 with vertices := data1.vertices ++ vs.map (convertVertex env.ops),
                             colors := data1.colors ++ cs.map convertColor }
        else .error .assertFailed
  else .error .assertFailed

/-- The part of `addPrimitive` that its polygon and line branches share, after
`element` has been filled in but for its material: the material index, the
assertion, the texture-coordinate converter, the vertices, and the entry. -/
def addMesh {F : Type} (env : ConverterEnv F) (s : ConvertState F) (tmdObj : TMD_Object)
    (primitive : TMD_Primitive) (type : PrimitiveType) (count : Int) :
    Except Fault (Bool × ConvertState F) :=
  match getMaterialIndex env s primitive with
  | .error f => .error f
  | .ok r =>
    if 0 < primitive.colorCount ∨ primitive.hasTexture = true then
      if 0 ≤ r.1 then
        match r.2.data.materials[r.1.toNat]? with
        | none => .error .outOfBounds
        | some material =>
          match TMD_TexCoordsConverter.ofTexture env.ops r.2.textures.store material.map with
          | .error f => .error f
          | .ok uvconv =>
            match (if type = PrimitiveType.Line then append_line env r.2.data tmdObj primitive
                   else append_triangles env r.2.data tmdObj primitive uvconv) with
            | .error f => .error f
            | .ok data =>
              .ok (true,
                   { r.2 with
                     data := { data with
                       primitives := data.primitives ++
                         [{ index := toInt32 s.data.vertices.length, count := count,
                            type := type, materialIndex := r.1 }] } })
      else .error .outOfBounds
    else .error .assertFailed

/-- The method `TMD_ModelConverter::addPrimitive`: the value returned and the
state afterwards. -/
def addPrimitive {F : Type} (env : ConverterEnv F) (s : ConvertState F) (tmdObj : TMD_Object)
    (primitive : TMD_Primitive) : Except Fault (Bool × ConvertState F) :=
  if primitive.getCode = TMD_Code_POLYGON then
    if primitive.vertexCount = 4 then addMesh env s tmdObj primitive PrimitiveType.Quad 6
    else addMesh env s tmdObj primitive PrimitiveType.Triangle 3
  else if primitive.getCode = TMD_Code_LINE then
    addMesh env s tmdObj primitive PrimitiveType.Line 2
  else .ok (false, s)

/-- The loop of `convertObject` over the primitives `i, i + 1, ...`, `count` of
them being left. -/
def convertLoop {F : Type} (env : ConverterEnv F) (object : TMD_Object) :
    Nat → Int → ConvertState F → Except Fault (ConvertState F)
  | 0, _, s => .ok s
  | count + 1, i, s =>
    match object.m_primitives.at i with
    | .error f => .error f
    | .ok mem =>
      match TMD_Primitive.ofPacket mem with
      | .error f => .error f
      | .ok primitive =>
        match addPrimitive env s object primitive with
        | .error f => .error f
        | .ok r => convertLoop env object count (i + 1) r.2

/-- The method `TMD_ModelConverter::convertObject`: the object made, `none`
for a null pointer, and the texture cache afterwards. -/
def convertObject {F : Type} (env : ConverterEnv F) (m_textures : PSX_TextureCache)
    (object : TMD_Object) : Except Fault (Option (PSX_Object3D F) × PSX_TextureCache) :=
  if object.m_primitives.count = 0 then .ok (none, m_textures)
  else
    match convertLoop env object object.m_primitives.count.toNat 0
        { data := PSX_Object3D.empty F, m_materialsmap := [], textures := m_textures } with
    | .error f => .error f
    | .ok s => .ok (some s.data, s.textures)

/-! ## Lists of packets -/

/-- A packet given by its bytes: a header and the `4 * ilen` bytes after it. -/
def wellSized (p : List Nat) : Prop := p.length = 4 * (p.getD 1 0 % 256 + 1)

/-- The object `o` with the packets `ps` as its primitives. -/
def objectWith (o : TMD_Object) (ps : List (List Nat)) : TMD_Object :=
  { o with m_primitives := appendPackets { m_packets_data := [], m_primitive_offsets := [] } ps }

/-- The body of the loop of `convertObject`, run over packets that are given
by their bytes. -/
def convertPackets {F : Type} (env : ConverterEnv F) (object : TMD_Object) :
    List (List Nat) → ConvertState F → Except Fault (ConvertState F)
  | [], s => .ok s
  | p :: ps, s =>
    match TMD_Primitive.ofPacket p with
    | .error f => .error f
    | .ok primitive =>
      match addPrimitive env s object primitive with
      | .error f => .error f
      | .ok r => convertPackets env object ps r.2

/-- The code in the header of a packet. -/
def packetCode (p : List Nat) : Nat := extract_code_from_mode (p.getD 3 0)

/-- A sprite packet that the constructor of `TMD_Primitive` accepts: code 3,
`ilen` 2 or 3, and `ilen` 3 when the size bits of the mode are 0. -/
def isSpritePacket (p : List Nat) : Bool :=
  decide (packetCode p = TMD_Code_SPRITE) &&
    (decide (p.getD 1 0 % 256 = 2) || decide (p.getD 1 0 % 256 = 3)) &&
    (decide (spriteSizeBits (p.getD 3 0 % 256) ≠ 0) || decide (p.getD 1 0 % 256 = 3))

/-- Whether a packet is a polygon or a line. -/
def isMeshPacket (p : List Nat) : Bool :=
  decide (packetCode p = TMD_Code_POLYGON) || decide (packetCode p = TMD_Code_LINE)

/-- The type of the entry that a polygon or line packet gives. -/
def packetType (p : List Nat) : PrimitiveType :=
  if packetCode p = TMD_Code_POLYGON then
    (if isQuad (p.getD 3 0 % 256) then PrimitiveType.Quad else PrimitiveType.Triangle)
  else PrimitiveType.Line

/-- A sample environment over the rationals: exact arithmetic, no TIM images,
and `(-1, -1, -1)` standing for the normalized default normal. -/
def sampleEnv : ConverterEnv ℚ :=
  { ops := ratOps, sub := fun a b => a - b, epsilon := 1 / 10000,
    default_normal := { x := -1, y := -1, z := -1 },
    createTextureImage := fun _ _ _ => none }

/-- A sample object with three vertices and one normal, without primitives. -/
def sampleObject : TMD_Object :=
  { m_scale := 0,
    m_vertices := [⟨0, 0, 0, 0⟩, ⟨1, 0, 0, 0⟩, ⟨0, 1, 0, 0⟩],
    m_normals := [⟨0, 0, 4096, 0⟩],
    m_primitives := { m_packets_data := [], m_primitive_offsets := [] } }

/-- A flat triangle without texture: one color, one normal index and the
vertex indices 0, 1, 2. -/
def trianglePacket : List Nat := [4, 3, 0, 0x20, 10, 20, 30, 0, 0, 0, 0, 0, 1, 0, 2, 0]

/-- A sprite of size 1 by 1. -/
def spritePacket : List Nat := [0, 2, 0, 0x68, 0, 0, 0, 0, 0, 0, 0, 0]

/-- A packet whose code is 0, `TMD_Code_INVALID`. -/
def invalidPacket : List Nat := [0, 2, 0, 0x00, 0, 0, 0, 0, 0, 0, 0, 0]

/-- An empty texture cache. -/
def PSX_TextureCache.empty : PSX_TextureCache := { store := [], m_textures := [] }

/-! ## `formats/tim.cpp`: colors -/

/-- The expression `std::round(n / double(d))` for integers `n` and `d > 0`
that a `double` holds exactly: the quotient rounded to the nearest integer,
halves upwards.  The `double` quotient is the `double` nearest to `n / d`; in
the uses below `d` is 31, so that `n / d` is never nearer than `1 / 62` to a
half-integer and the rounding of the `double` is the rounding of `n / d`. -/
def roundQuotient (n d : Nat) : Nat := (2 * n + d) / (2 * d)

/-- The function `colorFromPsx16bit`, for the `u16` that `c` converts to. -/
def colorFromPsx16bit (c : Nat) : Nat :=
  let mask := 0b11111
  let red := (c % 65536) &&& mask
  let green := ((c % 65536) >>> 5) &&& mask
  let blue := ((c % 65536) >>> 10) &&& mask
  let stpbit : Bool := decide ((c % 65536) >>> 15 ≠ 0)
  let red1 := roundQuotient (red * 255) mask
  let green1 := roundQuotient (green * 255) mask
  let blue1 := roundQuotient (blue * 255) mask
  let alpha := if stpbit then 0 else 255
  let alpha1 := if red1 = 0 ∧ green1 = 0 ∧ blue1 = 0 then 255 - alpha else alpha
  (alpha1 <<< 24) ||| (red1 <<< 16) ||| (green1 <<< 8) ||| blue1

/-- The function `colorFromPsx24bit`, for the `u32` that `c` converts to. -/
def colorFromPsx24bit (c : Nat) : Nat :=
  let mask := 0xff
  let red := (c % 2 ^ 32) &&& mask
  let green := ((c % 2 ^ 32) >>> 8) &&& mask
  let blue := ((c % 2 ^ 32) >>> 8) &&& mask
  (0xff <<< 24) ||| (red <<< 16) ||| (green <<< 8) ||| blue

/-! ## `formats/tim.h`, `formats/tim.cpp`: TIM images -/

/-- The class `TimImageColorPalette`: colors in the format `0xAARRGGBB`. -/
structure TimImageColorPalette where
  m_colors : List Nat
  deriving DecidableEq, Repr

/-- The method `TimImageColorPalette::size`. -/
def TimImageColorPalette.size (p : TimImageColorPalette) : Int := toInt32 p.m_colors.length

/-- The method `TimImageColorPalette::at`; `std::vector::at` throws for an
index outside the vector. -/
def TimImageColorPalette.at (p : TimImageColorPalette) (i : Int) : Except Fault Nat :=
  if 0 ≤ i then
    match p.m_colors[i.toNat]? with
    | some c => .ok c
    | none => .error .outOfBounds
  else .error .outOfBounds

/-- The class `TimImageColorPalettes`; the counts and the coordinates are `u16`. -/
structure TimImageColorPalettes where
  m_number_of_colors : Nat
  m_number_of_palettes : Nat
  m_colors : List Nat
  m_x : Nat
  m_y : Nat
  deriving DecidableEq, Repr

/-- The method `TimImageColorPalettes::numberOfPalettes`. -/
def TimImageColorPalettes.numberOfPalettes (ps : TimImageColorPalettes) : Int :=
  (ps.m_number_of_palettes : Int)

/-- The method `TimImageColorPalettes::numberOfColorsPerPalette`. -/
def TimImageColorPalettes.numberOfColorsPerPalette (ps : TimImageColorPalettes) : Int :=
  (ps.m_number_of_colors : Int)

/-- The method `TimImageColorPalettes::fill`: the count of palettes is stored
as `u16`, and the number of colors is divided by what was stored. -/
def TimImageColorPalettes.fill (ps : TimImageColorPalettes) (colors : List Nat)
    (nbPalettes : Int) : Except Fault TimImageColorPalettes :=
  let palettes := (nbPalettes % 65536).toNat
  if palettes = 0 then .error .divisionByZero
  else
    .ok { ps with m_colors := colors, m_number_of_palettes := palettes,
                  m_number_of_colors := (colors.length / palettes) % 65536 }

/-- The method `TimImageColorPalettes::setVramCoordinates`. -/
def TimImageColorPalettes.setVramCoordinates (ps : TimImageColorPalettes) (x y : Nat) :
    TimImageColorPalettes :=
  { ps with m_x := x, m_y := y }

/-- The method `TimImageColorPalettes::palette`: the colors from
`i * m_number_of_colors` up to `(i + 1) * m_number_of_colors`, which have to
lie inside `m_colors`. -/
def TimImageColorPalettes.palette (ps : TimImageColorPalettes) (i : Int) :
    Except Fault TimImageColorPalette :=
  if 0 ≤ i ∧ (i.toNat + 1) * ps.m_number_of_colors ≤ ps.m_colors.length then
    .ok { m_colors := (ps.m_colors.drop (i.toNat * ps.m_number_of_colors)).take
            ps.m_number_of_colors }
  else .error .outOfBounds

/-- The method `TimImage::TimType::bpp` on the type word. -/
def TimType.bpp (m_data : Nat) : Int :=
  if m_data &&& 0b111 = 0 then 4
  else if m_data &&& 0b111 = 1 then 8
  else if m_data &&& 0b111 = 2 then 16
  else if m_data &&& 0b111 = 3 then 24
  else -1

/-- The method `TimImage::TimType::clut` on the type word. -/
def TimType.clut (m_data : Nat) : Bool := decide (m_data &&& 0b1000 ≠ 0)

/-- The record `TimImage::ImageData`. -/
structure ImageData where
  length : Nat
  x : Nat
  y : Nat
  width : Nat
  height : Nat
  data : List Nat
  deriving DecidableEq, Repr

/-- The class `TimImage`; `m_type` is the type word `m_type.m_data`. -/
structure TimImage where
  m_type : Nat
  m_palettes : TimImageColorPalettes
  m_imdata : ImageData
  deriving DecidableEq, Repr

/-- The record `TimImage::Image`. -/
structure TimImage.Image where
  width : Int
  height : Int
  pixelData : List Nat
  deriving DecidableEq, Repr

/-- The method `TimImage::width`; the division of `int` rounds towards zero. -/
def TimImage.width (img : TimImage) : Int :=
  Int.tdiv ((img.m_imdata.width : Int) * 16) (TimType.bpp img.m_type)

/-- The method `TimImage::height`. -/
def TimImage.height (img : TimImage) : Int := (img.m_imdata.height : Int)

/-- The method `TimImage::usesPalette`. -/
def TimImage.usesPalette (img : TimImage) : Bool := TimType.clut img.m_type

/-- The method `TimImage::numberOfPalettes`. -/
def TimImage.numberOfPalettes (img : TimImage) : Int := img.m_palettes.numberOfPalettes

/-- A product of two `int`: a result outside the range of `int` is an overflow. -/
def mulInt (a b : Int) : Except Fault Int :=
  if -(2 ^ 31) ≤ a * b ∧ a * b < 2 ^ 31 then .ok (a * b) else .error .overflow

/-- The colors `p.at(offset + k)` for the indices `k` of a list, in order. -/
def paletteColors (p : TimImageColorPalette) (offset : Int) : List Nat → Except Fault (List Nat)
  | [] => .ok []
  | k :: rest =>
    match p.at (offset + (k : Int)) with
    | .error f => .error f
    | .ok c =>
      match paletteColors p offset rest with
      | .error f => .error f
      | .ok cs => .ok (c :: cs)

/-- The loops of `generateImageFromPalette`: while the pixels are fewer than
`n`, one more word of the data is taken and the colors of its indices, which
`unpack` lists, are appended. -/
def paletteLoop (p : TimImageColorPalette) (offset : Int) (data : List Nat) (n : Nat)
    (unpack : Nat → List Nat) : Nat → Nat → List Nat → Except Fault (List Nat)
  | 0, _, pixelData => if pixelData.length < n then .error .outOfFuel else .ok pixelData
  | fuel + 1, i, pixelData =>
    if pixelData.length < n then
      match data[i]? with
      | none => .error .outOfBounds
      | some indices =>
        match paletteColors p offset (unpack indices) with
        | .error f => .error f
        | .ok colors => paletteLoop p offset data n unpack fuel (i + 1) (pixelData ++ colors)
    else .ok pixelData

/-- The four indices of a word of a 4-bpp image, lowest nibble first. -/
def nibbles (indices : Nat) : List Nat :=
  [(indices >>> 0) &&& 0xf, (indices >>> 4) &&& 0xf, (indices >>> 8) &&& 0xf,
   (indices >>> 12) &&& 0xf]

/-- The two indices of a word of an 8-bpp image, low byte first. -/
def bytePair (indices : Nat) : List Nat := [indices &&& 0xff, indices >>> 8]

/-- The method `TimImage::generateImageFromPalette`. -/
def TimImage.generateImageFromPalette (img : TimImage) (paletteIndex offset : Int) :
    Except Fault TimImage.Image :=
  match img.m_palettes.palette paletteIndex with
  | .error f => .error f
  | .ok p =>
    match mulInt img.width img.height with
    | .error f => .error f
    | .ok n =>
      if TimType.bpp img.m_type = 4 then
        match paletteLoop p offset img.m_imdata.data n.toNat nibbles (n.toNat + 1) 0 [] with
        | .error f => .error f
        | .ok pixelData => .ok { width := img.width, height := img.height, pixelData := pixelData }
      else if TimType.bpp img.m_type = 8 then
        match paletteLoop p offset img.m_imdata.data n.toNat bytePair (n.toNat + 1) 0 [] with
        | .error f => .error f
        | .ok pixelData => .ok { width := img.width, height := img.height, pixelData := pixelData }
      else .ok { width := 0, height := 0, pixelData := [] }

/-- The loop of `generateImage()` for 24 bits per pixel, `count` pixels being
left: two pixels are taken from three words, starting at an even word and at
an odd word in turn. -/
def trueColorLoop (data : List Nat) : Nat → Nat → List Nat → Except Fault (List Nat)
  | 0, _, pixelData => .ok pixelData
  | count + 1, i, pixelData =>
    if i % 2 = 0 then
      match data[i]?, data[i + 1]? with
      | some w0, some w1 =>
        trueColorLoop data count (i + 1)
          (pixelData ++ [colorFromPsx24bit (w0 ||| ((w1 &&& 0xff) <<< 16))])
      | _, _ => .error .outOfBounds
    else
      match data[i]?, data[i + 1]? with
      | some w0, some w1 =>
        trueColorLoop data count (i + 2)
          (pixelData ++ [colorFromPsx24bit ((w0 >>> 8) ||| (w1 <<< 8))])
      | _, _ => .error .outOfBounds

/-- The method `TimImage::generateImage()`. -/
def TimImage.generateImage (img : TimImage) : Except Fault TimImage.Image :=
  if img.usesPalette then img.generateImageFromPalette 0 0
  else if TimType.bpp img.m_type = 16 then
    match mulInt img.width img.height with
    | .error f => .error f
    | .ok _ =>
      .ok { width := img.width, height := img.height,
            pixelData := img.m_imdata.data.map colorFromPsx16bit }
  else if TimType.bpp img.m_type = 24 then
    match mulInt img.width img.height with
    | .error f => .error f
    | .ok _ =>
      match mulInt img.width img.width with
      | .error f => .error f
      | .ok n =>
        match trueColorLoop img.m_imdata.data n.toNat 0 [] with
        | .error f => .error f
        | .ok pixelData => .ok { width := img.width, height := img.height, pixelData := pixelData }
  else .ok { width := 0, height := 0, pixelData := [] }

/-- The method `TimImage::generateImage(int clutX, int clutY)`. -/
def TimImage.generateImageClut (img : TimImage) (x y : Int) : Except Fault TimImage.Image :=
  if img.usesPalette then
    let x1 := if x = -1 then (img.m_palettes.m_x : Int) else x
    let y1 := if y = -1 then (img.m_palettes.m_y : Int) else y
    img.generateImageFromPalette (y1 - (img.m_palettes.m_y : Int)) (x1 - (img.m_palettes.m_x : Int))
  else img.generateImage

/-- The header of a block of `readTim`: the length, the two coordinates, the
width and the height. -/
def readBlockHeader (b : Buffer) : Except Fault ((Nat × Nat × Nat × Nat × Nat) × Buffer) :=
  match readbuf 4 b with
  | .error f => .error f
  | .ok r0 =>
    match readbuf 2 r0.2 with
    | .error f => .error f
    | .ok r1 =>
      match readbuf 2 r1.2 with
      | .error f => .error f
      | .ok r2 =>
        match readbuf 2 r2.2 with
        | .error f => .error f
        | .ok r3 =>
          match readbuf 2 r3.2 with
          | .error f => .error f
          | .ok r4 => .ok ((r0.1, r1.1, r2.1, r3.1, r4.1), r4.2)

/-- The number `width * height` of words of a block, computed in `int`, and
the assertion `width * height * 2 == length - 3 * 4`, whose right side is
computed in `u32`. -/
def blockWords (width height length : Nat) : Except Fault Nat :=
  if width * height * 2 < 2 ^ 31 then
    if width * height * 2 = (length + 2 ^ 32 - 12) % 2 ^ 32 then .ok (width * height)
    else .error .assertFailed
  else .error .overflow

/-- A loop of `readTim` that reads `count` more words with `readbuf<u16>`. -/
def readWords : Nat → Buffer → List Nat → Except Fault (List Nat × Buffer)
  | 0, b, words => .ok (words, b)
  | count + 1, b, words =>
    match readbuf 2 b with
    | .error f => .error f
    | .ok r => readWords count r.2 (words ++ [r.1])

/-- The part of `readTim` that fills the palettes: the palette block when the
type has the palette bit, and `fill({}, 0)` otherwise. -/
def readPalettes (outputImage : TimImage) (buffer : Buffer) :
    Except Fault (TimImage × Buffer) :=
  if TimType.clut outputImage.m_type then
    match readBlockHeader buffer with
    | .error f => .error f
    | .ok h =>
      match blockWords h.1.2.2.2.1 h.1.2.2.2.2 h.1.1 with
      | .error f => .error f
      | .ok n =>
        match readWords n h.2 [] with
        | .error f => .error f
        | .ok ws =>
          match outputImage.m_palettes.fill (ws.1.map colorFromPsx16bit)
              (h.1.2.2.2.2 : Int) with
          | .error f => .error f
          | .ok palettes =>
            .ok ({ outputImage with
                   m_palettes := palettes.setVramCoordinates h.1.2.1 h.1.2.2.1 }, ws.2)
  else
    match outputImage.m_palettes.fill [] 0 with
    | .error f => .error f
    | .ok palettes => .ok ({ outputImage with m_palettes := palettes }, buffer)

/-- The part of `readTim` that reads the image data. -/
def readImageData (outputImage : TimImage) (buffer : Buffer) :
    Except Fault (TimImage × Buffer) :=
  match readBlockHeader buffer with
  | .error f => .error f
  | .ok h =>
    match blockWords h.1.2.2.2.1 h.1.2.2.2.2 h.1.1 with
    | .error f => .error f
    | .ok s =>
      match readWords s h.2 [] with
      | .error f => .error f
      | .ok ws =>
        .ok ({ outputImage with
               m_imdata := { length := h.1.1, x := h.1.2.1, y := h.1.2.2.1,
                             width := h.1.2.2.2.1, height := h.1.2.2.2.2, data := ws.1 } },
             ws.2)

/-- The method `TimReader::readTim(Buffer&, TimImage&)`: the value returned,
the output image and the buffer. -/
def readTim (buffer : Buffer) (outputImage : TimImage) :
    Except Fault (Bool × TimImage × Buffer) :=
  match readbuf 4 buffer with
  | .error f => .error f
  | .ok magic =>
    if magic.1 ≠ 0x10 then .ok (false, outputImage, magic.2)
    else
      match readbuf 4 magic.2 with
      | .error f => .error f
      | .ok ty =>
        if (if TimType.clut ty.1 then
              !(decide (TimType.bpp ty.1 = 4) || decide (TimType.bpp ty.1 = 4))
            else !(decide (TimType.bpp ty.1 = 16) || decide (TimType.bpp ty.1 = 24))) then
          .ok (false, { outputImage with m_type := ty.1 }, ty.2)
        else
          match readPalettes { outputImage with m_type := ty.1 } ty.2 with
          | .error f => .error f
          | .ok r1 =>
            match readImageData r1.1 r1.2 with
            | .error f => .error f
            | .ok r2 => .ok (true, r2.1, r2.2)

/-- A default-constructed `TimImage`, with 0 for the members that the class
leaves uninitialised. -/
def TimImage.new : TimImage :=
  { m_type := 0,
    m_palettes := { m_number_of_colors := 0, m_number_of_palettes := 0, m_colors := [],
                    m_x := 0, m_y := 0 },
    m_imdata := { length := 0, x := 0, y := 0, width := 0, height := 0, data := [] } }

/-! ## TIM files as the format lays them out -/

/-- The four bytes of a 32-bit word, low byte first. -/
def le32 (w : Nat) : List Nat := [w % 256, w / 256 % 256, w / 65536 % 256, w / 16777216 % 256]

/-- The bytes of a block of a TIM file: the length, the two coordinates, the
width and the height, and then the 16-bit words. -/
def timBlock (length x y width height : Nat) (words : List Nat) : List Nat :=
  le32 length ++ (le16 x ++ (le16 y ++ (le16 width ++ (le16 height ++ words.flatMap le16))))

/-- A paletted TIM file with 8 bits per pixel: type word 9, a palette block
with one palette of two colors, and an image of one word. -/
def sampleTim8 : List Nat :=
  le32 0x10 ++ le32 9 ++ timBlock 16 0 0 2 1 [0x001F, 0x03E0] ++ timBlock 14 0 0 1 1 [0x0100]

/-- A paletted TIM file with 4 bits per pixel: type word 8, a palette block
with two palettes of four colors at the VRAM coordinates (0, 480), and an
image of two words. -/
def sampleTim4 : List Nat :=
  le32 0x10 ++ le32 8
    ++ timBlock 28 0 480 4 2 [0x0000, 0x001F, 0x03E0, 0x7C00, 0x8000, 0x801F, 0x83E0, 0xFC00]
    ++ timBlock 16 320 0 1 2 [0x3210, 0x0123]

/-- A true-color TIM file with 16 bits per pixel: type word 2 and an image of
one word. -/
def sampleTim16 : List Nat :=
  le32 0x10 ++ le32 2 ++ timBlock 14 0 0 1 1 [0x001F]

/-- A decoded true-color image with 24 bits per pixel, 3 words wide and 4
rows high. -/
def sampleImage24 : TimImage :=
  { TimImage.new with
    m_type := 3,
    m_imdata := { length := 36, x := 0, y := 0, width := 3, height := 4,
                  data := [0x0201, 0x0403, 0x0605, 0x0807, 0x0A09, 0x0C0B,
                           0x0E0D, 0x100F, 0x1211, 0x1413, 0x1615, 0x1817] } }

/-- The color at the index `offset + k` of a palette, 0 standing for an index
outside it. -/
def paletteColor (p : TimImageColorPalette) (offset : Int) (k : Nat) : Nat :=
  p.m_colors.getD (offset + (k : Int)).toNat 0

/-- The image that `readTim` makes of `sampleTim4`. -/
def sampleImage4 : TimImage :=
  { m_type := 8,
    m_palettes :=
      { m_number_of_colors := 4, m_number_of_palettes := 2,
        m_colors := [0x0000, 0x001F, 0x03E0, 0x7C00, 0x8000, 0x801F, 0x83E0, 0xFC00].map
          colorFromPsx16bit,
        m_x := 0, m_y := 480 },
    m_imdata := { length := 16, x := 320, y := 0, width := 1, height := 2,
                  data := [0x3210, 0x0123] } }

/-! ## Images and rectangles -/

/-- An image that holds one pixel word for each coordinate. -/
def QImage.wellFormed (img : QImage) : Prop := img.pixels.length = img.width * img.height

/-- Two rectangles of the same size `w` by `h`, with the top-left corners
`(sx, sy)` and `(dx, dy)`, that have no pixel in common. -/
def rectsDisjoint (sx sy dx dy w h : Nat) : Prop :=
  dx + w ≤ sx ∨ sx + w ≤ dx ∨ dy + h ≤ sy ∨ sy + h ≤ dy

/-- The texture after `k` runs of the pixel loops of the texture visitor, each
followed by its `++revision`. -/
def blitTimes (ins : TextureInstruction) (k : Nat) (tex : PSX_Texture) : PSX_Texture :=
  { image := (blitImage (ins.srcX * 4) ins.srcY (ins.destX * 4) ins.destY
                (ins.width * 4) ins.height)^[k] tex.image,
    revision := tex.revision + (k : Int) }

/-- The test `material->map == t` on the material pointer `m`. -/
def mapsTo (materialStore : List PSX_Material) (t m : Nat) : Bool :=
  match materialStore[m]? with
  | some material => material.map == some t
  | none => false

/-- The number of materials of the set `done` whose texture is `t`. -/
def blitCount (materialStore : List PSX_Material) (done : List Nat) (t : Nat) : Nat :=
  (done.filter (mapsTo materialStore t)).length

/-- The state of the texture visitor in terms of the texture store `orig` that
it started from: texture `t` has been through the pixel loops once for each
material of `done` that points to it. -/
def blitInvariant (ins : TextureInstruction) (materialStore : List PSX_Material)
    (orig : List PSX_Texture) (acc : List PSX_Texture × List Nat) : Prop :=
  acc.1.length = orig.length ∧
    ∀ t, acc.1[t]? = (orig[t]?).map (blitTimes ins (blitCount materialStore acc.2 t))

/-- A material pointer that points into the material store, to a material whose
texture pointer, if not null, points into a texture store of `n` textures. -/
def materialValid (materialStore : List PSX_Material) (n m : Nat) : Prop :=
  ∃ material, materialStore[m]? = some material ∧ ∀ t, material.map = some t → t < n

/-- A model none of whose material and texture pointers dangles. -/
def CharacterModel.pointersValid {F : Type} (model : CharacterModel F) : Prop :=
  ∀ node ∈ model.nodes, ∀ ms, node.materials = some ms →
    ∀ m ∈ ms, materialValid model.materialStore model.textureStore.length m

/-- A node with the materials `ms`. -/
def nodeWith (ms : List Nat) : Object3D ℚ :=
  { m_position := ⟨0, 0, 0⟩, m_rotation := ⟨0, 0, 0⟩, m_scale := ⟨1, 1, 1⟩, materials := some ms }

/-- An image of 8 by 2 pixels whose pixel `(x, y)` holds `10 * y + x`. -/
def stripImage : QImage :=
  { width := 8, height := 2,
    pixels := [0, 1, 2, 3, 4, 5, 6, 7, 10, 11, 12, 13, 14, 15, 16, 17] }

/-- A model of one node with one material, textured by `stripImage`. -/
def texturedData : AnimationData ℚ :=
  { state := AnimationState.fresh ℚ,
    model := { nodes := [nodeWith [0]], materialStore := [{ map := some 0 }],
               textureStore := [{ image := stripImage, revision := 0 }] },
    animation := MMD_Animation.empty ℚ, infinite := false }

/-- A blit of the left half of `stripImage` onto its right half. -/
def halfBlit : TextureInstruction :=
  { timecode := 0, srcX := 0, srcY := 0, width := 1, height := 2, destX := 1, destY := 0 }

/-- The test `material->map` (a non-null texture pointer) on the material
pointer `m`. -/
def hasMap (materialStore : List PSX_Material) (m : Nat) : Bool :=
  match materialStore[m]? with
  | some material => material.map.isSome
  | none => false

/-- The material pointers that the loops of the texture visitor reach, in the
order of the visit: the materials of every `PSX_Object3D` node. -/
def visitedMaterials {F : Type} (model : CharacterModel F) : List Nat :=
  model.nodes.flatMap (fun node => node.materials.getD [])

/-- The distinct materials among the visited ones whose texture is `t`. -/
def sharers {F : Type} (model : CharacterModel F) (t : Nat) : List Nat :=
  (visitedMaterials model).dedup.filter (mapsTo model.materialStore t)

/-- An image of 4 by 3 pixels whose rows hold 1, 2 and 3. -/
def rowsImage : QImage :=
  { width := 4, height := 3, pixels := [1, 1, 1, 1, 2, 2, 2, 2, 3, 3, 3, 3] }

/-- A model of one node with two materials, one lit and one unlit, that share
one texture, as `getMaterialIndex` makes them for a page used with and
without normals. -/
def sharedData : AnimationData ℚ :=
  { state := AnimationState.fresh ℚ,
    model := { nodes := [nodeWith [0, 1]],
               materialStore := [{ lighting := true, map := some 0 },
                                 { lighting := false, map := some 0 }],
               textureStore := [{ image := rowsImage, revision := 0 }] },
    animation := MMD_Animation.empty ℚ, infinite := false }

/-- A blit that moves two rows of four pixels up by one row. -/
def scrollBlit : TextureInstruction :=
  { timecode := 0, srcX := 0, srcY := 1, width := 1, height := 2, destX := 0, destY := 0 }

/-- A blit of an empty rectangle. -/
def zeroBlit : TextureInstruction :=
  { timecode := 0, srcX := 0, srcY := 0, width := 0, height := 0, destX := 1, destY := 0 }

/-- A blit of a rectangle onto itself. -/
def selfBlit : TextureInstruction :=
  { timecode := 0, srcX := 1, srcY := 0, width := 1, height := 2, destX := 1, destY := 0 }

/-- A program that loops for ever, one round every three ticks. -/
def backLoopProgram : MMD_Animation ℚ :=
  { frameCount := 3, id := 0, initialPositions := [Position.default],
    instructions :=
      [Instruction.loopStart ⟨255⟩,
       Instruction.keyframe ⟨2, [⟨0, 1, [(Axis.POS_X, 1)]⟩]⟩,
       Instruction.loopEnd ⟨3, 0⟩] }

/-- The sample player right after `playAnimation(backLoopProgram)`. -/
def backLoopPlayer : AnimationPlayer ℚ :=
  { m_timerActive := true,
    m_animationData :=
      { state := { AnimationState.fresh ℚ with momentumData := [zeroMomentum ratOps] },
        model := { sampleModel with nodes := [setupNode ratOps sampleNode Position.default] },
        animation := backLoopProgram, infinite := false } }

/-- A program of one loop end whose `newTime` is its own timecode. -/
def selfLoopProgram : MMD_Animation ℚ :=
  { frameCount := 1, id := 0, initialPositions := [],
    instructions := [Instruction.loopEnd ⟨1, 1⟩] }

/-- The sample player right after `playAnimation(selfLoopProgram)`. -/
def selfLoopPlayer : AnimationPlayer ℚ :=
  { m_timerActive := true,
    m_animationData :=
      { state := { AnimationState.fresh ℚ with momentumData := [zeroMomentum ratOps] },
        model := sampleModel, animation := selfLoopProgram, infinite := false } }

/-! ## The instructions that a run has executed -/

/-- The indices of the instructions that the `while` loop of `step` executes
from the state `data`, in order. -/
def dispatchIndices {F : Type} (ops : FloatOps F) : Nat → AnimationData F → List Int
  | 0, _ => []
  | fuel + 1, data =>
    match dispatchable data with
    | none => []
    | some ins =>
      match dispatchBody ops data ins with
      | .error _ => [data.state.pc]
      | .ok d => data.state.pc :: dispatchIndices ops fuel d

/-- The indices of the instructions that one call of `step` executes. -/
def stepIndices {F : Type} (ops : FloatOps F) (fuel : Nat) (player : AnimationPlayer F) :
    List Int :=
  match applyMomentum ops player.m_animationData with
  | .error _ => []
  | .ok d1 => dispatchIndices ops fuel (advanceClocks d1)

/-- The indices of the instructions that `n` consecutive calls of `step`
execute. -/
def executedIndices {F : Type} (ops : FloatOps F) (fuel : Nat) :
    Nat → AnimationPlayer F → List Int
  | 0, _ => []
  | n + 1, player =>
    executedIndices ops fuel n player ++
      (match stepN ops fuel n player with
       | .error _ => []
       | .ok r => stepIndices ops fuel r.1)

/-- The state of the program counter and of the loop registers: `pc` is
inside `0 .. instructions.size()`, and `loopJumpbackIndex` is `-1` or the index,
below `pc`, of a loop start that is among the executed instructions. -/
def loopRegistersOk {F : Type} (data : AnimationData F) (executed : List Int) : Prop :=
  0 ≤ data.state.pc ∧ data.state.pc ≤ (data.animation.instructions.length : Int) ∧
  (data.state.loopJumpbackIndex = -1 ∨
    (0 ≤ data.state.loopJumpbackIndex ∧
      data.state.loopJumpbackIndex < data.state.pc ∧
      (∃ l, data.animation.instructions[data.state.loopJumpbackIndex.toNat]?
          = some (Instruction.loopStart l)) ∧
      data.state.loopJumpbackIndex ∈ executed))

/-! ## The walk over the packets of an object -/

/-- The byte offset of packet number `k` in a row of packets of which the first
starts at `base`: `base` plus the sizes `4 + 4 * ilen` of the packets before
it. -/
def packetStart (data : List Nat) (base : Nat) : Nat → Nat
  | 0 => base
  | k + 1 => packetStart data base k + (4 + 4 * packetIlen data (packetStart data base k))

/-- Calls of `TMD_PrimitiveList::append` in a row, one for each of the packets
`ps`, each packet being given by its bytes. -/
def appendAll : TMD_PrimitiveList → List (List Nat) → Except Fault TMD_PrimitiveList
  | l, [] => .ok l
  | l, p :: ps =>
    match l.append p with
    | .error f => .error f
    | .ok l1 => appendAll l1 ps

/-- The pixel `k` of a true-color block with 24 bits per pixel as the format
lays it out: opaque alpha, and red, green and blue from the bytes `3 * k`,
`3 * k + 1` and `3 * k + 2` of the words taken as little-endian bytes. -/
def specPixel24 (data : List Nat) (k : Nat) : Nat :=
  (0xff <<< 24) ||| ((data.flatMap le16).getD (3 * k) 0 <<< 16)
    ||| ((data.flatMap le16).getD (3 * k + 1) 0 <<< 8) ||| (data.flatMap le16).getD (3 * k + 2) 0

/-- A flat textured triangle: texture coordinates `(1, 2)`, `(3, 4)`, `(5, 6)`,
the CLUT word `0x7803`, the texture word `0x0085` (page 5, bit 7 set), normal
index 0 and the vertex indices 0, 1, 2. -/
def texturedPacket : List Nat :=
  [7, 5, 0, 0x24, 1, 2, 0x03, 0x78, 3, 4, 0x85, 0x00, 5, 6, 0, 0, 0, 0, 0, 0, 1, 0, 2, 0]

/-! ## Node indices of decoded animations -/

/-- Instructions in which every keyframe entry names a node below `n`. -/
def nodesBelow {F : Type} (n : Nat) (instructions : List (Instruction F)) : Prop :=
  ∀ k, Instruction.keyframe k ∈ instructions → ∀ e ∈ k.entries, e.affectedNode < n

/-- What `decode(boneCount)` leaves in an animation: no pose at all (an empty
slot) or the default pose and one pose for each of the bones
`1 .. boneCount - 1`, and node indices of six bits. -/
def decodedShape {F : Type} (boneCount : Nat) (animation : MMD_Animation F) : Prop :=
  (animation.initialPositions.length = 0 ∨
    animation.initialPositions.length = 1 + (boneCount - 1)) ∧
  nodesBelow 64 animation.instructions

/-- An animation table of one slot for one bone: frame count 1, and a keyframe
at timecode 1 with one entry for node 5 without values. -/
def strayNodeTable : List Nat :=
  [4, 0, 0, 0] ++ [1, 0] ++ [1, 0, 0x05, 0x80, 1, 0] ++ [0, 0]

/-- What `strayNodeTable` decodes to. -/
def strayNodeAnimation : MMD_Animation ℚ :=
  { frameCount := 1, id := 0, initialPositions := [Position.default],
    instructions := [Instruction.keyframe ⟨1, [⟨5, 1, []⟩]⟩] }

/-- The sample player right after `playAnimation(strayNodeAnimation)`. -/
def strayNodePlayer : AnimationPlayer ℚ :=
  { m_timerActive := true,
    m_animationData :=
      { state := { AnimationState.fresh ℚ with momentumData := [zeroMomentum ratOps] },
        model := { sampleModel with nodes := [setupNode ratOps sampleNode Position.default] },
        animation := strayNodeAnimation, infinite := false } }

/-- A player on a model without nodes. -/
def emptyPlayer : AnimationPlayer ℚ :=
  { m_timerActive := false,
    m_animationData :=
      { state := AnimationState.fresh ℚ,
        model := { nodes := [], materialStore := [], textureStore := [] },
        animation := MMD_Animation.empty ℚ, infinite := false } }

/-! ## Alignment of the mesh arrays -/

/-- The sum of the counts of a list of entries. -/
def totalCount (es : List PrimitiveInfo) : Nat := (es.map (fun e => e.count.toNat)).sum

/-- The attribute arrays of a mesh are aligned with its vertices: each of
`normals`, `colors` and `uv` is empty or as long as `vertices`. -/
def meshAligned {F : Type} (data : PSX_Object3D F) : Prop :=
  (data.normals = [] ∨ data.normals.length = data.vertices.length) ∧
  (data.colors = [] ∨ data.colors.length = data.vertices.length) ∧
  (data.uv = [] ∨ data.uv.length = data.vertices.length)

/-- The attribute arrays of a mesh while a primitive that still has `pending`
vertices to add is being appended: an array that the primitive feeds is as
long as `vertices`; an array that it does not feed is empty or has been
resized for all the vertices of the primitive. -/
def pendingAligned {F : Type} (data : PSX_Object3D F) (primitive : TMD_Primitive)
    (pending : Nat) : Prop :=
  (0 < primitive.normalCount → data.normals.length = data.vertices.length) ∧
  (primitive.normalCount = 0 →
    data.normals = [] ∨ data.normals.length = data.vertices.length + pending) ∧
  (0 < primitive.colorCount → data.colors.length = data.vertices.length) ∧
  (primitive.colorCount = 0 →
    data.colors = [] ∨ data.colors.length = data.vertices.length + pending) ∧
  (primitive.hasTexture = true → data.uv.length = data.vertices.length) ∧
  (primitive.hasTexture = false →
    data.uv = [] ∨ data.uv.length = data.vertices.length + pending)

/-- An entry is a triangle of 3, a quad of 6 or a line of 2 vertices. -/
def entryKind (e : PrimitiveInfo) : Prop :=
  (e.type = PrimitiveType.Triangle ∧ e.count = 3) ∨
    (e.type = PrimitiveType.Quad ∧ e.count = 6) ∨
    (e.type = PrimitiveType.Line ∧ e.count = 2)

/-- The entries of a mesh are aligned with its vertices: every entry is a
triangle, a quad or a line, its index is the sum of the counts of the entries
before it (as an `int`), and the counts add up to the number of vertices. -/
def entriesAligned {F : Type} (data : PSX_Object3D F) : Prop :=
  (∀ (i : Nat) (e : PrimitiveInfo), data.primitives[i]? = some e →
    e.index = toInt32 (totalCount (data.primitives.take i)) ∧ entryKind e) ∧
  totalCount data.primitives = data.vertices.length

/-- A line without gradation: one color and the vertex indices 0 and 1. -/
def linePacket : List Nat := [2, 2, 1, 0x40, 1, 2, 3, 0, 0, 0, 1, 0]

/-- An environment whose texture cache finds the image `rowsImage` for every
texture page. -/
def texturedEnv : ConverterEnv ℚ :=
  { sampleEnv with createTextureImage := fun _ _ _ => some rowsImage }

/-- A flat textured triangle with the light source calculation disabled: the
texture block of `texturedPacket`, one color and the vertex indices 0, 1, 2. -/
def unlitTexturedPacket : List Nat :=
  [7, 6, 1, 0x24, 1, 2, 0x03, 0x78, 3, 4, 0x85, 0x00, 5, 6, 0, 0, 9, 9, 9, 0,
   0, 0, 1, 0, 2, 0, 0, 0]

/-- The sample player at timecode 0, `pc = 0`, about to run the program of
`gatedData`: a call of `step` advances the clock to 1 and dispatches from
there. -/
def gatedPlayer : AnimationPlayer ℚ :=
  { m_timerActive := true,
    m_animationData := { gatedData with state := { gatedData.state with timecode := 0 } } }

/-! ## Termination of the dispatch loop -/

/-- A program in which no loop end sets the timecode to its own timecode; the
two fields are compared as the `int` that the dispatch loop compares. -/
def noSelfLoop {F : Type} (animation : MMD_Animation F) : Prop :=
  ∀ e : LoopEndInstruction, Instruction.loopEnd e ∈ animation.instructions →
    toInt32 e.newTime ≠ toInt32 e.timecode

/-- A bound on the number of iterations of the `while` loop of `step` that
depends on the length of the program only. -/
def stepBudget {F : Type} (animation : MMD_Animation F) : Nat :=
  (animation.instructions.length + 1) * (2 * animation.instructions.length + 4)

/-- The `while` loop of `step` started in the state `d` ends within `n`
iterations: no budget of `n` or more is used up. -/
def dispatchEnds {F : Type} (ops : FloatOps F) (d : AnimationData F) (n : Nat) : Prop :=
  ∀ fuel, n ≤ fuel → dispatch ops fuel d ≠ .error Fault.outOfFuel

/-- The state plays the program `a`, `pc` is inside `0 .. instructions.size()`
and `loopJumpbackIndex` is at least `-1` and below `pc`. -/
def jumpInv {F : Type} (a : MMD_Animation F) (d : AnimationData F) : Prop :=
  d.animation = a ∧ 0 ≤ d.state.pc ∧ d.state.pc ≤ (a.instructions.length : Int) ∧
  -1 ≤ d.state.loopJumpbackIndex ∧ d.state.loopJumpbackIndex < d.state.pc

/-- The instruction that a loop-back lands on, the one at
`loopJumpbackIndex + 1`, has the current timecode. -/
def landingGated {F : Type} (a : MMD_Animation F) (d : AnimationData F) : Prop :=
  ∃ ins, a.instructions[(d.state.loopJumpbackIndex + 1).toNat]? = some ins ∧
    get_timecode ins = some d.state.timecode

/-- A program with an endless loop whose loop end moves the clock forward. -/
def forwardLoopProgram : MMD_Animation ℚ :=
  { frameCount := 3, id := 0, initialPositions := [Position.default],
    instructions := [Instruction.loopStart ⟨255⟩, Instruction.loopEnd ⟨1, 3⟩] }

/-! ## The states in which a run executes its instructions -/

theorem dispatchable_eq_some {F : Type} (d : AnimationData F) (ins : Instruction F) :
    dispatchable d = some ins ↔
      currentInstruction d = some ins ∧
        (get_timecode ins = none ∨ get_timecode ins = some d.state.timecode) := by
  unfold dispatchable
  cases hc : currentInstruction d with
  | none => simp
  | some i =>
    cases ht : get_timecode i with
    | none =>
      simp only [ht, Option.getD_none, if_true, Option.some.injEq]
      constructor
      · rintro rfl; exact ⟨rfl, Or.inl ht⟩
      · rintro ⟨h, _⟩; exact h
    | some t =>
      simp only [ht, Option.getD_some]
      by_cases h : t = d.state.timecode
      · simp only [h, if_true, Option.some.injEq]
        constructor
        · rintro rfl; exact ⟨rfl, Or.inr (by rw [ht, h])⟩
        · rintro ⟨h, _⟩; exact h
      · simp only [h, if_false]
        constructor
        · intro hh; cases hh
        · rintro ⟨hi, hor⟩
          cases hi
          rcases hor with h1 | h1
          · rw [ht] at h1; cases h1
          · rw [ht] at h1; exact absurd (Option.some.inj h1) h

theorem dispatchable_eq_none {F : Type} (d : AnimationData F) :
    dispatchable d = none ↔
      ∀ ins, currentInstruction d = some ins →
        ∃ t, get_timecode ins = some t ∧ t ≠ d.state.timecode := by
  unfold dispatchable
  cases hc : currentInstruction d with
  | none => simp
  | some i =>
    cases ht : get_timecode i with
    | none => simp [ht]
    | some t =>
      by_cases h : t = d.state.timecode
      · simp [ht, h]
      · simp [ht, h]

theorem get_timecode_eq_none {F : Type} (ins : Instruction F) :
    get_timecode ins = none ↔ ∃ l, ins = Instruction.loopStart l := by
  cases ins <;> simp [get_timecode]

theorem currentInstruction_eq_some {F : Type} (d : AnimationData F) (ins : Instruction F) :
    currentInstruction d = some ins ↔
      0 ≤ d.state.pc ∧ d.state.pc.toNat < d.animation.instructions.length ∧
        d.animation.instructions[d.state.pc.toNat]? = some ins := by
  unfold currentInstruction
  by_cases h : 0 ≤ d.state.pc
  · simp only [h, if_true, true_and]
    constructor
    · intro hg
      exact ⟨(List.getElem?_eq_some.mp hg).1, hg⟩
    · exact fun hg => hg.2
  · simp [h]

theorem dispatch_ok_of_run {F : Type} (ops : FloatOps F) (d d1 : AnimationData F)
    (l : List (Instruction F)) (h : DispatchRun ops d l d1) :
    ∀ fuel, l.length < fuel → dispatch ops fuel d = .ok d1 := by
  induction h with
  | stop d hstop =>
    intro fuel hf
    cases fuel with
    | zero => omega
    | succ n =>
      have hn : dispatchable d = none := (dispatchable_eq_none d).mpr hstop
      simp [dispatch, hn]
  | next d d1 d2 d3 ins l hcur htc hex hd2 _ ih =>
    intro fuel hf
    cases fuel with
    | zero => omega
    | succ n =>
      have hs : dispatchable d = some ins := (dispatchable_eq_some d ins).mpr ⟨hcur, htc⟩
      have hl : l.length < n := by simpa using hf
      simp only [dispatch, hs, dispatchBody, hex]
      rw [← hd2]
      exact ih n hl

theorem run_of_dispatch_ok {F : Type} (ops : FloatOps F) :
    ∀ (fuel : Nat) (d d1 : AnimationData F), dispatch ops fuel d = .ok d1 →
      ∃ l, l.length < fuel ∧ DispatchRun ops d l d1 := by
  intro fuel
  induction fuel with
  | zero => intro d d1 h; simp [dispatch] at h
  | succ n ih =>
    intro d d1 h
    cases hs : dispatchable d with
    | none =>
      simp only [dispatch, hs, Except.ok.injEq] at h
      subst h
      exact ⟨[], by simp, DispatchRun.stop d ((dispatchable_eq_none d).mp hs)⟩
    | some ins =>
      cases hex : execute ops d ins with
      | error f => simp [dispatch, hs, dispatchBody, hex] at h
      | ok e =>
        simp only [dispatch, hs, dispatchBody, hex] at h
        obtain ⟨l, hl, hrun⟩ := ih _ d1 h
        have hsome := (dispatchable_eq_some d ins).mp hs
        exact ⟨ins :: l, by simpa using hl,
          DispatchRun.next d e _ d1 ins l hsome.1 hsome.2 hex rfl hrun⟩

theorem toInt32_of_lt (n : Nat) (h : n < 2 ^ 31) : toInt32 n = (n : Int) := by
  unfold toInt32
  have h1 : n % 2 ^ 32 = n := Nat.mod_eq_of_lt (by omega)
  rw [h1, if_pos h]

theorem loopEnd_fallthrough {F : Type} (b : AnimationData F) (ins : LoopEndInstruction)
    (h1 : b.state.loopCounter = 1) :
    (executeLoopEnd b ins).state.pc = b.state.pc ∧
    (executeLoopEnd b ins).state.timecode = b.state.timecode ∧
    (executeLoopEnd b ins).state.loopCounter = 0 := by
  simp [executeLoopEnd, h1]

theorem slotAfter_const_or_id {F : Type} (ops : FloatOps F) (i : Nat) (k : Fin 9)
    (ws : List (Nat × Axis × F)) :
    (∀ x, slotAfter ops i k ws x = x) ∨ (∃ c, ∀ x, slotAfter ops i k ws x = c) := by
  induction ws with
  | nil => exact Or.inl (fun x => rfl)
  | cons w ws ih =>
    rcases ih with h | ⟨c, h⟩
    · by_cases hw : w.1 = i ∧ w.2.1.toFin = k
      · exact Or.inr ⟨ops.mul w.2.2 (axisFactor ops w.2.1), fun x => by
          simp only [slotAfter, hw, and_self, if_true, h]⟩
      · exact Or.inl (fun x => by simp only [slotAfter, hw, if_false, h])
    · exact Or.inr ⟨c, fun x => by simp only [slotAfter, h]⟩

theorem slotAfter_idem {F : Type} (ops : FloatOps F) (i : Nat) (k : Fin 9)
    (ws : List (Nat × Axis × F)) (x : F) :
    slotAfter ops i k ws (slotAfter ops i k ws x) = slotAfter ops i k ws x := by
  rcases slotAfter_const_or_id ops i k ws with h | ⟨c, h⟩
  · rw [h, h]
  · rw [h, h]

theorem slotAfter_append {F : Type} (ops : FloatOps F) (i : Nat) (k : Fin 9)
    (ws1 ws2 : List (Nat × Axis × F)) (x : F) :
    slotAfter ops i k (ws1 ++ ws2) x = slotAfter ops i k ws2 (slotAfter ops i k ws1 x) := by
  induction ws1 generalizing x with
  | nil => rfl
  | cons w ws ih =>
    rw [List.cons_append]
    simp only [slotAfter]
    exact ih _

theorem slotAfter_untouched {F : Type} (ops : FloatOps F) (i : Nat) (k : Fin 9)
    (ws : List (Nat × Axis × F)) (x : F)
    (h : ∀ w ∈ ws, ¬ (w.1 = i ∧ w.2.1.toFin = k)) : slotAfter ops i k ws x = x := by
  induction ws generalizing x with
  | nil => rfl
  | cons w ws ih =>
    have hw : ¬ (w.1 = i ∧ w.2.1.toFin = k) := h w (List.mem_cons_self _ _)
    simp only [slotAfter, hw, if_false]
    exact ih x (fun w1 h1 => h w1 (List.mem_cons_of_mem _ h1))

theorem slotAfter_last {F : Type} (ops : FloatOps F) (ws1 ws2 : List (Nat × Axis × F))
    (w : Nat × Axis × F) (x : F)
    (h : ∀ w1 ∈ ws2, ¬ (w1.1 = w.1 ∧ w1.2.1.toFin = w.2.1.toFin)) :
    slotAfter ops w.1 w.2.1.toFin (ws1 ++ w :: ws2) x = ops.mul w.2.2 (axisFactor ops w.2.1) := by
  rw [slotAfter_append]
  simp only [slotAfter, and_self, if_true]
  exact slotAfter_untouched ops _ _ ws2 _ h

theorem foldl_setAxisValue_values {F : Type} (ops : FloatOps F) (i : Nat)
    (vs : List (Axis × F)) (m : AnimationMomentumData F) (k : Fin 9) :
    (vs.foldl (setAxisValue ops) m).values k
      = slotAfter ops i k (vs.map (fun p => (i, p.1, p.2))) (m.values k) := by
  induction vs generalizing m with
  | nil => rfl
  | cons p vs ih =>
    simp only [List.foldl_cons, List.map_cons, slotAfter, true_and]
    rw [ih]
    congr 1
    by_cases h : p.1.toFin = k
    · simp [setAxisValue, h]
    · simp [setAxisValue, h, Function.update_noteq (Ne.symm h)]

theorem slotAfter_other_node {F : Type} (ops : FloatOps F) (i j : Nat) (hij : j ≠ i)
    (k : Fin 9) (vs : List (Axis × F)) (x : F) :
    slotAfter ops i k (vs.map (fun p => (j, p.1, p.2))) x = x := by
  apply slotAfter_untouched
  intro w hw
  obtain ⟨p, _, rfl⟩ := List.mem_map.mp hw
  simp [hij]

theorem momentum_ext {F : Type} (l1 l2 : List (AnimationMomentumData F))
    (h : ∀ (i : Nat) (k : Fin 9),
      (l1[i]?).map (fun m => m.values k) = (l2[i]?).map (fun m => m.values k)) :
    l1 = l2 := by
  apply List.ext_getElem?
  intro n
  cases h1 : l1[n]? with
  | none =>
    cases h2 : l2[n]? with
    | none => rfl
    | some m2 => have := h n 0; simp [h1, h2] at this
  | some m1 =>
    cases h2 : l2[n]? with
    | none => have := h n 0; simp [h1, h2] at this
    | some m2 =>
      have hv : m1.values = m2.values := by
        funext k
        have := h n k
        simpa [h1, h2] using this
      cases m1; cases m2
      simp only at hv
      rw [hv]

theorem applyKeyframeEntry_ok_iff {F : Type} (ops : FloatOps F)
    (md : List (AnimationMomentumData F)) (e : KeyframeEntry F) :
    (∃ md1, applyKeyframeEntry ops md e = .ok md1) ↔ e.affectedNode < md.length := by
  unfold applyKeyframeEntry
  cases h : md[e.affectedNode]? with
  | none =>
    have := List.getElem?_eq_none_iff.mp h
    simp; omega
  | some m =>
    have := (List.getElem?_eq_some.mp h).1
    simp [this]

theorem applyKeyframeEntry_spec {F : Type} (ops : FloatOps F)
    (md md1 : List (AnimationMomentumData F)) (e : KeyframeEntry F)
    (h : applyKeyframeEntry ops md e = .ok md1) :
    md1.length = md.length ∧
    ∀ (i : Nat) (k : Fin 9), (md1[i]?).map (fun m => m.values k)
      = (md[i]?).map (fun m =>
          slotAfter ops i k (e.values.map (fun p => (e.affectedNode, p.1, p.2))) (m.values k)) := by
  unfold applyKeyframeEntry at h
  cases hg : md[e.affectedNode]? with
  | none => simp [hg] at h
  | some m =>
    simp only [hg, Except.ok.injEq] at h
    subst h
    refine ⟨by simp, ?_⟩
    intro i k
    by_cases hi : e.affectedNode = i
    · subst hi
      have hlt := (List.getElem?_eq_some.mp hg).1
      rw [List.getElem?_set_self hlt, hg]
      simp only [Option.map_some']
      rw [foldl_setAxisValue_values ops e.affectedNode]
    · rw [List.getElem?_set_ne hi]
      cases md[i]? with
      | none => rfl
      | some m1 =>
        simp only [Option.map_some']
        rw [slotAfter_other_node ops i e.affectedNode hi]

theorem applyKeyframeEntries_spec {F : Type} (ops : FloatOps F) (es : List (KeyframeEntry F)) :
    ∀ (md md1 : List (AnimationMomentumData F)), applyKeyframeEntries ops md es = .ok md1 →
      md1.length = md.length ∧
      ∀ (i : Nat) (k : Fin 9), (md1[i]?).map (fun m => m.values k)
        = (md[i]?).map (fun m => slotAfter ops i k (keyframeWrites ⟨0, es⟩) (m.values k)) := by
  induction es with
  | nil =>
    intro md md1 h
    simp only [applyKeyframeEntries, Except.ok.injEq] at h
    subst h
    refine ⟨rfl, fun i k => ?_⟩
    cases md[i]? <;> simp [keyframeWrites, slotAfter]
  | cons e es ih =>
    intro md md1 h
    cases h2 : applyKeyframeEntry ops md e with
    | error f => simp [applyKeyframeEntries, h2] at h
    | ok md2 =>
      simp only [applyKeyframeEntries, h2] at h
      obtain ⟨l1, p1⟩ := applyKeyframeEntry_spec ops md md2 e h2
      obtain ⟨l2, p2⟩ := ih md2 md1 h
      refine ⟨l2.trans l1, fun i k => ?_⟩
      rw [p2 i k]
      have hq := p1 i k
      cases hmd2 : md2[i]? with
      | none =>
        rw [hmd2] at hq
        cases hmd : md[i]? with
        | none => rfl
        | some m => rw [hmd] at hq; simp at hq
      | some m2 =>
        rw [hmd2] at hq
        cases hmd : md[i]? with
        | none => rw [hmd] at hq; simp at hq
        | some m =>
          rw [hmd] at hq
          simp only [Option.map_some', Option.some.injEq] at hq ⊢
          rw [hq]
          simp only [keyframeWrites, List.flatMap_cons]
          rw [slotAfter_append]

theorem applyKeyframeEntries_ok_iff {F : Type} (ops : FloatOps F) (es : List (KeyframeEntry F)) :
    ∀ (md : List (AnimationMomentumData F)),
      (∃ md1, applyKeyframeEntries ops md es = .ok md1) ↔
        ∀ e ∈ es, e.affectedNode < md.length := by
  induction es with
  | nil => intro md; simp [applyKeyframeEntries]
  | cons e es ih =>
    intro md
    cases h2 : applyKeyframeEntry ops md e with
    | error f =>
      have hn : ¬ e.affectedNode < md.length := fun hlt => by
        obtain ⟨md1, h⟩ := (applyKeyframeEntry_ok_iff ops md e).mpr hlt
        rw [h2] at h; cases h
      simp only [applyKeyframeEntries, h2, List.mem_cons, forall_eq_or_imp, hn, false_and,
        iff_false, not_exists]
      intro md1 h; cases h
    | ok md2 =>
      have hlt : e.affectedNode < md.length := (applyKeyframeEntry_ok_iff ops md e).mp ⟨md2, h2⟩
      have hl := (applyKeyframeEntry_spec ops md md2 e h2).1
      simp only [applyKeyframeEntries, h2, List.mem_cons, forall_eq_or_imp, hlt, true_and]
      rw [ih md2, hl]

theorem applyKeyframeEntries_idem {F : Type} (ops : FloatOps F) (es : List (KeyframeEntry F))
    (md md1 : List (AnimationMomentumData F)) (h : applyKeyframeEntries ops md es = .ok md1) :
    applyKeyframeEntries ops md1 es = .ok md1 := by
  obtain ⟨hl, hp⟩ := applyKeyframeEntries_spec ops es md md1 h
  have hin := (applyKeyframeEntries_ok_iff ops es md).mp ⟨md1, h⟩
  obtain ⟨md2, h2⟩ := (applyKeyframeEntries_ok_iff ops es md1).mpr (by rw [hl]; exact hin)
  obtain ⟨_, hp2⟩ := applyKeyframeEntries_spec ops es md1 md2 h2
  rw [h2]
  congr 1
  apply momentum_ext
  intro i k
  rw [hp2 i k]
  have hq := hp i k
  cases hmd1 : md1[i]? with
  | none => rfl
  | some m1 =>
    rw [hmd1] at hq
    cases hmd : md[i]? with
    | none => rw [hmd] at hq; simp at hq
    | some m =>
      rw [hmd] at hq
      simp only [Option.map_some', Option.some.injEq] at hq ⊢
      rw [hq, slotAfter_idem]

/-- C3: executing a keyframe instruction succeeds exactly when every entry
names an existing momentum vector; executing it a second time right after
leaves the state exactly as the first execution left it; and the first
execution changes nothing but momentum slots, each assigned slot ending up
with `value * axisFactor(axis)` of the last assignment made to it, whatever it
held before, and every other slot keeping its value.  `axisFactor` is `1` for
the position axes, `1/4096` for the scale axes and `360/4096` for the rotation
axes. -/
theorem C3_keyframe_sets_momentum {F : Type} (ops : FloatOps F) (d : AnimationData F)
    (ins : KeyframeInstruction F) :
    ((∃ d1, execute ops d (Instruction.keyframe ins) = .ok d1) ↔
      ∀ e ∈ ins.entries, e.affectedNode < d.state.momentumData.length) ∧
    (∀ d1, execute ops d (Instruction.keyframe ins) = .ok d1 →
      execute ops d1 (Instruction.keyframe ins) = .ok d1 ∧
      d1 = { d with state := { d.state with momentumData := d1.state.momentumData } } ∧
      d1.state.momentumData.length = d.state.momentumData.length ∧
      (∀ (i : Nat) (k : Fin 9), (∀ w ∈ keyframeWrites ins, ¬ (w.1 = i ∧ w.2.1.toFin = k)) →
        (d1.state.momentumData[i]?).map (fun m => m.values k)
          = (d.state.momentumData[i]?).map (fun m => m.values k)) ∧
      (∀ ws1 ws2 node axis value, keyframeWrites ins = ws1 ++ (node, axis, value) :: ws2 →
        (∀ w ∈ ws2, ¬ (w.1 = node ∧ w.2.1.toFin = axis.toFin)) →
        (d1.state.momentumData[node]?).map (fun m => m.values axis.toFin)
          = some (ops.mul value (axisFactor ops axis)))) ∧
    (axisFactor ops Axis.POS_X = ops.ofInt 1 ∧ axisFactor ops Axis.POS_Y = ops.ofInt 1 ∧
      axisFactor ops Axis.POS_Z = ops.ofInt 1 ∧
      axisFactor ops Axis.SCALE_X = ops.div (ops.ofInt 1) (ops.ofInt 4096) ∧
      axisFactor ops Axis.SCALE_Y = ops.div (ops.ofInt 1) (ops.ofInt 4096) ∧
      axisFactor ops Axis.SCALE_Z = ops.div (ops.ofInt 1) (ops.ofInt 4096) ∧
      axisFactor ops Axis.ROT_X = ops.div (ops.ofInt 360) (ops.ofInt 4096) ∧
      axisFactor ops Axis.ROT_Y = ops.div (ops.ofInt 360) (ops.ofInt 4096) ∧
      axisFactor ops Axis.ROT_Z = ops.div (ops.ofInt 360) (ops.ofInt 4096)) := by
  refine ⟨?_, ?_, rfl, rfl, rfl, rfl, rfl, rfl, rfl, rfl, rfl⟩
  · rw [← applyKeyframeEntries_ok_iff ops ins.entries d.state.momentumData]
    simp only [execute, executeKeyframe]
    cases applyKeyframeEntries ops d.state.momentumData ins.entries <;> simp
  · intro d1 h
    simp only [execute, executeKeyframe] at h ⊢
    cases hk : applyKeyframeEntries ops d.state.momentumData ins.entries with
    | error f => simp [hk] at h
    | ok md =>
      simp only [hk, Except.ok.injEq] at h
      subst h
      obtain ⟨hl, hp⟩ := applyKeyframeEntries_spec ops ins.entries _ _ hk
      have hw : keyframeWrites (⟨0, ins.entries⟩ : KeyframeInstruction F) = keyframeWrites ins :=
        rfl
      rw [hw] at hp
      refine ⟨?_, rfl, hl, ?_, ?_⟩
      · simp only [applyKeyframeEntries_idem ops ins.entries _ _ hk]
      · intro i k hno
        show (md[i]?).map _ = _
        rw [hp i k]
        cases d.state.momentumData[i]? with
        | none => rfl
        | some m => simp only [Option.map_some', slotAfter_untouched ops i k _ _ hno]
      · intro ws1 ws2 node axis value hsplit hlast
        show (md[node]?).map _ = _
        have hmem : (node, axis, value) ∈ keyframeWrites ins := by
          rw [hsplit]; simp
        have hnode : node < d.state.momentumData.length := by
          simp only [keyframeWrites, List.mem_flatMap, List.mem_map] at hmem
          obtain ⟨e, he, p, _, hp1⟩ := hmem
          have hin := (applyKeyframeEntries_ok_iff ops ins.entries d.state.momentumData).mp
            ⟨md, hk⟩ e he
          have : e.affectedNode = node := congrArg Prod.fst hp1
          omega
        rw [hp node axis.toFin, hsplit]
        rw [List.getElem?_eq_getElem hnode]
        simp only [Option.map_some']
        rw [slotAfter_last ops ws1 ws2 (node, axis, value) _ hlast]

theorem applyMomentumNode_component {F : Type} (ops : FloatOps F) (node : Object3D F)
    (momentum : AnimationMomentumData F) (axis : Axis) :
    (applyMomentumNode ops node momentum).component axis
      = ops.add (node.component axis) (momentum.values axis.toFin) := by
  cases axis <;> rfl

theorem applyMomentumNodes_ok_iff {F : Type} (ops : FloatOps F)
    (md : List (AnimationMomentumData F)) :
    ∀ nodes : List (Object3D F),
      (∃ ns, applyMomentumNodes ops nodes md = .ok ns) ↔ md.length ≤ nodes.length := by
  induction md with
  | nil => intro nodes; simp [applyMomentumNodes]
  | cons m md ih =>
    intro nodes
    cases nodes with
    | nil => simp [applyMomentumNodes]
    | cons node nodes =>
      have := ih nodes
      cases h : applyMomentumNodes ops nodes md with
      | error f =>
        rw [h] at this
        simp only [applyMomentumNodes, h, List.length_cons, Nat.add_le_add_iff_right]
        rw [← this]
      | ok ns =>
        rw [h] at this
        simp only [applyMomentumNodes, h, List.length_cons, Nat.add_le_add_iff_right]
        rw [← this]
        simp

theorem applyMomentumNodes_spec {F : Type} (ops : FloatOps F)
    (md : List (AnimationMomentumData F)) :
    ∀ (nodes ns : List (Object3D F)), applyMomentumNodes ops nodes md = .ok ns →
      ns.length = nodes.length ∧
      (∀ (i : Nat) (node : Object3D F) (m : AnimationMomentumData F),
        nodes[i]? = some node → md[i]? = some m → ns[i]? = some (applyMomentumNode ops node m)) ∧
      (∀ i : Nat, md.length ≤ i → ns[i]? = nodes[i]?) := by
  induction md with
  | nil =>
    intro nodes ns h
    cases nodes <;> simp only [applyMomentumNodes, Except.ok.injEq] at h <;> subst h <;> simp
  | cons m md ih =>
    intro nodes ns h
    cases nodes with
    | nil => simp [applyMomentumNodes] at h
    | cons node nodes =>
      cases h1 : applyMomentumNodes ops nodes md with
      | error f => simp [applyMomentumNodes, h1] at h
      | ok ns1 =>
        simp only [applyMomentumNodes, h1, Except.ok.injEq] at h
        subst h
        obtain ⟨l, p, q⟩ := ih nodes ns1 h1
        refine ⟨by simp [l], ?_, ?_⟩
        · intro i nd mm hn hm
          cases i with
          | zero =>
            simp only [List.getElem?_cons_zero, Option.some.injEq] at hn hm ⊢
            subst hn; subst hm; rfl
          | succ j =>
            simp only [List.getElem?_cons_succ] at hn hm ⊢
            exact p j nd mm hn hm
        · intro i hi
          cases i with
          | zero => simp at hi
          | succ j =>
            simp only [List.getElem?_cons_succ]
            exact q j (by simpa using hi)

theorem keyframe_last_write {F : Type} (ops : FloatOps F) (d d1 : AnimationData F)
    (ins : KeyframeInstruction F) (h : execute ops d (Instruction.keyframe ins) = .ok d1)
    (ws1 ws2 : List (Nat × Axis × F)) (node : Nat) (axis : Axis) (value : F)
    (hsplit : keyframeWrites ins = ws1 ++ (node, axis, value) :: ws2)
    (hlast : ∀ w ∈ ws2, ¬ (w.1 = node ∧ w.2.1.toFin = axis.toFin)) :
    ∃ m, d1.state.momentumData[node]? = some m ∧
      m.values axis.toFin = ops.mul value (axisFactor ops axis) := by
  simp only [execute, executeKeyframe] at h
  cases hk : applyKeyframeEntries ops d.state.momentumData ins.entries with
  | error f => simp [hk] at h
  | ok md =>
    simp only [hk, Except.ok.injEq] at h
    subst h
    obtain ⟨hl, hp⟩ := applyKeyframeEntries_spec ops ins.entries _ _ hk
    have hw : keyframeWrites (⟨0, ins.entries⟩ : KeyframeInstruction F) = keyframeWrites ins :=
      rfl
    rw [hw] at hp
    have hmem : (node, axis, value) ∈ keyframeWrites ins := by
      rw [hsplit]; simp
    have hnode : node < d.state.momentumData.length := by
      simp only [keyframeWrites, List.mem_flatMap, List.mem_map] at hmem
      obtain ⟨e, he, p, _, hp1⟩ := hmem
      have hin := (applyKeyframeEntries_ok_iff ops ins.entries d.state.momentumData).mp
        ⟨md, hk⟩ e he
      have : e.affectedNode = node := congrArg Prod.fst hp1
      omega
    have hq := hp node axis.toFin
    rw [hsplit, List.getElem?_eq_getElem hnode] at hq
    simp only [Option.map_some'] at hq
    rw [slotAfter_last ops ws1 ws2 (node, axis, value) _ hlast] at hq
    show ∃ m, md[node]? = some m ∧ _
    cases hm : md[node]? with
    | none => rw [hm] at hq; simp at hq
    | some m =>
      rw [hm] at hq
      exact ⟨m, rfl, by simpa using hq⟩

theorem applyMomentum_spec {F : Type} (ops : FloatOps F) (d d1 : AnimationData F)
    (h : applyMomentum ops d = .ok d1) :
    d1.state = d.state ∧ d1.animation = d.animation ∧
    d1.model.nodes.length = d.model.nodes.length ∧
    d1.model.materialStore = d.model.materialStore ∧
    d1.model.textureStore = d.model.textureStore ∧
    (∀ (i : Nat) (node : Object3D F) (m : AnimationMomentumData F),
      d.model.nodes[i]? = some node → d.state.momentumData[i]? = some m →
      ∃ node1, d1.model.nodes[i]? = some node1 ∧ node1.materials = node.materials ∧
        ∀ axis, node1.component axis = ops.add (node.component axis) (m.values axis.toFin)) := by
  unfold applyMomentum at h
  cases hn : applyMomentumNodes ops d.model.nodes d.state.momentumData with
  | error f => simp [hn] at h
  | ok ns =>
    simp only [hn, Except.ok.injEq] at h
    subst h
    obtain ⟨l, p, _⟩ := applyMomentumNodes_spec ops _ _ _ hn
    refine ⟨rfl, rfl, l, rfl, rfl, ?_⟩
    intro i node m h1 h2
    exact ⟨_, p i node m h1 h2, rfl, applyMomentumNode_component ops node m⟩

theorem step_ok {F : Type} (ops : FloatOps F) (fuel : Nat) (player p1 : AnimationPlayer F)
    (sigs : List Signal) (h : step ops fuel player = .ok (p1, sigs)) :
    ∃ d1 d2, applyMomentum ops player.m_animationData = .ok d1 ∧
      dispatch ops fuel (advanceClocks d1) = .ok d2 ∧ p1.m_animationData = d2 ∧
      ((pcAtEnd d2 = true ∧ p1.m_timerActive = false ∧
          sigs = [Signal.stepped, Signal.finished]) ∨
        (pcAtEnd d2 = false ∧ p1.m_timerActive = player.m_timerActive ∧
          sigs = [Signal.stepped])) := by
  unfold step at h
  cases h1 : applyMomentum ops player.m_animationData with
  | error f => simp [h1] at h
  | ok d1 =>
    cases h2 : dispatch ops fuel (advanceClocks d1) with
    | error f => simp [h1, h2] at h
    | ok d2 =>
      simp only [h1, h2] at h
      refine ⟨d1, d2, rfl, h2, ?_⟩
      cases he : pcAtEnd d2 with
      | true =>
        simp only [he, if_true, Except.ok.injEq, Prod.mk.injEq] at h
        obtain ⟨hp, hs⟩ := h
        subst hp; subst hs
        exact ⟨rfl, Or.inl ⟨rfl, rfl, rfl⟩⟩
      | false =>
        simp only [he, Bool.false_eq_true, if_false, Except.ok.injEq, Prod.mk.injEq] at h
        obtain ⟨hp, hs⟩ := h
        subst hp; subst hs
        exact ⟨rfl, Or.inr ⟨rfl, rfl, rfl⟩⟩

/-- C4: `step` starts with `applyMomentum`, before the clocks advance and
before any instruction is dispatched.  `applyMomentum` runs whenever every
momentum vector has a node, leaves the player state (the momentum vectors
included) as it was, and adds to every component of the transform of node `i`
the slot of that axis in `momentumData[i]`; so a second application adds the
same amounts again.  After a keyframe whose last assignment to an axis of a
node carried the decoded value `v`, the addition changes that component by
`v * axisFactor(axis)`, the factor entering once, at the keyframe. -/
theorem C4_momentum_applied_first {F : Type} (ops : FloatOps F) (fuel : Nat)
    (player : AnimationPlayer F) (d : AnimationData F) :
    (∀ p1 sigs, step ops fuel player = .ok (p1, sigs) →
      ∃ d1, applyMomentum ops player.m_animationData = .ok d1 ∧
        dispatch ops fuel (advanceClocks d1) = .ok p1.m_animationData) ∧
    ((∃ d1, applyMomentum ops d = .ok d1) ↔
      d.state.momentumData.length ≤ d.model.nodes.length) ∧
    (∀ d1, applyMomentum ops d = .ok d1 →
      d1.state = d.state ∧ d1.animation = d.animation ∧
      d1.model.nodes.length = d.model.nodes.length ∧
      (∀ (i : Nat) (node : Object3D F) (m : AnimationMomentumData F),
        d.model.nodes[i]? = some node → d.state.momentumData[i]? = some m →
        ∃ node1, d1.model.nodes[i]? = some node1 ∧
          (∀ axis, node1.component axis
            = ops.add (node.component axis) (m.values axis.toFin)) ∧
          ∃ d2 node2, applyMomentum ops d1 = .ok d2 ∧ d2.model.nodes[i]? = some node2 ∧
            d2.state.momentumData = d.state.momentumData ∧
            ∀ axis, node2.component axis
              = ops.add (ops.add (node.component axis) (m.values axis.toFin))
                  (m.values axis.toFin))) ∧
    (∀ (d0 d1 : AnimationData F) (ins : KeyframeInstruction F)
      (ws1 ws2 : List (Nat × Axis × F)) (i : Nat) (axis : Axis) (v : F) (node : Object3D F),
      execute ops d0 (Instruction.keyframe ins) = .ok d →
      keyframeWrites ins = ws1 ++ (i, axis, v) :: ws2 →
      (∀ w ∈ ws2, ¬ (w.1 = i ∧ w.2.1.toFin = axis.toFin)) →
      d.model.nodes[i]? = some node →
      applyMomentum ops d = .ok d1 →
      ∃ node1, d1.model.nodes[i]? = some node1 ∧
        node1.component axis = ops.add (node.component axis) (ops.mul v (axisFactor ops axis))) := by
  refine ⟨?_, ?_, ?_, ?_⟩
  · intro p1 sigs h
    obtain ⟨d1, d2, h1, h2, h3, _⟩ := step_ok ops fuel player p1 sigs h
    exact ⟨d1, h1, by rw [h3]; exact h2⟩
  · rw [← applyMomentumNodes_ok_iff ops d.state.momentumData d.model.nodes]
    unfold applyMomentum
    cases applyMomentumNodes ops d.model.nodes d.state.momentumData <;> simp
  · intro d1 h
    obtain ⟨s1, a1, l1, _, _, p1⟩ := applyMomentum_spec ops d d1 h
    refine ⟨s1, a1, l1, ?_⟩
    intro i node m hn hm
    obtain ⟨node1, g1, _, c1⟩ := p1 i node m hn hm
    have hle : d1.state.momentumData.length ≤ d1.model.nodes.length := by
      rw [s1, l1]
      have := (applyMomentumNodes_ok_iff ops d.state.momentumData d.model.nodes).mp (by
        unfold applyMomentum at h
        cases hx : applyMomentumNodes ops d.model.nodes d.state.momentumData with
        | error f => simp [hx] at h
        | ok ns => exact ⟨ns, rfl⟩)
      exact this
    obtain ⟨ns2, hns2⟩ :=
      (applyMomentumNodes_ok_iff ops d1.state.momentumData d1.model.nodes).mpr hle
    have h2 : applyMomentum ops d1
        = .ok { d1 with model := { d1.model with nodes := ns2 } } := by
      unfold applyMomentum; rw [hns2]
    obtain ⟨s2, _, _, _, _, p2⟩ := applyMomentum_spec ops d1 _ h2
    obtain ⟨node2, g2, _, c2⟩ := p2 i node1 m g1 (by rw [s1]; exact hm)
    refine ⟨node1, g1, c1, _, node2, h2, g2, ?_, ?_⟩
    · rw [s2, s1]
    · intro axis
      rw [c2 axis, c1 axis]
  · intro d0 d1 ins ws1 ws2 i axis v node hex hsplit hlast hnode hap
    obtain ⟨m, hm, hv⟩ := keyframe_last_write ops d0 d ins hex ws1 ws2 i axis v hsplit hlast
    obtain ⟨_, _, _, _, _, p1⟩ := applyMomentum_spec ops d d1 hap
    obtain ⟨node1, g1, _, c1⟩ := p1 i node m hnode hm
    exact ⟨node1, g1, by rw [c1 axis, hv]⟩

theorem applyMomentum_ok_iff {F : Type} (ops : FloatOps F) (d : AnimationData F) :
    (∃ d1, applyMomentum ops d = .ok d1) ↔
      d.state.momentumData.length ≤ d.model.nodes.length := by
  rw [← applyMomentumNodes_ok_iff ops d.state.momentumData d.model.nodes]
  unfold applyMomentum
  cases applyMomentumNodes ops d.model.nodes d.state.momentumData <;> simp

theorem currentInstruction_advanceClocks {F : Type} (d : AnimationData F) :
    currentInstruction (advanceClocks d) = currentInstruction d := rfl

theorem step_at_end {F : Type} (ops : FloatOps F) (fuel : Nat) (p : AnimationPlayer F)
    (d1 : AnimationData F) (h : applyMomentum ops p.m_animationData = .ok d1)
    (hpc : p.m_animationData.state.pc = (p.m_animationData.animation.instructions.length : Int)) :
    step ops (fuel + 1) p
      = .ok ({ m_timerActive := false, m_animationData := advanceClocks d1 },
          [Signal.stepped, Signal.finished]) := by
  obtain ⟨s1, a1, _⟩ := applyMomentum_spec ops _ d1 h
  have hpc1 : (advanceClocks d1).state.pc = ((advanceClocks d1).animation.instructions.length : Int) := by
    show d1.state.pc = (d1.animation.instructions.length : Int)
    rw [s1, a1]; exact hpc
  have hcur : currentInstruction (advanceClocks d1) = none := by
    unfold currentInstruction
    rw [hpc1]
    simp
  have hdis : dispatchable (advanceClocks d1) = none := by
    unfold dispatchable; rw [hcur]
  have hend : pcAtEnd (advanceClocks d1) = true := by
    unfold pcAtEnd
    rw [hpc1]
    simp
  unfold step
  simp only [h, dispatch, hdis, hend, if_true]

theorem step_blocked {F : Type} (ops : FloatOps F) (fuel : Nat) (p : AnimationPlayer F)
    (d1 : AnimationData F) (ins : Instruction F) (t : Int)
    (h : applyMomentum ops p.m_animationData = .ok d1)
    (hcur : currentInstruction p.m_animationData = some ins)
    (ht : get_timecode ins = some t) (hne : t ≠ p.m_animationData.state.timecode + 1) :
    step ops (fuel + 1) p
      = .ok ({ p with m_animationData := advanceClocks d1 }, [Signal.stepped]) := by
  obtain ⟨s1, a1, _⟩ := applyMomentum_spec ops _ d1 h
  have hcur1 : currentInstruction (advanceClocks d1) = some ins := by
    rw [currentInstruction_advanceClocks]
    unfold currentInstruction at hcur ⊢
    rw [s1, a1]; exact hcur
  have htc : (advanceClocks d1).state.timecode = p.m_animationData.state.timecode + 1 := by
    show d1.state.timecode + 1 = _
    rw [s1]
  have hdis : dispatchable (advanceClocks d1) = none := by
    rw [dispatchable_eq_none]
    intro i hi
    rw [hcur1] at hi
    cases hi
    exact ⟨t, ht, by rw [htc]; exact hne⟩
  have hend : pcAtEnd (advanceClocks d1) = false := by
    obtain ⟨h0, hlt, _⟩ := (currentInstruction_eq_some _ _).mp hcur1
    unfold pcAtEnd
    simp only [decide_eq_false_iff_not, not_and]
    intro _
    omega
  unfold step
  simp only [h, dispatch, hdis, hend, Bool.false_eq_true, if_false]
theorem setupNodes_ok_iff {F : Type} (ops : FloatOps F) (poses : List Position) :
    ∀ nodes : List (Object3D F),
      (∃ ns, setupNodes ops nodes poses = .ok ns) ↔ poses.length ≤ nodes.length := by
  induction poses with
  | nil => intro nodes; simp [setupNodes]
  | cons pose poses ih =>
    intro nodes
    cases nodes with
    | nil => simp [setupNodes]
    | cons node nodes =>
      have := ih nodes
      cases h : setupNodes ops nodes poses with
      | error f =>
        rw [h] at this
        simp only [setupNodes, h, List.length_cons, Nat.add_le_add_iff_right]
        rw [← this]
      | ok ns =>
        rw [h] at this
        simp only [setupNodes, h, List.length_cons, Nat.add_le_add_iff_right]
        rw [← this]
        simp

theorem setupNodes_spec {F : Type} (ops : FloatOps F) (poses : List Position) :
    ∀ (nodes ns : List (Object3D F)), setupNodes ops nodes poses = .ok ns →
      ns.length = nodes.length ∧
      (∀ (i : Nat) (node : Object3D F) (pose : Position),
        nodes[i]? = some node → poses[i]? = some pose → ns[i]? = some (setupNode ops node pose)) ∧
      (∀ i : Nat, poses.length ≤ i → ns[i]? = nodes[i]?) := by
  induction poses with
  | nil =>
    intro nodes ns h
    cases nodes <;> simp only [setupNodes, Except.ok.injEq] at h <;> subst h <;> simp
  | cons pose poses ih =>
    intro nodes ns h
    cases nodes with
    | nil => simp [setupNodes] at h
    | cons node nodes =>
      cases h1 : setupNodes ops nodes poses with
      | error f => simp [setupNodes, h1] at h
      | ok ns1 =>
        simp only [setupNodes, h1, Except.ok.injEq] at h
        subst h
        obtain ⟨l, p, q⟩ := ih nodes ns1 h1
        refine ⟨by simp [l], ?_, ?_⟩
        · intro i nd ps hn hm
          cases i with
          | zero =>
            simp only [List.getElem?_cons_zero, Option.some.injEq] at hn hm ⊢
            subst hn; subst hm; rfl
          | succ j =>
            simp only [List.getElem?_cons_succ] at hn hm ⊢
            exact p j nd ps hn hm
        · intro i hi
          cases i with
          | zero => simp at hi
          | succ j =>
            simp only [List.getElem?_cons_succ]
            exact q j (by simpa using hi)

theorem playAnimation_ok_iff {F : Type} (ops : FloatOps F) (player : AnimationPlayer F)
    (animation : MMD_Animation F) :
    (∃ p1, playAnimation ops player animation = .ok p1) ↔
      animation.initialPositions.length ≤ player.m_animationData.model.nodes.length := by
  rw [← setupNodes_ok_iff ops animation.initialPositions player.m_animationData.model.nodes]
  unfold playAnimation setupAnimation
  cases setupNodes ops player.m_animationData.model.nodes animation.initialPositions <;> simp

theorem playAnimation_spec {F : Type} (ops : FloatOps F) (player p1 : AnimationPlayer F)
    (animation : MMD_Animation F) (h : playAnimation ops player animation = .ok p1) :
    p1.m_timerActive = true ∧
    p1.m_animationData.animation = animation ∧
    p1.m_animationData.state =
      { AnimationState.fresh F with
        momentumData := List.replicate p1.m_animationData.model.nodes.length (zeroMomentum ops) } ∧
    p1.m_animationData.model.nodes.length = player.m_animationData.model.nodes.length ∧
    p1.m_animationData.model.materialStore = player.m_animationData.model.materialStore ∧
    p1.m_animationData.model.textureStore = player.m_animationData.model.textureStore ∧
    (∀ (i : Nat) (node : Object3D F) (pose : Position),
      player.m_animationData.model.nodes[i]? = some node →
      animation.initialPositions[i]? = some pose →
      p1.m_animationData.model.nodes[i]? = some (setupNode ops node pose)) ∧
    (∀ i : Nat, animation.initialPositions.length ≤ i →
      p1.m_animationData.model.nodes[i]? = player.m_animationData.model.nodes[i]?) := by
  unfold playAnimation setupAnimation at h
  cases hs : setupNodes ops player.m_animationData.model.nodes animation.initialPositions with
  | error f => simp [hs] at h
  | ok ns =>
    simp only [hs, Except.ok.injEq] at h
    subst h
    obtain ⟨l, p, q⟩ := setupNodes_spec ops _ _ _ hs
    exact ⟨rfl, rfl, rfl, l, rfl, rfl, p, q⟩

/-- C7: `playAnimation(animation)` runs whenever the animation has no more
initial poses than the model has nodes.  Its result does not depend on the
previous player state: the state is `frameNum 0, timecode 0, pc 0,
loopCounter 0, loopJumpbackIndex -1` with one momentum vector of nine zeros
per node, the animation is the given one and the timer runs.  Every node `i`
that has an initial pose gets position `(posX, posY, posZ)`, scale
`(scaleX, scaleY, scaleZ) / 4096` and rotation `(rotX, rotY, rotZ) * 360 / 4096`;
the other nodes keep their transform. -/
theorem C7_playAnimation_resets {F : Type} (ops : FloatOps F) (player : AnimationPlayer F)
    (animation : MMD_Animation F)
    (hposes : animation.initialPositions.length ≤ player.m_animationData.model.nodes.length) :
    ∃ p1, playAnimation ops player animation = .ok p1 ∧
      (∀ st : AnimationState F,
        playAnimation ops
          { player with m_animationData := { player.m_animationData with state := st } } animation
          = .ok p1) ∧
      p1.m_timerActive = true ∧
      p1.m_animationData.animation = animation ∧
      p1.m_animationData.state.frameNum = 0 ∧
      p1.m_animationData.state.timecode = 0 ∧
      p1.m_animationData.state.pc = 0 ∧
      p1.m_animationData.state.loopCounter = 0 ∧
      p1.m_animationData.state.loopJumpbackIndex = -1 ∧
      p1.m_animationData.state.momentumData.length = p1.m_animationData.model.nodes.length ∧
      (∀ m ∈ p1.m_animationData.state.momentumData, ∀ k : Fin 9, m.values k = ops.ofInt 0) ∧
      p1.m_animationData.model.nodes.length = player.m_animationData.model.nodes.length ∧
      (∀ (i : Nat) (node : Object3D F) (pose : Position),
        player.m_animationData.model.nodes[i]? = some node →
        animation.initialPositions[i]? = some pose →
        ∃ node1, p1.m_animationData.model.nodes[i]? = some node1 ∧
          node1.m_position
            = { x := ops.ofInt pose.posX, y := ops.ofInt pose.posY, z := ops.ofInt pose.posZ } ∧
          node1.m_scale
            = { x := ops.div (ops.ofInt pose.scaleX) (ops.ofInt 4096),
                y := ops.div (ops.ofInt pose.scaleY) (ops.ofInt 4096),
                z := ops.div (ops.ofInt pose.scaleZ) (ops.ofInt 4096) } ∧
          node1.m_rotation
            = { x := ops.div (ops.mul (ops.ofInt pose.rotX) (ops.ofInt 360)) (ops.ofInt 4096),
                y := ops.div (ops.mul (ops.ofInt pose.rotY) (ops.ofInt 360)) (ops.ofInt 4096),
                z := ops.div (ops.mul (ops.ofInt pose.rotZ) (ops.ofInt 360)) (ops.ofInt 4096) } ∧
          node1.materials = node.materials) ∧
      (∀ i : Nat, animation.initialPositions.length ≤ i →
        p1.m_animationData.model.nodes[i]? = player.m_animationData.model.nodes[i]?) := by
  obtain ⟨p1, h⟩ := (playAnimation_ok_iff ops player animation).mpr hposes
  obtain ⟨t1, a1, s1, l1, _, _, n1, r1⟩ := playAnimation_spec ops player p1 animation h
  refine ⟨p1, h, fun st => ?_, t1, a1, ?_, ?_, ?_, ?_, ?_, ?_, ?_, l1, ?_, r1⟩
  · rw [← h]; rfl
  · rw [s1]; rfl
  · rw [s1]; rfl
  · rw [s1]; rfl
  · rw [s1]; rfl
  · rw [s1]; rfl
  · rw [s1]; simp
  · intro m hm k
    rw [s1] at hm
    have := List.eq_of_mem_replicate hm
    rw [this]; rfl
  · intro i node pose hn hp
    exact ⟨_, n1 i node pose hn hp, rfl, rfl, rfl, rfl⟩

/-- Witness for C7 on the sample player and a one-pose animation. -/
theorem C7_playAnimation_resets_witness :
    ∃ p1, playAnimation ratOps samplePlayer (singleKeyframe 1 4096 1 [Position.default]) = .ok p1 ∧
      p1.m_animationData.state.loopJumpbackIndex = -1 ∧
      nodePosX p1 0 = some 0 := by
  obtain ⟨p1, h, _, _, _, _, _, _, _, hj, _, _, _, hn, _⟩ :=
    C7_playAnimation_resets ratOps samplePlayer (singleKeyframe 1 4096 1 [Position.default])
      (by decide)
  obtain ⟨node1, g1, g2, _⟩ := hn 0 sampleNode Position.default rfl rfl
  refine ⟨p1, h, hj, ?_⟩
  unfold nodePosX
  rw [g1]
  simp [g2, ratOps, Position.default]
theorem applyMomentum_posX {F : Type} (ops : FloatOps F) (p : AnimationPlayer F)
    (d1 : AnimationData F) (x : F) (m : AnimationMomentumData F)
    (h : applyMomentum ops p.m_animationData = .ok d1)
    (hx : nodePosX p 0 = some x) (hm : p.m_animationData.state.momentumData[0]? = some m) :
    (d1.model.nodes[0]?).map (fun node => node.m_position.x)
      = some (ops.add x (m.values Axis.POS_X.toFin)) := by
  obtain ⟨_, _, _, _, _, p1⟩ := applyMomentum_spec ops _ d1 h
  unfold nodePosX at hx
  cases hn : p.m_animationData.model.nodes[0]? with
  | none => rw [hn] at hx; simp at hx
  | some node =>
    rw [hn] at hx
    simp only [Option.map_some', Option.some.injEq] at hx
    obtain ⟨node1, g1, _, c1⟩ := p1 0 node m hn hm
    rw [g1]
    simp only [Option.map_some', Option.some.injEq]
    have := c1 Axis.POS_X
    rw [← hx]
    exact this

theorem step_at_end_posX {F : Type} (ops : FloatOps F) (fuel : Nat) (p : AnimationPlayer F)
    (x : F) (m : AnimationMomentumData F)
    (hpc : p.m_animationData.state.pc = (p.m_animationData.animation.instructions.length : Int))
    (hlen : p.m_animationData.state.momentumData.length ≤ p.m_animationData.model.nodes.length)
    (hx : nodePosX p 0 = some x) (hm : p.m_animationData.state.momentumData[0]? = some m) :
    ∃ p1, step ops (fuel + 1) p = .ok (p1, [Signal.stepped, Signal.finished]) ∧
      nodePosX p1 0 = some (ops.add x (m.values Axis.POS_X.toFin)) ∧
      p1.m_timerActive = false ∧
      p1.m_animationData.state.pc = p.m_animationData.state.pc ∧
      p1.m_animationData.animation = p.m_animationData.animation ∧
      p1.m_animationData.state.momentumData = p.m_animationData.state.momentumData ∧
      p1.m_animationData.model.nodes.length = p.m_animationData.model.nodes.length := by
  obtain ⟨d1, h⟩ := (applyMomentum_ok_iff ops p.m_animationData).mpr hlen
  obtain ⟨s1, a1, l1, _⟩ := applyMomentum_spec ops _ d1 h
  refine ⟨_, step_at_end ops fuel p d1 h hpc, ?_, rfl, ?_, a1, ?_, l1⟩
  · exact applyMomentum_posX ops p d1 x m h hx hm
  · show d1.state.pc = _
    rw [s1]
  · show d1.state.momentumData = _
    rw [s1]

theorem step_blocked_posX {F : Type} (ops : FloatOps F) (fuel : Nat) (p : AnimationPlayer F)
    (x : F) (m : AnimationMomentumData F) (ins : Instruction F) (t : Int)
    (hcur : currentInstruction p.m_animationData = some ins)
    (ht : get_timecode ins = some t) (hne : t ≠ p.m_animationData.state.timecode + 1)
    (hlen : p.m_animationData.state.momentumData.length ≤ p.m_animationData.model.nodes.length)
    (hx : nodePosX p 0 = some x) (hm : p.m_animationData.state.momentumData[0]? = some m) :
    ∃ p1, step ops (fuel + 1) p = .ok (p1, [Signal.stepped]) ∧
      nodePosX p1 0 = some (ops.add x (m.values Axis.POS_X.toFin)) ∧
      p1.m_timerActive = p.m_timerActive ∧
      p1.m_animationData.state.pc = p.m_animationData.state.pc ∧
      p1.m_animationData.state.timecode = p.m_animationData.state.timecode + 1 ∧
      p1.m_animationData.animation = p.m_animationData.animation ∧
      p1.m_animationData.state.momentumData = p.m_animationData.state.momentumData ∧
      p1.m_animationData.model.nodes.length = p.m_animationData.model.nodes.length := by
  obtain ⟨d1, h⟩ := (applyMomentum_ok_iff ops p.m_animationData).mpr hlen
  obtain ⟨s1, a1, l1, _⟩ := applyMomentum_spec ops _ d1 h
  refine ⟨_, step_blocked ops fuel p d1 ins t h hcur ht hne, ?_, rfl, ?_, ?_, a1, ?_, l1⟩
  · exact applyMomentum_posX ops p d1 x m h hx hm
  · show d1.state.pc = _
    rw [s1]
  · show d1.state.timecode + 1 = _
    rw [s1]
  · show d1.state.momentumData = _
    rw [s1]

theorem step_fires_single_keyframe {F : Type} (ops : FloatOps F) (fuel : Nat)
    (p : AnimationPlayer F) (x v : F) (m : AnimationMomentumData F) (tc scale : Nat)
    (hins : p.m_animationData.animation.instructions
      = [Instruction.keyframe ⟨tc, [⟨0, scale, [(Axis.POS_X, v)]⟩]⟩])
    (hpc : p.m_animationData.state.pc = 0)
    (htc : toInt32 tc = p.m_animationData.state.timecode + 1)
    (hlen : p.m_animationData.state.momentumData.length ≤ p.m_animationData.model.nodes.length)
    (hx : nodePosX p 0 = some x) (hm : p.m_animationData.state.momentumData[0]? = some m) :
    ∃ p1, step ops (fuel + 2) p = .ok (p1, [Signal.stepped, Signal.finished]) ∧
      nodePosX p1 0 = some (ops.add x (m.values Axis.POS_X.toFin)) ∧
      p1.m_timerActive = false ∧
      p1.m_animationData.state.pc = 1 ∧
      p1.m_animationData.animation = p.m_animationData.animation ∧
      p1.m_animationData.state.momentumData
        = p.m_animationData.state.momentumData.set 0 (setAxisValue ops m (Axis.POS_X, v)) ∧
      p1.m_animationData.model.nodes.length = p.m_animationData.model.nodes.length := by
  obtain ⟨d1, h⟩ := (applyMomentum_ok_iff ops p.m_animationData).mpr hlen
  obtain ⟨s1, a1, l1, _⟩ := applyMomentum_spec ops _ d1 h
  have hposx := applyMomentum_posX ops p d1 x m h hx hm
  have e_ins : (advanceClocks d1).animation.instructions
      = [Instruction.keyframe ⟨tc, [⟨0, scale, [(Axis.POS_X, v)]⟩]⟩] := by
    show d1.animation.instructions = _
    rw [a1]; exact hins
  have e_pc : (advanceClocks d1).state.pc = 0 := by
    show d1.state.pc = 0
    rw [s1]; exact hpc
  have e_tc : (advanceClocks d1).state.timecode = toInt32 tc := by
    show d1.state.timecode + 1 = _
    rw [s1, htc]
  have e_md : (advanceClocks d1).state.momentumData[0]? = some m := by
    show d1.state.momentumData[0]? = _
    rw [s1]; exact hm
  have hdis : dispatchable (advanceClocks d1)
      = some (Instruction.keyframe ⟨tc, [⟨0, scale, [(Axis.POS_X, v)]⟩]⟩) := by
    rw [dispatchable_eq_some]
    refine ⟨?_, Or.inr ?_⟩
    · unfold currentInstruction
      rw [e_pc, e_ins]; rfl
    · rw [e_tc]; rfl
  have hbody : dispatchBody ops (advanceClocks d1)
      (Instruction.keyframe ⟨tc, [⟨0, scale, [(Axis.POS_X, v)]⟩]⟩)
      = .ok { advanceClocks d1 with
          state := { (advanceClocks d1).state with
            momentumData := (advanceClocks d1).state.momentumData.set 0
              (setAxisValue ops m (Axis.POS_X, v)),
            pc := (advanceClocks d1).state.pc + 1 } } := by
    simp only [dispatchBody, execute, executeKeyframe, applyKeyframeEntries, applyKeyframeEntry,
      e_md, List.foldl_cons, List.foldl_nil]
  have hdis2 : dispatchable
      ({ advanceClocks d1 with
          state := { (advanceClocks d1).state with
            momentumData := (advanceClocks d1).state.momentumData.set 0
              (setAxisValue ops m (Axis.POS_X, v)),
            pc := (advanceClocks d1).state.pc + 1 } } : AnimationData F) = none := by
    unfold dispatchable currentInstruction
    simp only [e_pc, e_ins]
    rfl
  have hend : pcAtEnd
      ({ advanceClocks d1 with
          state := { (advanceClocks d1).state with
            momentumData := (advanceClocks d1).state.momentumData.set 0
              (setAxisValue ops m (Axis.POS_X, v)),
            pc := (advanceClocks d1).state.pc + 1 } } : AnimationData F) = true := by
    unfold pcAtEnd
    simp only [e_pc, e_ins]
    rfl
  refine ⟨{ m_timerActive := false,
            m_animationData :=
              { advanceClocks d1 with
                state := { (advanceClocks d1).state with
                  momentumData := (advanceClocks d1).state.momentumData.set 0
                    (setAxisValue ops m (Axis.POS_X, v)),
                  pc := (advanceClocks d1).state.pc + 1 } } },
    ?_, hposx, rfl, ?_, a1, ?_, l1⟩
  · unfold step
    simp only [h, dispatch, hdis, hbody, hdis2, hend, if_true]
  · show (advanceClocks d1).state.pc + 1 = 1
    rw [e_pc]; rfl
  · show (advanceClocks d1).state.momentumData.set 0 _ = _
    show d1.state.momentumData.set 0 _ = _
    rw [s1]
theorem playAnimation_model_eq {F : Type} (ops : FloatOps F) (player p1 p2 : AnimationPlayer F)
    (a1 a2 : MMD_Animation F) (h1 : playAnimation ops player a1 = .ok p1)
    (h2 : playAnimation ops player a2 = .ok p2)
    (hposes : a1.initialPositions = a2.initialPositions) :
    p1.m_animationData.model = p2.m_animationData.model := by
  unfold playAnimation setupAnimation at h1 h2
  rw [hposes] at h1
  cases hs : setupNodes ops player.m_animationData.model.nodes a2.initialPositions with
  | error f => simp [hs] at h1
  | ok ns =>
    simp only [hs, Except.ok.injEq] at h1 h2
    subst h1; subst h2
    rfl

theorem toInt32_zero : toInt32 0 = 0 := by decide

theorem toInt32_one : toInt32 1 = 1 := by decide

theorem blocked_keyframe_ticks {F : Type} (ops : FloatOps F) (fuel : Nat)
    (q0 : AnimationPlayer F) (x0 v : F) (scale k : Nat)
    (hins : q0.m_animationData.animation.instructions
      = [Instruction.keyframe ⟨0, [⟨0, scale, [(Axis.POS_X, v)]⟩]⟩])
    (hpc : q0.m_animationData.state.pc = 0)
    (htc : q0.m_animationData.state.timecode = 0)
    (hmd : q0.m_animationData.state.momentumData = List.replicate (k + 1) (zeroMomentum ops))
    (hlen : q0.m_animationData.model.nodes.length = k + 1)
    (hx : nodePosX q0 0 = some x0) :
    ∀ n : Nat, ∃ qn, stepN ops (fuel + 1) n q0 = .ok (qn, List.replicate n Signal.stepped) ∧
      nodePosX qn 0 = some ((fun x => ops.add x (ops.ofInt 0))^[n] x0) ∧
      qn.m_timerActive = q0.m_timerActive ∧
      qn.m_animationData.state.pc = 0 ∧
      qn.m_animationData.state.timecode = (n : Int) ∧
      qn.m_animationData.animation = q0.m_animationData.animation ∧
      qn.m_animationData.state.momentumData = List.replicate (k + 1) (zeroMomentum ops) ∧
      qn.m_animationData.model.nodes.length = k + 1 := by
  intro n
  induction n with
  | zero => exact ⟨q0, rfl, hx, rfl, hpc, by simpa using htc, rfl, hmd, hlen⟩
  | succ n ih =>
    obtain ⟨qn, hrun, hxn, htm, hpcn, htcn, han, hmdn, hln⟩ := ih
    have hcur : currentInstruction qn.m_animationData
        = some (Instruction.keyframe ⟨0, [⟨0, scale, [(Axis.POS_X, v)]⟩]⟩) := by
      unfold currentInstruction
      rw [hpcn, han, hins]; rfl
    have hne : (0 : Int) ≠ qn.m_animationData.state.timecode + 1 := by
      rw [htcn]; omega
    have hm0 : qn.m_animationData.state.momentumData[0]? = some (zeroMomentum ops) := by
      rw [hmdn]; simp
    obtain ⟨q1, hstep, hx1, ht1, hpc1, htc1, ha1, hmd1, hl1⟩ :=
      step_blocked_posX ops fuel qn _ (zeroMomentum ops) _ 0 hcur
        (by simp [get_timecode, toInt32_zero]) hne (by rw [hmdn, hln]; simp) hxn hm0
    refine ⟨q1, ?_, ?_, ?_, ?_, ?_, ?_, ?_, ?_⟩
    · simp only [stepN, hrun, hstep, List.replicate_succ']
    · rw [hx1, Function.iterate_succ_apply']
      rfl
    · rw [ht1, htm]
    · rw [hpc1, hpcn]
    · rw [htc1, htcn]; push_cast; rfl
    · rw [ha1, han]
    · rw [hmd1, hmdn]
    · rw [hl1, hln]

/-- C5 as amended: for a program whose only instruction is a keyframe with
timecode 1 that gives `posX` of node 0 the decoded value `v`, started with
`playAnimation`, the first call of `step` adds only the zero momentum to
`node0.position.x`, executes the keyframe and signals `finished` with `pc = 1`;
the second call adds `v * 1` and the third adds `v * 1` again.  With timecode 0
the keyframe is not executed on any tick: after every number of ticks
`position.x` has only received zero momentum, `pc` is still `0`, the timer
still runs and only `stepped` has been signalled. -/
theorem C5_single_keyframe_run {F : Type} (ops : FloatOps F) (fuel n : Nat)
    (player p0 q0 : AnimationPlayer F) (scale : Nat) (v x0 : F) (poses : List Position)
    (hp : playAnimation ops player (singleKeyframe 1 scale v poses) = .ok p0)
    (hq : playAnimation ops player (singleKeyframe 0 scale v poses) = .ok q0)
    (hx : nodePosX p0 0 = some x0) :
    (∃ p1 p2 p3,
      step ops (fuel + 2) p0 = .ok (p1, [Signal.stepped, Signal.finished]) ∧
      nodePosX p1 0 = some (ops.add x0 (ops.ofInt 0)) ∧
      p1.m_timerActive = false ∧ p1.m_animationData.state.pc = 1 ∧
      step ops (fuel + 1) p1 = .ok (p2, [Signal.stepped, Signal.finished]) ∧
      nodePosX p2 0 = some (ops.add (ops.add x0 (ops.ofInt 0)) (ops.mul v (ops.ofInt 1))) ∧
      step ops (fuel + 1) p2 = .ok (p3, [Signal.stepped, Signal.finished]) ∧
      nodePosX p3 0
        = some (ops.add (ops.add (ops.add x0 (ops.ofInt 0)) (ops.mul v (ops.ofInt 1)))
            (ops.mul v (ops.ofInt 1)))) ∧
    (∃ qn, stepN ops (fuel + 1) n q0 = .ok (qn, List.replicate n Signal.stepped) ∧
      nodePosX qn 0 = some ((fun x => ops.add x (ops.ofInt 0))^[n] x0) ∧
      qn.m_timerActive = true ∧
      qn.m_animationData.state.pc = 0 ∧
      qn.m_animationData.animation.instructions.length = 1) := by
  obtain ⟨tp, ap, sp, lp, _⟩ := playAnimation_spec ops player p0 _ hp
  obtain ⟨tq, aq, sq, lq, _⟩ := playAnimation_spec ops player q0 _ hq
  have hmodel := playAnimation_model_eq ops player p0 q0 _ _ hp hq rfl
  obtain ⟨k, hk⟩ : ∃ k, p0.m_animationData.model.nodes.length = k + 1 := by
    unfold nodePosX at hx
    cases hn : p0.m_animationData.model.nodes with
    | nil => rw [hn] at hx; simp at hx
    | cons a l => exact ⟨l.length, rfl⟩
  constructor
  · have hmd : p0.m_animationData.state.momentumData
        = List.replicate (k + 1) (zeroMomentum ops) := by rw [sp, hk]
    have hm0 : p0.m_animationData.state.momentumData[0]? = some (zeroMomentum ops) := by
      rw [hmd]; simp
    obtain ⟨p1, h1, x1, t1, pc1, a1, md1, l1⟩ :=
      step_fires_single_keyframe ops fuel p0 x0 v (zeroMomentum ops) 1 scale
        (by rw [ap]; rfl) (by rw [sp]; rfl) (by rw [sp, toInt32_one]; rfl)
        (by rw [hmd, hk]; simp) hx hm0
    have hm1 : p1.m_animationData.state.momentumData[0]?
        = some (setAxisValue ops (zeroMomentum ops) (Axis.POS_X, v)) := by
      rw [md1, hmd]; simp
    have hv : (setAxisValue ops (zeroMomentum ops) (Axis.POS_X, v)).values Axis.POS_X.toFin
        = ops.mul v (ops.ofInt 1) := by
      simp [setAxisValue, axisFactor]
    have hlen1 : p1.m_animationData.state.momentumData.length
        ≤ p1.m_animationData.model.nodes.length := by
      rw [md1, l1, hmd, hk]; simp
    obtain ⟨p2, h2, x2, _, pc2, a2, md2, l2⟩ :=
      step_at_end_posX ops fuel p1 _ _ (by rw [pc1, a1, ap]; rfl) hlen1 x1 hm1
    obtain ⟨p3, h3, x3, _, _, _, _, _⟩ :=
      step_at_end_posX ops fuel p2 _ _ (by rw [pc2, pc1, a2, a1, ap]; rfl)
        (by rw [md2, l2]; exact hlen1) x2 (by rw [md2]; exact hm1)
    refine ⟨p1, p2, p3, h1, x1, t1, pc1, h2, ?_, h3, ?_⟩
    · rw [x2, hv]; rfl
    · rw [x3, hv]; rfl
  · obtain ⟨qn, r1, r2, r3, r4, _, r6, _, _⟩ :=
      blocked_keyframe_ticks ops fuel q0 x0 v scale k (by rw [aq]; rfl) (by rw [sq]; rfl)
        (by rw [sq]; rfl) (by rw [sq, ← hmodel, hk]) (by rw [← hmodel]; exact hk)
        (by unfold nodePosX at hx ⊢; rw [← hmodel]; exact hx) n
    exact ⟨qn, r1, r2, by rw [r3, tq], r4, by rw [r6, aq]; rfl⟩
theorem dispatch_fuel_mono {F : Type} (ops : FloatOps F) (fuel k : Nat)
    (d d1 : AnimationData F) (h : dispatch ops fuel d = .ok d1) :
    dispatch ops (fuel + k) d = .ok d1 := by
  obtain ⟨l, hl, hrun⟩ := run_of_dispatch_ok ops fuel d d1 h
  exact dispatch_ok_of_run ops d d1 l hrun (fuel + k) (by omega)

theorem step_fuel_mono {F : Type} (ops : FloatOps F) (fuel k : Nat)
    (p : AnimationPlayer F) (r : AnimationPlayer F × List Signal)
    (h : step ops fuel p = .ok r) : step ops (fuel + k) p = .ok r := by
  unfold step at h ⊢
  cases h1 : applyMomentum ops p.m_animationData with
  | error f => simp [h1] at h
  | ok d1 =>
    cases h2 : dispatch ops fuel (advanceClocks d1) with
    | error f => simp [h1, h2] at h
    | ok d2 =>
      simp only [h1, h2] at h
      simp only [dispatch_fuel_mono ops fuel k _ d2 h2]
      exact h

theorem pcAtEnd_iff {F : Type} (d : AnimationData F) :
    pcAtEnd d = true ↔ d.state.pc = (d.animation.instructions.length : Int) := by
  unfold pcAtEnd
  simp only [decide_eq_true_eq]
  omega

theorem dispatch_stuck {F : Type} (ops : FloatOps F) (d : AnimationData F)
    (ins : Instruction F) (h1 : dispatchable d = some ins)
    (h2 : dispatchBody ops d ins = .ok d) :
    ∀ fuel, dispatch ops fuel d = .error Fault.outOfFuel := by
  intro fuel
  induction fuel with
  | zero => rfl
  | succ n ih => simp only [dispatch, h1, h2, ih]

/-- C6, counterexample: on the sample player playing `livelockProgram` no call
of `step` returns, whatever the iteration budget, so the call signals neither
`stepped` nor `finished`. -/
theorem C6_counterexample :
    playAnimation ratOps samplePlayer livelockProgram = .ok livelockPlayer ∧
    (∀ fuel, step ratOps fuel livelockPlayer = .error Fault.outOfFuel) ∧
    ¬ ∃ fuel r, step ratOps fuel livelockPlayer = .ok r := by
  have hall : ∀ fuel, step ratOps fuel livelockPlayer = .error Fault.outOfFuel := by
    intro fuel
    cases fuel with
    | zero => rfl
    | succ n =>
      have happ : applyMomentum ratOps livelockPlayer.m_animationData
          = .ok { livelockPlayer.m_animationData with
              model := { livelockPlayer.m_animationData.model with
                nodes := [applyMomentumNode ratOps sampleNode (zeroMomentum ratOps)] } } := rfl
      have hfirst : dispatch ratOps (n + 1) (advanceClocks
            { livelockPlayer.m_animationData with
              model := { livelockPlayer.m_animationData.model with
                nodes := [applyMomentumNode ratOps sampleNode (zeroMomentum ratOps)] } })
          = dispatch ratOps n
              { state := { frameNum := 1, timecode := 1, loopCounter := 255,
                           loopJumpbackIndex := 0, pc := 1,
                           momentumData := [zeroMomentum ratOps] },
                model := { nodes := [applyMomentumNode ratOps sampleNode (zeroMomentum ratOps)],
                           materialStore := [], textureStore := [] },
                animation := livelockProgram, infinite := false } := rfl
      have hs := dispatch_stuck ratOps
        ({ state := { frameNum := 1, timecode := 1, loopCounter := 255, loopJumpbackIndex := 0,
                      pc := 1, momentumData := [zeroMomentum ratOps] },
           model := { nodes := [applyMomentumNode ratOps sampleNode (zeroMomentum ratOps)],
                      materialStore := [], textureStore := [] },
           animation := livelockProgram, infinite := false } : AnimationData ℚ)
        (Instruction.loopEnd ⟨1, 1⟩) rfl rfl n
      unfold step
      simp only [happ, hfirst, hs]
  refine ⟨rfl, hall, ?_⟩
  rintro ⟨fuel, r, h⟩
  rw [hall fuel] at h
  cases h
/-- C6 as amended: every call of `step` that returns signals `stepped` exactly
once and first, and signals `finished` (once, with the timer stopped) exactly
when the program counter then equals the number of instructions; otherwise the
timer is left as it was, so a playing player keeps playing.  A call that
returns within some iteration budget returns the same with every larger one.
For a program with an empty instruction list the first tick after
`playAnimation` returns and signals `finished`. -/
theorem C6_step_signals {F : Type} (ops : FloatOps F) (fuel : Nat) (player : AnimationPlayer F) :
    (∀ p1 sigs, step ops fuel player = .ok (p1, sigs) →
      sigs.head? = some Signal.stepped ∧
      sigs.count Signal.stepped = 1 ∧
      sigs.count Signal.finished ≤ 1 ∧
      (Signal.finished ∈ sigs ↔
        p1.m_animationData.state.pc = (p1.m_animationData.animation.instructions.length : Int)) ∧
      (Signal.finished ∈ sigs → p1.m_timerActive = false) ∧
      (Signal.finished ∉ sigs → p1.m_timerActive = player.m_timerActive) ∧
      ∀ k, step ops (fuel + k) player = .ok (p1, sigs)) ∧
    (∀ (animation : MMD_Animation F) (p0 : AnimationPlayer F),
      animation.instructions = [] →
      playAnimation ops player animation = .ok p0 →
      ∃ p1, step ops (fuel + 1) p0 = .ok (p1, [Signal.stepped, Signal.finished]) ∧
        p1.m_timerActive = false) := by
  constructor
  · intro p1 sigs h
    obtain ⟨d1, d2, _, _, h3, hcase⟩ := step_ok ops fuel player p1 sigs h
    subst h3
    rcases hcase with ⟨he, ht, hs⟩ | ⟨he, ht, hs⟩
    · subst hs
      have := (pcAtEnd_iff p1.m_animationData).mp he
      refine ⟨rfl, by decide, by decide, ?_, fun _ => ht, ?_, fun k => step_fuel_mono ops fuel k _ _ h⟩
      · simp [this]
      · intro hn; simp at hn
    · subst hs
      have hne : ¬ p1.m_animationData.state.pc
          = (p1.m_animationData.animation.instructions.length : Int) := by
        rw [← pcAtEnd_iff, he]; simp
      refine ⟨rfl, by decide, by decide, ?_, ?_, fun _ => ht, fun k => step_fuel_mono ops fuel k _ _ h⟩
      · simp [hne]
      · intro hn; simp at hn
  · intro animation p0 hempty hplay
    obtain ⟨_, a0, s0, _, _⟩ := playAnimation_spec ops player p0 animation hplay
    obtain ⟨d1, hd1⟩ := (applyMomentum_ok_iff ops p0.m_animationData).mpr (by rw [s0]; simp)
    exact ⟨_, step_at_end ops fuel p0 d1 hd1 (by rw [s0, a0, hempty]; rfl), rfl⟩

/-- Witness for C6: the sample player playing a one-keyframe program returns
from its first tick with both signals, the timer stopped and `pc` at the end. -/
theorem C6_step_signals_witness :
    playAnimation ratOps samplePlayer (singleKeyframe 1 4096 1 [Position.default])
      = .ok (keyframePlayer 1) ∧
    ∃ p1, step ratOps 2 (keyframePlayer 1) = .ok (p1, [Signal.stepped, Signal.finished]) ∧
      p1.m_animationData.state.pc = (p1.m_animationData.animation.instructions.length : Int) ∧
      p1.m_timerActive = false := by
  obtain ⟨p1, hs⟩ : ∃ p1, step ratOps 2 (keyframePlayer 1)
      = .ok (p1, [Signal.stepped, Signal.finished]) := ⟨_, rfl⟩
  obtain ⟨_, _, _, h4, h5, _⟩ := (C6_step_signals ratOps 2 (keyframePlayer 1)).1 p1 _ hs
  exact ⟨rfl, p1, hs, h4.mp (by simp), h5 (by simp)⟩

/-- C5, counterexample: on the sample player, the program whose only
instruction is a keyframe with timecode 0 giving `posX` of node 0 the value
`1.0` leaves `node0.position.x` at `0` after the first and after the second
tick (not `1` and `2`), and neither tick signals `finished`; `pc` is still `0`. -/
theorem C5_counterexample :
    ∃ p0 p1 p2 s1 s2,
      playAnimation ratOps samplePlayer (singleKeyframe 0 4096 1 [Position.default]) = .ok p0 ∧
      step ratOps 8 p0 = .ok (p1, s1) ∧ step ratOps 8 p1 = .ok (p2, s2) ∧
      nodePosX p0 0 = some 0 ∧ nodePosX p1 0 = some 0 ∧ nodePosX p2 0 = some 0 ∧
      nodePosX p1 0 ≠ some (0 + 1) ∧ nodePosX p2 0 ≠ some (0 + 2) ∧
      Signal.finished ∉ s1 ∧ Signal.finished ∉ s2 ∧ p2.m_animationData.state.pc = 0 := by
  refine ⟨_, _, _, _, _, rfl, rfl, rfl, ?_, ?_, ?_, ?_, ?_, by decide, by decide, rfl⟩ <;>
  simp [nodePosX, playAnimation, setupAnimation, setupNodes, samplePlayer, sampleModel,
    setupNode, Object3D.setPosition, Object3D.setScale, Object3D.setRotation, ratOps,
    singleKeyframe, Position.default, advanceClocks, applyMomentumNode, zeroMomentum,
    get_position, get_scale, get_rotation, Vec3.add, Axis.toFin]

/-- Witness for C5: the amended run on the sample player, where the decoded
value is `1` and the initial pose puts `node0.position.x` at `0`. -/
theorem C5_single_keyframe_run_witness :
    playAnimation ratOps samplePlayer (singleKeyframe 1 4096 1 [Position.default])
      = .ok (keyframePlayer 1) ∧
    nodePosX (keyframePlayer 1) 0 = some 0 ∧
    ∃ p1 p2 p3,
      step ratOps 2 (keyframePlayer 1) = .ok (p1, [Signal.stepped, Signal.finished]) ∧
      nodePosX p1 0 = some 0 ∧
      step ratOps 1 p1 = .ok (p2, [Signal.stepped, Signal.finished]) ∧
      nodePosX p2 0 = some 1 ∧
      step ratOps 1 p2 = .ok (p3, [Signal.stepped, Signal.finished]) ∧
      nodePosX p3 0 = some 2 := by
  have hx : nodePosX (keyframePlayer 1) 0 = some 0 := by
    simp [nodePosX, keyframePlayer, sampleModel, setupNode, Object3D.setPosition,
      Object3D.setScale, Object3D.setRotation, ratOps, Position.default]
  obtain ⟨⟨p1, p2, p3, h1, x1, _, _, h2, x2, h3, x3⟩, _⟩ :=
    C5_single_keyframe_run ratOps 0 0 samplePlayer (keyframePlayer 1) (keyframePlayer 0)
      4096 1 0 [Position.default] rfl rfl hx
  refine ⟨rfl, hx, p1, p2, p3, h1, ?_, h2, ?_, h3, ?_⟩
  · rw [x1]; simp [ratOps]
  · rw [x2]; simp [ratOps]
  · rw [x3]; norm_num [ratOps]

theorem leValue_le16 (w : Nat) : leValue (le16 w) = w % 65536 := by
  simp only [le16, leValue]
  omega

theorem leValue_single (x : Nat) : leValue [x] = x % 256 := by
  simp [leValue]

theorem read_bufferAt (pre xs rest : List Nat) :
    (bufferAt pre (xs ++ rest)).read (xs.length : Int)
      = .ok (xs, bufferAt (pre ++ xs) rest) := by
  unfold Buffer.read bufferAt Buffer.size Buffer.pos
  simp only [List.length_append, Nat.cast_add]
  have h1 : min ((pre.length : Int) + ((xs.length : Int) + (rest.length : Int)) - (pre.length : Int))
      (xs.length : Int) = (xs.length : Int) := by omega
  rw [h1]
  have h2 : (0 : Int) ≤ (pre.length : Int) ∧ (0 : Int) ≤ (xs.length : Int) := by omega
  simp only [h2, and_self, if_true, Int.toNat_ofNat, List.drop_left, List.take_left,
    List.append_assoc]

theorem readbuf_bufferAt (n : Nat) (pre xs rest : List Nat) (h : xs.length = n) :
    readbuf n (bufferAt pre (xs ++ rest)) = .ok (leValue xs, bufferAt (pre ++ xs) rest) := by
  subst h
  unfold readbuf
  rw [read_bufferAt]
  simp

theorem peek_bufferAt (pre xs rest : List Nat) :
    (bufferAt pre (xs ++ rest)).peek (xs.length : Int) = .ok xs := by
  unfold Buffer.peek bufferAt Buffer.size Buffer.pos
  simp only [List.length_append, Nat.cast_add]
  have h1 : min ((pre.length : Int) + ((xs.length : Int) + (rest.length : Int)) - (pre.length : Int))
      (xs.length : Int) = (xs.length : Int) := by omega
  rw [h1]
  have h2 : (0 : Int) ≤ (pre.length : Int) ∧ (0 : Int) ≤ (xs.length : Int) := by omega
  simp only [h2, and_self, if_true, Int.toNat_ofNat, List.drop_left, List.take_left]

theorem peekbuf_bufferAt (n : Nat) (pre xs rest : List Nat) (h : xs.length = n) :
    peekbuf n (bufferAt pre (xs ++ rest)) = .ok (leValue xs) := by
  subst h
  unfold peekbuf
  rw [peek_bufferAt]
  simp

theorem readbuf_short (n : Nat) (pre post : List Nat) (h : post.length < n) :
    readbuf n (bufferAt pre post) = .error Fault.shortRead := by
  unfold readbuf Buffer.read bufferAt Buffer.size Buffer.pos
  simp only [List.length_append, Nat.cast_add]
  have h1 : min ((pre.length : Int) + (post.length : Int) - (pre.length : Int)) (n : Int)
      = (post.length : Int) := by omega
  rw [h1]
  have h2 : (0 : Int) ≤ (pre.length : Int) ∧ (0 : Int) ≤ (post.length : Int) := by omega
  simp only [h2, and_self, if_true, Int.toNat_ofNat, List.drop_left, List.take_length]
  have : ¬ post.length = n := by omega
  simp [this]

theorem availableBelow_bufferAt (pre post : List Nat) (n : Nat)
    (hp : post.length < 2 ^ 64) :
    (bufferAt pre post).availableBelow n = decide (post.length < n) := by
  unfold Buffer.availableBelow Buffer.bytesAvailable bufferAt Buffer.size Buffer.pos
  simp only [List.length_append, Nat.cast_add]
  have h1 : (pre.length : Int) + (post.length : Int) - (pre.length : Int) = (post.length : Int) := by
    omega
  rw [h1]
  have : ((post.length : Int) % 2 ^ 64).toNat = post.length := by omega
  rw [this]

theorem and_bit_eq_zero (m i : Nat) : m &&& (1 <<< i) = 0 ↔ m.testBit i = false := by
  rw [Nat.one_shiftLeft]
  constructor
  · intro h
    have := congrArg (fun x => x.testBit i) h
    simpa [Nat.testBit_two_pow_self] using this
  · intro h
    apply Nat.eq_of_testBit_eq
    intro j
    simp only [Nat.testBit_and, Nat.testBit_two_pow, Nat.zero_testBit]
    by_cases hij : i = j
    · subst hij; simp [h]
    · simp [hij]

theorem toInt16_mod (v : Nat) : toInt16 (v % 65536) = toInt16 v := by
  unfold toInt16
  simp

theorem readAxisValues_bufferAt {F : Type} (ops : FloatOps F) (scale mask : Nat)
    (bits : List Nat) :
    ∀ (pre rest raws : List Nat),
      raws.length = (bits.filter (fun k => mask.testBit k)).length →
      readAxisValues ops scale mask bits (bufferAt pre (raws.flatMap le16 ++ rest))
        = .ok (List.zipWith
                (fun k raw =>
                  (Axis.cast (8 - k), ops.div (ops.ofInt (toInt16 raw)) (ops.ofInt scale)))
                (bits.filter (fun k => mask.testBit k)) raws,
               bufferAt (pre ++ raws.flatMap le16) rest) := by
  induction bits with
  | nil =>
    intro pre rest raws h
    simp only [List.filter_nil, List.length_nil, List.length_eq_zero] at h
    subst h
    simp [readAxisValues]
  | cons i bits ih =>
    intro pre rest raws h
    by_cases hb : mask.testBit i = true
    · have hz : ¬ (mask &&& (1 <<< i) = 0) := by
        rw [and_bit_eq_zero]; simp [hb]
      simp only [List.filter_cons, hb, if_true, List.length_cons] at h ⊢
      cases raws with
      | nil => simp at h
      | cons raw raws =>
        simp only [List.length_cons, Nat.add_right_cancel_iff] at h
        simp only [readAxisValues, hz, if_false, List.flatMap_cons, List.append_assoc]
        rw [readbuf_bufferAt 2 pre (le16 raw) _ rfl]
        simp only [ih (pre ++ le16 raw) rest raws h, leValue_le16, toInt16_mod,
          List.zipWith_cons_cons, List.append_assoc]
    · have hb2 : mask.testBit i = false := by simpa using hb
      have hz : mask &&& (1 <<< i) = 0 := (and_bit_eq_zero mask i).mpr hb2
      simp only [List.filter_cons, hb2, Bool.false_eq_true, if_false] at h ⊢
      simp only [readAxisValues, hz, if_true]
      exact ih pre rest raws h
theorem node_bits (w : Nat) : w &&& 0x3F = w % 64 :=
  Nat.and_pow_two_sub_one_eq_mod w 6

theorem mask_bits (w : Nat) : (w &&& 0x7FC0) >>> 6 = w / 64 % 512 := by
  apply Nat.eq_of_testBit_eq
  intro j
  have h1 : (0x7FC0 : Nat) = (2 ^ 9 - 1) <<< 6 := by decide
  have h2 : w / 64 % 512 = (w >>> 6) % 2 ^ 9 := by
    rw [Nat.shiftRight_eq_div_pow]
    norm_num
  rw [h2, h1]
  simp only [Nat.testBit_shiftRight, Nat.testBit_and, Nat.testBit_shiftLeft,
    Nat.testBit_two_pow_sub_one, Nat.testBit_mod_two_pow]
  have : 6 + j - 6 = j := by omega
  rw [this]
  have : decide (6 + j ≥ 6) = true := by simp
  rw [this]
  simp [Bool.and_comm]

theorem axis_cast_toFin (k : Nat) (hk : k ≤ 8) : ((Axis.cast (8 - k)).toFin : Nat) = 8 - k := by
  interval_cases k <;> rfl

theorem axisBits_le (mask k : Nat) (h : k ∈ axisBits mask) : k ≤ 8 := by
  unfold axisBits at h
  have := (List.mem_filter.mp h).1
  simp at this
  omega

theorem flatMap_le16_length (raws : List Nat) : (raws.flatMap le16).length = 2 * raws.length := by
  induction raws with
  | nil => rfl
  | cons r rs ih =>
    simp only [List.flatMap_cons, List.length_append, ih, List.length_cons]
    simp only [le16, List.length_cons, List.length_nil]
    omega

theorem read_keyframe_entry_bufferAt {F : Type} (ops : FloatOps F) (pre rest raws : List Nat)
    (w scale : Nat) (hw : w < 65536) (hs : scale < 65536)
    (hraws : raws.length = (axisBits (w / 64 % 512)).length) :
    read_keyframe_entry ops (bufferAt pre (le16 w ++ le16 scale ++ raws.flatMap le16 ++ rest))
      = .ok ({ affectedNode := w % 64, scale := scale,
               values := List.zipWith
                 (fun k raw =>
                   (Axis.cast (8 - k), ops.div (ops.ofInt (toInt16 raw)) (ops.ofInt scale)))
                 (axisBits (w / 64 % 512)) raws },
             bufferAt (pre ++ (le16 w ++ le16 scale ++ raws.flatMap le16)) rest) := by
  unfold read_keyframe_entry
  simp only [List.append_assoc]
  rw [readbuf_bufferAt 2 pre (le16 w) _ rfl]
  simp only []
  rw [readbuf_bufferAt 2 (pre ++ le16 w) (le16 scale) _ rfl]
  simp only [leValue_le16]
  have hw1 : w % 65536 = w := Nat.mod_eq_of_lt hw
  have hs1 : scale % 65536 = scale := Nat.mod_eq_of_lt hs
  rw [hw1, hs1, mask_bits w, node_bits]
  have := readAxisValues_bufferAt ops scale (w / 64 % 512) [8, 7, 6, 5, 4, 3, 2, 1, 0]
    (pre ++ le16 w ++ le16 scale) rest raws hraws
  rw [this]
  simp only [axisBits, List.append_assoc]

/-- C8 as amended: `read_keyframe_entry` takes `affectedNode` from bits 0-5 and
the enabled-axis mask from bits 6-14 of the entry word, then reads the 16-bit
scale, then one signed 16-bit value per set mask bit, from mask bit 8 down to
mask bit 0; the value read for mask bit `k` is divided by the scale and stored
against Axis number `8 - k`, so the value of mask bit 8, first in the stream,
belongs to scaleX and that of mask bit 0 to posZ.  The entry takes
`4 + 2 * popcount(mask)` bytes. -/
theorem C8_read_keyframe_entry {F : Type} (ops : FloatOps F) (pre rest raws : List Nat)
    (w scale : Nat) (hw : w < 65536) (hs : scale < 65536)
    (hraws : raws.length = (axisBits (w / 64 % 512)).length) :
    read_keyframe_entry ops (bufferAt pre (le16 w ++ le16 scale ++ raws.flatMap le16 ++ rest))
      = .ok ({ affectedNode := w % 64, scale := scale,
               values := List.zipWith
                 (fun k raw =>
                   (Axis.cast (8 - k), ops.div (ops.ofInt (toInt16 raw)) (ops.ofInt scale)))
                 (axisBits (w / 64 % 512)) raws },
             bufferAt (pre ++ (le16 w ++ le16 scale ++ raws.flatMap le16)) rest) ∧
    (le16 w ++ le16 scale ++ raws.flatMap le16).length
      = 4 + 2 * (axisBits (w / 64 % 512)).length ∧
    (∀ k ∈ axisBits (w / 64 % 512), ((Axis.cast (8 - k)).toFin : Nat) = 8 - k) ∧
    Axis.cast (8 - 8) = Axis.SCALE_X ∧ Axis.cast (8 - 0) = Axis.POS_Z := by
  refine ⟨read_keyframe_entry_bufferAt ops pre rest raws w scale hw hs hraws, ?_,
    fun k hk => axis_cast_toFin k (axisBits_le _ k hk), rfl, rfl⟩
  simp only [List.length_append, flatMap_le16_length, hraws]
  simp [le16]

/-- C8, counterexample: an entry word with mask bits 8 and 0 set (`0xC040`),
scale 1 and the stream values 5 then 7: the first value of the stream, 5, is
stored against scaleX (Axis 0) and the second, 7, against posZ (Axis 8); the
claim would have the value of mask bit 8 stored against Axis 8, posZ. -/
theorem C8_counterexample :
    read_keyframe_entry ratOps { m_data := [0x40, 0xC0, 1, 0, 5, 0, 7, 0], m_pos := 0 }
      = .ok ({ affectedNode := 0, scale := 1,
               values := [(Axis.SCALE_X, 5), (Axis.POS_Z, 7)] },
             { m_data := [0x40, 0xC0, 1, 0, 5, 0, 7, 0], m_pos := 8 }) ∧
    (0xC040 / 64 % 512).testBit 8 = true ∧
    Axis.POS_Z.toFin = 8 ∧ Axis.SCALE_X.toFin = 0 := by
  refine ⟨?_, by decide, rfl, rfl⟩
  have h := read_keyframe_entry_bufferAt ratOps [] [] [5, 7] 0xC040 1 (by decide) (by decide)
    (by decide)
  have hb : bufferAt [] (le16 0xC040 ++ le16 1 ++ [5, 7].flatMap le16 ++ [])
      = { m_data := [0x40, 0xC0, 1, 0, 5, 0, 7, 0], m_pos := 0 } := by decide
  have hb2 : bufferAt ([] ++ (le16 0xC040 ++ le16 1 ++ [5, 7].flatMap le16)) []
      = { m_data := [0x40, 0xC0, 1, 0, 5, 0, 7, 0], m_pos := 8 } := by decide
  have ha : axisBits (0xC040 / 64 % 512) = [8, 0] := by decide
  have h5 : toInt16 5 = 5 := by decide
  have h7 : toInt16 7 = 7 := by decide
  rw [hb, hb2, ha] at h
  rw [h]
  simp [h5, h7, Axis.cast, ratOps]

/-- Witness for C8: the entry word `0xC040` (node 0, mask bits 8 and 0),
scale 1 and the two values 5 and 7. -/
theorem C8_read_keyframe_entry_witness :
    read_keyframe_entry ratOps (bufferAt [] (le16 0xC040 ++ le16 1 ++ [5, 7].flatMap le16 ++ []))
      = .ok ({ affectedNode := 0xC040 % 64, scale := 1,
               values := List.zipWith
                 (fun k raw =>
                   (Axis.cast (8 - k), ratOps.div (ratOps.ofInt (toInt16 raw)) (ratOps.ofInt 1)))
                 (axisBits (0xC040 / 64 % 512)) [5, 7] },
             bufferAt ([] ++ (le16 0xC040 ++ le16 1 ++ [5, 7].flatMap le16)) []) ∧
    axisBits (0xC040 / 64 % 512) = [8, 0] :=
  ⟨(C8_read_keyframe_entry ratOps [] [] [5, 7] 0xC040 1 (by decide) (by decide) (by decide)).1,
   by decide⟩

theorem readbuf1_cons (pre rest : List Nat) (x : Nat) :
    readbuf 1 (bufferAt pre (x :: rest)) = .ok (x % 256, bufferAt (pre ++ [x]) rest) := by
  have := readbuf_bufferAt 1 pre [x] rest rfl
  simpa [leValue] using this

theorem readbuf2_le16 (pre rest : List Nat) (w : Nat) :
    readbuf 2 (bufferAt pre (le16 w ++ rest)) = .ok (w % 65536, bufferAt (pre ++ le16 w) rest) := by
  rw [readbuf_bufferAt 2 pre (le16 w) rest rfl, leValue_le16]

theorem peekbuf2_le16 (pre rest : List Nat) (w : Nat) :
    peekbuf 2 (bufferAt pre (le16 w ++ rest)) = .ok (w % 65536) := by
  rw [peekbuf_bufferAt 2 pre (le16 w) rest rfl, leValue_le16]

theorem timecode_bits (h : Nat) : h &&& 0x0FFF = h % 4096 :=
  Nat.and_pow_two_sub_one_eq_mod h 12

theorem count_bits (h : Nat) : h &&& 0x00FF = h % 256 :=
  Nat.and_pow_two_sub_one_eq_mod h 8

theorem top_bit (w : Nat) (hw : w < 65536) : w &&& 0x8000 = 0 ↔ w < 0x8000 := by
  have h1 : (0x8000 : Nat) = 1 <<< 15 := by decide
  rw [h1, and_bit_eq_zero]
  constructor
  · intro h
    by_contra hn
    have h2 : w = 2 ^ 15 + (w - 2 ^ 15) := by omega
    have h3 : w - 2 ^ 15 < 2 ^ 15 := by omega
    rw [h2, Nat.testBit_two_pow_add_eq, Nat.testBit_lt_two_pow h3] at h
    simp at h
  · intro h
    exact Nat.testBit_lt_two_pow (by omega)

theorem nibble_bits (h : Nat) (hh : h < 65536) : h &&& 0xF000 = h / 4096 * 4096 := by
  apply Nat.eq_of_testBit_eq
  intro j
  have h1 : (0xF000 : Nat) = (2 ^ 4 - 1) <<< 12 := by decide
  have h2 : h / 4096 * 4096 = (h >>> 12) <<< 12 := by
    rw [Nat.shiftRight_eq_div_pow, Nat.shiftLeft_eq]
  rw [h1, h2]
  simp only [Nat.testBit_and, Nat.testBit_shiftLeft, Nat.testBit_shiftRight,
    Nat.testBit_two_pow_sub_one]
  by_cases hj : 12 ≤ j
  · have e1 : 12 + (j - 12) = j := by omega
    simp only [ge_iff_le, hj, decide_True, Bool.true_and, e1]
    by_cases hj2 : j - 12 < 4
    · simp [hj2]
    · have : h.testBit j = false := by
        apply Nat.testBit_lt_two_pow
        calc h < 65536 := hh
          _ = 2 ^ 16 := by norm_num
          _ ≤ 2 ^ j := Nat.pow_le_pow_right (by norm_num) (by omega)
      simp [hj2, this]
  · simp [hj]
theorem encode_length_pos (e : WireEntry) : 1 ≤ e.encode.length := by
  simp [WireEntry.encode, le16]

theorem entries_length_le (es : List WireEntry) :
    es.length ≤ (es.flatMap WireEntry.encode).length := by
  induction es with
  | nil => simp
  | cons e es ih =>
    simp only [List.flatMap_cons, List.length_append, List.length_cons]
    have := encode_length_pos e
    omega

theorem readKeyframeEntries_bufferAt {F : Type} (ops : FloatOps F) (next : Nat)
    (hnext : next < 0x8000) (rest : List Nat) (es : List WireEntry) :
    ∀ (fuel : Nat) (pre : List Nat) (acc : List (KeyframeEntry F)),
      (∀ e ∈ es, e.valid) → es.length < fuel →
      readKeyframeEntries ops fuel
          (bufferAt pre (es.flatMap WireEntry.encode ++ (le16 next ++ rest))) acc
        = .ok (acc ++ es.map (WireEntry.decode ops),
               bufferAt (pre ++ es.flatMap WireEntry.encode) (le16 next ++ rest)) := by
  induction es with
  | nil =>
    intro fuel pre acc _ hf
    cases fuel with
    | zero => omega
    | succ f =>
      simp only [List.flatMap_nil, List.nil_append, readKeyframeEntries, peekbuf2_le16,
        List.map_nil, List.append_nil]
      have h1 : next % 65536 = next := Nat.mod_eq_of_lt (by omega)
      have h2 : next &&& 0x8000 = 0 := (top_bit next (by omega)).mpr hnext
      rw [h1]
      simp only [h2, if_true]
  | cons e es ih =>
    intro fuel pre acc hv hf
    cases fuel with
    | zero => omega
    | succ f =>
      obtain ⟨v1, v2, v3, v4⟩ := hv e (List.mem_cons_self _ _)
      have hshape : (e :: es).flatMap WireEntry.encode ++ (le16 next ++ rest)
          = le16 e.word ++ le16 e.scale ++ e.raws.flatMap le16
              ++ (es.flatMap WireEntry.encode ++ (le16 next ++ rest)) := by
        simp only [List.flatMap_cons, WireEntry.encode, List.append_assoc]
      have hshape2 : le16 e.word ++ le16 e.scale ++ e.raws.flatMap le16
              ++ (es.flatMap WireEntry.encode ++ (le16 next ++ rest))
          = le16 e.word ++ (le16 e.scale ++ e.raws.flatMap le16
              ++ (es.flatMap WireEntry.encode ++ (le16 next ++ rest))) := by
        simp only [List.append_assoc]
      have hpeek : peekbuf 2 (bufferAt pre ((e :: es).flatMap WireEntry.encode
          ++ (le16 next ++ rest))) = .ok e.word := by
        rw [hshape, hshape2, peekbuf2_le16, Nat.mod_eq_of_lt v2]
      have hbit : ¬ (e.word &&& 0x8000 = 0) := by
        rw [top_bit e.word v2]; omega
      have hread := read_keyframe_entry_bufferAt ops pre
        (es.flatMap WireEntry.encode ++ (le16 next ++ rest)) e.raws e.word e.scale v2 v3 v4
      rw [← hshape] at hread
      simp only [readKeyframeEntries, hpeek, hbit, if_false, hread]
      have := ih f (pre ++ (le16 e.word ++ le16 e.scale ++ e.raws.flatMap le16))
        (acc ++ [WireEntry.decode ops e])
        (fun e1 h1 => hv e1 (List.mem_cons_of_mem _ h1)) (by simpa using hf)
      rw [show ({ affectedNode := e.word % 64, scale := e.scale,
                  values := List.zipWith
                    (fun k raw =>
                      (Axis.cast (8 - k),
                        ops.div (ops.ofInt (toInt16 raw)) (ops.ofInt e.scale)))
                    (axisBits (e.word / 64 % 512)) e.raws } : KeyframeEntry F)
            = WireEntry.decode ops e from rfl]
      rw [this]
      simp only [List.map_cons, List.append_assoc, List.singleton_append, List.flatMap_cons,
        WireEntry.encode]
theorem header_lt (item : WireItem) (hv : item.valid) : item.header < 65536 := by
  cases item <;> simp only [WireItem.valid, WireItem.header] at hv ⊢ <;> omega

theorem header_ne_zero (item : WireItem) (hv : item.valid) : item.header ≠ 0 := by
  cases item <;> simp only [WireItem.valid, WireItem.header] at hv ⊢ <;> omega

theorem fillOneInstruction_item {F : Type} (ops : FloatOps F) (item : WireItem)
    (hv : item.valid) (pre tail : List Nat)
    (htail : (∃ h es, item = WireItem.keyframe h es) →
      ∃ next rest, next < 0x8000 ∧ tail = le16 next ++ rest) :
    fillOneInstruction ops (bufferAt pre (item.body ++ tail)) item.header
      = .ok (item.decode ops, bufferAt (pre ++ item.body) tail) := by
  have hlt := header_lt item hv
  have hnib := nibble_bits item.header hlt
  cases item with
  | keyframe h es =>
    obtain ⟨next, rest, hnext, rfl⟩ := htail ⟨h, es, rfl⟩
    simp only [WireItem.valid, WireItem.header, WireItem.body] at hv hnib ⊢
    obtain ⟨_, h2, h3⟩ := hv
    have hbudget : es.length
        < (bufferAt pre (es.flatMap WireEntry.encode ++ (le16 next ++ rest))).m_data.length + 1 := by
      have := entries_length_le es
      simp only [bufferAt, List.length_append]
      omega
    have hrun := readKeyframeEntries_bufferAt ops next hnext rest es _ pre [] h3 hbudget
    simp only [fillOneInstruction, hnib, h2, Nat.zero_mul, if_true, fill_instruction_keyframe,
      hrun, timecode_bits, List.nil_append, WireItem.decode]
  | loopStart h =>
    simp only [WireItem.valid, WireItem.header, WireItem.body] at hv hnib ⊢
    simp [fillOneInstruction, hnib, hv, fill_instruction_loopStart, count_bits, WireItem.decode]
  | loopEnd h newTime =>
    simp only [WireItem.valid, WireItem.header, WireItem.body] at hv hnib ⊢
    simp [fillOneInstruction, hnib, hv.1, fill_instruction_loopEnd, readbuf2_le16,
      Nat.mod_eq_of_lt hv.2, timecode_bits, WireItem.decode]
  | texture h b0 b1 b2 b3 b4 b5 =>
    simp only [WireItem.valid, WireItem.header, WireItem.body] at hv hnib ⊢
    obtain ⟨h0, c0, c1, c2, c3, c4, c5⟩ := hv
    simp [fillOneInstruction, hnib, h0, fill_instruction_texture, readbuf1_cons,
      Nat.mod_eq_of_lt c0, Nat.mod_eq_of_lt c1, Nat.mod_eq_of_lt c2, Nat.mod_eq_of_lt c3,
      Nat.mod_eq_of_lt c4, Nat.mod_eq_of_lt c5, timecode_bits, WireItem.decode]
  | playSound h b0 b1 =>
    simp only [WireItem.valid, WireItem.header, WireItem.body] at hv hnib ⊢
    obtain ⟨h0, c0, c1⟩ := hv
    simp [fillOneInstruction, hnib, h0, fill_instruction_playSound, readbuf1_cons,
      Nat.mod_eq_of_lt c0, Nat.mod_eq_of_lt c1, timecode_bits, WireItem.decode]
  | skipped h =>
    simp only [WireItem.valid, WireItem.header, WireItem.body] at hv hnib ⊢
    have e0 : ¬ (h / 4096 * 4096 = 0) := by omega
    have e1 : ¬ (h / 4096 * 4096 = 4096) := by omega
    have e2 : ¬ (h / 4096 * 4096 = 8192) := by omega
    have e3 : ¬ (h / 4096 * 4096 = 12288) := by omega
    have e4 : ¬ (h / 4096 * 4096 = 16384) := by omega
    simp [fillOneInstruction, hnib, e0, e1, e2, e3, e4, WireItem.decode]

theorem fillInstructions_item {F : Type} (ops : FloatOps F) (item : WireItem)
    (hv : item.valid) (fuel : Nat) (pre tail : List Nat) (acc : List (Instruction F))
    (hlen : (item.encode ++ tail).length < 2 ^ 64)
    (htail : (∃ h es, item = WireItem.keyframe h es) →
      ∃ next rest, next < 0x8000 ∧ tail = le16 next ++ rest) :
    fillInstructions ops (fuel + 1) (bufferAt pre (item.encode ++ tail)) acc
      = fillInstructions ops fuel (bufferAt (pre ++ item.encode) tail)
          (acc ++ (item.decode ops).toList) := by
  have hlt := header_lt item hv
  have hne := header_ne_zero item hv
  have havail : (bufferAt pre (item.encode ++ tail)).availableBelow 2 = false := by
    rw [availableBelow_bufferAt pre _ 2 hlen]
    simp [WireItem.encode, le16]
  have hread : readbuf 2 (bufferAt pre (item.encode ++ tail))
      = .ok (item.header, bufferAt (pre ++ le16 item.header) (item.body ++ tail)) := by
    simp only [WireItem.encode, List.append_assoc]
    rw [readbuf2_le16, Nat.mod_eq_of_lt hlt]
  have hone := fillOneInstruction_item ops item hv (pre ++ le16 item.header) tail htail
  simp only [fillInstructions, havail, Bool.false_eq_true, if_false, hread, hne, hone]
  cases hd : item.decode ops with
  | none => simp [WireItem.encode]
  | some ins => simp [WireItem.encode]
theorem item_encode_length (item : WireItem) : 2 ≤ item.encode.length := by
  simp [WireItem.encode, le16]

theorem items_length_le (ws : List WireItem) :
    ws.length ≤ (ws.flatMap WireItem.encode).length := by
  induction ws with
  | nil => simp
  | cons w ws ih =>
    simp only [List.flatMap_cons, List.length_append, List.length_cons]
    have := item_encode_length w
    omega

theorem fillInstructions_stream {F : Type} (ops : FloatOps F) (rest : List Nat)
    (ws : List WireItem) :
    ∀ (fuel : Nat) (pre : List Nat) (acc : List (Instruction F)),
      validStream ws →
      (ws.flatMap WireItem.encode ++ (le16 0 ++ rest)).length < 2 ^ 64 →
      ws.length < fuel →
      fillInstructions ops fuel (bufferAt pre (ws.flatMap WireItem.encode ++ (le16 0 ++ rest))) acc
        = .ok (true, acc ++ ws.filterMap (WireItem.decode ops),
               bufferAt (pre ++ (ws.flatMap WireItem.encode ++ le16 0)) rest) := by
  induction ws with
  | nil =>
    intro fuel pre acc _ hlen hf
    cases fuel with
    | zero => omega
    | succ f =>
      have havail : (bufferAt pre (le16 0 ++ rest)).availableBelow 2 = false := by
        rw [availableBelow_bufferAt pre _ 2 (by simpa using hlen)]
        simp [le16]
      simp only [List.flatMap_nil, List.nil_append, fillInstructions, havail,
        Bool.false_eq_true, if_false, readbuf2_le16, Nat.zero_mod, if_true,
        List.filterMap_nil, List.append_nil]
  | cons item ws ih =>
    intro fuel pre acc hv hlen hf
    cases fuel with
    | zero => omega
    | succ f =>
      obtain ⟨hitem, hrest, hnext⟩ := hv
      have hshape : (item :: ws).flatMap WireItem.encode ++ (le16 0 ++ rest)
          = item.encode ++ (ws.flatMap WireItem.encode ++ (le16 0 ++ rest)) := by
        simp only [List.flatMap_cons, List.append_assoc]
      have htail : (∃ h es, item = WireItem.keyframe h es) →
          ∃ next rest1, next < 0x8000 ∧
            ws.flatMap WireItem.encode ++ (le16 0 ++ rest) = le16 next ++ rest1 := by
        intro hk
        cases ws with
        | nil => exact ⟨0, rest, by decide, rfl⟩
        | cons nxt more =>
          refine ⟨nxt.header, nxt.body ++ (more.flatMap WireItem.encode ++ (le16 0 ++ rest)),
            hnext hk nxt (by simp), ?_⟩
          simp only [List.flatMap_cons, WireItem.encode, List.append_assoc]
      rw [hshape] at hlen ⊢
      rw [fillInstructions_item ops item hitem f pre _ acc hlen htail]
      have hlen2 : (ws.flatMap WireItem.encode ++ (le16 0 ++ rest)).length < 2 ^ 64 := by
        simp only [List.length_append] at hlen ⊢
        omega
      rw [ih f (pre ++ item.encode) (acc ++ (item.decode ops).toList) hrest hlen2
        (by simpa using hf)]
      cases hd : item.decode ops with
      | none => simp [List.filterMap_cons, hd, List.append_assoc]
      | some ins => simp [List.filterMap_cons, hd, List.append_assoc]

/-- C9: the loop of `fill_animation` reads 16-bit headers until one is `0x0000`,
which ends the stream with success.  For every valid stream of items followed
by the terminator, it returns, in stream order, exactly one instruction for
every header with top nibble 0, 1, 2, 3 or 4 (keyframe, loop start, loop end,
texture blit, play sound), the timecode being the low 12 bits of the header
for every kind but the loop start, whose loop count is the low byte of the
header; headers with another top nibble yield nothing.  The cursor ends just
after the terminator.  For `boneCount ≤ 1`, where no pose record precedes the
stream, `fill_animation` as a whole returns `true` with these instructions. -/
theorem C9_instruction_stream {F : Type} (ops : FloatOps F) (ws : List WireItem)
    (pre rest : List Nat) (acc : List (Instruction F)) (fuel : Nat)
    (hvalid : validStream ws)
    (hsize : (pre ++ (le16 0 ++ (ws.flatMap WireItem.encode ++ (le16 0 ++ rest)))).length
      < 2 ^ 64)
    (hfuel : ws.length < fuel) :
    fillInstructions ops fuel (bufferAt pre (ws.flatMap WireItem.encode ++ (le16 0 ++ rest))) acc
      = .ok (true, acc ++ ws.filterMap (WireItem.decode ops),
             bufferAt (pre ++ (ws.flatMap WireItem.encode ++ le16 0)) rest) ∧
    (∀ (frameWord boneCount : Nat) (animation : MMD_Animation F),
      frameWord < 65536 → boneCount ≤ 1 →
      fill_animation ops
          (bufferAt pre (le16 frameWord ++ (ws.flatMap WireItem.encode ++ (le16 0 ++ rest))))
          boneCount animation
        = .ok (true,
               { animation with
                 frameCount := frameWord &&& 0x7FFF,
                 initialPositions := animation.initialPositions ++ [Position.default],
                 instructions := animation.instructions ++ ws.filterMap (WireItem.decode ops) },
               bufferAt (pre ++ le16 frameWord ++ (ws.flatMap WireItem.encode ++ le16 0)) rest)) ∧
    (∀ item ∈ ws, ∀ ins, item.decode ops = some ins →
      (get_timecode ins = none ∧ (∃ l, ins = Instruction.loopStart l ∧
          l.loopCount = item.header % 256 ∧ item.header / 4096 = 1)) ∨
      (get_timecode ins = some (toInt32 (item.header % 4096)) ∧
        ((∃ k, ins = Instruction.keyframe k ∧ item.header / 4096 = 0) ∨
         (∃ k, ins = Instruction.loopEnd k ∧ item.header / 4096 = 2) ∨
         (∃ k, ins = Instruction.texture k ∧ item.header / 4096 = 3) ∨
         (∃ k, ins = Instruction.playSound k ∧ item.header / 4096 = 4)))) := by
  have hlen : (ws.flatMap WireItem.encode ++ (le16 0 ++ rest)).length < 2 ^ 64 := by
    simp only [List.length_append] at hsize ⊢
    omega
  refine ⟨fillInstructions_stream ops rest ws fuel pre acc hvalid hlen hfuel, ?_, ?_⟩
  · intro frameWord boneCount animation hfw hbc
    have hlen1 : (le16 frameWord ++ (ws.flatMap WireItem.encode ++ (le16 0 ++ rest))).length
        < 2 ^ 64 := by
      simp only [List.length_append, le16, List.length_cons, List.length_nil] at hsize ⊢
      omega
    have havail : (bufferAt pre (le16 frameWord
        ++ (ws.flatMap WireItem.encode ++ (le16 0 ++ rest)))).availableBelow 2 = false := by
      rw [availableBelow_bufferAt pre _ 2 hlen1]
      simp [le16]
    have hbone : boneCount - 1 = 0 := by omega
    have hbudget : ws.length < (bufferAt pre (le16 frameWord
        ++ (ws.flatMap WireItem.encode ++ (le16 0 ++ rest)))).m_data.length + 1 := by
      have := items_length_le ws
      simp only [bufferAt, List.length_append]
      omega
    have hrun := fillInstructions_stream ops rest ws _ (pre ++ le16 frameWord)
      animation.instructions hvalid hlen hbudget
    simp only [fill_animation, havail, Bool.false_eq_true, if_false, readbuf2_le16,
      Nat.mod_eq_of_lt hfw, hbone, readPoses, hrun, List.append_assoc]
    simp
  · intro item hitem ins hdec
    have hv : item.valid := by
      clear hsize hfuel hlen
      induction ws with
      | nil => simp at hitem
      | cons w ws ih =>
        rcases List.mem_cons.mp hitem with h | h
        · subst h; exact hvalid.1
        · exact ih hvalid.2.1 h
    cases item with
    | keyframe h es =>
      simp only [WireItem.decode, Option.some.injEq] at hdec
      subst hdec
      exact Or.inr ⟨rfl, Or.inl ⟨_, rfl, hv.2.1⟩⟩
    | loopStart h =>
      simp only [WireItem.decode, Option.some.injEq] at hdec
      subst hdec
      exact Or.inl ⟨rfl, _, rfl, rfl, hv⟩
    | loopEnd h nt =>
      simp only [WireItem.decode, Option.some.injEq] at hdec
      subst hdec
      exact Or.inr ⟨rfl, Or.inr (Or.inl ⟨_, rfl, hv.1⟩)⟩
    | texture h b0 b1 b2 b3 b4 b5 =>
      simp only [WireItem.decode, Option.some.injEq] at hdec
      subst hdec
      exact Or.inr ⟨rfl, Or.inr (Or.inr (Or.inl ⟨_, rfl, hv.1⟩))⟩
    | playSound h b0 b1 =>
      simp only [WireItem.decode, Option.some.injEq] at hdec
      subst hdec
      exact Or.inr ⟨rfl, Or.inr (Or.inr (Or.inr ⟨_, rfl, hv.1⟩))⟩
    | skipped h => simp [WireItem.decode] at hdec

theorem sampleStream_valid : validStream sampleStream := by
  simp only [sampleStream, validStream, WireItem.valid, WireEntry.valid, WireItem.header,
    List.head?_cons, Option.mem_def, Option.some.injEq, List.mem_singleton, forall_eq,
    forall_eq', List.head?_nil]
  refine ⟨by decide, ⟨⟨by decide, by decide, ?_⟩, ⟨by decide, ⟨by decide, ⟨by decide,
    ⟨by decide, trivial, ?_⟩, ?_⟩, ?_⟩, ?_⟩, ?_⟩, ?_⟩
  · decide
  all_goals simp

/-- Witness for C9: the sample stream is decoded into its five instructions, in
order, the header `0x5000` yielding none. -/
theorem C9_instruction_stream_witness :
    fillInstructions ratOps 7
        (bufferAt [] (sampleStream.flatMap WireItem.encode ++ (le16 0 ++ []))) []
      = .ok (true, [] ++ sampleStream.filterMap (WireItem.decode ratOps),
             bufferAt ([] ++ (sampleStream.flatMap WireItem.encode ++ le16 0)) []) ∧
    (sampleStream.filterMap (WireItem.decode ratOps)).length = 5 ∧
    sampleStream.flatMap WireItem.encode ++ le16 0
      = [0x03, 0x10, 0x01, 0x00, 0x40, 0xC0, 1, 0, 5, 0, 7, 0, 0x02, 0x20, 9, 0,
         0x05, 0x30, 1, 2, 3, 4, 5, 6, 0x06, 0x40, 7, 8, 0x00, 0x50, 0, 0] :=
  ⟨(C9_instruction_stream ratOps sampleStream [] [] [] 7 sampleStream_valid (by decide)
      (by decide)).1,
   by decide, by decide⟩

theorem bufferAt_pos (pre xs rest : List Nat) :
    (bufferAt (pre ++ xs) rest).m_pos = (bufferAt pre (xs ++ rest)).m_pos + (xs.length : Int) := by
  simp [bufferAt]

/-- C10: instruction bodies are decoded field by field in stream order.  A
texture-blit body is six bytes assigned to srcY, srcX, height, width, destY,
destX; a play-sound body is two bytes assigned to soundId and then vabId; a
loop-end body is one 16-bit little-endian `newTime`; a loop start has no body.
The cursor moves on by 6, 2, 2 and 0 bytes, and in the stream loop the next
header is read right after the header word and that body. -/
theorem C10_instruction_bodies {F : Type} (ops : FloatOps F) (pre rest : List Nat)
    (header b0 b1 b2 b3 b4 b5 newTime : Nat) :
    fill_instruction_texture (bufferAt pre (b0 :: b1 :: b2 :: b3 :: b4 :: b5 :: rest)) header
      = .ok ({ timecode := header % 4096, srcY := b0 % 256, srcX := b1 % 256,
               height := b2 % 256, width := b3 % 256, destY := b4 % 256, destX := b5 % 256 },
             bufferAt (pre ++ [b0, b1, b2, b3, b4, b5]) rest) ∧
    fill_instruction_playSound (bufferAt pre (b0 :: b1 :: rest)) header
      = .ok ({ timecode := header % 4096, soundId := b0 % 256, vabId := b1 % 256 },
             bufferAt (pre ++ [b0, b1]) rest) ∧
    fill_instruction_loopEnd (bufferAt pre (le16 newTime ++ rest)) header
      = .ok ({ timecode := header % 4096, newTime := newTime % 65536 },
             bufferAt (pre ++ le16 newTime) rest) ∧
    fill_instruction_loopStart (bufferAt pre rest) header
      = .ok ({ loopCount := header % 256 }, bufferAt pre rest) ∧
    (bufferAt (pre ++ [b0, b1, b2, b3, b4, b5]) rest).m_pos
      = (bufferAt pre (b0 :: b1 :: b2 :: b3 :: b4 :: b5 :: rest)).m_pos + 6 ∧
    (bufferAt (pre ++ [b0, b1]) rest).m_pos = (bufferAt pre (b0 :: b1 :: rest)).m_pos + 2 ∧
    (bufferAt (pre ++ le16 newTime) rest).m_pos
      = (bufferAt pre (le16 newTime ++ rest)).m_pos + 2 ∧
    (∀ (item : WireItem) (fuel : Nat) (tail : List Nat) (acc : List (Instruction F)),
      item.valid → (¬ ∃ h es, item = WireItem.keyframe h es) →
      (item.encode ++ tail).length < 2 ^ 64 →
      fillInstructions ops (fuel + 1) (bufferAt pre (le16 item.header ++ (item.body ++ tail))) acc
        = fillInstructions ops fuel (bufferAt (pre ++ (le16 item.header ++ item.body)) tail)
            (acc ++ (item.decode ops).toList)) ∧
    (WireItem.texture header b0 b1 b2 b3 b4 b5).body.length = 6 ∧
    (WireItem.playSound header b0 b1).body.length = 2 ∧
    (WireItem.loopEnd header newTime).body.length = 2 ∧
    (WireItem.loopStart header).body.length = 0 := by
  refine ⟨?_, ?_, ?_, ?_, ?_, ?_, ?_, ?_, rfl, rfl, rfl, rfl⟩
  · simp [fill_instruction_texture, readbuf1_cons, timecode_bits]
  · simp [fill_instruction_playSound, readbuf1_cons, timecode_bits]
  · simp [fill_instruction_loopEnd, readbuf2_le16, timecode_bits]
  · simp [fill_instruction_loopStart, count_bits]
  · exact bufferAt_pos pre [b0, b1, b2, b3, b4, b5] rest
  · exact bufferAt_pos pre [b0, b1] rest
  · exact bufferAt_pos pre (le16 newTime) rest
  · intro item fuel tail acc hv hk hlen
    have := fillInstructions_item ops item hv fuel pre tail acc hlen (fun h => absurd h hk)
    simpa only [WireItem.encode, List.append_assoc] using this

theorem readPose_bufferAt (hasScale : Bool) (pre rest ws : List Nat)
    (hlen : ws.length = poseWords hasScale) :
    readPose hasScale (bufferAt pre (ws.flatMap le16 ++ rest))
      = .ok (poseOfWords hasScale ws, bufferAt (pre ++ ws.flatMap le16) rest) := by
  cases hasScale with
  | true =>
    simp only [poseWords, if_true] at hlen
    match ws, hlen with
    | [a, b, c, d, e, f, g, h, i], _ =>
      simp [readPose, List.flatMap_cons, readbuf2_le16, toInt16_mod, poseOfWords]
  | false =>
    simp only [poseWords, Bool.false_eq_true, if_false] at hlen
    match ws, hlen with
    | [a, b, c, d, e, f], _ =>
      simp [readPose, List.flatMap_cons, readbuf2_le16, toInt16_mod, poseOfWords]

theorem readPoses_bufferAt (hasScale : Bool) (rest : List Nat) (recs : List (List Nat)) :
    ∀ (pre : List Nat) (acc : List Position),
      (∀ ws ∈ recs, ws.length = poseWords hasScale) →
      (encodePoses recs ++ rest).length < 2 ^ 64 →
      readPoses hasScale recs.length (bufferAt pre (encodePoses recs ++ rest)) acc
        = .ok (true, acc ++ recs.map (poseOfWords hasScale),
               bufferAt (pre ++ encodePoses recs) rest) := by
  induction recs with
  | nil =>
    intro pre acc _ _
    simp [readPoses, encodePoses]
  | cons ws recs ih =>
    intro pre acc hv hlen
    have hws := hv ws (List.mem_cons_self _ _)
    have hshape : encodePoses (ws :: recs) ++ rest
        = ws.flatMap le16 ++ (encodePoses recs ++ rest) := by
      simp only [encodePoses, List.flatMap_cons, List.append_assoc]
    rw [hshape] at hlen ⊢
    have hbytes : (ws.flatMap le16).length = 2 * poseWords hasScale := by
      rw [flatMap_le16_length, hws]
    have havail : (bufferAt pre (ws.flatMap le16 ++ (encodePoses recs ++ rest))).availableBelow
        ((if hasScale = true then 9 else 6) * 2) = false := by
      rw [availableBelow_bufferAt pre _ _ hlen]
      simp only [List.length_append, hbytes, poseWords, decide_eq_false_iff_not]
      omega
    have hlen2 : (encodePoses recs ++ rest).length < 2 ^ 64 := by
      simp only [List.length_append] at hlen ⊢
      omega
    simp only [List.length_cons, readPoses, havail, Bool.false_eq_true, if_false,
      readPose_bufferAt hasScale pre _ ws hws]
    rw [ih (pre ++ ws.flatMap le16) (acc ++ [poseOfWords hasScale ws])
      (fun w hw => hv w (List.mem_cons_of_mem _ hw)) hlen2]
    simp [encodePoses, List.append_assoc]

theorem frame_bits (h : Nat) : h &&& 0x7FFF = h % 32768 :=
  Nat.and_pow_two_sub_one_eq_mod h 15

theorem fill_animation_bufferAt {F : Type} (ops : FloatOps F) (pre rest : List Nat)
    (frameWord boneCount : Nat) (recs : List (List Nat)) (ws : List WireItem)
    (animation : MMD_Animation F)
    (hfw : frameWord < 65536) (hbones : recs.length = boneCount - 1)
    (hrecs : ∀ r ∈ recs, r.length = poseWords (decide (0x8000 ≤ frameWord)))
    (hvalid : validStream ws)
    (hsize : (pre ++ (le16 frameWord ++ (encodePoses recs
      ++ (ws.flatMap WireItem.encode ++ (le16 0 ++ rest))))).length < 2 ^ 64) :
    fill_animation ops
        (bufferAt pre (le16 frameWord ++ (encodePoses recs
          ++ (ws.flatMap WireItem.encode ++ (le16 0 ++ rest)))))
        boneCount animation
      = .ok (true,
             { animation with
               frameCount := frameWord % 32768,
               initialPositions := animation.initialPositions ++ Position.default
                 :: recs.map (poseOfWords (decide (0x8000 ≤ frameWord))),
               instructions := animation.instructions ++ ws.filterMap (WireItem.decode ops) },
             bufferAt (pre ++ (le16 frameWord ++ (encodePoses recs
               ++ (ws.flatMap WireItem.encode ++ le16 0)))) rest) := by
  have hlenAll : (le16 frameWord ++ (encodePoses recs
      ++ (ws.flatMap WireItem.encode ++ (le16 0 ++ rest)))).length < 2 ^ 64 := by
    simp only [List.length_append] at hsize ⊢
    omega
  have hlenPoses : (encodePoses recs
      ++ (ws.flatMap WireItem.encode ++ (le16 0 ++ rest))).length < 2 ^ 64 := by
    simp only [List.length_append] at hlenAll ⊢
    omega
  have hlenStream : (ws.flatMap WireItem.encode ++ (le16 0 ++ rest)).length < 2 ^ 64 := by
    simp only [List.length_append] at hlenPoses ⊢
    omega
  have havail : (bufferAt pre (le16 frameWord ++ (encodePoses recs
      ++ (ws.flatMap WireItem.encode ++ (le16 0 ++ rest))))).availableBelow 2 = false := by
    rw [availableBelow_bufferAt pre _ 2 hlenAll]
    simp [le16]
  have hscale : decide (frameWord &&& 0x8000 ≠ 0) = decide (0x8000 ≤ frameWord) := by
    have := top_bit frameWord hfw
    by_cases h : 0x8000 ≤ frameWord
    · have h1 : ¬ frameWord &&& 0x8000 = 0 := by rw [this]; omega
      simp [h, h1]
    · have h1 : frameWord &&& 0x8000 = 0 := by rw [this]; omega
      simp [h, h1]
  have hposes := readPoses_bufferAt (decide (0x8000 ≤ frameWord))
    (ws.flatMap WireItem.encode ++ (le16 0 ++ rest)) recs (pre ++ le16 frameWord)
    (animation.initialPositions ++ [Position.default]) hrecs hlenPoses
  rw [hbones] at hposes
  have hbudget : ws.length < (bufferAt pre (le16 frameWord ++ (encodePoses recs
      ++ (ws.flatMap WireItem.encode ++ (le16 0 ++ rest))))).m_data.length + 1 := by
    have := items_length_le ws
    simp only [bufferAt, List.length_append]
    omega
  have hrun := fillInstructions_stream ops rest ws _ (pre ++ le16 frameWord ++ encodePoses recs)
    animation.instructions hvalid hlenStream hbudget
  simp only [fill_animation, havail, Bool.false_eq_true, if_false, readbuf2_le16,
    Nat.mod_eq_of_lt hfw, hscale, hposes, hrun, frame_bits]
  simp [List.append_assoc]

theorem testBit15 (w : Nat) (hw : w < 65536) : w.testBit 15 = decide (0x8000 ≤ w) := by
  have h1 := top_bit w hw
  have h2 := and_bit_eq_zero w 15
  have h3 : (1 <<< 15 : Nat) = 0x8000 := by decide
  rw [h3] at h2
  by_cases h : 0x8000 ≤ w
  · have : ¬ w.testBit 15 = false := fun hf => by
      have := h1.mp (h2.mpr hf)
      omega
    simp only [h, decide_True]
    simpa using this
  · have : w.testBit 15 = false := h2.mp (h1.mpr (by omega))
    simp [h, this]

/-- C11: for every well-formed animation body decoded with `boneCount ≥ 1`
(a header word, `boneCount - 1` pose records of the width the header asks
for, a valid instruction stream and its terminator), `fill_animation` returns
`true`; `frameCount` is the low 15 bits of the header and bit 15 is
`hasScale`; `initialPositions` has exactly `boneCount` entries, entry 0 being
the default pose (scale `0x1000`, rotation 0, position 0) and entry `i + 1`
the `i`-th record read as signed 16-bit fields in the order scaleX, scaleY,
scaleZ (only with `hasScale`, else left at `0x1000`), rotX, rotY, rotZ, posX,
posY, posZ; a record takes 18 bytes with scale and 12 without. -/
theorem C11_animation_body {F : Type} (ops : FloatOps F) (pre rest : List Nat)
    (frameWord boneCount id : Nat) (recs : List (List Nat)) (ws : List WireItem)
    (hfw : frameWord < 65536) (hbone : 1 ≤ boneCount) (hbones : recs.length = boneCount - 1)
    (hrecs : ∀ r ∈ recs, r.length = poseWords (frameWord.testBit 15))
    (hvalid : validStream ws)
    (hsize : (pre ++ (le16 frameWord ++ (encodePoses recs
      ++ (ws.flatMap WireItem.encode ++ (le16 0 ++ rest))))).length < 2 ^ 64) :
    ∃ a : MMD_Animation F,
      fill_animation ops
          (bufferAt pre (le16 frameWord ++ (encodePoses recs
            ++ (ws.flatMap WireItem.encode ++ (le16 0 ++ rest)))))
          boneCount (MMD_Animation.new F id)
        = .ok (true, a, bufferAt (pre ++ (le16 frameWord ++ (encodePoses recs
            ++ (ws.flatMap WireItem.encode ++ le16 0)))) rest) ∧
      a.id = id ∧
      a.frameCount = frameWord % 32768 ∧
      a.initialPositions.length = boneCount ∧
      a.initialPositions[0]? = some Position.default ∧
      (∀ (i : Nat) (r : List Nat), recs[i]? = some r →
        a.initialPositions[i + 1]? = some (poseOfWords (frameWord.testBit 15) r)) ∧
      (∀ r ∈ recs, (r.flatMap le16).length = if frameWord.testBit 15 then 18 else 12) ∧
      a.instructions = ws.filterMap (WireItem.decode ops) ∧
      (∀ sx sy sz rx ry rz px py pz : Nat,
        poseOfWords true [sx, sy, sz, rx, ry, rz, px, py, pz]
          = { scaleX := toInt16 sx, scaleY := toInt16 sy, scaleZ := toInt16 sz,
              rotX := toInt16 rx, rotY := toInt16 ry, rotZ := toInt16 rz,
              posX := toInt16 px, posY := toInt16 py, posZ := toInt16 pz } ∧
        poseOfWords false [rx, ry, rz, px, py, pz]
          = { scaleX := 0x1000, scaleY := 0x1000, scaleZ := 0x1000,
              rotX := toInt16 rx, rotY := toInt16 ry, rotZ := toInt16 rz,
              posX := toInt16 px, posY := toInt16 py, posZ := toInt16 pz }) := by
  have hbit := testBit15 frameWord hfw
  rw [hbit] at hrecs
  have hrun := fill_animation_bufferAt ops pre rest frameWord boneCount recs ws
    (MMD_Animation.new F id) hfw hbones hrecs hvalid hsize
  refine ⟨_, hrun, rfl, rfl, ?_, ?_, ?_, ?_, ?_, ?_⟩
  · simp only [MMD_Animation.new, List.nil_append, List.length_cons, List.length_map, hbones]
    omega
  · simp [MMD_Animation.new]
  · intro i r hr
    simp only [MMD_Animation.new, List.nil_append, List.getElem?_cons_succ, List.getElem?_map,
      hr, Option.map_some', hbit]
  · intro r hr
    rw [flatMap_le16_length, hbit, hrecs r hr]
    by_cases h : 0x8000 ≤ frameWord <;> simp [poseWords, h]
  · simp [MMD_Animation.new]
  · intro sx sy sz rx ry rz px py pz
    exact ⟨rfl, rfl⟩

/-- Witness for C11: a body for two bones with scale (header `0x8005`), one
pose record and the sample stream. -/
theorem C11_animation_body_witness :
    ∃ a : MMD_Animation ℚ,
      fill_animation ratOps
          (bufferAt [] (le16 0x8005 ++ (encodePoses [[1, 2, 3, 4, 5, 6, 7, 8, 0xFFFF]]
            ++ (sampleStream.flatMap WireItem.encode ++ (le16 0 ++ []))))) 2
          (MMD_Animation.new ℚ 0)
        = .ok (true, a, bufferAt ([] ++ (le16 0x8005 ++ (encodePoses [[1, 2, 3, 4, 5, 6, 7, 8, 0xFFFF]]
            ++ (sampleStream.flatMap WireItem.encode ++ le16 0)))) []) ∧
      a.frameCount = 5 ∧ a.initialPositions.length = 2 ∧
      a.initialPositions[1]?
        = some { scaleX := 1, scaleY := 2, scaleZ := 3, rotX := 4, rotY := 5, rotZ := 6,
                 posX := 7, posY := 8, posZ := -1 } := by
  obtain ⟨a, h1, _, h3, h4, _, h6, _⟩ :=
    C11_animation_body ratOps [] [] 0x8005 2 0 [[1, 2, 3, 4, 5, 6, 7, 8, 0xFFFF]] sampleStream
      (by decide) (by decide) (by decide) (by decide) sampleStream_valid (by decide)
  refine ⟨a, h1, ?_, h4, ?_⟩
  · rw [h3]
  · rw [h6 0 _ rfl]
    decide

theorem leValue_lt (xs : List Nat) : leValue xs < 256 ^ xs.length := by
  induction xs with
  | nil => simp [leValue]
  | cons x xs ih =>
    simp only [leValue, List.length_cons, pow_succ]
    have : x % 256 < 256 := Nat.mod_lt _ (by decide)
    omega

theorem peekbuf_start (n : Nat) (data : List Nat) (h : n ≤ data.length) :
    peekbuf n { m_data := data, m_pos := 0 } = .ok (leValue (data.take n)) := by
  have h1 := peekbuf_bufferAt n [] (data.take n) (data.drop n) (by simp [h])
  simpa [bufferAt] using h1

theorem count_of_table (data : List Nat) (h : 4 ≤ data.length) :
    (MMD_Animations.mk data).count = .ok ((leValue (data.take 4) / 4 : Nat) : Int) := by
  have hne : data ≠ [] := by
    intro h0; subst h0; simp at h
  have hlt : leValue (data.take 4) < 256 ^ 4 := by
    have := leValue_lt (data.take 4)
    have hl : (data.take 4).length = 4 := by simp [h]
    rwa [hl] at this
  simp only [MMD_Animations.count, hne, if_false, get_number_of_animations,
    peekbuf_start 4 data h]
  rw [toInt32_of_lt _ (by omega)]

/-- C12: `MMD_Animations::count()` is the first 32-bit little-endian word of
the table divided by 4 whenever the table holds at least 4 bytes, and is 0 for
an empty table; a table whose first offset is 12 has `count() = 3`. -/
theorem C12_count (data rest : List Nat) :
    (4 ≤ data.length →
      (MMD_Animations.mk data).count = .ok ((leValue (data.take 4) / 4 : Nat) : Int)) ∧
    (MMD_Animations.mk []).count = .ok 0 ∧
    (MMD_Animations.mk ([12, 0, 0, 0] ++ rest)).count = .ok 3 ∧
    (∀ b0 b1 b2 b3 : Nat, b0 < 256 → b1 < 256 → b2 < 256 → b3 < 256 →
      leValue (([b0, b1, b2, b3] ++ rest).take 4)
        = b0 + 256 * b1 + 65536 * b2 + 16777216 * b3) := by
  refine ⟨count_of_table data, rfl, ?_, ?_⟩
  · rw [count_of_table _ (by simp)]
    simp [leValue]
  · intro b0 b1 b2 b3 h0 h1 h2 h3
    simp only [List.cons_append, List.nil_append, List.take_succ_cons, List.take_zero, leValue,
      Nat.mod_eq_of_lt h0, Nat.mod_eq_of_lt h1, Nat.mod_eq_of_lt h2, Nat.mod_eq_of_lt h3]
    omega

theorem readbuf_data (n : Nat) (b : Buffer) (r : Nat × Buffer) (h : readbuf n b = .ok r) :
    r.2.m_data = b.m_data := by
  unfold readbuf Buffer.read at h
  simp only at h
  split at h
  · cases h
  · rename_i r0 hr
    split at hr
    · cases hr
      split at h
      · cases h; rfl
      · cases h
    · cases hr

theorem readAxisValues_data {F : Type} (ops : FloatOps F) (scale mask : Nat) (bits : List Nat) :
    ∀ (b : Buffer) (r : List (Axis × F) × Buffer),
      readAxisValues ops scale mask bits b = .ok r → r.2.m_data = b.m_data := by
  induction bits with
  | nil =>
    intro b r h
    simp only [readAxisValues, Except.ok.injEq] at h
    subst h; rfl
  | cons i bits ih =>
    intro b r h
    simp only [readAxisValues] at h
    split at h
    · exact ih b r h
    · split at h
      · cases h
      · rename_i r0 hr0
        split at h
        · cases h
        · rename_i r1 hr1
          cases h
          exact (ih _ _ hr1).trans (readbuf_data 2 b r0 hr0)

theorem read_keyframe_entry_data {F : Type} (ops : FloatOps F) (b : Buffer)
    (r : KeyframeEntry F × Buffer) (h : read_keyframe_entry ops b = .ok r) :
    r.2.m_data = b.m_data := by
  unfold read_keyframe_entry at h
  split at h
  · cases h
  · rename_i r0 hr0
    split at h
    · cases h
    · rename_i r1 hr1
      split at h
      · cases h
      · rename_i r2 hr2
        cases h
        exact ((readAxisValues_data ops _ _ _ _ _ hr2).trans (readbuf_data 2 _ r1 hr1)).trans
          (readbuf_data 2 b r0 hr0)

theorem readKeyframeEntries_data {F : Type} (ops : FloatOps F) (fuel : Nat) :
    ∀ (b : Buffer) (acc : List (KeyframeEntry F)) (r : List (KeyframeEntry F) × Buffer),
      readKeyframeEntries ops fuel b acc = .ok r → r.2.m_data = b.m_data := by
  induction fuel with
  | zero => intro b acc r h; simp [readKeyframeEntries] at h
  | succ f ih =>
    intro b acc r h
    simp only [readKeyframeEntries] at h
    split at h
    · cases h
    · split at h
      · cases h; rfl
      · split at h
        · cases h
        · rename_i r1 hr1
          exact (ih _ _ _ h).trans (read_keyframe_entry_data ops b r1 hr1)

theorem fillOneInstruction_data {F : Type} (ops : FloatOps F) (b : Buffer) (header : Nat)
    (r : Option (Instruction F) × Buffer) (h : fillOneInstruction ops b header = .ok r) :
    r.2.m_data = b.m_data := by
  unfold fillOneInstruction at h
  split at h
  · unfold fill_instruction_keyframe at h
    split at h
    · cases h
    · rename_i r0 hr0
      split at hr0
      · cases hr0
      · rename_i r1 hr1
        cases hr0; cases h
        exact readKeyframeEntries_data ops _ b [] r1 hr1
  · split at h
    · simp only [fill_instruction_loopStart] at h
      cases h; rfl
    · split at h
      · unfold fill_instruction_loopEnd at h
        split at h
        · cases h
        · rename_i r0 hr0
          split at hr0
          · cases hr0
          · rename_i r1 hr1
            cases hr0; cases h
            exact readbuf_data 2 b r1 hr1
      · split at h
        · unfold fill_instruction_texture at h
          split at h
          · cases h
          · rename_i r0 hr0
            cases h
            split at hr0
            · cases hr0
            · rename_i q0 hq0
              split at hr0
              · cases hr0
              · rename_i q1 hq1
                split at hr0
                · cases hr0
                · rename_i q2 hq2
                  split at hr0
                  · cases hr0
                  · rename_i q3 hq3
                    split at hr0
                    · cases hr0
                    · rename_i q4 hq4
                      split at hr0
                      · cases hr0
                      · rename_i q5 hq5
                        cases hr0
                        exact (readbuf_data 1 _ q5 hq5).trans <|
                          (readbuf_data 1 _ q4 hq4).trans <|
                          (readbuf_data 1 _ q3 hq3).trans <|
                          (readbuf_data 1 _ q2 hq2).trans <|
                          (readbuf_data 1 _ q1 hq1).trans (readbuf_data 1 b q0 hq0)
        · split at h
          · unfold fill_instruction_playSound at h
            split at h
            · cases h
            · rename_i r0 hr0
              cases h
              split at hr0
              · cases hr0
              · rename_i q0 hq0
                split at hr0
                · cases hr0
                · rename_i q1 hq1
                  cases hr0
                  exact (readbuf_data 1 _ q1 hq1).trans (readbuf_data 1 b q0 hq0)
          · cases h; rfl

theorem fillInstructions_data {F : Type} (ops : FloatOps F) (fuel : Nat) :
    ∀ (b : Buffer) (acc : List (Instruction F)) (r : Bool × List (Instruction F) × Buffer),
      fillInstructions ops fuel b acc = .ok r → r.2.2.m_data = b.m_data := by
  induction fuel with
  | zero => intro b acc r h; simp [fillInstructions] at h
  | succ f ih =>
    intro b acc r h
    simp only [fillInstructions] at h
    split at h
    · cases h; rfl
    · split at h
      · cases h
      · rename_i r0 hr0
        have h0 := readbuf_data 2 b r0 hr0
        split at h
        · cases h; exact h0
        · split at h
          · cases h
          · rename_i r1 hr1
            have h1 := fillOneInstruction_data ops _ _ r1 hr1
            split at h
            · exact (ih _ _ _ h).trans (h1.trans h0)
            · exact (ih _ _ _ h).trans (h1.trans h0)

theorem readPose_data (hasScale : Bool) (b : Buffer) (r : Position × Buffer)
    (h : readPose hasScale b = .ok r) : r.2.m_data = b.m_data := by
  unfold readPose at h
  simp only at h
  split at h
  · cases h
  · rename_i s hs
    have hs2 : s.2.m_data = b.m_data := by
      split at hs
      · split at hs
        · cases hs
        · rename_i q0 hq0
          split at hs
          · cases hs
          · rename_i q1 hq1
            split at hs
            · cases hs
            · rename_i q2 hq2
              cases hs
              exact (readbuf_data 2 _ q2 hq2).trans <|
                (readbuf_data 2 _ q1 hq1).trans (readbuf_data 2 b q0 hq0)
      · cases hs; rfl
    split at h
    · cases h
    · rename_i q3 hq3
      split at h
      · cases h
      · rename_i q4 hq4
        split at h
        · cases h
        · rename_i q5 hq5
          split at h
          · cases h
          · rename_i q6 hq6
            split at h
            · cases h
            · rename_i q7 hq7
              split at h
              · cases h
              · rename_i q8 hq8
                cases h
                exact (readbuf_data 2 _ q8 hq8).trans <|
                  (readbuf_data 2 _ q7 hq7).trans <|
                  (readbuf_data 2 _ q6 hq6).trans <|
                  (readbuf_data 2 _ q5 hq5).trans <|
                  (readbuf_data 2 _ q4 hq4).trans <|
                  (readbuf_data 2 _ q3 hq3).trans hs2

theorem readPoses_data (hasScale : Bool) (n : Nat) :
    ∀ (b : Buffer) (acc : List Position) (r : Bool × List Position × Buffer),
      readPoses hasScale n b acc = .ok r → r.2.2.m_data = b.m_data := by
  induction n with
  | zero =>
    intro b acc r h
    simp only [readPoses, Except.ok.injEq] at h
    subst h; rfl
  | succ n ih =>
    intro b acc r h
    simp only [readPoses] at h
    by_cases hav : b.availableBelow ((if hasScale then 9 else 6) * 2) = true
    · rw [if_pos hav] at h
      cases h; rfl
    · rw [if_neg hav] at h
      cases hp : readPose hasScale b with
      | error f => rw [hp] at h; cases h
      | ok r0 =>
        rw [hp] at h
        exact (ih _ _ _ h).trans (readPose_data hasScale b r0 hp)

theorem fill_animation_data {F : Type} (ops : FloatOps F) (b : Buffer) (boneCount : Nat)
    (animation : MMD_Animation F) (r : Bool × MMD_Animation F × Buffer)
    (h : fill_animation ops b boneCount animation = .ok r) :
    r.2.2.m_data = b.m_data ∧ r.2.1.id = animation.id := by
  unfold fill_animation at h
  split at h
  · cases h; exact ⟨rfl, rfl⟩
  · split at h
    · cases h
    · rename_i r0 hr0
      have h0 := readbuf_data 2 b r0 hr0
      simp only at h
      split at h
      · cases h
      · rename_i r1 hr1
        have h1 := readPoses_data _ _ _ _ r1 hr1
        split at h
        · cases h; exact ⟨h1.trans h0, rfl⟩
        · split at h
          · cases h
          · rename_i r2 hr2
            cases h
            exact ⟨(fillInstructions_data ops _ _ _ r2 hr2).trans (h1.trans h0), rfl⟩

theorem offsetAt_table (data : List Nat) (i : Nat) (h : 4 * i + 4 ≤ data.length) :
    offsetAt { m_data := data, m_pos := 0 } i = .ok (slotOffset data i) := by
  unfold offsetAt slotOffset
  simp only [le_refl, Int.toNat_zero, zero_add, true_and]
  rw [if_pos h]

theorem readAnimationSlots_spec {F : Type} (ops : FloatOps F) (boneCount : Nat)
    (data : List Nat) (content : Nat → MMD_Animation F) :
    ∀ (count i : Nat) (buffer : Buffer) (output : List (MMD_Animation F)),
      buffer.m_data = data →
      4 * (i + count) ≤ data.length →
      (∀ j, i ≤ j → j < i + count →
        (slotOffset data j = 0 → content j = MMD_Animation.new F j) ∧
        (slotOffset data j ≠ 0 → ∃ b,
          fill_animation ops { m_data := data, m_pos := (slotOffset data j : Int) } boneCount
            (MMD_Animation.new F j) = .ok (true, content j, b))) →
      ∃ b, readAnimationSlots ops boneCount { m_data := data, m_pos := 0 } count i buffer output
          = .ok (output ++ (List.range' i count).map content, b) ∧ b.m_data = data := by
  intro count
  induction count with
  | zero =>
    intro i buffer output hb _ _
    exact ⟨buffer, by simp [readAnimationSlots], hb⟩
  | succ c ih =>
    intro i buffer output hb hlen hslots
    have hoff := offsetAt_table data i (by omega)
    obtain ⟨hz, hnz⟩ := hslots i (le_refl _) (by omega)
    have hrest : ∀ j, i + 1 ≤ j → j < i + 1 + c →
        (slotOffset data j = 0 → content j = MMD_Animation.new F j) ∧
        (slotOffset data j ≠ 0 → ∃ b,
          fill_animation ops { m_data := data, m_pos := (slotOffset data j : Int) } boneCount
            (MMD_Animation.new F j) = .ok (true, content j, b)) :=
      fun j h1 h2 => hslots j (by omega) (by omega)
    simp only [readAnimationSlots, hoff]
    by_cases h0 : slotOffset data i = 0
    · simp only [h0, ne_eq, not_true_eq_false, if_false]
      obtain ⟨b, hrun, hdata⟩ := ih (i + 1) buffer (output ++ [MMD_Animation.new F i]) hb
        (by omega) hrest
      refine ⟨b, ?_, hdata⟩
      rw [hrun, List.range'_succ, List.map_cons, hz h0, List.append_assoc]
      rfl
    · obtain ⟨b0, hfill⟩ := hnz h0
      have hseek : buffer.seek (slotOffset data i : Int)
          = { m_data := data, m_pos := (slotOffset data i : Int) } := by
        simp [Buffer.seek, hb]
      have hd := (fill_animation_data ops _ _ _ _ hfill).1
      simp only [ne_eq, h0, not_false_eq_true, if_true, hseek, hfill, Bool.true_eq_false]
      obtain ⟨b, hrun, hdata⟩ := ih (i + 1) b0 (output ++ [content i]) hd (by omega) hrest
      refine ⟨b, ?_, hdata⟩
      rw [hrun, List.range'_succ, List.map_cons, List.append_assoc]
      rfl

theorem decode_table {F : Type} (ops : FloatOps F) (data : List Nat) (boneCount : Nat)
    (content : Nat → MMD_Animation F)
    (hlen : 4 ≤ data.length) (htab : 4 * (slotOffset data 0 / 4) ≤ data.length)
    (hslots : ∀ j, j < slotOffset data 0 / 4 →
      (slotOffset data j = 0 → content j = MMD_Animation.new F j) ∧
      (slotOffset data j ≠ 0 → ∃ b,
        fill_animation ops { m_data := data, m_pos := (slotOffset data j : Int) } boneCount
          (MMD_Animation.new F j) = .ok (true, content j, b))) :
    (MMD_Animations.mk data).decode ops boneCount
      = .ok ((List.range (slotOffset data 0 / 4)).map content) := by
  have hne : data ≠ [] := by
    intro h0; subst h0; simp at hlen
  have hfirst : leValue (data.take 4) = slotOffset data 0 := by
    simp [slotOffset]
  have hav : ¬ ((data.length : Int) - 0 = 0) := by omega
  obtain ⟨b, hrun, _⟩ := readAnimationSlots_spec ops boneCount data content
    (slotOffset data 0 / 4) 0 { m_data := data, m_pos := 0 } [] rfl (by omega)
    (fun j _ h2 => hslots j (by omega))
  simp only [MMD_Animations.decode, hne, if_false, read_animations, Buffer.pos,
    Buffer.bytesAvailable, Buffer.size, ne_eq, hav, not_false_eq_true, and_self, if_true,
    get_number_of_animations, peekbuf_start 4 data hlen, hfirst, hrun, List.nil_append,
    List.range_eq_range']

theorem slot_id {F : Type} (ops : FloatOps F) (data : List Nat) (boneCount j : Nat)
    (a : MMD_Animation F)
    (hz : slotOffset data j = 0 → a = MMD_Animation.new F j)
    (hnz : slotOffset data j ≠ 0 → ∃ b,
      fill_animation ops { m_data := data, m_pos := (slotOffset data j : Int) } boneCount
        (MMD_Animation.new F j) = .ok (true, a, b)) : a.id = j := by
  by_cases h0 : slotOffset data j = 0
  · rw [hz h0]; rfl
  · obtain ⟨b, hb⟩ := hnz h0
    exact (fill_animation_data ops _ _ _ _ hb).2

/-- C13: when the body of every slot with a non-zero offset is well formed (the
decoder of a body, started at the offset of the slot, returns `true`),
`MMD_Animations::decode` returns exactly `count()` animations in slot order, the
`i`-th with id `i` and the content decoded at its own offset, whatever the
other slots hold; a slot whose offset is 0 gives the animation with frame
count 0, no poses and no instructions. -/
theorem C13_decode_slots {F : Type} (ops : FloatOps F) (data : List Nat) (boneCount : Nat)
    (content : Nat → MMD_Animation F)
    (hlen : 4 ≤ data.length) (htab : 4 * (slotOffset data 0 / 4) ≤ data.length)
    (hslots : ∀ j, j < slotOffset data 0 / 4 →
      (slotOffset data j = 0 → content j = MMD_Animation.new F j) ∧
      (slotOffset data j ≠ 0 → ∃ b,
        fill_animation ops { m_data := data, m_pos := (slotOffset data j : Int) } boneCount
          (MMD_Animation.new F j) = .ok (true, content j, b))) :
    ∃ out : List (MMD_Animation F),
      (MMD_Animations.mk data).decode ops boneCount = .ok out ∧
      (MMD_Animations.mk data).count = .ok (out.length : Int) ∧
      out.length = slotOffset data 0 / 4 ∧
      (∀ i, i < out.length → out[i]? = some (content i) ∧ (content i).id = i) ∧
      (∀ i, i < out.length → slotOffset data i = 0 →
        out[i]? = some { frameCount := 0, id := i, initialPositions := [], instructions := [] }) := by
  have hfirst : leValue (data.take 4) = slotOffset data 0 := by
    simp [slotOffset]
  refine ⟨_, decode_table ops data boneCount content hlen htab hslots, ?_, ?_, ?_, ?_⟩
  · rw [count_of_table data hlen, hfirst]
    simp
  · simp
  · intro i hi
    simp only [List.length_map, List.length_range] at hi
    refine ⟨by simp [hi], ?_⟩
    exact slot_id ops data boneCount i _ (hslots i hi).1 (hslots i hi).2
  · intro i hi h0
    simp only [List.length_map, List.length_range] at hi
    have := (hslots i hi).1 h0
    simp [hi, this, MMD_Animation.new]

/-- Witness for C13: the sample table of three slots, the middle one empty. -/
theorem C13_decode_slots_witness :
    ∃ out : List (MMD_Animation ℚ),
      (MMD_Animations.mk sampleTable).decode ratOps 1 = .ok out ∧
      (MMD_Animations.mk sampleTable).count = .ok (out.length : Int) ∧
      out.length = slotOffset sampleTable 0 / 4 ∧
      (∀ i, i < out.length →
        out[i]? = some (sampleTableContent i) ∧ (sampleTableContent i).id = i) ∧
      (∀ i, i < out.length → slotOffset sampleTable i = 0 →
        out[i]? = some { frameCount := 0, id := i, initialPositions := [], instructions := [] }) :=
  C13_decode_slots ratOps sampleTable 1 sampleTableContent (by decide) (by decide)
    (by
      intro j hj
      have hj3 : j < 3 := hj
      interval_cases j
      · exact ⟨fun h => absurd h (by decide), fun _ => ⟨_, rfl⟩⟩
      · exact ⟨fun _ => rfl, fun h => absurd rfl h⟩
      · exact ⟨fun h => absurd h (by decide), fun _ => ⟨_, rfl⟩⟩)

theorem peekbuf_short (pre tail : List Nat) (h : tail.length < 2) :
    peekbuf 2 (bufferAt pre tail) = .error Fault.shortRead := by
  unfold peekbuf Buffer.peek bufferAt Buffer.size Buffer.pos
  simp only [List.length_append, Nat.cast_add]
  have h1 : min ((pre.length : Int) + (tail.length : Int) - (pre.length : Int))
      ((2 : Nat) : Int) = (tail.length : Int) := by
    have : ((2 : Nat) : Int) = 2 := rfl
    omega
  rw [h1]
  have h2 : (0 : Int) ≤ (pre.length : Int) ∧ (0 : Int) ≤ (tail.length : Int) := by omega
  simp only [h2, and_self, if_true, Int.toNat_ofNat, List.drop_left, List.length_take]
  have h3 : ¬ (min tail.length tail.length = 2) := by omega
  simp only [h3, if_false]

/-- C14, the code evaluated: truncation of an animation body.  Where
`fill_animation` checks the bytes left (before the frame word, before a pose
record, before an instruction header) a body that ends there makes `decode`
return the empty list, the animations of earlier slots being discarded.  The
loop of `fill_instruction` for a keyframe has no such check: when fewer than
two bytes follow a keyframe header or a keyframe entry, its condition tests a
word that was not read, and when a keyframe entry is cut short its fields are
not read either, so `decode` does not return the empty list. -/
theorem C14_truncated_body :
    (∀ (pre tail : List Nat) (header : Nat), tail.length < 2 →
      fill_instruction_keyframe ratOps (bufferAt pre tail) header = .error Fault.shortRead) ∧
    (MMD_Animations.mk [4, 0, 0, 0, 1, 0, 1, 0]).decode ratOps 1 = .error Fault.shortRead ∧
    (MMD_Animations.mk [4, 0, 0, 0, 1, 0, 1, 0, 0x40]).decode ratOps 1
      = .error Fault.shortRead ∧
    (MMD_Animations.mk [4, 0, 0, 0, 1, 0, 1, 0, 0x40, 0x80]).decode ratOps 1
      = .error Fault.shortRead ∧
    (MMD_Animations.mk [4, 0, 0, 0, 1, 0, 1, 0, 0x40, 0x80, 1, 0, 5, 0]).decode ratOps 1
      = .error Fault.shortRead ∧
    (MMD_Animations.mk [8, 0, 0, 0, 12, 0, 0, 0, 1, 0, 0, 0, 1, 0, 1, 0]).decode ratOps 1
      = .error Fault.shortRead ∧
    (MMD_Animations.mk [4, 0, 0, 0, 1, 0]).decode ratOps 1 = .ok [] ∧
    (MMD_Animations.mk [4, 0, 0, 0, 1, 0, 1, 0, 2, 0]).decode ratOps 2 = .ok [] ∧
    (MMD_Animations.mk [4, 0, 0, 0, 1, 0, 3, 0x10]).decode ratOps 1 = .ok [] ∧
    (MMD_Animations.mk [8, 0, 0, 0, 12, 0, 0, 0, 1, 0, 0, 0, 1, 0]).decode ratOps 1 = .ok [] ∧
    (MMD_Animations.mk [8, 0, 0, 0, 12, 0, 0, 0, 1, 0, 0, 0, 1, 0, 0, 0]).decode ratOps 1
      = .ok [{ frameCount := 1, id := 0, initialPositions := [Position.default],
               instructions := [] },
             { frameCount := 1, id := 1, initialPositions := [Position.default],
               instructions := [] }] := by
  refine ⟨?_, rfl, rfl, rfl, rfl, rfl, rfl, rfl, rfl, rfl, rfl⟩
  intro pre tail header h
  unfold fill_instruction_keyframe
  simp only [readKeyframeEntries, peekbuf_short pre tail h]

theorem axisBits_eq_nil (mask : Nat) (h : mask < 512) : axisBits mask = [] ↔ mask = 0 := by
  constructor
  · intro h0
    apply Nat.eq_of_testBit_eq
    intro i
    rw [Nat.zero_testBit]
    by_cases hi : i < 9
    · by_contra hb
      have hb1 : mask.testBit i = true := by simpa using hb
      have hmem : i ∈ axisBits mask := by
        simp only [axisBits, List.mem_filter, hb1, and_true]
        interval_cases i <;> simp
      rw [h0] at hmem
      cases hmem
    · apply Nat.testBit_lt_two_pow
      calc mask < 2 ^ 9 := h
        _ ≤ 2 ^ i := Nat.pow_le_pow_right (by decide) (by omega)
  · intro h0
    subst h0
    decide

/-- C15, as amended: a keyframe header followed by the entries `es` (the words
with the top bit set) and then by a word without the top bit decodes to a
keyframe with exactly one entry per element of `es`, so with none when the
header is followed at once by a word without the top bit; the `i`-th entry has
one axis value per set bit of the mask of its entry word, so none when that
mask is 0. -/
theorem C15_entry_counts {F : Type} (ops : FloatOps F) (pre rest : List Nat) (h next : Nat)
    (es : List WireEntry) (hv : (WireItem.keyframe h es).valid) (hnext : next < 0x8000) :
    ∃ k : KeyframeInstruction F,
      fillOneInstruction ops
          (bufferAt pre (es.flatMap WireEntry.encode ++ (le16 next ++ rest))) h
        = .ok (some (Instruction.keyframe k),
               bufferAt (pre ++ es.flatMap WireEntry.encode) (le16 next ++ rest)) ∧
      k.entries.length = es.length ∧
      (k.entries = [] ↔ es = []) ∧
      (∀ (i : Nat) (e : WireEntry), es[i]? = some e →
        ∃ ke, k.entries[i]? = some ke ∧
          ke.values.length = (axisBits (e.word / 64 % 512)).length ∧
          (ke.values = [] ↔ e.word / 64 % 512 = 0)) := by
  have hrun := fillOneInstruction_item ops (WireItem.keyframe h es) hv pre (le16 next ++ rest)
    (fun _ => ⟨next, rest, hnext, rfl⟩)
  simp only [WireItem.body, WireItem.header, WireItem.decode] at hrun
  refine ⟨_, hrun, by simp, by simp, ?_⟩
  intro i e hie
  have hmem : e ∈ es := by
    obtain ⟨hi, he⟩ := List.getElem?_eq_some.mp hie
    rw [← he]
    exact List.getElem_mem hi
  have hev : e.valid := hv.2.2 e hmem
  have hlen : (WireEntry.decode ops e).values.length = (axisBits (e.word / 64 % 512)).length := by
    simp [WireEntry.decode, hev.2.2.2]
  refine ⟨WireEntry.decode ops e, by simp [hie], hlen, ?_⟩
  rw [← List.length_eq_zero, hlen, List.length_eq_zero]
  exact axisBits_eq_nil _ (Nat.mod_lt _ (by decide))

/-- Witness for C15 as amended: the header `0x0001` followed by one entry
whose mask is 0 and then by the terminator. -/
theorem C15_entry_counts_witness :
    ∃ k : KeyframeInstruction ℚ,
      fillOneInstruction ratOps
          (bufferAt [] ([⟨0x8000, 1, []⟩].flatMap WireEntry.encode ++ (le16 0 ++ []))) 0x0001
        = .ok (some (Instruction.keyframe k),
               bufferAt ([] ++ [⟨0x8000, 1, []⟩].flatMap WireEntry.encode) (le16 0 ++ [])) ∧
      k.entries.length = 1 ∧
      (∃ ke, k.entries[0]? = some ke ∧ ke.values = []) := by
  obtain ⟨k, h1, h2, _, h4⟩ :=
    C15_entry_counts ratOps [] [] 0x0001 0 [⟨0x8000, 1, []⟩]
      (by
        refine ⟨by decide, by decide, ?_⟩
        intro e he
        simp only [List.mem_singleton] at he
        subst he
        exact ⟨by decide, by decide, by decide, by decide⟩)
      (by decide)
  obtain ⟨ke, hk1, _, hk3⟩ := h4 0 ⟨0x8000, 1, []⟩ rfl
  exact ⟨k, h1, h2, ke, hk1, hk3.mpr (by decide)⟩

/-- C15, counterexample: the table whose only body is the frame word 1, the
keyframe header `0x0001` and the terminator decodes to a keyframe without any
entry; with the entry word `0x8000` (mask 0) and the scale 1 in between, to a
keyframe whose only entry has no axis value. -/
theorem C15_counterexample :
    (MMD_Animations.mk [4, 0, 0, 0, 1, 0, 1, 0, 0, 0]).decode ratOps 1
      = .ok [{ frameCount := 1, id := 0, initialPositions := [Position.default],
               instructions := [Instruction.keyframe { timecode := 1, entries := [] }] }] ∧
    (MMD_Animations.mk [4, 0, 0, 0, 1, 0, 1, 0, 0x00, 0x80, 1, 0, 0, 0]).decode ratOps 1
      = .ok [{ frameCount := 1, id := 0, initialPositions := [Position.default],
               instructions := [Instruction.keyframe
                 { timecode := 1,
                   entries := [{ affectedNode := 0, scale := 1, values := [] }] }] }] :=
  ⟨rfl, rfl⟩

theorem bufferAt_split (data : List Nat) (p n : Nat) (h : p + n ≤ data.length) :
    bufferAt (data.take p) ((data.drop p).take n ++ data.drop (p + n))
        = { m_data := data, m_pos := ((p : Nat) : Int) } ∧
      bufferAt (data.take p ++ (data.drop p).take n) (data.drop (p + n))
        = { m_data := data, m_pos := ((p + n : Nat) : Int) } := by
  have h1 : (data.drop p).take n ++ data.drop (p + n) = data.drop p := by
    rw [← List.drop_drop]
    exact List.take_append_drop n (data.drop p)
  have h2 : data.take p ++ data.drop p = data := List.take_append_drop p data
  constructor
  · simp only [bufferAt, h1, h2, List.length_take]
    congr 2
    omega
  · simp only [bufferAt, List.append_assoc, h1, h2, List.length_append, List.length_take,
      List.length_drop]
    congr 2
    omega

theorem readbuf_at (n : Nat) (data : List Nat) (p : Nat) (h : p + n ≤ data.length) :
    readbuf n { m_data := data, m_pos := ((p : Nat) : Int) }
      = .ok (leValue ((data.drop p).take n), { m_data := data, m_pos := ((p + n : Nat) : Int) }) := by
  obtain ⟨h1, h2⟩ := bufferAt_split data p n h
  have hlen : ((data.drop p).take n).length = n := by
    simp only [List.length_take, List.length_drop]
    omega
  have := readbuf_bufferAt n (data.take p) ((data.drop p).take n) (data.drop (p + n)) hlen
  rwa [h1, h2] at this

theorem skip_at (data : List Nat) (p k : Nat) :
    Buffer.skip { m_data := data, m_pos := ((p : Nat) : Int) } (k : Int)
      = { m_data := data, m_pos := ((p + k : Nat) : Int) } := by
  simp [Buffer.skip, Buffer.seek, Buffer.pos]

theorem readUv_at (data : List Nat) (p : Nat) (h : p + 2 ≤ data.length) :
    readUv { m_data := data, m_pos := ((p : Nat) : Int) }
      = .ok (uvAt data p, { m_data := data, m_pos := ((p + 2 : Nat) : Int) }) := by
  simp only [readUv, readbuf_at 2 data p h, uvAt, wordAt]

theorem readColor_at (data : List Nat) (p : Nat) (h : p + 3 ≤ data.length) :
    readColor { m_data := data, m_pos := ((p : Nat) : Int) }
      = .ok (colorAt data p, { m_data := data, m_pos := ((p + 3 : Nat) : Int) }) := by
  simp only [readColor, readbuf_at 3 data p h, colorAt]

theorem readColors_at (data : List Nat) :
    ∀ (count p : Nat) (acc : List tmd_color_t), p + 4 * count ≤ data.length →
      readColors count { m_data := data, m_pos := ((p : Nat) : Int) } acc
        = .ok (acc ++ (List.range count).map (fun j => colorAt data (p + 4 * j)),
               { m_data := data, m_pos := ((p + 4 * count : Nat) : Int) }) := by
  intro count
  induction count with
  | zero => intro p acc _; simp [readColors]
  | succ c ih =>
    intro p acc h
    have hs := skip_at data (p + 3) 1
    simp only [Nat.cast_one] at hs
    simp only [readColors, readColor_at data p (by omega), hs]
    rw [ih (p + 3 + 1) _ (by omega)]
    have h1 : p + 3 + 1 + 4 * c = p + 4 * (c + 1) := by omega
    rw [h1, List.range_succ_eq_map, List.map_cons, List.map_map, List.append_assoc]
    simp only [List.singleton_append, Nat.mul_zero, Nat.add_zero]
    congr 4
    apply List.map_congr_left
    intro j _
    simp only [Function.comp]
    congr 1
    omega

theorem readIndices_at (data : List Nat) (normalCount base : Nat) :
    ∀ (k i : Nat) (normals vertices : List Nat),
      base + 2 * (i + k) + 2 * min (i + k) normalCount ≤ data.length →
      readIndices normalCount (List.range' i k)
          { m_data := data, m_pos := ((base + 2 * i + 2 * min i normalCount : Nat) : Int) }
          normals vertices
        = .ok (normals ++ ((List.range' i k).filter (fun j => decide (j < normalCount))).map
                 (fun j => wordAt data (base + 4 * j)),
               vertices ++ (List.range' i k).map
                 (fun j => wordAt data (base + 2 * j + 2 * min (j + 1) normalCount)),
               { m_data := data,
                 m_pos := ((base + 2 * (i + k) + 2 * min (i + k) normalCount : Nat) : Int) }) := by
  intro k
  induction k with
  | zero => intro i normals vertices _; simp [readIndices]
  | succ k ih =>
    intro i normals vertices h
    have hmono : min (i + 1) normalCount ≤ min (i + (k + 1)) normalCount := by
      simp only [le_min_iff, min_le_iff]
      omega
    have hk : i + 1 + k = i + (k + 1) := by omega
    have hnext := ih (i + 1)
    rw [hk] at hnext
    obtain ⟨M, hMdef, hMle⟩ : ∃ M, M = min (i + (k + 1)) normalCount ∧
        min (i + 1) normalCount ≤ M := ⟨_, rfl, hmono⟩
    have h0 := h
    rw [← hMdef] at h0
    simp only [List.range'_succ, readIndices]
    by_cases hi : i < normalCount
    · have hm : min i normalCount = i := min_eq_left (by omega)
      have hm1 : min (i + 1) normalCount = i + 1 := min_eq_left (by omega)
      rw [hm1] at hMle hnext
      rw [hm, if_pos hi, readbuf_at 2 data _ (by omega)]
      simp only []
      rw [readbuf_at 2 data _ (by omega)]
      simp only []
      have hp : base + 2 * i + 2 * i + 2 + 2 = base + 2 * (i + 1) + 2 * (i + 1) := by omega
      rw [hp, hnext _ _ h]
      have e1 : base + 2 * i + 2 * i = base + 4 * i := by omega
      have e2 : base + 2 * i + 2 * (i + 1) = base + 4 * i + 2 := by omega
      simp only [List.filter_cons, hi, decide_True, if_true, List.map_cons, List.append_assoc,
        List.singleton_append, wordAt, hm1, e1, e2]
    · have hm : min i normalCount = normalCount := min_eq_right (by omega)
      have hm1 : min (i + 1) normalCount = normalCount := min_eq_right (by omega)
      rw [hm1] at hMle hnext
      rw [hm, if_neg hi, readbuf_at 2 data _ (by omega)]
      simp only []
      have hp : base + 2 * i + 2 * normalCount + 2 = base + 2 * (i + 1) + 2 * normalCount := by
        omega
      rw [hp, hnext _ _ h]
      simp only [List.filter_cons, hi, decide_False, List.map_cons, List.append_assoc,
        List.singleton_append, wordAt, hm1, Bool.false_eq_true, if_false]

theorem readTextureBlock_at (vertexCount : Nat) (p : TMD_Primitive) (data : List Nat) (pos : Nat)
    (h : pos + (if vertexCount = 4 then 16 else 12) ≤ data.length) :
    readTextureBlock vertexCount p { m_data := data, m_pos := ((pos : Nat) : Int) }
      = .ok ({ p with
                m_uvs := [uvAt data pos, uvAt data (pos + 4), uvAt data (pos + 8)]
                  ++ (if vertexCount = 4 then [uvAt data (pos + 12)] else []),
                m_clutInfo := wordAt data (pos + 2),
                m_textureInfo := wordAt data (pos + 6) },
             { m_data := data,
               m_pos := ((pos + (if vertexCount = 4 then 16 else 12) : Nat) : Int) }) := by
  have hlen : pos + 12 ≤ data.length := by
    split at h <;> omega
  have hs := skip_at data (pos + 2 + 2 + 2 + 2 + 2) 2
  have hs2 := skip_at data (pos + 2 + 2 + 2 + 2 + 2 + 2 + 2) 2
  simp only [Nat.cast_ofNat] at hs hs2
  unfold readTextureBlock
  rw [readUv_at data pos (by omega)]
  simp only []
  rw [readbuf_at 2 data (pos + 2) (by omega)]
  simp only []
  rw [readUv_at data (pos + 2 + 2) (by omega)]
  simp only []
  rw [readbuf_at 2 data (pos + 2 + 2 + 2) (by omega)]
  simp only []
  rw [readUv_at data (pos + 2 + 2 + 2 + 2) (by omega)]
  simp only [hs]
  by_cases hq : vertexCount = 4
  · rw [if_pos hq] at h
    simp only [hq, if_true]
    rw [readUv_at data (pos + 2 + 2 + 2 + 2 + 2 + 2) (by omega)]
    simp only [hs2, wordAt]
    rfl
  · simp only [hq, if_false, wordAt]
    rfl

theorem specCounts_eq (flag mode : Nat) : specCounts flag mode = polygonCounts flag mode := by
  unfold specCounts polygonCounts
  cases isQuad mode <;> cases isLightSourceDisabled flag <;> cases hasBrightness mode <;>
    cases isGouraud mode <;> cases isGradated flag <;> cases modeHasTexture mode <;> rfl

theorem specCounts_le (flag mode : Nat) :
    (specCounts flag mode).2.1 ≤ (specCounts flag mode).1 ∧
      (specCounts flag mode).1 ≤ 4 ∧ (specCounts flag mode).2.2 ≤ 4 := by
  unfold specCounts
  cases isQuad mode <;> cases isLightSourceDisabled flag <;> cases hasBrightness mode <;>
    cases isGouraud mode <;> cases isGradated flag <;> cases modeHasTexture mode <;> decide

theorem filter_lt_range (v n : Nat) (h : n ≤ v) :
    (List.range v).filter (fun j => decide (j < n)) = List.range n := by
  induction v with
  | zero =>
    have : n = 0 := by omega
    subst this
    rfl
  | succ v ih =>
    rw [List.range_succ, List.filter_append]
    by_cases hv : n ≤ v
    · rw [ih hv]
      have : ¬ v < n := by omega
      simp [this]
    · have hn : n = v + 1 := by omega
      subst hn
      have hall : (List.range v).filter (fun j => decide (j < v + 1)) = List.range v := by
        rw [List.filter_eq_self]
        intro a ha
        have := List.mem_range.mp ha
        simp
        omega
      rw [hall, List.range_succ]
      simp

theorem wordAt_header (hdr xs : List Nat) (off k : Nat) (hh : hdr.length = 4) (hk : k = 4 + off) :
    wordAt (hdr ++ xs) k = wordAt xs off := by
  subst hk
  unfold wordAt
  rw [← hh, List.drop_append]

theorem uvAt_header (hdr xs : List Nat) (off k : Nat) (hh : hdr.length = 4) (hk : k = 4 + off) :
    uvAt (hdr ++ xs) k = uvAt xs off := by
  unfold uvAt
  rw [wordAt_header hdr xs off k hh hk]

theorem colorAt_header (hdr xs : List Nat) (off k : Nat) (hh : hdr.length = 4)
    (hk : k = 4 + off) : colorAt (hdr ++ xs) k = colorAt xs off := by
  subst hk
  unfold colorAt
  rw [← hh, List.drop_append]

theorem readTexture_at (p : TMD_Primitive) (data : List Nat) (pos : Nat)
    (h : pos + (if modeHasTexture p.m_mode then (if p.vertexCount = 4 then 16 else 12) else 0)
      ≤ data.length) :
    readTexture p { m_data := data, m_pos := ((pos : Nat) : Int) }
      = .ok ({ p with
                m_uvs :=
                  if modeHasTexture p.m_mode then
                    [uvAt data pos, uvAt data (pos + 4), uvAt data (pos + 8)]
                      ++ (if p.vertexCount = 4 then [uvAt data (pos + 12)] else [])
                  else p.m_uvs,
                m_clutInfo := if modeHasTexture p.m_mode then wordAt data (pos + 2) else p.m_clutInfo,
                m_textureInfo :=
                  if modeHasTexture p.m_mode then wordAt data (pos + 6) else p.m_textureInfo },
             { m_data := data,
               m_pos := ((pos + (if modeHasTexture p.m_mode then
                 (if p.vertexCount = 4 then 16 else 12) else 0) : Nat) : Int) }) := by
  unfold readTexture
  by_cases ht : modeHasTexture p.m_mode = true
  · simp only [ht, if_true] at h ⊢
    rw [readTextureBlock_at p.vertexCount p data pos h]
  · simp only [ht, if_false, Bool.false_eq_true, Nat.add_zero]

theorem skip_header (data : List Nat) :
    Buffer.skip { m_data := data, m_pos := 0 } 4 = { m_data := data, m_pos := ((4 : Nat) : Int) } := by
  simp [Buffer.skip, Buffer.seek, Buffer.pos]

theorem constructPolygon_layout (header : tmd_primitive_header_t) (hdr payload : List Nat)
    (hh : hdr.length = 4) (hilen : header.ilen ≤ 10)
    (hneed : polygonBytes header.flag header.mode ≤ payload.length) :
    constructPolygon header (TMD_Primitive.init header)
        { m_data := hdr ++ payload, m_pos := ((4 : Nat) : Int) }
      = .ok (layoutPolygon header.flag header.mode payload) := by
  obtain ⟨hNV, hV4, hC4⟩ := specCounts_le header.flag header.mode
  have hlen : (hdr ++ payload).length = 4 + payload.length := by simp [hh]
  have hVq : ((specCounts header.flag header.mode).1 = 4) ↔ isQuad header.mode = true := by
    unfold specCounts
    cases isQuad header.mode <;> simp
  have hT : (if modeHasTexture header.mode then
      (if (specCounts header.flag header.mode).1 = 4 then 16 else 12) else 0)
      = textureBytes header.mode := by
    unfold textureBytes
    simp only [hVq]
  unfold polygonBytes at hneed
  unfold constructPolygon
  rw [if_pos hilen]
  simp only [TMD_Primitive.init, ← specCounts_eq]
  have hti := readTexture_at
    { m_vertices := [], m_normals := [], m_colors := [], m_uvs := [], m_textureInfo := 0,
      m_clutInfo := 0, m_spriteSize := { w := 0, h := 0 }, m_flags := header.flag,
      m_mode := header.mode, vertexCount := (specCounts header.flag header.mode).1,
      normalCount := (specCounts header.flag header.mode).2.1,
      colorCount := (specCounts header.flag header.mode).2.2 } (hdr ++ payload) 4
    (by simp only [hT, hlen]; omega)
  simp only [hT] at hti
  rw [hti]
  simp only []
  rw [readColors_at (hdr ++ payload) _ _ [] (by rw [hlen]; omega)]
  simp only []
  have hI := readIndices_at (hdr ++ payload) (specCounts header.flag header.mode).2.1
    (4 + textureBytes header.mode + 4 * (specCounts header.flag header.mode).2.2)
    (specCounts header.flag header.mode).1 0 [] []
    (by rw [hlen, min_eq_right (by omega)]; omega)
  simp only [Nat.mul_zero, Nat.add_zero, Nat.zero_min, ← List.range_eq_range', Nat.zero_add,
    List.nil_append, filter_lt_range _ _ hNV] at hI
  rw [hI]
  simp only [layoutPolygon, hVq]
  congr 2
  · apply List.map_congr_left
    intro i _
    exact wordAt_header hdr payload _ _ hh (by omega)
  · apply List.map_congr_left
    intro i _
    exact wordAt_header hdr payload _ _ hh (by omega)
  · apply List.map_congr_left
    intro i _
    exact colorAt_header hdr payload _ _ hh (by omega)
  · split
    · rw [uvAt_header hdr payload 0 4 hh rfl, uvAt_header hdr payload 4 (4 + 4) hh rfl,
        uvAt_header hdr payload 8 (4 + 8) hh rfl, uvAt_header hdr payload 12 (4 + 12) hh rfl]
    · rfl
  · split
    · exact wordAt_header hdr payload _ _ hh rfl
    · rfl
  · split
    · exact wordAt_header hdr payload _ _ hh rfl
    · rfl

theorem code_bits (mode : Nat) (h : mode < 256) : extract_code_from_mode mode = mode / 32 := by
  unfold extract_code_from_mode
  rw [Nat.mod_eq_of_lt h, Nat.shiftRight_eq_div_pow]

theorem ofPacket_polygon (olen ilen flag mode : Nat) (payload rest : List Nat)
    (hilen : ilen ≤ 10) (hflag : flag < 256) (hmode : mode < 256) (hcode : mode / 32 = 1)
    (hpay : payload.length = 4 * ilen) (hneed : polygonBytes flag mode ≤ 4 * ilen) :
    TMD_Primitive.ofPacket (olen :: ilen :: flag :: mode :: (payload ++ rest))
      = .ok (layoutPolygon flag mode payload) := by
  have hdata : (olen :: ilen :: flag :: mode :: (payload ++ rest)).take (4 + ilen * 4)
      = [olen, ilen, flag, mode] ++ payload := by
    have h4 : 4 + ilen * 4 = payload.length + 4 := by omega
    rw [h4]
    simp [List.take_succ_cons]
  have hi : ilen % 256 = ilen := Nat.mod_eq_of_lt (by omega)
  have hf : flag % 256 = flag := Nat.mod_eq_of_lt hflag
  have hm : mode % 256 = mode := Nat.mod_eq_of_lt hmode
  have hpoly := constructPolygon_layout
    { olen := olen % 256, ilen := ilen, flag := flag, mode := mode } [olen, ilen, flag, mode]
    payload rfl hilen (by rw [hpay]; exact hneed)
  simp only [TMD_Primitive.ofPacket, packetHeader, hi, hf, hm, get_primitive_packet_size, hdata,
    skip_header, TMD_Primitive.getCode, TMD_Primitive.init, code_bits mode hmode, hcode,
    TMD_Code_POLYGON, if_true]
  exact hpoly

/-- C16: for every polygon packet (code 1, `ilen` at most 10, a payload of
`4 * ilen` bytes that holds the layout) the constructor returns a primitive
whose counts depend on the flag and mode bits alone: `vertexCount` is 4 for a
quad and 3 otherwise; `normalCount` is 0 with the light source disabled or
with brightness, else `vertexCount` for gouraud, else 1; `colorCount` is
`vertexCount` if gradated, else 1 if the light source is disabled and not
gouraud, else `vertexCount` if it is disabled and gouraud, else 0 with a
texture, else 1.  A textured gouraud quad without the light-disabled flag,
gradation or brightness has the counts 4, 4 and 0. -/
theorem C16_polygon_counts (olen ilen flag mode : Nat) (payload rest : List Nat)
    (hilen : ilen ≤ 10) (hflag : flag < 256) (hmode : mode < 256) (hcode : mode / 32 = 1)
    (hpay : payload.length = 4 * ilen) (hneed : polygonBytes flag mode ≤ 4 * ilen) :
    ∃ prim : TMD_Primitive,
      TMD_Primitive.ofPacket (olen :: ilen :: flag :: mode :: (payload ++ rest)) = .ok prim ∧
      prim.getCode = TMD_Code_POLYGON ∧
      prim.vertexCount = (if isQuad mode then 4 else 3) ∧
      prim.normalCount =
        (if isLightSourceDisabled flag || hasBrightness mode then 0
         else if isGouraud mode then prim.vertexCount else 1) ∧
      prim.colorCount =
        (if isGradated flag then prim.vertexCount
         else if isLightSourceDisabled flag && !isGouraud mode then 1
         else if isLightSourceDisabled flag && isGouraud mode then prim.vertexCount
         else if modeHasTexture mode then 0
         else 1) ∧
      (isQuad mode = true → isGouraud mode = true → modeHasTexture mode = true →
        isLightSourceDisabled flag = false → isGradated flag = false →
        hasBrightness mode = false →
        prim.vertexCount = 4 ∧ prim.normalCount = 4 ∧ prim.colorCount = 0) := by
  refine ⟨_, ofPacket_polygon olen ilen flag mode payload rest hilen hflag hmode hcode hpay hneed,
    ?_, rfl, rfl, rfl, ?_⟩
  · simp only [TMD_Primitive.getCode, layoutPolygon, code_bits mode hmode, hcode, TMD_Code_POLYGON]
  · intro h1 h2 h3 h4 h5 h6
    simp [layoutPolygon, specCounts, h1, h2, h3, h4, h5, h6]

/-- Witness for C16: the textured gouraud quad with mode `0x3C` and flags 0,
whose payload of 8 words holds the texture block and four pairs of a normal
and a vertex index. -/
theorem C16_polygon_counts_witness :
    ∃ prim : TMD_Primitive,
      TMD_Primitive.ofPacket (8 :: 8 :: 0 :: 0x3C ::
        ([1, 2, 3, 4, 5, 6, 7, 8, 9, 10, 0, 0, 11, 12, 0, 0,
          20, 0, 21, 0, 22, 0, 23, 0, 24, 0, 25, 0, 26, 0, 27, 0] ++ [])) = .ok prim ∧
      prim.vertexCount = 4 ∧ prim.normalCount = 4 ∧ prim.colorCount = 0 := by
  obtain ⟨prim, h1, _, _, _, _, h6⟩ :=
    C16_polygon_counts 8 8 0 0x3C
      [1, 2, 3, 4, 5, 6, 7, 8, 9, 10, 0, 0, 11, 12, 0, 0,
       20, 0, 21, 0, 22, 0, 23, 0, 24, 0, 25, 0, 26, 0, 27, 0] []
      (by decide) (by decide) (by decide) (by decide) (by decide) (by decide)
  exact ⟨prim, h1, h6 (by decide) (by decide) (by decide) (by decide) (by decide) (by decide)⟩

theorem drop_two (xs : List Nat) (off : Nat) (h : off + 2 ≤ xs.length) :
    xs.drop off = xs.getD off 0 :: xs.getD (off + 1) 0 :: xs.drop (off + 2) := by
  have h0 : off < xs.length := by omega
  have h1 : off + 1 < xs.length := by omega
  rw [List.drop_eq_getElem_cons h0, List.drop_eq_getElem_cons h1,
    List.getD_eq_getElem xs 0 h0, List.getD_eq_getElem xs 0 h1]

theorem wordAt_bytes (xs : List Nat) (off : Nat) (h : off + 2 ≤ xs.length) :
    wordAt xs off = xs.getD off 0 % 256 + 256 * (xs.getD (off + 1) 0 % 256) := by
  unfold wordAt
  rw [drop_two xs off h]
  simp [leValue]

theorem uvAt_bytes (xs : List Nat) (off : Nat) (h : off + 2 ≤ xs.length) :
    uvAt xs off = { u := xs.getD off 0 % 256, v := xs.getD (off + 1) 0 % 256 } := by
  unfold uvAt
  rw [wordAt_bytes xs off h]
  have h1 : xs.getD off 0 % 256 < 256 := Nat.mod_lt _ (by decide)
  have h2 : xs.getD (off + 1) 0 % 256 < 256 := Nat.mod_lt _ (by decide)
  congr 1 <;> omega

theorem colorAt_bytes (xs : List Nat) (off : Nat) (h : off + 3 ≤ xs.length) :
    colorAt xs off = { r := xs.getD off 0 % 256, g := xs.getD (off + 1) 0 % 256,
                       b := xs.getD (off + 2) 0 % 256 } := by
  have h2 : off + 2 < xs.length := by omega
  unfold colorAt
  rw [drop_two xs off (by omega), List.drop_eq_getElem_cons h2, ← List.getD_eq_getElem xs 0 h2]
  simp only [List.take_succ_cons, List.take_zero, leValue]
  have h1 : xs.getD off 0 % 256 < 256 := Nat.mod_lt _ (by decide)
  have h3 : xs.getD (off + 1) 0 % 256 < 256 := Nat.mod_lt _ (by decide)
  have h4 : xs.getD (off + 2) 0 % 256 < 256 := Nat.mod_lt _ (by decide)
  congr 1 <;> omega

/-- C17: the payload of a polygon packet (after the 4-byte header) is read in
this order: with a texture, uv0 at offset 0, the CLUT word at 2, uv1 at 4, the
texture word at 6, uv2 at 8, two bytes of padding and, for a quad, uv3 at 12
and two more bytes of padding, so `T` is 12 or 16 bytes, and 0 without a
texture; then `colorCount` colors of three bytes, each followed by one byte of
padding; then for each slot `i < vertexCount` a 16-bit normal index (only for
`i < normalCount`) immediately followed by a 16-bit vertex index.  Vertex
index `i` is read at the payload offset
`T + 4 * colorCount + 2 * i + 2 * min (i + 1) normalCount` and normal index `i`
at `T + 4 * colorCount + 4 * i`. -/
theorem C17_polygon_layout (olen ilen flag mode : Nat) (payload rest : List Nat)
    (hilen : ilen ≤ 10) (hflag : flag < 256) (hmode : mode < 256) (hcode : mode / 32 = 1)
    (hpay : payload.length = 4 * ilen) (hneed : polygonBytes flag mode ≤ 4 * ilen) :
    ∃ prim : TMD_Primitive,
      TMD_Primitive.ofPacket (olen :: ilen :: flag :: mode :: (payload ++ rest)) = .ok prim ∧
      prim = layoutPolygon flag mode payload ∧
      textureBytes mode
        = (if modeHasTexture mode then (if prim.vertexCount = 4 then 16 else 12) else 0) ∧
      (modeHasTexture mode = true →
        prim.m_uvs[0]? = some (uvAt payload 0) ∧ prim.m_clutInfo = wordAt payload 2 ∧
        prim.m_uvs[1]? = some (uvAt payload 4) ∧ prim.m_textureInfo = wordAt payload 6 ∧
        prim.m_uvs[2]? = some (uvAt payload 8) ∧
        (prim.vertexCount = 4 → prim.m_uvs[3]? = some (uvAt payload 12))) ∧
      prim.m_colors.length = prim.colorCount ∧
      (∀ j, j < prim.colorCount →
        prim.m_colors[j]? = some (colorAt payload (textureBytes mode + 4 * j))) ∧
      prim.m_vertices.length = prim.vertexCount ∧
      prim.m_normals.length = prim.normalCount ∧
      (∀ i, i < prim.vertexCount →
        prim.m_vertices[i]? = some (wordAt payload
          (textureBytes mode + 4 * prim.colorCount + 2 * i + 2 * min (i + 1) prim.normalCount))) ∧
      (∀ i, i < prim.normalCount →
        prim.m_normals[i]? = some (wordAt payload
          (textureBytes mode + 4 * prim.colorCount + 4 * i)) ∧
        textureBytes mode + 4 * prim.colorCount + 2 * i + 2 * min (i + 1) prim.normalCount
          = textureBytes mode + 4 * prim.colorCount + 4 * i + 2) ∧
      (∀ off, off + 2 ≤ payload.length →
        wordAt payload off = payload.getD off 0 % 256 + 256 * (payload.getD (off + 1) 0 % 256) ∧
        uvAt payload off
          = { u := payload.getD off 0 % 256, v := payload.getD (off + 1) 0 % 256 }) ∧
      (∀ off, off + 3 ≤ payload.length →
        colorAt payload off
          = { r := payload.getD off 0 % 256, g := payload.getD (off + 1) 0 % 256,
              b := payload.getD (off + 2) 0 % 256 }) := by
  have hVq : ((specCounts flag mode).1 = 4) ↔ isQuad mode = true := by
    unfold specCounts
    cases isQuad mode <;> simp
  refine ⟨_, ofPacket_polygon olen ilen flag mode payload rest hilen hflag hmode hcode hpay hneed,
    rfl, ?_, ?_, ?_, ?_, ?_, ?_, ?_, ?_, ?_, ?_⟩
  · simp only [layoutPolygon, textureBytes, hVq]
  · intro ht
    simp only [layoutPolygon, ht, if_true, hVq]
    refine ⟨by simp, trivial, by simp, trivial, by simp, ?_⟩
    intro hq
    simp [hq]
  · simp [layoutPolygon]
  · intro j hj
    simp only [layoutPolygon] at hj ⊢
    simp [hj]
  · simp [layoutPolygon]
  · simp [layoutPolygon]
  · intro i hi
    simp only [layoutPolygon] at hi ⊢
    simp [hi]
  · intro i hi
    simp only [layoutPolygon] at hi ⊢
    refine ⟨by simp [hi], ?_⟩
    rw [min_eq_left (by omega)]
    omega
  · intro off h
    exact ⟨wordAt_bytes payload off h, uvAt_bytes payload off h⟩
  · intro off h
    exact colorAt_bytes payload off h

/-- Witness for C17: the textured gouraud quad with mode `0x3C` and flags 0:
the four texture coordinates, the CLUT and texture words, and the normal and
vertex indices, interleaved. -/
theorem C17_polygon_layout_witness :
    ∃ prim : TMD_Primitive,
      TMD_Primitive.ofPacket (8 :: 8 :: 0 :: 0x3C ::
        ([1, 2, 3, 4, 5, 6, 7, 8, 9, 10, 0, 0, 11, 12, 0, 0,
          20, 0, 21, 0, 22, 0, 23, 0, 24, 0, 25, 0, 26, 0, 27, 0] ++ [])) = .ok prim ∧
      prim.m_uvs = [⟨1, 2⟩, ⟨5, 6⟩, ⟨9, 10⟩, ⟨11, 12⟩] ∧
      prim.m_clutInfo = 0x0403 ∧ prim.m_textureInfo = 0x0807 ∧
      prim.m_colors = [] ∧
      prim.m_normals = [20, 22, 24, 26] ∧ prim.m_vertices = [21, 23, 25, 27] := by
  obtain ⟨prim, h1, h2, _⟩ :=
    C17_polygon_layout 8 8 0 0x3C
      [1, 2, 3, 4, 5, 6, 7, 8, 9, 10, 0, 0, 11, 12, 0, 0,
       20, 0, 21, 0, 22, 0, 23, 0, 24, 0, 25, 0, 26, 0, 27, 0] []
      (by decide) (by decide) (by decide) (by decide) (by decide) (by decide)
  subst h2
  exact ⟨_, h1, by decide, by decide, by decide, by decide, by decide, by decide⟩

theorem read_at (n : Nat) (data : List Nat) (p : Nat) (h : p + n ≤ data.length) :
    Buffer.read { m_data := data, m_pos := ((p : Nat) : Int) } (n : Int)
      = .ok ((data.drop p).take n, { m_data := data, m_pos := ((p + n : Nat) : Int) }) := by
  obtain ⟨h1, h2⟩ := bufferAt_split data p n h
  have hlen : ((data.drop p).take n).length = n := by
    simp only [List.length_take, List.length_drop]
    omega
  have := read_bufferAt (data.take p) ((data.drop p).take n) (data.drop (p + n))
  rwa [h1, h2, hlen] at this

theorem readObjectHeaders_at (data : List Nat) :
    ∀ (count p : Nat) (hs : List tmd_object_header_t), p + 28 * count ≤ data.length →
      readObjectHeaders count { m_data := data, m_pos := ((p : Nat) : Int) } hs
        = .ok (hs ++ (List.range count).map
                 (fun k => objectHeaderOfBytes ((data.drop (p + 28 * k)).take 28)),
               { m_data := data, m_pos := ((p + 28 * count : Nat) : Int) }) := by
  intro count
  induction count with
  | zero => intro p hs _; simp [readObjectHeaders]
  | succ c ih =>
    intro p hs h
    have hr := read_at 28 data p (by omega)
    have hl : ((data.drop p).take 28).length = 28 := by
      simp only [List.length_take, List.length_drop]
      omega
    simp only [Nat.cast_ofNat] at hr
    simp only [readObjectHeaders, readObjectHeader, hr, hl, if_true]
    rw [ih (p + 28) _ (by omega)]
    have h1 : p + 28 + 28 * c = p + 28 * (c + 1) := by omega
    rw [h1, List.range_succ_eq_map, List.map_cons, List.map_map, List.append_assoc]
    simp only [List.singleton_append, Nat.mul_zero, Nat.add_zero]
    congr 4
    apply List.map_congr_left
    intro j _
    simp only [Function.comp]
    congr 3
    omega

theorem packetHeader_drop (data : List Nat) (pos : Nat) (h : pos + 4 ≤ data.length) :
    ∃ header, packetHeader (data.drop pos) = .ok header ∧ header.ilen = packetIlen data pos := by
  have h0 : pos < data.length := by omega
  have h1 : pos + 1 < data.length := by omega
  have h2 : pos + 2 < data.length := by omega
  have h3 : pos + 3 < data.length := by omega
  rw [List.drop_eq_getElem_cons h0, List.drop_eq_getElem_cons h1, List.drop_eq_getElem_cons h2,
    List.drop_eq_getElem_cons h3]
  refine ⟨_, rfl, ?_⟩
  simp only [packetIlen, List.getD_eq_getElem data 0 h1]

theorem readPrimitives_at (data : List Nat) :
    ∀ (count pos : Nat) (l : TMD_PrimitiveList), packetsInRange data pos count = true →
      ∃ b, readPrimitives count { m_data := data, m_pos := ((pos : Nat) : Int) } l
          = .ok (appendPackets l (packetsOf data pos count), b) ∧ b.m_data = data := by
  intro count
  induction count with
  | zero => intro pos l _; exact ⟨_, rfl, rfl⟩
  | succ c ih =>
    intro pos l h
    simp only [packetsInRange, Bool.and_eq_true, decide_eq_true_eq] at h
    obtain ⟨hlen, hrest⟩ := h
    obtain ⟨header, hh, hi⟩ := packetHeader_drop data pos (by omega)
    obtain ⟨b, hb, hd⟩ := ih (pos + 4 * (packetIlen data pos + 1))
      { m_primitive_offsets := l.m_primitive_offsets ++ [l.m_packets_data.length / 4],
        m_packets_data := l.m_packets_data ++ (data.drop pos).take (4 * (packetIlen data pos + 1)) }
      hrest
    have hpos : (0 : Int) ≤ ((pos : Nat) : Int) := by omega
    have hsk := skip_at data pos (4 + packetIlen data pos * 4)
    have hp : pos + (4 + packetIlen data pos * 4) = pos + 4 * (packetIlen data pos + 1) := by omega
    rw [hp] at hsk
    have happ : 4 * (packetIlen data pos + 1) ≤ (data.drop pos).length := by
      rw [List.length_drop]
      omega
    refine ⟨b, ?_, hd⟩
    simp only [readPrimitives, Buffer.pos, hpos, if_true, Int.toNat_ofNat, hh,
      TMD_PrimitiveList.append, hi, happ, get_primitive_packet_size]
    have hcast : ((4 + packetIlen data pos * 4 : Nat) : Int)
        = ((4 : Nat) : Int) + ((packetIlen data pos : Nat) : Int) * 4 := by push_cast; rfl
    simp only [Nat.cast_add, Nat.cast_mul, Nat.cast_ofNat] at hsk ⊢
    rw [hsk]
    simpa [packetsOf, appendPackets] using hb

theorem sliceRecords_at {α : Type} (recordAt : List Nat → Nat → α) (data : List Nat)
    (base off count : Nat) (h : count = 0 ∨ base + off + 8 * count ≤ data.length) :
    sliceRecords recordAt data (((base : Nat) : Int) + ((off : Nat) : Int)) count
      = .ok ((List.range count).map (fun j => recordAt data (base + off + 8 * j))) := by
  unfold sliceRecords
  by_cases hc : count = 0
  · subst hc
    simp
  · have hlen : base + off + 8 * count ≤ data.length := by
      rcases h with h | h
      · exact absurd h hc
      · exact h
    have hcast : ((base : Nat) : Int) + ((off : Nat) : Int) = ((base + off : Nat) : Int) := by
      push_cast; rfl
    have hnn : (0 : Int) ≤ ((base + off : Nat) : Int) := by omega
    rw [if_neg hc, hcast, Int.toNat_ofNat, if_pos ⟨hnn, hlen⟩]

theorem readObject_at (data : List Nat) (base : Nat) (h : tmd_object_header_t) (b0 : Buffer)
    (hdata : b0.m_data = data) (hr : objectInRange data base h) :
    ∃ b, readObject ((base : Nat) : Int) h b0 = .ok (objectAt data base h, b) ∧ b.m_data = data := by
  obtain ⟨hv, hn, hp⟩ := hr
  obtain ⟨b, hb, hd⟩ := readPrimitives_at data h.primitive_count (base + h.primitive_offset)
    { m_packets_data := [], m_primitive_offsets := [] } hp
  refine ⟨b, ?_, hd⟩
  have hseek : Buffer.seek b0 (((base : Nat) : Int) + ((h.primitive_offset : Nat) : Int))
      = { m_data := data, m_pos := ((base + h.primitive_offset : Nat) : Int) } := by
    simp [Buffer.seek, hdata]
  simp only [readObject, hdata,
    sliceRecords_at vertexAt data base h.vertex_offset h.vertex_count hv,
    sliceRecords_at normalAt data base h.normal_offset h.normal_count hn, hseek, hb, objectAt]

theorem readObjects_at (data : List Nat) (base : Nat) :
    ∀ (hs : List tmd_object_header_t) (b : Buffer) (objects : List TMD_Object),
      b.m_data = data → (∀ h ∈ hs, objectInRange data base h) →
      ∃ b1, readObjects ((base : Nat) : Int) hs b objects
          = .ok (objects ++ hs.map (objectAt data base), b1) ∧ b1.m_data = data := by
  intro hs
  induction hs with
  | nil => intro b objects hb _; exact ⟨b, by simp [readObjects], hb⟩
  | cons h hs ih =>
    intro b objects hb hall
    obtain ⟨b1, hb1, hd1⟩ := readObject_at data base h b hb (hall h (List.mem_cons_self _ _))
    obtain ⟨b2, hb2, hd2⟩ := ih b1 (objects ++ [objectAt data base h]) hd1
      (fun x hx => hall x (List.mem_cons_of_mem _ hx))
    refine ⟨b2, ?_, hd2⟩
    simp only [readObjects, hb1, hb2, List.map_cons, List.append_assoc, List.singleton_append]

theorem readModel_inRange (data : List Nat) (outputModel : TMD_Model) (h : tmdInRange data) :
    ∃ b, readModel { m_data := data, m_pos := 0 } outputModel
        = .ok (true,
               { m_objects := (List.range (numObjects data)).map
                   (fun k => objectAt data 12 (objectHeaderAt data k)) }, b) ∧
      b.m_data = data := by
  obtain ⟨hlen, hmagic, hobjs⟩ := h
  have hr := read_at 12 data 0 (by omega)
  simp only [Nat.cast_ofNat, Nat.cast_zero, List.drop_zero, Nat.zero_add] at hr
  have hl : (data.take 12).length = 12 := by
    simp only [List.length_take]
    omega
  have hid : (data.take 12).take 4 = data.take 4 := by
    rw [List.take_take]
    rfl
  have hnum : leValue (((data.take 12).drop 8).take 4) = numObjects data := by
    unfold numObjects
    rw [List.drop_take, List.take_take]
    rfl
  have hhs := readObjectHeaders_at data (numObjects data) 12 [] hlen
  obtain ⟨b, hb, hd⟩ := readObjects_at data 12
    ((List.range (numObjects data)).map
      (fun k => objectHeaderOfBytes ((data.drop (12 + 28 * k)).take 28)))
    { m_data := data, m_pos := ((12 + 28 * numObjects data : Nat) : Int) } [] rfl
    (by
      intro x hx
      simp only [List.mem_map, List.mem_range] at hx
      obtain ⟨k, hk, rfl⟩ := hx
      exact hobjs k hk)
  refine ⟨b, ?_, hd⟩
  simp only [Nat.cast_ofNat] at hhs hb
  simp only [readModel, hr, hl, hid, hmagic, hnum, hhs, Buffer.pos, hb, List.nil_append,
    List.map_map]
  rfl

theorem appendPackets_prefix (ps : List (List Nat)) :
    ∀ l : TMD_PrimitiveList,
      ∃ t u, (appendPackets l ps).m_primitive_offsets = l.m_primitive_offsets ++ t ∧
        (appendPackets l ps).m_packets_data = l.m_packets_data ++ u ∧ t.length = ps.length := by
  induction ps with
  | nil => intro l; exact ⟨[], [], by simp [appendPackets], by simp [appendPackets], rfl⟩
  | cons p ps ih =>
    intro l
    obtain ⟨t, u, h1, h2, h3⟩ := ih
      { m_primitive_offsets := l.m_primitive_offsets ++ [l.m_packets_data.length / 4],
        m_packets_data := l.m_packets_data ++ p }
    refine ⟨l.m_packets_data.length / 4 :: t, p ++ u, ?_, ?_, by simp [h3]⟩
    · simpa [appendPackets] using h1
    · simpa [appendPackets] using h2

theorem sampleTmd_inRange : tmdInRange sampleTmd := by
  have hn : numObjects sampleTmd = 1 := by decide
  refine ⟨by rw [hn]; decide, by decide, ?_⟩
  intro k hk
  rw [hn] at hk
  have hk0 : k = 0 := by omega
  subst hk0
  exact ⟨Or.inr (by decide), Or.inr (by decide), by decide⟩

/-- C18, as amended: in `readModel` the vertex, normal and primitive offsets
of every object header are taken from the byte position right after the
12-byte file header, which is the start of the object-header table: for a
region that holds the table and what its headers point to, vertex `j` of
object `k` is the signed 16-bit triple at `12 + vertex_offset_k + 8 * j` (the
fourth field is stored but not used), normal `j` the one at
`12 + normal_offset_k + 8 * j`, and the first primitive packet the bytes from
`12 + primitive_offset_k` on. -/
theorem C18_offsets_from_table (data : List Nat) (outputModel : TMD_Model)
    (h : tmdInRange data) :
    ∃ (m : TMD_Model) (b : Buffer),
      readModel { m_data := data, m_pos := 0 } outputModel = .ok (true, m, b) ∧
      m.m_objects.length = numObjects data ∧
      ∀ k, k < numObjects data → ∃ o, m.m_objects[k]? = some o ∧
        o.m_vertices.length = (objectHeaderAt data k).vertex_count ∧
        (∀ j, j < (objectHeaderAt data k).vertex_count →
          o.m_vertices[j]? = some
            { x := toInt16 (wordAt data (12 + (objectHeaderAt data k).vertex_offset + 8 * j)),
              y := toInt16 (wordAt data (12 + (objectHeaderAt data k).vertex_offset + 8 * j + 2)),
              z := toInt16 (wordAt data (12 + (objectHeaderAt data k).vertex_offset + 8 * j + 4)),
              zero :=
                toInt16 (wordAt data (12 + (objectHeaderAt data k).vertex_offset + 8 * j + 6)) }) ∧
        o.m_normals.length = (objectHeaderAt data k).normal_count ∧
        (∀ j, j < (objectHeaderAt data k).normal_count →
          o.m_normals[j]? = some
            { x := toInt16 (wordAt data (12 + (objectHeaderAt data k).normal_offset + 8 * j)),
              y := toInt16 (wordAt data (12 + (objectHeaderAt data k).normal_offset + 8 * j + 2)),
              z := toInt16 (wordAt data (12 + (objectHeaderAt data k).normal_offset + 8 * j + 4)),
              zero :=
                toInt16 (wordAt data (12 + (objectHeaderAt data k).normal_offset + 8 * j + 6)) }) ∧
        (0 < (objectHeaderAt data k).primitive_count →
          ∃ mem, o.m_primitives.at 0 = .ok mem ∧
            mem.take (4 * (packetIlen data (12 + (objectHeaderAt data k).primitive_offset) + 1))
              = (data.drop (12 + (objectHeaderAt data k).primitive_offset)).take
                  (4 * (packetIlen data (12 + (objectHeaderAt data k).primitive_offset) + 1))) := by
  obtain ⟨b, hb, _⟩ := readModel_inRange data outputModel h
  refine ⟨_, b, hb, by simp, ?_⟩
  intro k hk
  refine ⟨objectAt data 12 (objectHeaderAt data k), by simp [hk], by simp [objectAt], ?_,
    by simp [objectAt], ?_, ?_⟩
  · intro j hj
    simp [objectAt, hj, vertexAt]
  · intro j hj
    simp [objectAt, hj, normalAt]
  · intro hpc
    obtain ⟨c, hc⟩ : ∃ c, (objectHeaderAt data k).primitive_count = c + 1 :=
      ⟨(objectHeaderAt data k).primitive_count - 1, by omega⟩
    have hin := (h.2.2 k hk).2.2
    rw [hc] at hin
    simp only [packetsInRange, Bool.and_eq_true, decide_eq_true_eq] at hin
    obtain ⟨t, u, h1, h2, _⟩ := appendPackets_prefix
      (packetsOf data (12 + (objectHeaderAt data k).primitive_offset
        + 4 * (packetIlen data (12 + (objectHeaderAt data k).primitive_offset) + 1)) c)
      { m_primitive_offsets := [] ++ [([] : List Nat).length / 4],
        m_packets_data := [] ++ (data.drop (12 + (objectHeaderAt data k).primitive_offset)).take
          (4 * (packetIlen data (12 + (objectHeaderAt data k).primitive_offset) + 1)) }
    have hprim : (objectAt data 12 (objectHeaderAt data k)).m_primitives
        = appendPackets
            { m_primitive_offsets := [] ++ [([] : List Nat).length / 4],
              m_packets_data := [] ++
                (data.drop (12 + (objectHeaderAt data k).primitive_offset)).take
                  (4 * (packetIlen data (12 + (objectHeaderAt data k).primitive_offset) + 1)) }
            (packetsOf data (12 + (objectHeaderAt data k).primitive_offset
              + 4 * (packetIlen data (12 + (objectHeaderAt data k).primitive_offset) + 1)) c) := by
      simp only [objectAt, hc, packetsOf, appendPackets, List.foldl_cons]
    have hl : ((data.drop (12 + (objectHeaderAt data k).primitive_offset)).take
        (4 * (packetIlen data (12 + (objectHeaderAt data k).primitive_offset) + 1))).length
        = 4 * (packetIlen data (12 + (objectHeaderAt data k).primitive_offset) + 1) := by
      simp only [List.length_take, List.length_drop]
      omega
    simp only [List.nil_append, List.length_nil, Nat.zero_div] at h1 h2 hprim
    refine ⟨(data.drop (12 + (objectHeaderAt data k).primitive_offset)).take
        (4 * (packetIlen data (12 + (objectHeaderAt data k).primitive_offset) + 1)) ++ u, ?_, ?_⟩
    · simp only [TMD_PrimitiveList.at, hprim, h1, h2, le_refl, if_true, Int.toNat_zero,
        List.singleton_append, List.getElem?_cons_zero, Nat.mul_zero, List.drop_zero]
    · rw [List.take_append_of_le_length (by rw [hl])]
      rw [List.take_of_length_le (by rw [hl])]

/-- Witness for C18 as amended: the sample region with one object. -/
theorem C18_offsets_from_table_witness :
    ∃ (m : TMD_Model) (b : Buffer),
      readModel { m_data := sampleTmd, m_pos := 0 } { m_objects := [] } = .ok (true, m, b) ∧
      m.m_objects.length = numObjects sampleTmd := by
  obtain ⟨m, b, h1, h2, _⟩ := C18_offsets_from_table sampleTmd { m_objects := [] } sampleTmd_inRange
  exact ⟨m, b, h1, h2⟩

/-- C18, counterexample: in the sample region with one object, whose vertex
offset is 28, the vertex of the object is the triple `(1, 2, 3)` stored at
byte `12 + 28 = 40`, right after the table, and not the triple stored at byte
`12 + 28 * 1 + 28 = 68`. -/
theorem C18_counterexample :
    ∃ (m : TMD_Model) (b : Buffer),
      readModel { m_data := sampleTmd, m_pos := 0 } { m_objects := [] } = .ok (true, m, b) ∧
      numObjects sampleTmd = 1 ∧ (objectHeaderAt sampleTmd 0).vertex_offset = 28 ∧
      (m.m_objects[0]?).map TMD_Object.m_vertices
        = some [{ x := 1, y := 2, z := 3, zero := 0 }] ∧
      vertexAt sampleTmd (12 + 28) = { x := 1, y := 2, z := 3, zero := 0 } ∧
      vertexAt sampleTmd (12 + 28 * 1 + 28) = { x := 0, y := 0, z := 0x0909, zero := 0x0909 } :=
  ⟨_, _, rfl, by decide, by decide, by decide, by decide, by decide⟩

theorem readModel_badMagic (data : List Nat) (outputModel : TMD_Model) (hlen : 4 ≤ data.length)
    (hm : leValue (data.take 4) ≠ 0x41) :
    ∃ b, readModel { m_data := data, m_pos := 0 } outputModel = .ok (false, outputModel, b) := by
  obtain ⟨r, hr, hr4⟩ : ∃ r : Nat, min ((data.length : Int) - 0) 12 = (r : Int) ∧ 4 ≤ r :=
    ⟨min data.length 12, by omega, by omega⟩
  have hnn : (0 : Int) ≤ 0 ∧ (0 : Int) ≤ (r : Int) := ⟨le_refl _, by omega⟩
  have hl : ¬ (data.take r).length < 4 := by
    simp only [List.length_take]
    omega
  have ht : (data.take r).take 4 = data.take 4 := by
    rw [List.take_take, min_eq_left hr4]
  refine ⟨{ m_data := data, m_pos := 0 + (r : Int) }, ?_⟩
  simp only [readModel, Buffer.read, Buffer.size, Buffer.pos, hr, hnn, and_self, if_true,
    Int.toNat_zero, List.drop_zero, Int.toNat_ofNat, hl, if_false, ht, hm, ne_eq,
    not_false_eq_true]

/-- C20: `readModel` returns `false` for every buffer whose first 32-bit word
is not `0x41` and then leaves the output model as it was; for a region with
the magic `0x41` that holds the object table and what its headers point to, it
returns `true` and the output model holds exactly `num_objects` objects, object
`k` carrying the scale of header `k` (the `s32` at byte `12 + 28 * k + 24`),
whatever the output model held before.  The sample region is such a region. -/
theorem C20_readModel_magic (data : List Nat) (outputModel : TMD_Model) :
    (4 ≤ data.length → leValue (data.take 4) ≠ 0x41 →
      ∃ b, readModel { m_data := data, m_pos := 0 } outputModel
        = .ok (false, outputModel, b)) ∧
    (tmdInRange data →
      ∃ (m : TMD_Model) (b : Buffer),
        readModel { m_data := data, m_pos := 0 } outputModel = .ok (true, m, b) ∧
        leValue (data.take 4) = 0x41 ∧
        m.m_objects.length = leValue ((data.drop 8).take 4) ∧
        ∀ k, k < m.m_objects.length →
          (m.m_objects[k]?).map TMD_Object.m_scale
            = some (toInt32 (leValue ((data.drop (12 + 28 * k + 24)).take 4)))) ∧
    tmdInRange sampleTmd ∧
    (∃ (m : TMD_Model) (b : Buffer),
      readModel { m_data := sampleTmd, m_pos := 0 } outputModel = .ok (true, m, b) ∧
      m.m_objects.map TMD_Object.m_scale = [7]) := by
  refine ⟨readModel_badMagic data outputModel, ?_, sampleTmd_inRange, ?_⟩
  · intro h
    obtain ⟨b, hb, _⟩ := readModel_inRange data outputModel h
    refine ⟨_, b, hb, h.2.1, by simp [numObjects], ?_⟩
    intro k hk
    simp only [List.length_map, List.length_range] at hk
    have hlen := h.1
    have hd : ((data.drop (12 + 28 * k)).take 28).drop 24
        = (data.drop (12 + 28 * k + 24)).take 4 := by
      rw [List.drop_take, List.drop_drop]
    simp [hk, objectAt, objectHeaderAt, objectHeaderOfBytes, hd, List.take_take]
  · obtain ⟨b, hb, _⟩ := readModel_inRange sampleTmd outputModel sampleTmd_inRange
    refine ⟨_, b, hb, ?_⟩
    decide

theorem appendPackets_data (ps : List (List Nat)) :
    ∀ l : TMD_PrimitiveList,
      (appendPackets l ps).m_packets_data = l.m_packets_data ++ ps.flatMap id := by
  induction ps with
  | nil => intro l; simp [appendPackets]
  | cons p ps ih =>
    intro l
    have := ih { m_primitive_offsets := l.m_primitive_offsets ++ [l.m_packets_data.length / 4],
                 m_packets_data := l.m_packets_data ++ p }
    simpa [appendPackets] using this

theorem appendPackets_offsets (ps : List (List Nat)) :
    ∀ l : TMD_PrimitiveList,
      ∃ t, (appendPackets l ps).m_primitive_offsets = l.m_primitive_offsets ++ t ∧
        t.length = ps.length := by
  intro l
  obtain ⟨t, _, h1, _, h3⟩ := appendPackets_prefix ps l
  exact ⟨t, h1, h3⟩

theorem appendPackets_at (ps : List (List Nat)) :
    ∀ (l : TMD_PrimitiveList), 4 ∣ l.m_packets_data.length → (∀ p ∈ ps, wellSized p) →
      ∀ (j : Nat) (p : List Nat), ps[j]? = some p →
        (appendPackets l ps).at ((l.m_primitive_offsets.length + j : Nat) : Int)
          = .ok (p ++ (ps.drop (j + 1)).flatMap id) := by
  induction ps with
  | nil => intro l _ _ j p h; simp at h
  | cons q qs ih =>
    intro l hdiv hws j p hj
    have hq : wellSized q := hws q (List.mem_cons_self _ _)
    have hstep : appendPackets l (q :: qs)
        = appendPackets
            { m_primitive_offsets := l.m_primitive_offsets ++ [l.m_packets_data.length / 4],
              m_packets_data := l.m_packets_data ++ q } qs := by
      simp [appendPackets]
    cases j with
    | zero =>
      simp only [List.getElem?_cons_zero, Option.some.injEq] at hj
      subst hj
      obtain ⟨t, ht, _⟩ := appendPackets_offsets qs
        { m_primitive_offsets := l.m_primitive_offsets ++ [l.m_packets_data.length / 4],
          m_packets_data := l.m_packets_data ++ q }
      have hd := appendPackets_data qs
        { m_primitive_offsets := l.m_primitive_offsets ++ [l.m_packets_data.length / 4],
          m_packets_data := l.m_packets_data ++ q }
      have hmul : 4 * (l.m_packets_data.length / 4) = l.m_packets_data.length :=
        Nat.mul_div_cancel' hdiv
      have hnn : (0 : Int) ≤ ((l.m_primitive_offsets.length : Nat) : Int) := by omega
      have hget : (l.m_primitive_offsets ++ ([l.m_packets_data.length / 4] ++ t))[
          l.m_primitive_offsets.length]? = some (l.m_packets_data.length / 4) := by
        rw [List.getElem?_append_right (le_refl _)]
        simp
      simp only [TMD_PrimitiveList.at, hstep, hnn, if_true, Int.toNat_ofNat, Nat.add_zero, ht,
        hd, hget, hmul, List.append_assoc, List.drop_left, Nat.zero_add, List.drop_one,
        List.drop_succ_cons, List.drop_zero]
    | succ j =>
      simp only [List.getElem?_cons_succ] at hj
      have hdiv1 : 4 ∣ (l.m_packets_data ++ q).length := by
        rw [List.length_append]
        exact Dvd.dvd.add hdiv ⟨_, hq⟩
      have := ih
        { m_primitive_offsets := l.m_primitive_offsets ++ [l.m_packets_data.length / 4],
          m_packets_data := l.m_packets_data ++ q }
        hdiv1 (fun x hx => hws x (List.mem_cons_of_mem _ hx)) j p hj
      simp only [List.length_append, List.length_singleton] at this
      rw [hstep]
      have hidx : l.m_primitive_offsets.length + (j + 1) = l.m_primitive_offsets.length + 1 + j := by
        omega
      rw [hidx, this]
      simp

theorem wellSized_cons (p : List Nat) (h : wellSized p) :
    ∃ olen ilen flag mode payload, p = olen :: ilen :: flag :: mode :: payload ∧
      payload.length = 4 * (ilen % 256) := by
  unfold wellSized at h
  match p, h with
  | [], h => simp at h
  | [_], h => simp at h
  | [_, _], h => simp at h; omega
  | [_, _, _], h => simp at h; omega
  | olen :: ilen :: flag :: mode :: payload, h =>
    refine ⟨olen, ilen, flag, mode, payload, rfl, ?_⟩
    simp at h
    omega

theorem ofPacket_append (p rest : List Nat) (h : wellSized p) :
    TMD_Primitive.ofPacket (p ++ rest) = TMD_Primitive.ofPacket p := by
  obtain ⟨olen, ilen, flag, mode, payload, rfl, hl⟩ := wellSized_cons p h
  have h1 : (olen :: ilen :: flag :: mode :: payload ++ rest).take (4 + ilen % 256 * 4)
      = olen :: ilen :: flag :: mode :: payload := by
    have : 4 + ilen % 256 * 4 = (olen :: ilen :: flag :: mode :: payload).length := by
      simp only [List.length_cons]
      omega
    rw [this, List.take_left]
  have h2 : (olen :: ilen :: flag :: mode :: payload).take (4 + ilen % 256 * 4)
      = olen :: ilen :: flag :: mode :: payload := by
    apply List.take_of_length_le
    simp only [List.length_cons]
    omega
  simp only [TMD_Primitive.ofPacket, List.cons_append, packetHeader, get_primitive_packet_size]
  rw [h2]
  have h1a : (olen :: ilen :: flag :: mode :: (payload ++ rest)).take (4 + ilen % 256 * 4)
      = olen :: ilen :: flag :: mode :: payload := h1
  rw [h1a]

theorem addPrimitive_congr {F : Type} (env : ConverterEnv F) (s : ConvertState F)
    (o : TMD_Object) (l : TMD_PrimitiveList) (primitive : TMD_Primitive) :
    addPrimitive env s { o with m_primitives := l } primitive
      = addPrimitive env s o primitive := by
  simp only [addPrimitive, addMesh, append_triangles, append_line, appendCorners]

theorem convertPackets_congr {F : Type} (env : ConverterEnv F) (o : TMD_Object)
    (l : TMD_PrimitiveList) (ps : List (List Nat)) :
    ∀ s : ConvertState F,
      convertPackets env { o with m_primitives := l } ps s = convertPackets env o ps s := by
  induction ps with
  | nil => intro s; rfl
  | cons p ps ih =>
    intro s
    simp only [convertPackets, addPrimitive_congr, ih]

theorem convertLoop_packets {F : Type} (env : ConverterEnv F) (o : TMD_Object)
    (ps : List (List Nat)) (hws : ∀ p ∈ ps, wellSized p) :
    ∀ (n j : Nat) (s : ConvertState F), j + n = ps.length →
      convertLoop env (objectWith o ps) n ((j : Nat) : Int) s
        = convertPackets env o (ps.drop j) s := by
  intro n
  induction n with
  | zero =>
    intro j s h
    have : ps.drop j = [] := List.drop_eq_nil_of_le (by omega)
    simp [convertLoop, this, convertPackets]
  | succ n ih =>
    intro j s h
    have hj : j < ps.length := by omega
    have hget : ps[j]? = some ps[j] := List.getElem?_eq_getElem hj
    have hat := appendPackets_at ps { m_packets_data := [], m_primitive_offsets := [] }
      (by simp) hws j ps[j] hget
    simp only [List.length_nil, Nat.zero_add] at hat
    have hdrop : ps.drop j = ps[j] :: ps.drop (j + 1) := List.drop_eq_getElem_cons hj
    have hcast : ((j : Nat) : Int) + 1 = ((j + 1 : Nat) : Int) := by push_cast; rfl
    have hw : wellSized ps[j] := hws _ (List.getElem_mem hj)
    have hnext := ih (j + 1)
    simp only [convertLoop, objectWith, hat, hdrop, convertPackets, ofPacket_append _ _ hw,
      addPrimitive_congr, hcast]
    cases hp : TMD_Primitive.ofPacket ps[j] with
    | error f => rfl
    | ok primitive =>
      simp only []
      cases ha : addPrimitive env s o primitive with
      | error f => rfl
      | ok r =>
        simp only []
        exact hnext r.2 (by omega)

theorem ofPacket_sprite (p : List Nat) (hw : wellSized p) (hs : isSpritePacket p = true) :
    ∃ primitive, TMD_Primitive.ofPacket p = .ok primitive ∧
      primitive.getCode = TMD_Code_SPRITE := by
  obtain ⟨olen, ilen, flag, mode, payload, rfl, hl⟩ := wellSized_cons p hw
  simp only [isSpritePacket, packetCode, List.getD_cons_succ, List.getD_cons_zero,
    Bool.and_eq_true, Bool.or_eq_true, decide_eq_true_eq] at hs
  obtain ⟨⟨hcode, hilen⟩, hsize⟩ := hs
  have hcode1 : extract_code_from_mode (mode % 256) = TMD_Code_SPRITE := by
    unfold extract_code_from_mode at hcode ⊢
    rw [Nat.mod_mod]
    exact hcode
  have hlen : (olen :: ilen :: flag :: mode :: payload).length = 4 + 4 * (ilen % 256) := by
    simp only [List.length_cons]
    omega
  have htake : (olen :: ilen :: flag :: mode :: payload).take (4 + ilen % 256 * 4)
      = olen :: ilen :: flag :: mode :: payload := by
    apply List.take_of_length_le
    rw [hlen]
    omega
  have hne1 : ¬ (TMD_Code_SPRITE = TMD_Code_POLYGON) := by decide
  have hne2 : ¬ (TMD_Code_SPRITE = TMD_Code_LINE) := by decide
  have h12 : 12 ≤ (olen :: ilen :: flag :: mode :: payload).length := by
    rw [hlen]
    rcases hilen with h | h <;> omega
  simp only [TMD_Primitive.ofPacket, packetHeader, get_primitive_packet_size, htake, skip_header,
    TMD_Primitive.getCode, TMD_Primitive.init, hcode1, hne1, hne2, if_false, constructSprite,
    if_true, hilen]
  rw [readbuf_at 2 _ 4 (by omega)]
  simp only []
  rw [readbuf_at 2 _ (4 + 2) (by omega)]
  simp only []
  rw [readUv_at _ (4 + 2 + 2) (by omega)]
  simp only []
  rw [readbuf_at 2 _ (4 + 2 + 2 + 2) (by omega)]
  simp only []
  by_cases h1 : spriteSizeBits (mode % 256) = 1
  · simp only [h1, if_true]
    exact ⟨_, rfl, hcode1⟩
  · by_cases h2 : spriteSizeBits (mode % 256) = 2
    · simp only [h1, h2, if_true, if_false]
      exact ⟨_, rfl, hcode1⟩
    · by_cases h3 : spriteSizeBits (mode % 256) = 3
      · simp only [h1, h2, h3, if_true, if_false]
        exact ⟨_, rfl, hcode1⟩
      · have h0 : spriteSizeBits (mode % 256) = 0 := by
          have : spriteSizeBits (mode % 256) < 4 := Nat.mod_lt _ (by decide)
          omega
        have hi3 : ilen % 256 = 3 := by
          rcases hsize with h | h
          · exact absurd h0 h
          · exact h
        simp only [h1, h2, h3, if_false, hi3, if_true]
        rw [readbuf_at 4 _ (4 + 2 + 2 + 2 + 2) (by rw [hlen, hi3])]
        exact ⟨_, rfl, hcode1⟩

theorem addPrimitive_sprite {F : Type} (env : ConverterEnv F) (s : ConvertState F)
    (o : TMD_Object) (primitive : TMD_Primitive) (h : primitive.getCode = TMD_Code_SPRITE) :
    addPrimitive env s o primitive = .ok (false, s) := by
  have hne1 : ¬ (TMD_Code_SPRITE = TMD_Code_POLYGON) := by decide
  have hne2 : ¬ (TMD_Code_SPRITE = TMD_Code_LINE) := by decide
  simp only [addPrimitive, h, hne1, hne2, if_false]

theorem convertPackets_skip {F : Type} (env : ConverterEnv F) (o : TMD_Object)
    (ps : List (List Nat)) (hws : ∀ p ∈ ps, wellSized p) :
    ∀ s : ConvertState F,
      convertPackets env o ps s
        = convertPackets env o (ps.filter (fun p => !isSpritePacket p)) s := by
  induction ps with
  | nil => intro s; rfl
  | cons p ps ih =>
    intro s
    have ihs := ih (fun x hx => hws x (List.mem_cons_of_mem _ hx))
    by_cases hs : isSpritePacket p = true
    · obtain ⟨primitive, h1, h2⟩ := ofPacket_sprite p (hws p (List.mem_cons_self _ _)) hs
      simp only [List.filter_cons, hs, Bool.not_true, Bool.false_eq_true, if_false,
        convertPackets, h1, addPrimitive_sprite env s o primitive h2]
      exact ihs s
    · have hs0 : isSpritePacket p = false := by simpa using hs
      simp only [List.filter_cons, hs0, Bool.not_false, if_true, convertPackets]
      cases hp : TMD_Primitive.ofPacket p with
      | error f => rfl
      | ok primitive =>
        simp only []
        cases ha : addPrimitive env s o primitive with
        | error f => rfl
        | ok r =>
          simp only []
          exact ihs r.2

theorem readTextureBlock_keeps (vertexCount : Nat) (p : TMD_Primitive) (b : Buffer)
    (r : TMD_Primitive × Buffer) (h : readTextureBlock vertexCount p b = .ok r) :
    r.1.m_mode = p.m_mode ∧ r.1.vertexCount = p.vertexCount ∧
      r.1.normalCount = p.normalCount ∧ r.1.colorCount = p.colorCount := by
  unfold readTextureBlock at h
  split at h
  · cases h
  · split at h
    · cases h
    · split at h
      · cases h
      · split at h
        · cases h
        · split at h
          · cases h
          · simp only at h
            split at h
            · split at h
              · cases h
              · cases h
                exact ⟨rfl, rfl, rfl, rfl⟩
            · cases h
              exact ⟨rfl, rfl, rfl, rfl⟩

theorem constructPolygon_keeps (header : tmd_primitive_header_t) (p0 : TMD_Primitive)
    (b : Buffer) (primitive : TMD_Primitive)
    (h : constructPolygon header p0 b = .ok primitive) :
    primitive.m_mode = p0.m_mode ∧
      primitive.vertexCount = (if isQuad p0.m_mode then 4 else 3) := by
  unfold constructPolygon at h
  split at h
  · simp only at h
    split at h
    · cases h
    · rename_i r hr
      have hk : r.1.m_mode = p0.m_mode ∧
          r.1.vertexCount = (polygonCounts p0.m_flags p0.m_mode).1 := by
        unfold readTexture at hr
        split at hr
        · obtain ⟨h1, h2, _, _⟩ := readTextureBlock_keeps _ _ _ r hr
          exact ⟨h1, h2⟩
        · cases hr
          exact ⟨rfl, rfl⟩
      split at h
      · cases h
      · split at h
        · cases h
        · cases h
          exact ⟨hk.1, hk.2⟩
  · cases h

theorem constructLine_keeps (header : tmd_primitive_header_t) (p0 : TMD_Primitive)
    (b : Buffer) (primitive : TMD_Primitive) (h : constructLine header p0 b = .ok primitive) :
    primitive.m_mode = p0.m_mode := by
  unfold constructLine at h
  split at h
  · split at h
    · split at h
      · cases h
      · split at h
        · cases h
        · split at h
          · cases h
          · cases h
            rfl
    · cases h
  · cases h

theorem constructSprite_keeps (header : tmd_primitive_header_t) (p0 : TMD_Primitive)
    (b : Buffer) (primitive : TMD_Primitive) (h : constructSprite header p0 b = .ok primitive) :
    primitive.m_mode = p0.m_mode := by
  unfold constructSprite at h
  split at h
  · split at h
    · split at h
      · cases h
      · split at h
        · cases h
        · split at h
          · cases h
          · split at h
            · cases h
            · simp only at h
              split at h
              · cases h; rfl
              · split at h
                · cases h; rfl
                · split at h
                  · cases h; rfl
                  · split at h
                    · split at h
                      · cases h
                      · cases h; rfl
                    · cases h
    · cases h
  · cases h

theorem ofPacket_keeps (p : List Nat) (primitive : TMD_Primitive)
    (h : TMD_Primitive.ofPacket p = .ok primitive) :
    primitive.getCode = packetCode p ∧
      (primitive.getCode = TMD_Code_POLYGON →
        primitive.vertexCount = (if isQuad (p.getD 3 0 % 256) then 4 else 3)) := by
  unfold TMD_Primitive.ofPacket at h
  split at h
  · cases h
  · rename_i header hh
    have hmode : header.mode = p.getD 3 0 % 256 := by
      unfold packetHeader at hh
      split at hh
      · cases hh
        rfl
      · cases hh
    have hcode : extract_code_from_mode header.mode = packetCode p := by
      rw [hmode]
      unfold packetCode extract_code_from_mode
      rw [Nat.mod_mod]
    simp only at h
    split at h
    · obtain ⟨h1, h2⟩ := constructPolygon_keeps _ _ _ _ h
      have h1a : primitive.m_mode = header.mode := h1
      have h2a : primitive.vertexCount = (if isQuad header.mode then 4 else 3) := h2
      refine ⟨by rw [TMD_Primitive.getCode, h1a, hcode], fun _ => by rw [h2a, hmode]⟩
    · rename_i hnp
      have hnp1 : ¬ extract_code_from_mode header.mode = TMD_Code_POLYGON := hnp
      split at h
      · have h1a : primitive.m_mode = header.mode := constructLine_keeps _ _ _ _ h
        have hc : primitive.getCode = packetCode p := by rw [TMD_Primitive.getCode, h1a, hcode]
        refine ⟨hc, fun hpoly => ?_⟩
        rw [TMD_Primitive.getCode, h1a] at hpoly
        exact absurd hpoly hnp1
      · have h1a : primitive.m_mode = header.mode := constructSprite_keeps _ _ _ _ h
        have hc : primitive.getCode = packetCode p := by rw [TMD_Primitive.getCode, h1a, hcode]
        refine ⟨hc, fun hpoly => ?_⟩
        rw [TMD_Primitive.getCode, h1a] at hpoly
        exact absurd hpoly hnp1

theorem untexturedMaterial_keeps {F : Type} (s : ConvertState F) (primitive : TMD_Primitive)
    (key : MaterialKey) (r : Int × ConvertState F)
    (h : untexturedMaterial s primitive key = .ok r) :
    r.2.data.primitives = s.data.primitives ∧ r.2.data.vertices = s.data.vertices := by
  unfold untexturedMaterial at h
  split at h
  · cases h
    exact ⟨rfl, rfl⟩
  · split at h
    · cases h
    · cases h
      exact ⟨rfl, rfl⟩

theorem getMaterialIndex_keeps {F : Type} (env : ConverterEnv F) (s : ConvertState F)
    (primitive : TMD_Primitive) (r : Int × ConvertState F)
    (h : getMaterialIndex env s primitive = .ok r) :
    r.2.data.primitives = s.data.primitives ∧ r.2.data.vertices = s.data.vertices := by
  unfold getMaterialIndex at h
  split at h
  · split at h
    · cases h
    · simp only at h
      split at h
      · cases h
        exact ⟨rfl, rfl⟩
      · split at h
        · cases h
          exact ⟨rfl, rfl⟩
        · have hk := untexturedMaterial_keeps _ _ _ r h
          exact hk
  · exact untexturedMaterial_keeps _ _ _ r h

theorem fillAttributes_keeps {F : Type} (env : ConverterEnv F) (data : PSX_Object3D F)
    (primitive : TMD_Primitive) (added : Nat) :
    (fillAttributes env data primitive added).primitives = data.primitives ∧
      (fillAttributes env data primitive added).vertices = data.vertices := by
  unfold fillAttributes
  simp only
  split
  · exact ⟨rfl, rfl⟩
  · exact ⟨rfl, rfl⟩

theorem appendCorners_keeps {F : Type} (env : ConverterEnv F) (data : PSX_Object3D F)
    (tmdObj : TMD_Object) (primitive : TMD_Primitive) (uvconv : TMD_TexCoordsConverter F)
    (corners : List Nat) (d : PSX_Object3D F)
    (h : appendCorners env data tmdObj primitive uvconv corners = .ok d) :
    d.primitives = data.primitives := by
  unfold appendCorners at h
  split at h
  · cases h
  · split at h
    · cases h
    · split at h
      · cases h
      · split at h
        · cases h
        · split at h
          · cases h
          · cases h
            rfl

theorem append_triangles_keeps {F : Type} (env : ConverterEnv F) (data : PSX_Object3D F)
    (tmdObj : TMD_Object) (primitive : TMD_Primitive) (uvconv : TMD_TexCoordsConverter F)
    (d : PSX_Object3D F) (h : append_triangles env data tmdObj primitive uvconv = .ok d) :
    d.primitives = data.primitives := by
  unfold append_triangles at h
  simp only at h
  split at h
  · cases h
  · rename_i d2 hd2
    have h2 := appendCorners_keeps _ _ _ _ _ _ d2 hd2
    rw [(fillAttributes_keeps env data primitive _).1] at h2
    split at h
    · exact (appendCorners_keeps _ _ _ _ _ _ d h).trans h2
    · cases h
      exact h2

theorem append_line_keeps {F : Type} (env : ConverterEnv F) (data : PSX_Object3D F)
    (tmdObj : TMD_Object) (primitive : TMD_Primitive) (d : PSX_Object3D F)
    (h : append_line env data tmdObj primitive = .ok d) : d.primitives = data.primitives := by
  unfold append_line at h
  simp only at h
  split at h
  · split at h
    · cases h
    · split at h
      · cases h
      · split at h
        · split at h
          · cases h
          · cases h
            exact (fillAttributes_keeps env data primitive 2).1
        · cases h
  · cases h

theorem addMesh_types {F : Type} (env : ConverterEnv F) (s : ConvertState F) (o : TMD_Object)
    (primitive : TMD_Primitive) (type : PrimitiveType) (count : Int)
    (r : Bool × ConvertState F) (h : addMesh env s o primitive type count = .ok r) :
    r.2.data.primitives.map (fun e => e.type)
      = s.data.primitives.map (fun e => e.type) ++ [type] := by
  unfold addMesh at h
  split at h
  · cases h
  · rename_i r0 hr0
    have hk := (getMaterialIndex_keeps env s primitive r0 hr0).1
    split at h
    · split at h
      · split at h
        · cases h
        · split at h
          · cases h
          · split at h
            · cases h
            · rename_i d hd
              have hd1 : d.primitives = r0.2.data.primitives := by
                split at hd
                · exact append_line_keeps _ _ _ _ d hd
                · exact append_triangles_keeps _ _ _ _ _ d hd
              cases h
              simp only [List.map_append, List.map_cons, List.map_nil, hd1, hk]
      · cases h
    · cases h

theorem addPrimitive_types {F : Type} (env : ConverterEnv F) (s : ConvertState F)
    (o : TMD_Object) (primitive : TMD_Primitive) (r : Bool × ConvertState F)
    (h : addPrimitive env s o primitive = .ok r) :
    r.2.data.primitives.map (fun e => e.type)
      = s.data.primitives.map (fun e => e.type) ++
          (if primitive.getCode = TMD_Code_POLYGON then
             [if primitive.vertexCount = 4 then PrimitiveType.Quad else PrimitiveType.Triangle]
           else if primitive.getCode = TMD_Code_LINE then [PrimitiveType.Line]
           else []) := by
  unfold addPrimitive at h
  split at h
  · rename_i hp
    rw [if_pos hp]
    split at h
    · rename_i hq
      rw [if_pos hq]
      exact addMesh_types _ _ _ _ _ _ r h
    · rename_i hq
      rw [if_neg hq]
      exact addMesh_types _ _ _ _ _ _ r h
  · rename_i hp
    rw [if_neg hp]
    split at h
    · rename_i hl
      rw [if_pos hl]
      exact addMesh_types _ _ _ _ _ _ r h
    · rename_i hl
      rw [if_neg hl]
      cases h
      simp

theorem convertPackets_types {F : Type} (env : ConverterEnv F) (o : TMD_Object)
    (ps : List (List Nat)) :
    ∀ (s r : ConvertState F), convertPackets env o ps s = .ok r →
      r.data.primitives.map (fun e => e.type)
        = s.data.primitives.map (fun e => e.type)
            ++ (ps.filter isMeshPacket).map packetType := by
  induction ps with
  | nil =>
    intro s r h
    simp only [convertPackets, Except.ok.injEq] at h
    subst h
    simp
  | cons p ps ih =>
    intro s r h
    simp only [convertPackets] at h
    split at h
    · cases h
    · rename_i primitive hp
      split at h
      · cases h
      · rename_i r1 hr1
        obtain ⟨hcode, hquad⟩ := ofPacket_keeps p primitive hp
        have ht := addPrimitive_types env s o primitive r1 hr1
        rw [ih r1.2 r h, ht, List.append_assoc]
        congr 1
        by_cases hpoly : packetCode p = TMD_Code_POLYGON
        · have hv := hquad (hcode.trans hpoly)
          have hm : isMeshPacket p = true := by simp [isMeshPacket, hpoly]
          simp only [hcode, hpoly, if_true, List.filter_cons, hm, List.map_cons,
            List.singleton_append, packetType, hv]
          congr 1
          by_cases hq : isQuad (p.getD 3 0 % 256) = true
          · simp [hq]
          · simp [hq]
        · by_cases hline : packetCode p = TMD_Code_LINE
          · have hm : isMeshPacket p = true := by simp [isMeshPacket, hline]
            have hnl : ¬ (TMD_Code_LINE = TMD_Code_POLYGON) := by decide
            simp only [hcode, hpoly, hline, if_true, if_false, List.filter_cons, hm,
              List.map_cons, List.singleton_append, packetType, hnl]
          · have hm : isMeshPacket p = false := by simp [isMeshPacket, hpoly, hline]
            simp only [hcode, hpoly, hline, if_false, List.filter_cons, hm, List.nil_append,
              Bool.false_eq_true]

theorem objectWith_count (o : TMD_Object) (ps : List (List Nat)) (h : ps.length < 2 ^ 31) :
    (objectWith o ps).m_primitives.count = (ps.length : Int) := by
  obtain ⟨t, ht, hl⟩ := appendPackets_offsets ps { m_packets_data := [], m_primitive_offsets := [] }
  simp only [objectWith, TMD_PrimitiveList.count, ht, List.nil_append, hl]
  exact toInt32_of_lt _ h

theorem convertObject_packets {F : Type} (env : ConverterEnv F) (m_textures : PSX_TextureCache)
    (o : TMD_Object) (ps : List (List Nat)) (hws : ∀ p ∈ ps, wellSized p)
    (hlen : ps.length < 2 ^ 31) (hne : ps ≠ []) :
    convertObject env m_textures (objectWith o ps)
      = (match convertPackets env o ps
            { data := PSX_Object3D.empty F, m_materialsmap := [], textures := m_textures } with
         | .error f => .error f
         | .ok s => .ok (some s.data, s.textures)) := by
  have hc := objectWith_count o ps hlen
  have hpos : ¬ ((ps.length : Int) = 0) := by
    have : ps.length ≠ 0 := fun h0 => hne (List.length_eq_zero.mp h0)
    omega
  have hloop := convertLoop_packets env o ps hws ps.length 0
    { data := PSX_Object3D.empty F, m_materialsmap := [], textures := m_textures } (by omega)
  simp only [Nat.cast_zero, List.drop_zero] at hloop
  simp only [convertObject, hc, hpos, if_false, Int.toNat_ofNat, hloop]

/-- C19, as amended: a sprite packet that the constructor of `TMD_Primitive`
accepts (code 3, `ilen` 2 or 3, and 3 when the size bits are 0) is skipped by
`convertObject`: an object converts to the same result, faults included, as
the object without its sprite packets, so such a packet adds no entry and no
vertices and the packets after it are converted as if it were absent; and
whenever `convertObject` returns a mesh, the mesh has exactly one primitive
entry per polygon or line packet, in packet order, a quad, triangle or line
as the packet says. -/
theorem C19_sprites_skipped {F : Type} (env : ConverterEnv F) (m_textures : PSX_TextureCache)
    (o : TMD_Object) (ps : List (List Nat)) (hws : ∀ p ∈ ps, wellSized p)
    (hlen : ps.length < 2 ^ 31) (hne : ps.filter (fun p => !isSpritePacket p) ≠ []) :
    convertObject env m_textures (objectWith o ps)
      = convertObject env m_textures (objectWith o (ps.filter (fun p => !isSpritePacket p))) ∧
    (∀ (r : PSX_Object3D F) (cache : PSX_TextureCache),
      convertObject env m_textures (objectWith o ps) = .ok (some r, cache) →
      r.primitives.map (fun e => e.type) = (ps.filter isMeshPacket).map packetType) := by
  have hne0 : ps ≠ [] := by
    intro h0
    subst h0
    exact hne rfl
  have hws1 : ∀ p ∈ ps.filter (fun p => !isSpritePacket p), wellSized p :=
    fun p hp => hws p (List.mem_of_mem_filter hp)
  have hlen1 : (ps.filter (fun p => !isSpritePacket p)).length < 2 ^ 31 :=
    lt_of_le_of_lt (List.length_filter_le _ _) hlen
  have h1 := convertObject_packets env m_textures o ps hws hlen hne0
  have h2 := convertObject_packets env m_textures o _ hws1 hlen1 hne
  constructor
  · rw [h1, h2, convertPackets_skip env o ps hws]
  · intro r cache hr
    rw [h1] at hr
    split at hr
    · cases hr
    · rename_i s hs
      have ht := convertPackets_types env o ps _ s hs
      simp only [Except.ok.injEq, Prod.mk.injEq, Option.some.injEq] at hr
      rw [← hr.1, ht]
      simp [PSX_Object3D.empty]

/-- Witness for C19 as amended: a sprite packet followed by a flat triangle. -/
theorem C19_sprites_skipped_witness :
    convertObject sampleEnv PSX_TextureCache.empty
        (objectWith sampleObject [spritePacket, trianglePacket])
      = convertObject sampleEnv PSX_TextureCache.empty (objectWith sampleObject [trianglePacket]) ∧
    (∃ (r : PSX_Object3D ℚ) (cache : PSX_TextureCache),
      convertObject sampleEnv PSX_TextureCache.empty
          (objectWith sampleObject [spritePacket, trianglePacket]) = .ok (some r, cache) ∧
      r.primitives.map (fun e => e.type) = [PrimitiveType.Triangle] ∧
      r.vertices.length = 3) := by
  have hws : ∀ p ∈ [spritePacket, trianglePacket], wellSized p := by
    intro p hp
    simp only [List.mem_cons, List.mem_singleton, List.not_mem_nil, or_false] at hp
    rcases hp with h | h <;> subst h <;> rfl
  obtain ⟨h1, h2⟩ := C19_sprites_skipped sampleEnv PSX_TextureCache.empty sampleObject
    [spritePacket, trianglePacket] hws (by decide) (by decide)
  refine ⟨h1, _, _, rfl, ?_, rfl⟩
  exact h2 _ _ rfl

/-- C19, counterexample: a packet with the code 0 in front of a flat triangle
makes `convertObject` fail on the assertion `getCode() == TMD_Code_SPRITE` of
the constructor of `TMD_Primitive`, whereas the triangle alone converts to a
mesh with one entry. -/
theorem C19_counterexample :
    convertObject sampleEnv PSX_TextureCache.empty
        (objectWith sampleObject [invalidPacket, trianglePacket])
      = .error Fault.assertFailed ∧
    packetCode invalidPacket = TMD_Code_INVALID ∧
    (∃ (r : PSX_Object3D ℚ) (cache : PSX_TextureCache),
      convertObject sampleEnv PSX_TextureCache.empty (objectWith sampleObject [trianglePacket])
        = .ok (some r, cache) ∧
      r.primitives.map (fun e => e.type) = [PrimitiveType.Triangle]) :=
  ⟨rfl, rfl, _, _, rfl, rfl⟩

theorem read_peek_spec (b : Buffer) (maxSize : Int) (hpos : 0 ≤ b.pos) (hle : b.pos ≤ b.size)
    (hmax : 0 ≤ maxSize) :
    b.peek maxSize = .ok ((b.m_data.drop b.pos.toNat).take (min maxSize b.bytesAvailable).toNat) ∧
    b.read maxSize = .ok ((b.m_data.drop b.pos.toNat).take (min maxSize b.bytesAvailable).toNat,
      { m_data := b.m_data, m_pos := b.m_pos + min maxSize b.bytesAvailable }) ∧
    (((b.m_data.drop b.pos.toNat).take (min maxSize b.bytesAvailable).toNat).length : Int)
      = min maxSize b.bytesAvailable := by
  have hr : min (b.size - b.pos) maxSize = min maxSize b.bytesAvailable := by
    unfold Buffer.bytesAvailable
    exact min_comm _ _
  have hnn : 0 ≤ b.pos ∧ 0 ≤ min maxSize b.bytesAvailable := by
    refine ⟨hpos, ?_⟩
    unfold Buffer.bytesAvailable
    omega
  refine ⟨?_, ?_, ?_⟩
  · simp only [Buffer.peek, hr, hnn, and_self, if_true]
  · simp only [Buffer.read, hr, hnn, and_self, if_true]
  · simp only [List.length_take, List.length_drop]
    unfold Buffer.bytesAvailable Buffer.size Buffer.pos at *
    omega

/-- C28: for a buffer with `0 ≤ pos ≤ size` and `maxSize ≥ 0`, `read` and
`peek` copy the same `min maxSize bytesAvailable` bytes, which are the bytes of
the region at the positions `pos, ..., pos + r - 1`; `read` moves the position
on by that count and `peek` leaves the buffer as it is; and `atEnd` holds
exactly when `bytesAvailable` is 0. -/
theorem C28_read_peek (b : Buffer) (maxSize : Int) (hpos : 0 ≤ b.pos) (hle : b.pos ≤ b.size)
    (hmax : 0 ≤ maxSize) :
    ∃ (bytes : List Nat) (b1 : Buffer),
      b.peek maxSize = .ok bytes ∧ b.read maxSize = .ok (bytes, b1) ∧
      (bytes.length : Int) = min maxSize b.bytesAvailable ∧
      (∀ i, i < bytes.length → bytes[i]? = b.m_data[b.pos.toNat + i]?) ∧
      b1.pos = b.pos + (bytes.length : Int) ∧ b1.m_data = b.m_data ∧
      (b.atEnd = true ↔ b.bytesAvailable = 0) := by
  obtain ⟨h1, h2, h3⟩ := read_peek_spec b maxSize hpos hle hmax
  refine ⟨_, _, h1, h2, h3, ?_, ?_, rfl, ?_⟩
  · intro i hi
    have hlt : i < (min maxSize b.bytesAvailable).toNat := by
      have := hi
      simp only [List.length_take] at this
      omega
    rw [List.getElem?_take_of_lt hlt, List.getElem?_drop]
  · rw [h3]
    rfl
  · simp only [Buffer.atEnd, Buffer.bytesAvailable, decide_eq_true_eq]
    omega

/-- Witness for C28: a buffer of five bytes at position 3, asked for four. -/
theorem C28_read_peek_witness :
    ∃ (bytes : List Nat) (b1 : Buffer),
      Buffer.peek { m_data := [10, 11, 12, 13, 14], m_pos := 3 } 4 = .ok bytes ∧
      Buffer.read { m_data := [10, 11, 12, 13, 14], m_pos := 3 } 4 = .ok (bytes, b1) ∧
      bytes = [13, 14] ∧ b1.pos = 5 := by
  obtain ⟨bytes, b1, h1, h2, _⟩ :=
    C28_read_peek { m_data := [10, 11, 12, 13, 14], m_pos := 3 } 4 (by decide) (by decide)
      (by decide)
  have hb : bytes = [13, 14] := by
    have h : Buffer.peek { m_data := [10, 11, 12, 13, 14], m_pos := 3 } 4 = .ok [13, 14] := rfl
    rw [h] at h1
    exact (Except.ok.inj h1).symm
  have hr : Buffer.read { m_data := [10, 11, 12, 13, 14], m_pos := 3 } 4
      = .ok ([13, 14], { m_data := [10, 11, 12, 13, 14], m_pos := 5 }) := rfl
  rw [hr] at h2
  have hb1 : b1 = { m_data := [10, 11, 12, 13, 14], m_pos := 5 } :=
    ((Prod.mk.inj (Except.ok.inj h2)).2).symm
  exact ⟨bytes, b1, h1, by rw [hr, hb, hb1], hb, by rw [hb1]; rfl⟩

/-- C29, as amended: `read` and `peek` keep the cursor invariant
`0 ≤ pos ≤ size` (for `maxSize ≥ 0`); `seek` and `skip` set the position to
their argument, and to the position plus their argument, without any check,
so the invariant holds after them exactly when that value lies in
`0 .. size`; and after a `seek` past the end a `read` or `peek` is an access
outside the region. -/
theorem C29_cursor_invariant (b : Buffer) (maxSize p : Int) (hpos : 0 ≤ b.pos)
    (hle : b.pos ≤ b.size) (hmax : 0 ≤ maxSize) :
    (∃ (bytes : List Nat) (b1 : Buffer), b.read maxSize = .ok (bytes, b1) ∧
      0 ≤ b1.pos ∧ b1.pos ≤ b1.size ∧ b1.size = b.size) ∧
    (∃ bytes : List Nat, b.peek maxSize = .ok bytes) ∧
    (b.seek p).pos = p ∧ (b.seek p).size = b.size ∧
    (b.skip p).pos = b.pos + p ∧ (b.skip p).size = b.size ∧
    ((0 ≤ (b.seek p).pos ∧ (b.seek p).pos ≤ (b.seek p).size) ↔ (0 ≤ p ∧ p ≤ b.size)) ∧
    (b.size < p → (b.seek p).read maxSize = .error Fault.outOfBounds ∧
      (b.seek p).peek maxSize = .error Fault.outOfBounds) := by
  obtain ⟨h1, h2, h3⟩ := read_peek_spec b maxSize hpos hle hmax
  refine ⟨⟨_, _, h2, ?_, ?_, rfl⟩, ⟨_, h1⟩, rfl, rfl, rfl, rfl, Iff.rfl, ?_⟩
  · simp only [Buffer.pos, Buffer.bytesAvailable, Buffer.size] at *
    omega
  · simp only [Buffer.pos, Buffer.bytesAvailable, Buffer.size] at *
    omega
  · intro hp
    have hneg : ¬ (0 ≤ p ∧ 0 ≤ min ((b.m_data.length : Int) - p) maxSize) := by
      simp only [Buffer.size] at hp
      omega
    simp only [Buffer.read, Buffer.peek, Buffer.seek, Buffer.size, Buffer.pos, hneg, if_false,
      and_self]

/-- Witness for C29 as amended: a buffer of two bytes. -/
theorem C29_cursor_invariant_witness :
    (Buffer.seek { m_data := [1, 2], m_pos := 0 } 5).pos = 5 ∧
    (Buffer.skip { m_data := [1, 2], m_pos := 0 } 5).pos = 0 + 5 :=
  ⟨(C29_cursor_invariant { m_data := [1, 2], m_pos := 0 } 1 5 (by decide) (by decide)
      (by decide)).2.2.1,
   (C29_cursor_invariant { m_data := [1, 2], m_pos := 0 } 1 5 (by decide) (by decide)
      (by decide)).2.2.2.2.1⟩

/-- C29, counterexample: on a buffer of two bytes `seek(5)` leaves the position
5, past the size 2, `seek(-1)` leaves the position -1, and the `read` that
follows the first is an access outside the region. -/
theorem C29_counterexample :
    (Buffer.seek { m_data := [1, 2], m_pos := 0 } 5).pos = 5 ∧
    (Buffer.seek { m_data := [1, 2], m_pos := 0 } 5).size = 2 ∧
    (Buffer.seek { m_data := [1, 2], m_pos := 0 } (-1)).pos = -1 ∧
    (Buffer.skip { m_data := [1, 2], m_pos := 1 } 2).pos = 3 ∧
    (Buffer.seek { m_data := [1, 2], m_pos := 0 } 5).read 1 = .error Fault.outOfBounds :=
  ⟨rfl, rfl, rfl, rfl, rfl⟩

theorem shiftLeft_or (x y k : Nat) : (x ||| y) <<< k = x <<< k ||| y <<< k := by
  apply Nat.eq_of_testBit_eq
  intro i
  simp only [Nat.testBit_shiftLeft, Nat.testBit_or]
  cases decide (i ≥ k) <;> simp

theorem pack_argb (a r g b : Nat) (hr : r < 256) (hg : g < 256) (hb : b < 256) :
    (a <<< 24) ||| (r <<< 16) ||| (g <<< 8) ||| b = a * 2 ^ 24 + r * 2 ^ 16 + g * 2 ^ 8 + b := by
  have h24 : a <<< 24 = ((a <<< 8) <<< 8) <<< 8 := by
    rw [← Nat.shiftLeft_add, ← Nat.shiftLeft_add]
  have h16 : r <<< 16 = (r <<< 8) <<< 8 := by
    rw [← Nat.shiftLeft_add]
  have h1 : a <<< 8 ||| r = a * 2 ^ 8 + r := by
    rw [Nat.shiftLeft_eq, Nat.mul_comm, ← Nat.mul_add_lt_is_or (by simpa using hr)]
  have h2 : (a * 2 ^ 8 + r) <<< 8 ||| g = (a * 2 ^ 8 + r) * 2 ^ 8 + g := by
    rw [Nat.shiftLeft_eq, Nat.mul_comm, ← Nat.mul_add_lt_is_or (by simpa using hg)]
  have h3 : ((a * 2 ^ 8 + r) * 2 ^ 8 + g) <<< 8 ||| b = ((a * 2 ^ 8 + r) * 2 ^ 8 + g) * 2 ^ 8 + b := by
    rw [Nat.shiftLeft_eq, Nat.mul_comm, ← Nat.mul_add_lt_is_or (by simpa using hb)]
  rw [h24, h16, ← shiftLeft_or, ← shiftLeft_or, ← shiftLeft_or, h1, h2, h3]
  ring

theorem roundQuotient_31 (x : Nat) (hx : x < 32) :
    2 * (31 * roundQuotient (x * 255) 31) < 2 * (255 * x) + 31 ∧
      2 * (255 * x) < 2 * (31 * roundQuotient (x * 255) 31) + 31 ∧
      roundQuotient (x * 255) 31 ≤ 255 ∧
      (roundQuotient (x * 255) 31 = 0 ↔ x = 0) := by
  unfold roundQuotient
  have h1 := Nat.div_mul_le_self (2 * (x * 255) + 31) (2 * 31)
  have h2 := Nat.lt_div_mul_add (a := 2 * (x * 255) + 31) (b := 2 * 31) (by decide)
  omega

theorem field_bits (c : Nat) :
    c &&& 0b11111 = c % 32 ∧ (c >>> 5) &&& 0b11111 = c / 32 % 32 ∧
      (c >>> 10) &&& 0b11111 = c / 1024 % 32 ∧ c >>> 15 = c / 32768 := by
  have h := Nat.and_pow_two_sub_one_eq_mod
  refine ⟨h c 5, ?_, ?_, ?_⟩
  · rw [Nat.shiftRight_eq_div_pow]
    exact h _ 5
  · rw [Nat.shiftRight_eq_div_pow]
    exact h _ 5
  · rw [Nat.shiftRight_eq_div_pow]

/-- C21: for every 16-bit word `c`, `colorFromPsx16bit c` is
`(A << 24) | (R << 16) | (G << 8) | B`, where `R`, `G`, `B` are the 5-bit
fields in bits 0-4, 5-9 and 10-14 scaled by `255 / 31` and rounded to the
nearest integer (each is at a distance below one half from the exact value, so
no tie occurs), and `A` is 255 if bit 15 is 0 and 0 if it is 1, the other way
round when `R = G = B = 0`.  So `0x0000` gives alpha 0, `0x8000` gives alpha
255, and a word with bit 15 set and a non-zero field gives alpha 0. -/
theorem C21_colorFromPsx16bit (c : Nat) (hc : c < 65536) :
    ∃ A R G B : Nat,
      colorFromPsx16bit c = (A <<< 24) ||| (R <<< 16) ||| (G <<< 8) ||| B ∧
      colorFromPsx16bit c = A * 2 ^ 24 + R * 2 ^ 16 + G * 2 ^ 8 + B ∧
      (2 * (31 * R) < 2 * (255 * (c % 32)) + 31 ∧ 2 * (255 * (c % 32)) < 2 * (31 * R) + 31) ∧
      (2 * (31 * G) < 2 * (255 * (c / 32 % 32)) + 31 ∧
        2 * (255 * (c / 32 % 32)) < 2 * (31 * G) + 31) ∧
      (2 * (31 * B) < 2 * (255 * (c / 1024 % 32)) + 31 ∧
        2 * (255 * (c / 1024 % 32)) < 2 * (31 * B) + 31) ∧
      R ≤ 255 ∧ G ≤ 255 ∧ B ≤ 255 ∧
      A = (if R = 0 ∧ G = 0 ∧ B = 0 then (if c / 32768 = 0 then 0 else 255)
           else (if c / 32768 = 0 then 255 else 0)) ∧
      ((R = 0 ∧ G = 0 ∧ B = 0) ↔ c % 32768 = 0) ∧
      (c / 32768 = 1 → c % 32768 ≠ 0 → A = 0) ∧
      colorFromPsx16bit 0x0000 = 0 ∧ colorFromPsx16bit 0x8000 = 0xFF000000 := by
  obtain ⟨hb1, hb2, hb3, hb4⟩ := field_bits c
  obtain ⟨r1, r2, r3, r4⟩ := roundQuotient_31 (c % 32) (Nat.mod_lt _ (by decide))
  obtain ⟨g1, g2, g3, g4⟩ := roundQuotient_31 (c / 32 % 32) (Nat.mod_lt _ (by decide))
  obtain ⟨b1, b2, b3, b4⟩ := roundQuotient_31 (c / 1024 % 32) (Nat.mod_lt _ (by decide))
  have hzero : (roundQuotient (c % 32 * 255) 31 = 0 ∧ roundQuotient (c / 32 % 32 * 255) 31 = 0 ∧
      roundQuotient (c / 1024 % 32 * 255) 31 = 0) ↔ c % 32768 = 0 := by
    rw [r4, g4, b4]
    omega
  have hdef : colorFromPsx16bit c
      = ((if roundQuotient (c % 32 * 255) 31 = 0 ∧ roundQuotient (c / 32 % 32 * 255) 31 = 0 ∧
            roundQuotient (c / 1024 % 32 * 255) 31 = 0
          then (if c / 32768 = 0 then 0 else 255)
          else (if c / 32768 = 0 then 255 else 0)) <<< 24)
        ||| (roundQuotient (c % 32 * 255) 31 <<< 16)
        ||| (roundQuotient (c / 32 % 32 * 255) 31 <<< 8)
        ||| roundQuotient (c / 1024 % 32 * 255) 31 := by
    simp only [colorFromPsx16bit, Nat.mod_eq_of_lt hc, hb1, hb2, hb3, hb4]
    by_cases hs : c / 32768 = 0
    · simp [hs]
    · simp [hs]
  refine ⟨_, _, _, _, hdef, ?_, ⟨r1, r2⟩, ⟨g1, g2⟩, ⟨b1, b2⟩, r3, g3, b3, rfl, hzero, ?_,
    by decide, by decide⟩
  · rw [hdef]
    exact pack_argb _ _ _ _ (by omega) (by omega) (by omega)
  · intro h1 h2
    have hn : ¬ (roundQuotient (c % 32 * 255) 31 = 0 ∧ roundQuotient (c / 32 % 32 * 255) 31 = 0 ∧
        roundQuotient (c / 1024 % 32 * 255) 31 = 0) := fun h => h2 (hzero.mp h)
    rw [if_neg hn, h1]
    rfl

/-- Witness for C21: the word `0x801F`, red at its maximum with bit 15 set. -/
theorem C21_colorFromPsx16bit_witness :
    ∃ A R G B : Nat,
      colorFromPsx16bit 0x801F = A * 2 ^ 24 + R * 2 ^ 16 + G * 2 ^ 8 + B ∧
      A = 0 ∧ R = 255 ∧ G = 0 ∧ B = 0 := by
  obtain ⟨A, R, G, B, _, h2, h3, h4, h5, _, _, _, _, _, h11, _⟩ :=
    C21_colorFromPsx16bit 0x801F (by decide)
  refine ⟨A, R, G, B, h2, h11 (by decide) (by decide), ?_, ?_, ?_⟩
  · have e : 0x801F % 32 = 31 := by decide
    rw [e] at h3
    omega
  · have e : 0x801F / 32 % 32 = 0 := by decide
    rw [e] at h4
    omega
  · have e : 0x801F / 1024 % 32 = 0 := by decide
    rw [e] at h5
    omega

/-- C22: the header check of `readTim` on a paletted header with 8 bits per
pixel (type word 9: low bits 1, palette bit set): `readTim` returns `false`
whatever follows, the test being `bpp() == 4 || bpp() == 4`; the complete
sample file with 8 bits per pixel is rejected, whereas the sample file with 4
bits per pixel is read. -/
theorem C22_paletted_8bpp_rejected (rest : List Nat) (outputImage : TimImage) :
    TimType.bpp 9 = 8 ∧ TimType.clut 9 = true ∧
    readTim { m_data := le32 0x10 ++ le32 9 ++ rest, m_pos := 0 } outputImage
      = .ok (false, { outputImage with m_type := 9 },
             { m_data := le32 0x10 ++ le32 9 ++ rest, m_pos := 8 }) ∧
    (∃ b, readTim { m_data := sampleTim8, m_pos := 0 } TimImage.new
      = .ok (false, { TimImage.new with m_type := 9 }, b)) ∧
    (∃ img b, readTim { m_data := sampleTim4, m_pos := 0 } TimImage.new = .ok (true, img, b)) := by
  refine ⟨by decide, by decide, ?_, ⟨_, rfl⟩, ⟨_, _, rfl⟩⟩
  have h1 := readbuf_at 4 (le32 0x10 ++ le32 9 ++ rest) 0 (by simp [le32])
  have h2 := readbuf_at 4 (le32 0x10 ++ le32 9 ++ rest) (0 + 4) (by simp [le32])
  have e1 : leValue (((le32 0x10 ++ le32 9 ++ rest).drop 0).take 4) = 0x10 := by
    simp [le32, leValue]
  have e2 : leValue (((le32 0x10 ++ le32 9 ++ rest).drop (0 + 4)).take 4) = 9 := by
    simp [le32, leValue]
  rw [e1] at h1
  rw [e2] at h2
  simp only [Nat.cast_zero, Nat.cast_add, Nat.cast_ofNat, zero_add] at h1 h2
  have hb : TimType.bpp 9 = 8 := by decide
  have hc : TimType.clut 9 = true := by decide
  simp only [readTim, h1, h2, hb, hc]
  rfl

theorem readTim_header (ty : Nat) (rest : List Nat) (hty : ty < 2 ^ 32) :
    readbuf 4 { m_data := le32 0x10 ++ le32 ty ++ rest, m_pos := 0 }
      = .ok (0x10, { m_data := le32 0x10 ++ le32 ty ++ rest, m_pos := 4 }) ∧
    readbuf 4 { m_data := le32 0x10 ++ le32 ty ++ rest, m_pos := 4 }
      = .ok (ty, { m_data := le32 0x10 ++ le32 ty ++ rest, m_pos := 8 }) := by
  have h1 := readbuf_at 4 (le32 0x10 ++ le32 ty ++ rest) 0 (by simp [le32])
  have h2 := readbuf_at 4 (le32 0x10 ++ le32 ty ++ rest) (0 + 4) (by simp [le32])
  have e1 : leValue (((le32 0x10 ++ le32 ty ++ rest).drop 0).take 4) = 0x10 := by
    simp [le32, leValue]
  have e2 : leValue (((le32 0x10 ++ le32 ty ++ rest).drop (0 + 4)).take 4) = ty := by
    simp only [le32, List.cons_append, List.nil_append, List.drop_succ_cons, List.drop_zero,
      List.take_succ_cons, List.take_zero, leValue, Nat.mod_mod]
    omega
  rw [e1] at h1
  rw [e2] at h2
  simp only [Nat.cast_zero, Nat.cast_add, Nat.cast_ofNat, zero_add] at h1 h2
  exact ⟨h1, h2⟩

/-- C24: every TIM header without the palette bit and with 16 or 24 bits per
pixel (type word 2 or 3) makes `readTim` call `fill({}, 0)`, which divides the
number of colors by the number of palettes, 0: the decode of a true-color
image stops there, whatever follows the header. -/
theorem C24_true_color_division (rest : List Nat) (outputImage : TimImage) :
    readTim { m_data := le32 0x10 ++ le32 2 ++ rest, m_pos := 0 } outputImage
      = .error Fault.divisionByZero ∧
    readTim { m_data := le32 0x10 ++ le32 3 ++ rest, m_pos := 0 } outputImage
      = .error Fault.divisionByZero ∧
    outputImage.m_palettes.fill [] 0 = .error Fault.divisionByZero ∧
    TimType.bpp 2 = 16 ∧ TimType.bpp 3 = 24 ∧ TimType.clut 2 = false ∧ TimType.clut 3 = false ∧
    readTim { m_data := sampleTim16, m_pos := 0 } TimImage.new = .error Fault.divisionByZero := by
  obtain ⟨a1, a2⟩ := readTim_header 2 rest (by decide)
  obtain ⟨b1, b2⟩ := readTim_header 3 rest (by decide)
  have h2 : TimType.bpp 2 = 16 := by decide
  have h3 : TimType.bpp 3 = 24 := by decide
  have c2 : TimType.clut 2 = false := by decide
  have c3 : TimType.clut 3 = false := by decide
  have hf : ∀ ps : TimImageColorPalettes, ps.fill [] 0 = .error Fault.divisionByZero :=
    fun ps => rfl
  refine ⟨?_, ?_, hf _, h2, h3, c2, c3, rfl⟩
  · simp only [readTim, a1, a2, h2, c2, readPalettes, hf]
    rfl
  · simp only [readTim, b1, b2, h3, c3, readPalettes, hf]
    rfl

/-- C26: the image with 24 bits per pixel that is 3 words wide and 4 rows
high has `width() = 2` and `height() = 4`, so 8 pixels, but `generateImage()`
counts `width * width` and returns 4 pixels; with one row only it has 2 pixels
and `generateImage()` reads the word after the three words of the block. -/
theorem C26_true_color_24 :
    sampleImage24.width = 2 ∧ sampleImage24.height = 4 ∧
    sampleImage24.m_imdata.data.length = 3 * 4 ∧
    (∃ im, sampleImage24.generateImage = .ok im ∧ im.width = 2 ∧ im.height = 4 ∧
      im.pixelData.length = 4) ∧
    TimImage.generateImage
        { sampleImage24 with
          m_imdata := { length := 18, x := 0, y := 0, width := 3, height := 1,
                        data := [0x0201, 0x0403, 0x0605] } }
      = .error Fault.outOfBounds :=
  ⟨rfl, rfl, rfl, ⟨_, rfl, rfl, rfl, rfl⟩, rfl⟩

/-- C27: the sample file with 4 bits per pixel cut off after two of its eight
palette entries, and cut off before its last pixel word: `readTim` goes on
reading with `readbuf<u16>`, which copies no byte into its result, and does
not return `false`; the complete file is read. -/
theorem C27_truncated_tim :
    sampleTim4.length = 52 ∧
    readTim { m_data := sampleTim4.take 24, m_pos := 0 } TimImage.new = .error Fault.shortRead ∧
    readTim { m_data := sampleTim4.take 50, m_pos := 0 } TimImage.new = .error Fault.shortRead ∧
    readTim { m_data := sampleTim4.take 9, m_pos := 0 } TimImage.new = .error Fault.shortRead ∧
    (∃ img b, readTim { m_data := sampleTim4, m_pos := 0 } TimImage.new = .ok (true, img, b)) :=
  ⟨rfl, rfl, rfl, rfl, _, _, rfl⟩

theorem leValue_le32 (v : Nat) : leValue (le32 v) = v % 2 ^ 32 := by
  simp only [le32, leValue, Nat.mod_mod]
  omega

theorem readbuf4_le32 (pre rest : List Nat) (v : Nat) :
    readbuf 4 (bufferAt pre (le32 v ++ rest)) = .ok (v % 2 ^ 32, bufferAt (pre ++ le32 v) rest) := by
  rw [readbuf_bufferAt 4 pre (le32 v) rest rfl, leValue_le32]

theorem readBlockHeader_bufferAt (pre rest : List Nat) (length x y width height : Nat) :
    readBlockHeader (bufferAt pre
        (le32 length ++ (le16 x ++ (le16 y ++ (le16 width ++ (le16 height ++ rest))))))
      = .ok ((length % 2 ^ 32, x % 65536, y % 65536, width % 65536, height % 65536),
             bufferAt (pre ++ (le32 length ++ (le16 x ++ (le16 y ++ (le16 width ++ le16 height)))))
               rest) := by
  unfold readBlockHeader
  rw [readbuf4_le32]
  simp only []
  rw [readbuf2_le16]
  simp only []
  rw [readbuf2_le16]
  simp only []
  rw [readbuf2_le16]
  simp only []
  rw [readbuf2_le16]
  simp only [List.append_assoc]

theorem readWords_bufferAt (rest : List Nat) (ws : List Nat) :
    ∀ (pre acc : List Nat),
      readWords ws.length (bufferAt pre (ws.flatMap le16 ++ rest)) acc
        = .ok (acc ++ ws.map (fun w => w % 65536), bufferAt (pre ++ ws.flatMap le16) rest) := by
  induction ws with
  | nil => intro pre acc; simp [readWords]
  | cons w ws ih =>
    intro pre acc
    simp only [List.length_cons, readWords, List.flatMap_cons, List.append_assoc, readbuf2_le16]
    rw [ih (pre ++ le16 w) (acc ++ [w % 65536])]
    simp only [List.append_assoc, List.map_cons, List.singleton_append]

theorem colorFromPsx16bit_mod (c : Nat) :
    colorFromPsx16bit (c % 65536) = colorFromPsx16bit c := by
  simp only [colorFromPsx16bit, Nat.mod_mod]

theorem blockWords_ok (width height length : Nat) (hsize : width * height * 2 < 2 ^ 31)
    (hlen : length = width * height * 2 + 12) :
    blockWords width height (length % 2 ^ 32) = .ok (width * height) := by
  have h1 : length % 2 ^ 32 = length := Nat.mod_eq_of_lt (by omega)
  have h2 : (length + 2 ^ 32 - 12) % 2 ^ 32 = width * height * 2 := by
    rw [hlen]
    have : width * height * 2 + 12 + 2 ^ 32 - 12 = width * height * 2 + 2 ^ 32 := by omega
    rw [this, Nat.add_mod_right]
    exact Nat.mod_eq_of_lt (by omega)
  unfold blockWords
  rw [h1, if_pos hsize, h2, if_pos rfl]

theorem readImageData_block (pre rest words : List Nat) (length x y width height : Nat)
    (outputImage : TimImage) (hw : width < 65536) (hh : height < 65536)
    (hwords : words.length = width * height) (hsize : width * height * 2 < 2 ^ 31)
    (hlen : length = width * height * 2 + 12) :
    readImageData outputImage (bufferAt pre (timBlock length x y width height words ++ rest))
      = .ok ({ outputImage with
               m_imdata := { length := length, x := x % 65536, y := y % 65536, width := width,
                             height := height, data := words.map (fun w => w % 65536) } },
             bufferAt (pre ++ timBlock length x y width height words) rest) := by
  have h1 : length % 2 ^ 32 = length := Nat.mod_eq_of_lt (by omega)
  have hb := blockWords_ok width height length hsize hlen
  rw [h1] at hb
  unfold readImageData timBlock
  simp only [List.append_assoc]
  rw [readBlockHeader_bufferAt]
  simp only [Nat.mod_eq_of_lt hw, Nat.mod_eq_of_lt hh, h1, hb, ← hwords]
  rw [readWords_bufferAt]
  simp only [List.nil_append, List.append_assoc]

theorem readPalettes_block (pre rest raw : List Nat) (length x y width height ty : Nat)
    (outputImage : TimImage) (hclut : TimType.clut ty = true)
    (hw : width < 65536) (hh : height < 65536) (hh1 : 1 ≤ height)
    (hraw : raw.length = width * height) (hsize : width * height * 2 < 2 ^ 31)
    (hlen : length = width * height * 2 + 12) :
    readPalettes { outputImage with m_type := ty }
        (bufferAt pre (timBlock length x y width height raw ++ rest))
      = .ok ({ outputImage with
               m_type := ty,
               m_palettes := { m_number_of_colors := width, m_number_of_palettes := height,
                               m_colors := raw.map colorFromPsx16bit,
                               m_x := x % 65536, m_y := y % 65536 } },
             bufferAt (pre ++ timBlock length x y width height raw) rest) := by
  have h1 : length % 2 ^ 32 = length := Nat.mod_eq_of_lt (by omega)
  have hb := blockWords_ok width height length hsize hlen
  rw [h1] at hb
  have hcast : (((height : Nat) : Int) % 65536).toNat = height := by omega
  have hne : ¬ (height = 0) := by omega
  have hdiv : raw.length / height % 65536 = width := by
    rw [hraw, Nat.mul_div_cancel _ (by omega)]
    exact Nat.mod_eq_of_lt hw
  have hmap : (raw.map (fun w => w % 65536)).map colorFromPsx16bit = raw.map colorFromPsx16bit := by
    rw [List.map_map]
    apply List.map_congr_left
    intro c _
    exact colorFromPsx16bit_mod c
  unfold readPalettes timBlock
  simp only [hclut, if_true, List.append_assoc]
  rw [readBlockHeader_bufferAt]
  simp only [Nat.mod_eq_of_lt hw, Nat.mod_eq_of_lt hh, h1, hb, ← hraw]
  rw [readWords_bufferAt]
  simp only [List.nil_append, TimImageColorPalettes.fill, hcast, hne, if_false, hmap,
    List.length_map, hdiv, TimImageColorPalettes.setVramCoordinates, List.append_assoc]

theorem readTim_paletted (ty clen cx cy w h ilen ix iy iw ih : Nat) (raw words rest : List Nat)
    (outputImage : TimImage)
    (hty : ty < 2 ^ 32) (hclut : TimType.clut ty = true) (hbpp : TimType.bpp ty = 4)
    (hw : w < 65536) (hh : h < 65536) (hh1 : 1 ≤ h) (hraw : raw.length = w * h)
    (hsize : w * h * 2 < 2 ^ 31) (hclen : clen = w * h * 2 + 12)
    (hiw : iw < 65536) (hih : ih < 65536) (hwords : words.length = iw * ih)
    (hisize : iw * ih * 2 < 2 ^ 31) (hilen : ilen = iw * ih * 2 + 12) :
    readTim (bufferAt [] (le32 0x10 ++ (le32 ty ++ (timBlock clen cx cy w h raw
        ++ (timBlock ilen ix iy iw ih words ++ rest))))) outputImage
      = .ok (true,
             { m_type := ty,
               m_palettes := { m_number_of_colors := w, m_number_of_palettes := h,
                               m_colors := raw.map colorFromPsx16bit,
                               m_x := cx % 65536, m_y := cy % 65536 },
               m_imdata := { length := ilen, x := ix % 65536, y := iy % 65536, width := iw,
                             height := ih, data := words.map (fun v => v % 65536) } },
             bufferAt ([] ++ le32 0x10 ++ le32 ty ++ timBlock clen cx cy w h raw
               ++ timBlock ilen ix iy iw ih words) rest) := by
  have hp := readPalettes_block ([] ++ le32 0x10 ++ le32 ty)
    (timBlock ilen ix iy iw ih words ++ rest) raw clen cx cy w h ty outputImage hclut hw hh hh1
    hraw hsize hclen
  have hi := readImageData_block ([] ++ le32 0x10 ++ le32 ty ++ timBlock clen cx cy w h raw) rest
    words ilen ix iy iw ih
    { outputImage with
      m_type := ty,
      m_palettes := { m_number_of_colors := w, m_number_of_palettes := h,
                      m_colors := raw.map colorFromPsx16bit,
                      m_x := cx % 65536, m_y := cy % 65536 } }
    hiw hih hwords hisize hilen
  have hmagic : ¬ ((0x10 : Nat) % 2 ^ 32 ≠ 0x10) := by decide
  unfold readTim
  rw [readbuf4_le32]
  simp only [hmagic, if_false]
  rw [readbuf4_le32]
  simp only [Nat.mod_eq_of_lt hty, hclut, hbpp, if_true, decide_True, Bool.or_self,
    Bool.not_true, Bool.false_eq_true, if_false, hp, hi]

theorem readTim_palette_colors (ty clen cx cy w h ilen ix iy iw ih : Nat) (raw words rest : List Nat)
    (outputImage : TimImage)
    (hty : ty < 2 ^ 32) (hclut : TimType.clut ty = true) (hbpp : TimType.bpp ty = 4)
    (hw : w < 65536) (hh : h < 65536) (hh1 : 1 ≤ h) (hraw : raw.length = w * h)
    (hsize : w * h * 2 < 2 ^ 31) (hclen : clen = w * h * 2 + 12)
    (hiw : iw < 65536) (hih : ih < 65536) (hwords : words.length = iw * ih)
    (hisize : iw * ih * 2 < 2 ^ 31) (hilen : ilen = iw * ih * 2 + 12) :
    ∃ (img : TimImage) (b : Buffer),
      readTim (bufferAt [] (le32 0x10 ++ (le32 ty ++ (timBlock clen cx cy w h raw
          ++ (timBlock ilen ix iy iw ih words ++ rest))))) outputImage = .ok (true, img, b) ∧
      img.numberOfPalettes = (h : Int) ∧
      img.m_palettes.numberOfColorsPerPalette = (w : Int) ∧
      img.m_palettes.m_colors.length = w * h ∧
      img.m_palettes.m_colors.length / h = w ∧
      (∀ i j, i < h → j < w →
        ∃ p, img.m_palettes.palette (i : Int) = .ok p ∧ p.size = (w : Int) ∧
          p.at (j : Int) = .ok (colorFromPsx16bit (raw.getD (i * w + j) 0))) := by
  refine ⟨_, _, readTim_paletted ty clen cx cy w h ilen ix iy iw ih raw words rest outputImage
    hty hclut hbpp hw hh hh1 hraw hsize hclen hiw hih hwords hisize hilen, rfl, rfl, ?_, ?_, ?_⟩
  · simp [hraw]
  · simp only [List.length_map, hraw]
    exact Nat.mul_div_cancel _ (by omega)
  · intro i j hi hj
    have hle : (i + 1) * w ≤ w * h := by
      rw [Nat.mul_comm w h]
      exact Nat.mul_le_mul_right w hi
    have hidx : i * w + j < raw.length := by
      rw [hraw]
      calc i * w + j < i * w + w := by omega
        _ = (i + 1) * w := by ring
        _ ≤ w * h := hle
    have hnn : (0 : Int) ≤ ((i : Nat) : Int) := by omega
    have hjn : (0 : Int) ≤ ((j : Nat) : Int) := by omega
    refine ⟨{ m_colors := ((raw.map colorFromPsx16bit).drop (i * w)).take w }, ?_, ?_, ?_⟩
    · simp only [TimImageColorPalettes.palette, hnn, Int.toNat_ofNat, List.length_map, hraw, hle,
        and_self, if_true]
    · simp only [TimImageColorPalettes.palette, TimImageColorPalette.size, List.length_take,
        List.length_drop, List.length_map, hraw]
      have hmin : min w (w * h - i * w) = w := by
        apply min_eq_left
        have : i * w + w ≤ w * h := by
          calc i * w + w = (i + 1) * w := by ring
            _ ≤ w * h := hle
        omega
      rw [hmin]
      exact toInt32_of_lt w (by omega)
    · simp only [TimImageColorPalette.at, hjn, if_true, Int.toNat_ofNat]
      rw [List.getElem?_take_of_lt hj, List.getElem?_drop, List.getElem?_map,
        List.getElem?_eq_getElem hidx, List.getD_eq_getElem _ _ hidx]
      rfl

theorem readTim_paletted8 (ty : Nat) (rest : List Nat) (outputImage : TimImage)
    (hty : ty < 2 ^ 32) (hclut : TimType.clut ty = true) (hbpp : TimType.bpp ty = 8) :
    readTim (bufferAt [] (le32 0x10 ++ (le32 ty ++ rest))) outputImage
      = .ok (false, { outputImage with m_type := ty },
             bufferAt ([] ++ le32 0x10 ++ le32 ty) rest) := by
  have hmagic : ¬ ((0x10 : Nat) % 2 ^ 32 ≠ 0x10) := by decide
  unfold readTim
  rw [readbuf4_le32]
  simp only [hmagic, if_false]
  rw [readbuf4_le32]
  simp only [Nat.mod_eq_of_lt hty, hclut, hbpp]
  rfl

/-- C23, the code evaluated: a paletted TIM with 8 bits per pixel (palette bit
set, low bits 1) makes `readTim` return `false` before the palette block is
read, whatever the height `h` and the width `w` of that block, so the image
keeps the palettes it had; the sample file with 8 bits per pixel, whose
palette block has the height 1 and the width 2, read into a new image, leaves
`numberOfPalettes() = 0` and `numberOfColorsPerPalette() = 0`, not 1 and 2.
For a paletted TIM with 4 bits per pixel whose palette block has the height
`h ≥ 1` and the width `w` and holds the `w * h` words `raw`, `readTim` returns
`true`, the image has `numberOfPalettes() = h` and
`numberOfColorsPerPalette() = w`, the number of palette colors divided by the
number of palettes, and color `j` of `palette(i)` is `colorFromPsx16bit` of
the word `raw[i * w + j]`; height 2 and width 4 give 2 palettes of 4 colors. -/
theorem C23_paletted_tim :
    (∀ (ty clen cx cy w h : Nat) (raw rest : List Nat) (outputImage : TimImage),
      ty < 2 ^ 32 → TimType.clut ty = true → TimType.bpp ty = 8 →
      ∃ b, readTim (bufferAt [] (le32 0x10 ++ (le32 ty
          ++ (timBlock clen cx cy w h raw ++ rest)))) outputImage
        = .ok (false, { outputImage with m_type := ty }, b)) ∧
    (TimType.clut 9 = true ∧ TimType.bpp 9 = 8 ∧
      sampleTim8 = le32 0x10 ++ le32 9 ++ timBlock 16 0 0 2 1 [0x001F, 0x03E0]
        ++ timBlock 14 0 0 1 1 [0x0100]) ∧
    (∃ img b, readTim { m_data := sampleTim8, m_pos := 0 } TimImage.new = .ok (false, img, b) ∧
      img.numberOfPalettes = 0 ∧ img.m_palettes.numberOfColorsPerPalette = 0 ∧
      img.m_palettes.m_colors = []) ∧
    (∀ (ty clen cx cy w h ilen ix iy iw ih : Nat) (raw words rest : List Nat)
        (outputImage : TimImage),
      ty < 2 ^ 32 → TimType.clut ty = true → TimType.bpp ty = 4 →
      w < 65536 → h < 65536 → 1 ≤ h → raw.length = w * h →
      w * h * 2 < 2 ^ 31 → clen = w * h * 2 + 12 →
      iw < 65536 → ih < 65536 → words.length = iw * ih →
      iw * ih * 2 < 2 ^ 31 → ilen = iw * ih * 2 + 12 →
      ∃ (img : TimImage) (b : Buffer),
        readTim (bufferAt [] (le32 0x10 ++ (le32 ty ++ (timBlock clen cx cy w h raw
            ++ (timBlock ilen ix iy iw ih words ++ rest))))) outputImage = .ok (true, img, b) ∧
        img.numberOfPalettes = (h : Int) ∧
        img.m_palettes.numberOfColorsPerPalette = (w : Int) ∧
        img.m_palettes.m_colors.length = w * h ∧
        img.m_palettes.m_colors.length / h = w ∧
        (∀ i j, i < h → j < w →
          ∃ p, img.m_palettes.palette (i : Int) = .ok p ∧ p.size = (w : Int) ∧
            p.at (j : Int) = .ok (colorFromPsx16bit (raw.getD (i * w + j) 0)))) ∧
    (∃ (img : TimImage) (b : Buffer),
      readTim { m_data := sampleTim4, m_pos := 0 } TimImage.new = .ok (true, img, b) ∧
      img.numberOfPalettes = 2 ∧ img.m_palettes.numberOfColorsPerPalette = 4) := by
  refine ⟨?_, ⟨by decide, by decide, rfl⟩, ⟨_, _, rfl, rfl, rfl, rfl⟩, ?_, ⟨_, _, rfl, rfl, rfl⟩⟩
  · intro ty clen cx cy w h raw rest outputImage hty hclut hbpp
    exact ⟨_, readTim_paletted8 ty _ outputImage hty hclut hbpp⟩
  · intro ty clen cx cy w h ilen ix iy iw ih raw words rest outputImage hty hclut hbpp hw hh hh1
      hraw hsize hclen hiw hih hwords hisize hilen
    exact readTim_palette_colors ty clen cx cy w h ilen ix iy iw ih raw words rest outputImage
      hty hclut hbpp hw hh hh1 hraw hsize hclen hiw hih hwords hisize hilen

theorem palette_at (p : TimImageColorPalette) (offset : Int) (k : Nat)
    (h : 0 ≤ offset + (k : Int) ∧ offset + (k : Int) < (p.m_colors.length : Int)) :
    p.at (offset + (k : Int)) = .ok (paletteColor p offset k) := by
  have hlt : (offset + (k : Int)).toNat < p.m_colors.length := by omega
  simp only [TimImageColorPalette.at, h.1, if_true, List.getElem?_eq_getElem hlt, paletteColor,
    List.getD_eq_getElem _ _ hlt]

theorem paletteColors_ok (p : TimImageColorPalette) (offset : Int) (ks : List Nat)
    (h : ∀ k ∈ ks, 0 ≤ offset + (k : Int) ∧ offset + (k : Int) < (p.m_colors.length : Int)) :
    paletteColors p offset ks = .ok (ks.map (paletteColor p offset)) := by
  induction ks with
  | nil => rfl
  | cons k ks ih =>
    simp only [paletteColors, palette_at p offset k (h k (List.mem_cons_self _ _)),
      ih (fun x hx => h x (List.mem_cons_of_mem _ hx)), List.map_cons]

theorem paletteLoop_spec (p : TimImageColorPalette) (offset : Int) (data : List Nat) (m : Nat)
    (unpack : Nat → List Nat) (hm : 1 ≤ m) (hlen : ∀ w, (unpack w).length = m)
    (hlook : ∀ w ∈ data, ∀ k ∈ unpack w,
      0 ≤ offset + (k : Int) ∧ offset + (k : Int) < (p.m_colors.length : Int)) :
    ∀ (rest : Nat) (i fuel : Nat) (acc : List Nat), i + rest = data.length → rest < fuel →
      acc.length = m * i →
      paletteLoop p offset data (m * data.length) unpack fuel i acc
        = .ok (acc ++ (data.drop i).flatMap (fun w => (unpack w).map (paletteColor p offset))) := by
  intro rest
  induction rest with
  | zero =>
    intro i fuel acc hi hf hacc
    have hi0 : i = data.length := by omega
    have hnot : ¬ (acc.length < m * data.length) := by
      rw [hacc, hi0]
      omega
    have hdrop : data.drop i = [] := List.drop_eq_nil_of_le (by omega)
    cases fuel with
    | zero => omega
    | succ f => simp [paletteLoop, hnot, hdrop]
  | succ rest ih =>
    intro i fuel acc hi hf hacc
    have hlt : i < data.length := by omega
    have hcond : acc.length < m * data.length := by
      rw [hacc]
      exact Nat.mul_lt_mul_of_pos_left hlt (by omega)
    have hdrop : data.drop i = data[i] :: data.drop (i + 1) := List.drop_eq_getElem_cons hlt
    cases fuel with
    | zero => omega
    | succ f =>
      have hc := paletteColors_ok p offset (unpack data[i]) (hlook _ (List.getElem_mem hlt))
      simp only [paletteLoop, hcond, if_true, List.getElem?_eq_getElem hlt, hc]
      rw [ih (i + 1) f _ (by omega) (by omega)
        (by simp only [List.length_append, List.length_map, hlen, hacc]; ring)]
      rw [hdrop, List.flatMap_cons, List.append_assoc]

theorem flatMap_getElem? {α : Type} (f : Nat → List α) (m : Nat)
    (hlen : ∀ w, (f w).length = m) (j : Nat) (hj : j < m) :
    ∀ (data : List Nat) (k : Nat),
      (data.flatMap f)[m * k + j]? = (data[k]?).bind (fun w => (f w)[j]?) := by
  intro data
  induction data with
  | nil => intro k; simp
  | cons w ws ih =>
    intro k
    cases k with
    | zero =>
      simp only [Nat.mul_zero, Nat.zero_add, List.flatMap_cons, List.getElem?_cons_zero,
        Option.some_bind]
      rw [List.getElem?_append_left (by rw [hlen]; exact hj)]
    | succ k =>
      simp only [List.flatMap_cons, List.getElem?_cons_succ]
      rw [List.getElem?_append_right (by rw [hlen]; nlinarith)]
      have : m * (k + 1) + j - (f w).length = m * k + j := by
        rw [hlen, Nat.mul_succ]
        omega
      rw [this, ih k]

theorem width_of_bpp (img : TimImage) (bpp : Nat) (hb : TimType.bpp img.m_type = (bpp : Int)) :
    img.width = ((img.m_imdata.width * 16 / bpp : Nat) : Int) := by
  unfold TimImage.width
  rw [hb, Int.ofNat_tdiv]
  push_cast
  rfl

theorem nibbles_eq (w : Nat) :
    nibbles w = [w % 16, w / 16 % 16, w / 256 % 16, w / 4096 % 16] := by
  have h := Nat.and_pow_two_sub_one_eq_mod
  simp only [nibbles, Nat.shiftRight_eq_div_pow]
  rw [show (0xf : Nat) = 2 ^ 4 - 1 by rfl, h, h, h, h]
  norm_num

theorem bytePair_eq (w : Nat) : bytePair w = [w % 256, w / 256] := by
  have h := Nat.and_pow_two_sub_one_eq_mod
  simp only [bytePair, Nat.shiftRight_eq_div_pow]
  rw [show (0xff : Nat) = 2 ^ 8 - 1 by rfl, h]

theorem generateImageFromPalette_spec (img : TimImage) (paletteIndex offset : Int)
    (bpp m : Nat) (unpack : Nat → List Nat)
    (hb : (bpp = 4 ∧ m = 4 ∧ unpack = nibbles) ∨ (bpp = 8 ∧ m = 2 ∧ unpack = bytePair))
    (hbpp : TimType.bpp img.m_type = (bpp : Int))
    (hdata : img.m_imdata.data.length = img.m_imdata.width * img.m_imdata.height)
    (hp : 0 ≤ paletteIndex)
    (hpal : (paletteIndex.toNat + 1) * img.m_palettes.m_number_of_colors
      ≤ img.m_palettes.m_colors.length)
    (hlook : ∀ w ∈ img.m_imdata.data, ∀ k ∈ unpack w,
      0 ≤ offset + (k : Int) ∧ offset + (k : Int) < (img.m_palettes.m_number_of_colors : Int))
    (hsize : m * img.m_imdata.width * img.m_imdata.height < 2 ^ 31) :
    ∃ pal, img.m_palettes.palette paletteIndex = .ok pal ∧
      pal.m_colors.length = img.m_palettes.m_number_of_colors ∧
      img.width = ((m * img.m_imdata.width : Nat) : Int) ∧
      img.generateImageFromPalette paletteIndex offset
        = .ok { width := img.width, height := img.height,
                pixelData := img.m_imdata.data.flatMap
                  (fun w => (unpack w).map (paletteColor pal offset)) } := by
  have hm : m * bpp = 16 ∧ 1 ≤ m ∧ 1 ≤ bpp := by
    rcases hb with ⟨h1, h2, _⟩ | ⟨h1, h2, _⟩ <;> subst h1 <;> subst h2 <;> decide
  have hlenu : ∀ w, (unpack w).length = m := by
    intro w
    rcases hb with ⟨_, h2, h3⟩ | ⟨_, h2, h3⟩ <;> subst h2 <;> subst h3 <;> rfl
  have hw : img.width = ((m * img.m_imdata.width : Nat) : Int) := by
    rw [width_of_bpp img bpp hbpp]
    congr 1
    rw [← hm.1, Nat.mul_comm img.m_imdata.width, Nat.mul_assoc,
      Nat.mul_comm bpp, ← Nat.mul_assoc]
    exact Nat.mul_div_cancel _ (by omega)
  obtain ⟨pal, hpalette, hplen⟩ : ∃ pal, img.m_palettes.palette paletteIndex = .ok pal ∧
      pal.m_colors.length = img.m_palettes.m_number_of_colors := by
    refine ⟨TimImageColorPalette.mk (List.take img.m_palettes.m_number_of_colors
        (List.drop (paletteIndex.toNat * img.m_palettes.m_number_of_colors)
          img.m_palettes.m_colors)),
      by simp only [TimImageColorPalettes.palette, hp, hpal, and_self, if_true], ?_⟩
    simp only [List.length_take, List.length_drop]
    have : (paletteIndex.toNat + 1) * img.m_palettes.m_number_of_colors
        = paletteIndex.toNat * img.m_palettes.m_number_of_colors
          + img.m_palettes.m_number_of_colors := by ring
    omega
  refine ⟨pal, hpalette, hplen, hw, ?_⟩
  have hmul : mulInt img.width img.height
      = .ok (((m * img.m_imdata.width * img.m_imdata.height : Nat) : Int)) := by
    have hnn : -(2 ^ 31 : Int) ≤ ((m * img.m_imdata.width * img.m_imdata.height : Nat) : Int)
        ∧ ((m * img.m_imdata.width * img.m_imdata.height : Nat) : Int) < 2 ^ 31 := by
      constructor
      · have : (0 : Int) ≤ ((m * img.m_imdata.width * img.m_imdata.height : Nat) : Int) :=
          Int.ofNat_nonneg _
        omega
      · exact_mod_cast hsize
    have hprod : img.width * img.height
        = ((m * img.m_imdata.width * img.m_imdata.height : Nat) : Int) := by
      rw [hw, TimImage.height]
      push_cast
      rfl
    unfold mulInt
    rw [hprod, if_pos hnn]
  have hn : m * img.m_imdata.width * img.m_imdata.height = m * img.m_imdata.data.length := by
    rw [hdata, Nat.mul_assoc]
  have hloop := paletteLoop_spec pal
    offset img.m_imdata.data m unpack hm.2.1 hlenu
    (by
      intro w hw1 k hk
      rw [hplen]
      exact hlook w hw1 k hk)
    img.m_imdata.data.length 0 (m * img.m_imdata.data.length + 1) [] (by omega)
    (by
      have : img.m_imdata.data.length ≤ m * img.m_imdata.data.length :=
        Nat.le_mul_of_pos_left _ (by omega)
      omega)
    (by simp)
  simp only [List.drop_zero, List.nil_append] at hloop
  unfold TimImage.generateImageFromPalette
  rw [hpalette, hmul]
  simp only [Int.toNat_ofNat, hn, hbpp]
  rcases hb with ⟨h1, h2, h3⟩ | ⟨h1, h2, h3⟩
  · subst h1 h2 h3
    simp only [Nat.cast_ofNat, if_true, hloop]
  · subst h1 h2 h3
    have h84 : ¬ ((8 : Int) = 4) := by decide
    simp only [Nat.cast_ofNat, h84, if_false, if_true, hloop]

/-- C25: for a decoded paletted image with 4 or 8 bits per pixel, a palette
index inside the palettes and a column offset that keeps every index of the
pixel data inside the palette, `generateImageFromPalette` returns an image of
`width() = rawWidth * 16 / bpp` by `height() = rawHeight` with exactly
`width() * height()` pixels; pixel `m * k + j` is the color of the palette at
`offset +` index `j` of word `k`, where a word has the `m = 4` indices of its
nibbles, lowest first, for 4 bits per pixel, and the `m = 2` indices of its
bytes, low byte first, for 8; and `generateImage(clutX, clutY)` is
`generateImageFromPalette(clutY - y, clutX - x)` for the coordinates `x`, `y`
of the palettes. -/
theorem C25_generateImageFromPalette (img : TimImage) (paletteIndex offset : Int)
    (bpp m : Nat) (unpack : Nat → List Nat)
    (hb : (bpp = 4 ∧ m = 4 ∧ unpack = nibbles) ∨ (bpp = 8 ∧ m = 2 ∧ unpack = bytePair))
    (hbpp : TimType.bpp img.m_type = (bpp : Int))
    (hdata : img.m_imdata.data.length = img.m_imdata.width * img.m_imdata.height)
    (hp : 0 ≤ paletteIndex)
    (hpal : (paletteIndex.toNat + 1) * img.m_palettes.m_number_of_colors
      ≤ img.m_palettes.m_colors.length)
    (hlook : ∀ w ∈ img.m_imdata.data, ∀ k ∈ unpack w,
      0 ≤ offset + (k : Int) ∧ offset + (k : Int) < (img.m_palettes.m_number_of_colors : Int))
    (hsize : m * img.m_imdata.width * img.m_imdata.height < 2 ^ 31) :
    ∃ (pal : TimImageColorPalette) (im : TimImage.Image),
      img.m_palettes.palette paletteIndex = .ok pal ∧
      img.generateImageFromPalette paletteIndex offset = .ok im ∧
      im.width = img.width ∧ img.width = ((img.m_imdata.width * 16 / bpp : Nat) : Int) ∧
      im.height = img.height ∧ img.height = (img.m_imdata.height : Int) ∧
      (im.pixelData.length : Int) = img.width * img.height ∧
      (∀ (k j w idx : Nat), img.m_imdata.data[k]? = some w → (unpack w)[j]? = some idx →
        ∃ c, pal.at (offset + (idx : Int)) = .ok c ∧ im.pixelData[m * k + j]? = some c) ∧
      (∀ w, nibbles w = [w % 16, w / 16 % 16, w / 256 % 16, w / 4096 % 16]) ∧
      (∀ w, bytePair w = [w % 256, w / 256]) ∧
      (img.usesPalette = true → ∀ x y : Int, x ≠ -1 → y ≠ -1 →
        img.generateImageClut x y
          = img.generateImageFromPalette (y - (img.m_palettes.m_y : Int))
              (x - (img.m_palettes.m_x : Int))) := by
  obtain ⟨pal, h1, h2, h3, h4⟩ := generateImageFromPalette_spec img paletteIndex offset bpp m
    unpack hb hbpp hdata hp hpal hlook hsize
  have hlenu : ∀ w, (unpack w).length = m := by
    intro w
    rcases hb with ⟨_, e2, e3⟩ | ⟨_, e2, e3⟩ <;> subst e2 <;> subst e3 <;> rfl
  refine ⟨pal, _, h1, h4, rfl, width_of_bpp img bpp hbpp, rfl, rfl, ?_, ?_, nibbles_eq,
    bytePair_eq, ?_⟩
  · have hl : (img.m_imdata.data.flatMap
        (fun w => (unpack w).map (paletteColor pal offset))).length
        = m * img.m_imdata.data.length := by
      induction img.m_imdata.data with
      | nil => rfl
      | cons w ws ih =>
        simp only [List.flatMap_cons, List.length_append, List.length_map, hlenu, ih,
          List.length_cons]
        ring
    simp only [hl, h3, TimImage.height, hdata]
    push_cast
    ring
  · intro k j w idx hk hj
    have hjm : j < m := by
      have := (List.getElem?_eq_some.mp hj).1
      rwa [hlenu] at this
    have hmem : w ∈ img.m_imdata.data := by
      obtain ⟨hi, he⟩ := List.getElem?_eq_some.mp hk
      rw [← he]
      exact List.getElem_mem hi
    have hidx : idx ∈ unpack w := by
      obtain ⟨hi, he⟩ := List.getElem?_eq_some.mp hj
      rw [← he]
      exact List.getElem_mem hi
    have hrange := hlook w hmem idx hidx
    rw [← h2] at hrange
    refine ⟨paletteColor pal offset idx, palette_at pal offset idx hrange, ?_⟩
    rw [flatMap_getElem? (fun w => (unpack w).map (paletteColor pal offset)) m
      (by intro w; simp [hlenu]) j hjm, hk]
    simp [hj]
  · intro hu x y hx hy
    simp only [TimImage.generateImageClut, hu, if_true, hx, hy, if_false]

/-- Witness for C25: the decoded sample image with 4 bits per pixel, its
second palette and the offset 0. -/
theorem C25_generateImageFromPalette_witness :
    ∃ (pal : TimImageColorPalette) (im : TimImage.Image),
      sampleImage4.m_palettes.palette 1 = .ok pal ∧
      sampleImage4.generateImageFromPalette 1 0 = .ok im ∧
      im.width = 4 ∧ im.height = 2 ∧ im.pixelData.length = 8 ∧
      readTim { m_data := sampleTim4, m_pos := 0 } TimImage.new
        = .ok (true, sampleImage4, { m_data := sampleTim4, m_pos := 52 }) := by
  obtain ⟨pal, im, h1, h2, h3, _, h5, _, h7, _⟩ :=
    C25_generateImageFromPalette sampleImage4 1 0 4 4 nibbles (Or.inl ⟨rfl, rfl, rfl⟩)
      (by decide) (by decide) (by decide) (by decide)
      (by
        intro w hw k hk
        have hw1 : w = 0x3210 ∨ w = 0x0123 := by
          simpa [sampleImage4] using hw
        rcases hw1 with h | h <;> subst h <;>
          simp only [nibbles_eq, List.mem_cons, List.mem_singleton, List.not_mem_nil,
            or_false] at hk <;>
          rcases hk with h | h | h | h <;> subst h <;> decide)
      (by decide)
  have hw : sampleImage4.width = 4 := by decide
  have hh : sampleImage4.height = 2 := by decide
  refine ⟨pal, im, h1, h2, by rw [h3, hw], by rw [h5, hh], ?_, rfl⟩
  rw [hw, hh] at h7
  omega

theorem index_inj (w x y px py : Nat) (hx : x < w) (hpx : px < w) :
    py * w + px = y * w + x ↔ (px = x ∧ py = y) := by
  constructor
  · intro h
    have hw : 0 < w := by omega
    have h1 : (py * w + px) / w = py := by
      rw [Nat.add_comm, Nat.add_mul_div_right _ _ hw, Nat.div_eq_of_lt hpx, Nat.zero_add]
    have h2 : (y * w + x) / w = y := by
      rw [Nat.add_comm, Nat.add_mul_div_right _ _ hw, Nat.div_eq_of_lt hx, Nat.zero_add]
    have hy : py = y := by rw [← h1, ← h2, h]
    subst hy
    exact ⟨by omega, rfl⟩
  · rintro ⟨rfl, rfl⟩
    rfl

theorem index_lt (w h x y : Nat) (hx : x < w) (hy : y < h) : y * w + x < w * h := by
  calc y * w + x < y * w + w := by omega
    _ = (y + 1) * w := by ring
    _ ≤ h * w := Nat.mul_le_mul_right w hy
    _ = w * h := Nat.mul_comm h w

theorem setPixel_dims (img : QImage) (x y v : Nat) :
    (img.setPixel x y v).width = img.width ∧ (img.setPixel x y v).height = img.height ∧
      (img.setPixel x y v).pixels.length = img.pixels.length := by
  unfold QImage.setPixel
  split
  · exact ⟨rfl, rfl, by simp⟩
  · exact ⟨rfl, rfl, rfl⟩

theorem pixel_setPixel (img : QImage) (hwf : img.wellFormed) (x y v px py : Nat) :
    (img.setPixel x y v).pixel px py
      = if px = x ∧ py = y ∧ x < img.width ∧ y < img.height then v else img.pixel px py := by
  unfold QImage.wellFormed at hwf
  unfold QImage.setPixel
  by_cases hin : x < img.width ∧ y < img.height
  · rw [if_pos hin]
    unfold QImage.pixel
    simp only []
    by_cases hp : px < img.width ∧ py < img.height
    · rw [if_pos hp, if_pos hp]
      by_cases he : px = x ∧ py = y
      · obtain ⟨rfl, rfl⟩ := he
        have hlt : py * img.width + px < img.pixels.length := by
          rw [hwf]
          exact index_lt _ _ _ _ hin.1 hin.2
        rw [if_pos ⟨rfl, rfl, hin.1, hin.2⟩]
        simp [List.getD_eq_getElem?_getD, List.getElem?_set_self hlt]
      · have hne : ¬ (y * img.width + x = py * img.width + px) := by
          intro h
          exact he ((index_inj img.width x y px py hin.1 hp.1).mp h.symm)
        have hcond : ¬ (px = x ∧ py = y ∧ x < img.width ∧ y < img.height) :=
          fun h => he ⟨h.1, h.2.1⟩
        rw [if_neg hcond]
        simp [List.getD_eq_getElem?_getD, List.getElem?_set_ne hne]
    · rw [if_neg hp, if_neg hp]
      have hcond : ¬ (px = x ∧ py = y ∧ x < img.width ∧ y < img.height) := by
        rintro ⟨rfl, rfl, h1, h2⟩
        exact hp ⟨h1, h2⟩
      rw [if_neg hcond]
  · rw [if_neg hin]
    have hcond : ¬ (px = x ∧ py = y ∧ x < img.width ∧ y < img.height) :=
      fun h => hin ⟨h.2.2.1, h.2.2.2⟩
    rw [if_neg hcond]

theorem blitRow_spec (sx sy dx dy w : Nat) (img : QImage) (y : Nat) (hwf : img.wellFormed)
    (hdis : ∀ x x0, x < w → x0 ≤ w → ¬ (y + sy = y + dy ∧ dx ≤ x + sx ∧ x + sx < dx + x0)) :
    ∀ x0, x0 ≤ w →
      ((List.range x0).foldl
          (fun im x => im.setPixel (x + dx) (y + dy) (im.pixel (x + sx) (y + sy))) img).wellFormed ∧
      ((List.range x0).foldl
          (fun im x => im.setPixel (x + dx) (y + dy) (im.pixel (x + sx) (y + sy))) img).width
        = img.width ∧
      ((List.range x0).foldl
          (fun im x => im.setPixel (x + dx) (y + dy) (im.pixel (x + sx) (y + sy))) img).height
        = img.height ∧
      ∀ px py,
        ((List.range x0).foldl
            (fun im x => im.setPixel (x + dx) (y + dy) (im.pixel (x + sx) (y + sy))) img).pixel
            px py
          = if py = y + dy ∧ dx ≤ px ∧ px < dx + x0 ∧ px < img.width ∧ py < img.height then
              img.pixel (px - dx + sx) (y + sy)
            else img.pixel px py := by
  intro x0
  induction x0 with
  | zero =>
    intro _
    refine ⟨hwf, rfl, rfl, ?_⟩
    intro px py
    have : ¬ (py = y + dy ∧ dx ≤ px ∧ px < dx + 0 ∧ px < img.width ∧ py < img.height) := by omega
    simp only [List.range_zero, List.foldl_nil, if_neg this]
  | succ x0 ih =>
    intro hx0
    obtain ⟨hwf1, hw1, hh1, hpix⟩ := ih (by omega)
    rw [List.range_succ, List.foldl_append]
    simp only [List.foldl_cons, List.foldl_nil]
    obtain ⟨d1, d2, d3⟩ := setPixel_dims
      ((List.range x0).foldl
        (fun im x => im.setPixel (x + dx) (y + dy) (im.pixel (x + sx) (y + sy))) img)
      (x0 + dx) (y + dy)
      (((List.range x0).foldl
        (fun im x => im.setPixel (x + dx) (y + dy) (im.pixel (x + sx) (y + sy))) img).pixel
        (x0 + sx) (y + sy))
    refine ⟨?_, d1.trans hw1, d2.trans hh1, ?_⟩
    · unfold QImage.wellFormed at hwf1 ⊢
      rw [d3, d1, d2]
      exact hwf1
    · intro px py
      rw [pixel_setPixel _ hwf1, hw1, hh1, hpix (x0 + sx) (y + sy), hpix px py]
      have hsrc0 : ¬ (y + sy = y + dy ∧ dx ≤ x0 + sx ∧ x0 + sx < dx + x0) :=
        hdis x0 x0 (by omega) (by omega)
      have hsrc : ¬ (y + sy = y + dy ∧ dx ≤ x0 + sx ∧ x0 + sx < dx + x0 ∧
          x0 + sx < img.width ∧ y + sy < img.height) :=
        fun h => hsrc0 ⟨h.1, h.2.1, h.2.2.1⟩
      rw [if_neg hsrc]
      by_cases hnew : px = x0 + dx ∧ py = y + dy ∧ x0 + dx < img.width ∧ y + dy < img.height
      · obtain ⟨rfl, rfl, h3, h4⟩ := hnew
        have h1 : x0 + dx = x0 + dx ∧ y + dy = y + dy ∧ x0 + dx < img.width ∧ y + dy < img.height :=
          ⟨rfl, rfl, h3, h4⟩
        have h2 : y + dy = y + dy ∧ dx ≤ x0 + dx ∧ x0 + dx < dx + (x0 + 1) ∧
            x0 + dx < img.width ∧ y + dy < img.height := ⟨rfl, by omega, by omega, h3, h4⟩
        rw [if_pos h1, if_pos h2]
        congr 1
        omega
      · rw [if_neg hnew]
        by_cases hold : py = y + dy ∧ dx ≤ px ∧ px < dx + x0 ∧ px < img.width ∧ py < img.height
        · have h2 : py = y + dy ∧ dx ≤ px ∧ px < dx + (x0 + 1) ∧ px < img.width ∧
              py < img.height := by omega
          rw [if_pos hold, if_pos h2]
        · have h2 : ¬ (py = y + dy ∧ dx ≤ px ∧ px < dx + (x0 + 1) ∧ px < img.width ∧
              py < img.height) := by omega
          rw [if_neg hold, if_neg h2]

theorem blitImage_rows (sx sy dx dy w h : Nat) (img : QImage) (hwf : img.wellFormed)
    (hdis : rectsDisjoint sx sy dx dy w h) :
    ∀ y0, y0 ≤ h →
      ((List.range y0).foldl (blitRow sx sy dx dy w) img).wellFormed ∧
      ((List.range y0).foldl (blitRow sx sy dx dy w) img).width = img.width ∧
      ((List.range y0).foldl (blitRow sx sy dx dy w) img).height = img.height ∧
      ∀ px py,
        ((List.range y0).foldl (blitRow sx sy dx dy w) img).pixel px py
          = if dy ≤ py ∧ py < dy + y0 ∧ dx ≤ px ∧ px < dx + w ∧ px < img.width ∧
                py < img.height then
              img.pixel (px - dx + sx) (py - dy + sy)
            else img.pixel px py := by
  unfold rectsDisjoint at hdis
  intro y0
  induction y0 with
  | zero =>
    intro _
    refine ⟨hwf, rfl, rfl, ?_⟩
    intro px py
    have : ¬ (dy ≤ py ∧ py < dy + 0 ∧ dx ≤ px ∧ px < dx + w ∧ px < img.width ∧
        py < img.height) := by omega
    simp only [List.range_zero, List.foldl_nil, if_neg this]
  | succ y0 ih =>
    intro hy0
    obtain ⟨hwf1, hw1, hh1, hpix⟩ := ih (by omega)
    rw [List.range_succ, List.foldl_append]
    simp only [List.foldl_cons, List.foldl_nil]
    obtain ⟨r1, r2, r3, r4⟩ := blitRow_spec sx sy dx dy w
      ((List.range y0).foldl (blitRow sx sy dx dy w) img) y0 hwf1
      (by intro x x0 hx hx0; omega) w (le_refl w)
    refine ⟨r1, r2.trans hw1, r3.trans hh1, ?_⟩
    intro px py
    have hrow : blitRow sx sy dx dy w ((List.range y0).foldl (blitRow sx sy dx dy w) img) y0
        = (List.range w).foldl
            (fun im x => im.setPixel (x + dx) (y0 + dy) (im.pixel (x + sx) (y0 + sy)))
            ((List.range y0).foldl (blitRow sx sy dx dy w) img) := rfl
    rw [hrow, r4 px py, hw1, hh1]
    by_cases hnew : py = y0 + dy ∧ dx ≤ px ∧ px < dx + w ∧ px < img.width ∧ py < img.height
    · have hsrc : ¬ (dy ≤ y0 + sy ∧ y0 + sy < dy + y0 ∧ dx ≤ px - dx + sx ∧
          px - dx + sx < dx + w ∧ px - dx + sx < img.width ∧ y0 + sy < img.height) := by
        omega
      have h2 : dy ≤ py ∧ py < dy + (y0 + 1) ∧ dx ≤ px ∧ px < dx + w ∧ px < img.width ∧
          py < img.height := by omega
      rw [if_pos hnew, hpix, if_neg hsrc, if_pos h2]
      congr 1
      omega
    · rw [if_neg hnew, hpix px py]
      by_cases hold : dy ≤ py ∧ py < dy + y0 ∧ dx ≤ px ∧ px < dx + w ∧ px < img.width ∧
          py < img.height
      · have h2 : dy ≤ py ∧ py < dy + (y0 + 1) ∧ dx ≤ px ∧ px < dx + w ∧ px < img.width ∧
            py < img.height := by omega
        rw [if_pos hold, if_pos h2]
      · have h2 : ¬ (dy ≤ py ∧ py < dy + (y0 + 1) ∧ dx ≤ px ∧ px < dx + w ∧ px < img.width ∧
            py < img.height) := by omega
        rw [if_neg hold, if_neg h2]

theorem blitImage_spec (sx sy dx dy w h : Nat) (img : QImage) (hwf : img.wellFormed)
    (hdis : rectsDisjoint sx sy dx dy w h) :
    (blitImage sx sy dx dy w h img).wellFormed ∧
    (blitImage sx sy dx dy w h img).width = img.width ∧
    (blitImage sx sy dx dy w h img).height = img.height ∧
    ∀ px py,
      (blitImage sx sy dx dy w h img).pixel px py
        = if dy ≤ py ∧ py < dy + h ∧ dx ≤ px ∧ px < dx + w ∧ px < img.width ∧
              py < img.height then
            img.pixel (px - dx + sx) (py - dy + sy)
          else img.pixel px py :=
  blitImage_rows sx sy dx dy w h img hwf hdis h (le_refl h)

theorem blitImage_iterate (sx sy dx dy w h : Nat) (img : QImage) (hwf : img.wellFormed)
    (hdis : rectsDisjoint sx sy dx dy w h) :
    ∀ k, ((blitImage sx sy dx dy w h)^[k + 1] img).wellFormed ∧
      ((blitImage sx sy dx dy w h)^[k + 1] img).width = img.width ∧
      ((blitImage sx sy dx dy w h)^[k + 1] img).height = img.height ∧
      ∀ px py,
        ((blitImage sx sy dx dy w h)^[k + 1] img).pixel px py
          = if dy ≤ py ∧ py < dy + h ∧ dx ≤ px ∧ px < dx + w ∧ px < img.width ∧
                py < img.height then
              img.pixel (px - dx + sx) (py - dy + sy)
            else img.pixel px py := by
  intro k
  induction k with
  | zero => exact blitImage_spec sx sy dx dy w h img hwf hdis
  | succ k ih =>
    obtain ⟨i1, i2, i3, i4⟩ := ih
    rw [Function.iterate_succ_apply']
    obtain ⟨s1, s2, s3, s4⟩ := blitImage_spec sx sy dx dy w h _ i1 hdis
    refine ⟨s1, s2.trans i2, s3.trans i3, ?_⟩
    intro px py
    rw [s4 px py, i2, i3]
    unfold rectsDisjoint at hdis
    by_cases hd : dy ≤ py ∧ py < dy + h ∧ dx ≤ px ∧ px < dx + w ∧ px < img.width ∧
        py < img.height
    · have hsrc : ¬ (dy ≤ py - dy + sy ∧ py - dy + sy < dy + h ∧ dx ≤ px - dx + sx ∧
          px - dx + sx < dx + w ∧ px - dx + sx < img.width ∧ py - dy + sy < img.height) := by
        omega
      rw [if_pos hd, if_pos hd, i4, if_neg hsrc]
    · rw [if_neg hd, if_neg hd, i4, if_neg hd]

theorem blitTimes_add (ins : TextureInstruction) (k : Nat) (tex : PSX_Texture) :
    { image := blitImage (ins.srcX * 4) ins.srcY (ins.destX * 4) ins.destY (ins.width * 4)
        ins.height (blitTimes ins k tex).image,
      revision := (blitTimes ins k tex).revision + 1 } = blitTimes ins (k + 1) tex := by
  unfold blitTimes
  simp only [Function.iterate_succ_apply', Nat.cast_add, Nat.cast_one, add_assoc]

theorem blitCount_cons (store : List PSX_Material) (done : List Nat) (t m : Nat) :
    blitCount store (m :: done) t
      = blitCount store done t + (if mapsTo store t m = true then 1 else 0) := by
  unfold blitCount
  by_cases h : mapsTo store t m = true
  · rw [List.filter_cons_of_pos h, if_pos h, List.length_cons]
  · rw [List.filter_cons_of_neg h, if_neg h, Nat.add_zero]

theorem blitCount_pos (store : List PSX_Material) (done : List Nat) (t m : Nat)
    (material : PSX_Material) (hm : store[m]? = some material) (hmap : material.map = some t)
    (hin : m ∈ done) : 1 ≤ blitCount store done t := by
  unfold blitCount
  apply List.length_pos_of_mem (a := m)
  rw [List.mem_filter]
  refine ⟨hin, ?_⟩
  unfold mapsTo
  rw [hm]
  simp [hmap]

theorem blitMaterial_ok (ins : TextureInstruction) (store : List PSX_Material)
    (orig : List PSX_Texture) (acc : List PSX_Texture × List Nat) (m : Nat)
    (hv : materialValid store orig.length m) (hinv : blitInvariant ins store orig acc) :
    ∃ acc1, blitMaterial ins store acc m = .ok acc1 ∧ blitInvariant ins store orig acc1 ∧
      (∀ x ∈ acc.2, x ∈ acc1.2) ∧
      (∀ material t, store[m]? = some material → material.map = some t → m ∈ acc1.2) := by
  obtain ⟨material, hm, hb⟩ := hv
  obtain ⟨hlen, hst⟩ := hinv
  unfold blitMaterial
  rw [hm]
  simp only []
  cases hmap : material.map with
  | none =>
    refine ⟨acc, rfl, ⟨hlen, hst⟩, fun x hx => hx, ?_⟩
    intro material1 t h1 h2
    cases h1
    rw [hmap] at h2
    cases h2
  | some t =>
    simp only []
    by_cases hd : m ∈ acc.2
    · rw [if_pos hd]
      exact ⟨acc, rfl, ⟨hlen, hst⟩, fun x hx => hx, fun _ _ _ _ => hd⟩
    · rw [if_neg hd]
      have ht : t < acc.1.length := by rw [hlen]; exact hb t hmap
      have hto : t < orig.length := hb t hmap
      have hget := hst t
      rw [List.getElem?_eq_getElem ht, List.getElem?_eq_getElem hto, Option.map_some'] at hget
      rw [List.getElem?_eq_getElem ht]
      simp only []
      refine ⟨_, rfl, ⟨?_, ?_⟩, ?_, ?_⟩
      · simp only [List.length_set]
        exact hlen
      · intro t1
        simp only []
        rw [blitCount_cons]
        by_cases e : t1 = t
        · subst e
          have hmt : mapsTo store t1 m = true := by
            unfold mapsTo
            rw [hm]
            simp [hmap]
          rw [if_pos hmt, List.getElem?_set_self ht, List.getElem?_eq_getElem hto,
            Option.map_some']
          have hg : acc.1[t1] = blitTimes ins (blitCount store acc.2 t1) orig[t1] :=
            Option.some.inj hget
          rw [hg, blitTimes_add]
        · have hmt : ¬ (mapsTo store t1 m = true) := by
            unfold mapsTo
            rw [hm]
            simp only [hmap, beq_iff_eq, Option.some.injEq]
            exact fun h => e h.symm
          rw [if_neg hmt, Nat.add_zero, List.getElem?_set_ne (fun h => e h.symm)]
          exact hst t1
      · intro x hx
        exact List.mem_cons_of_mem _ hx
      · intro _ _ _ _
        exact List.mem_cons_self _ _

theorem blitMaterials_ok (ins : TextureInstruction) (store : List PSX_Material)
    (orig : List PSX_Texture) (ms : List Nat) :
    ∀ (acc : List PSX_Texture × List Nat),
      (∀ m ∈ ms, materialValid store orig.length m) → blitInvariant ins store orig acc →
      ∃ acc1, blitMaterials ins store acc ms = .ok acc1 ∧ blitInvariant ins store orig acc1 ∧
        (∀ x ∈ acc.2, x ∈ acc1.2) ∧
        (∀ m ∈ ms, ∀ material t, store[m]? = some material → material.map = some t →
          m ∈ acc1.2) := by
  induction ms with
  | nil =>
    intro acc _ hinv
    exact ⟨acc, rfl, hinv, fun x hx => hx, fun m hm => absurd hm (List.not_mem_nil m)⟩
  | cons m ms ih =>
    intro acc hv hinv
    obtain ⟨a1, e1, i1, s1, d1⟩ := blitMaterial_ok ins store orig acc m
      (hv m (List.mem_cons_self _ _)) hinv
    obtain ⟨a2, e2, i2, s2, d2⟩ := ih a1 (fun x hx => hv x (List.mem_cons_of_mem _ hx)) i1
    refine ⟨a2, ?_, i2, fun x hx => s2 x (s1 x hx), ?_⟩
    · simp only [blitMaterials, e1]
      exact e2
    · intro x hx material t h1 h2
      rcases List.mem_cons.mp hx with h | h
      · subst h
        exact s2 x (d1 material t h1 h2)
      · exact d2 x h material t h1 h2

theorem blitNodes_ok {F : Type} (ins : TextureInstruction) (store : List PSX_Material)
    (orig : List PSX_Texture) (nodes : List (Object3D F)) :
    ∀ (acc : List PSX_Texture × List Nat),
      (∀ node ∈ nodes, ∀ ms, node.materials = some ms →
        ∀ m ∈ ms, materialValid store orig.length m) →
      blitInvariant ins store orig acc →
      ∃ acc1, blitNodes ins store acc nodes = .ok acc1 ∧ blitInvariant ins store orig acc1 ∧
        (∀ x ∈ acc.2, x ∈ acc1.2) ∧
        (∀ node ∈ nodes, ∀ ms, node.materials = some ms → ∀ m ∈ ms, ∀ material t,
          store[m]? = some material → material.map = some t → m ∈ acc1.2) := by
  induction nodes with
  | nil =>
    intro acc _ hinv
    exact ⟨acc, rfl, hinv, fun x hx => hx, fun n hn => absurd hn (List.not_mem_nil n)⟩
  | cons node rest ih =>
    intro acc hv hinv
    cases hmat : node.materials with
    | none =>
      obtain ⟨a2, e2, i2, s2, d2⟩ := ih acc
        (fun n hn => hv n (List.mem_cons_of_mem _ hn)) hinv
      refine ⟨a2, ?_, i2, s2, ?_⟩
      · simp only [blitNodes, hmat]
        exact e2
      · intro n hn ms hms
        rcases List.mem_cons.mp hn with h | h
        · subst h
          rw [hmat] at hms
          cases hms
        · exact d2 n h ms hms
    | some ms0 =>
      obtain ⟨a1, e1, i1, s1, d1⟩ := blitMaterials_ok ins store orig ms0 acc
        (hv node (List.mem_cons_self _ _) ms0 hmat) hinv
      obtain ⟨a2, e2, i2, s2, d2⟩ := ih a1
        (fun n hn => hv n (List.mem_cons_of_mem _ hn)) i1
      refine ⟨a2, ?_, i2, fun x hx => s2 x (s1 x hx), ?_⟩
      · simp only [blitNodes, hmat, e1]
        exact e2
      · intro n hn ms hms m hm material t h1 h2
        rcases List.mem_cons.mp hn with h | h
        · subst h
          rw [hmat] at hms
          cases hms
          exact s2 m (d1 m hm material t h1 h2)
        · exact d2 n h ms hms m hm material t h1 h2

theorem executeTexture_ok {F : Type} (data : AnimationData F) (ins : TextureInstruction)
    (hv : data.model.pointersValid) :
    ∃ store1 done,
      executeTexture data ins
        = .ok { data with model := { data.model with textureStore := store1 } } ∧
      blitInvariant ins data.model.materialStore data.model.textureStore (store1, done) ∧
      (∀ node ∈ data.model.nodes, ∀ ms, node.materials = some ms → ∀ m ∈ ms, ∀ material t,
        data.model.materialStore[m]? = some material → material.map = some t → m ∈ done) := by
  have hinv0 : blitInvariant ins data.model.materialStore data.model.textureStore
      (data.model.textureStore, []) := by
    refine ⟨rfl, ?_⟩
    intro t
    cases h : data.model.textureStore[t]? with
    | none => rfl
    | some tex =>
      simp only [h, Option.map_some', blitCount, List.filter_nil, List.length_nil, blitTimes,
        Function.iterate_zero, id_eq, Nat.cast_zero, add_zero]
  obtain ⟨a, e, i, _, d⟩ := blitNodes_ok ins data.model.materialStore data.model.textureStore
    data.model.nodes (data.model.textureStore, []) hv hinv0
  refine ⟨a.1, a.2, ?_, i, d⟩
  unfold executeTexture
  rw [e]

/-- C30: on a model without dangling pointers whose images hold one word per
pixel, executing a texture instruction whose two rectangles (width
`4 * width`, height `height`, corners `(4 * srcX, srcY)` and
`(4 * destX, destY)`) do not overlap returns, and in the image of every
material of a node each pixel of the destination rectangle holds what the
source pixel at the same offset held before, while every pixel outside the
destination rectangle is unchanged. -/
theorem C30_texture_blit {F : Type} (data : AnimationData F) (ins : TextureInstruction)
    (hv : data.model.pointersValid)
    (hwf : ∀ tex ∈ data.model.textureStore, tex.image.wellFormed)
    (hdis : rectsDisjoint (ins.srcX * 4) ins.srcY (ins.destX * 4) ins.destY (ins.width * 4)
      ins.height) :
    ∃ data1, executeTexture data ins = .ok data1 ∧
      ∀ node ∈ data.model.nodes, ∀ ms, node.materials = some ms → ∀ m ∈ ms,
        ∀ material t tex, data.model.materialStore[m]? = some material →
          material.map = some t → data.model.textureStore[t]? = some tex →
          ∃ tex1, data1.model.textureStore[t]? = some tex1 ∧
            tex1.image.width = tex.image.width ∧ tex1.image.height = tex.image.height ∧
            (∀ x y, x < ins.width * 4 → y < ins.height →
              ins.destX * 4 + x < tex.image.width → ins.destY + y < tex.image.height →
              tex1.image.pixel (ins.destX * 4 + x) (ins.destY + y)
                = tex.image.pixel (ins.srcX * 4 + x) (ins.srcY + y)) ∧
            (∀ px py,
              ¬ (ins.destX * 4 ≤ px ∧ px < ins.destX * 4 + ins.width * 4 ∧
                  ins.destY ≤ py ∧ py < ins.destY + ins.height) →
              tex1.image.pixel px py = tex.image.pixel px py) := by
  obtain ⟨store1, done, e, inv, d⟩ := executeTexture_ok data ins hv
  refine ⟨_, e, ?_⟩
  intro node hn ms hms m hm material t tex h1 h2 h3
  have hk := blitCount_pos data.model.materialStore done t m material h1 h2
    (d node hn ms hms m hm material t h1 h2)
  have hget := inv.2 t
  rw [h3, Option.map_some'] at hget
  obtain ⟨k, hkk⟩ : ∃ k, blitCount data.model.materialStore done t = k + 1 :=
    ⟨blitCount data.model.materialStore done t - 1, by omega⟩
  rw [hkk] at hget
  obtain ⟨_, i2, i3, i4⟩ := blitImage_iterate (ins.srcX * 4) ins.srcY (ins.destX * 4) ins.destY
    (ins.width * 4) ins.height tex.image
    (hwf tex (by
      obtain ⟨hi, he⟩ := List.getElem?_eq_some.mp h3
      rw [← he]
      exact List.getElem_mem hi)) hdis k
  refine ⟨_, hget, i2, i3, ?_, ?_⟩
  · intro x y hx hy hxw hyh
    have hc : ins.destY ≤ ins.destY + y ∧ ins.destY + y < ins.destY + ins.height ∧
        ins.destX * 4 ≤ ins.destX * 4 + x ∧ ins.destX * 4 + x < ins.destX * 4 + ins.width * 4 ∧
        ins.destX * 4 + x < tex.image.width ∧ ins.destY + y < tex.image.height := by omega
    have := i4 (ins.destX * 4 + x) (ins.destY + y)
    rw [if_pos hc] at this
    rw [show (blitTimes ins (k + 1) tex).image
        = (blitImage (ins.srcX * 4) ins.srcY (ins.destX * 4) ins.destY (ins.width * 4)
            ins.height)^[k + 1] tex.image from rfl, this]
    congr 1 <;> omega
  · intro px py hout
    have hc : ¬ (ins.destY ≤ py ∧ py < ins.destY + ins.height ∧ ins.destX * 4 ≤ px ∧
        px < ins.destX * 4 + ins.width * 4 ∧ px < tex.image.width ∧
        py < tex.image.height) := by omega
    have := i4 px py
    rw [if_neg hc] at this
    exact this

/-- Witness for C30: the blit of the left half of an 8 by 2 image onto its
right half, in a model of one node with one textured material. -/
theorem C30_texture_blit_witness :
    texturedData.model.pointersValid ∧
    rectsDisjoint (halfBlit.srcX * 4) halfBlit.srcY (halfBlit.destX * 4) halfBlit.destY
      (halfBlit.width * 4) halfBlit.height ∧
    ∃ data1, executeTexture texturedData halfBlit = .ok data1 ∧
      (data1.model.textureStore.map (fun tex => tex.image.pixels)
        = [[0, 1, 2, 3, 0, 1, 2, 3, 10, 11, 12, 13, 10, 11, 12, 13]]) ∧
      ∃ tex1, data1.model.textureStore[0]? = some tex1 ∧
        tex1.image.pixel 5 1 = stripImage.pixel 1 1 ∧
        tex1.image.pixel 2 1 = stripImage.pixel 2 1 := by
  have hv : texturedData.model.pointersValid := by
    intro node hn ms hms m hm
    simp only [texturedData, List.mem_singleton] at hn
    subst hn
    simp only [nodeWith, Option.some.injEq] at hms
    subst hms
    simp only [List.mem_singleton] at hm
    subst hm
    exact ⟨{ map := some 0 }, rfl, fun t ht => by
      simp only [Option.some.injEq] at ht
      subst ht
      decide⟩
  have hdis : rectsDisjoint (halfBlit.srcX * 4) halfBlit.srcY (halfBlit.destX * 4)
      halfBlit.destY (halfBlit.width * 4) halfBlit.height := by
    unfold rectsDisjoint
    decide
  have hwf : ∀ tex ∈ texturedData.model.textureStore, tex.image.wellFormed := by
    intro tex ht
    simp only [texturedData, List.mem_singleton] at ht
    subst ht
    rfl
  obtain ⟨data1, e, h⟩ := C30_texture_blit texturedData halfBlit hv hwf hdis
  refine ⟨hv, hdis, data1, e, ?_, ?_⟩
  · have e2 : (executeTexture texturedData halfBlit).toOption.map
        (fun d => d.model.textureStore.map (fun tex => tex.image.pixels))
        = some [[0, 1, 2, 3, 0, 1, 2, 3, 10, 11, 12, 13, 10, 11, 12, 13]] := by
      rfl
    rw [e] at e2
    exact Option.some.inj e2
  · obtain ⟨tex1, g1, _, _, g4, g5⟩ := h (nodeWith [0]) (List.mem_singleton.mpr rfl) [0] rfl 0
      (List.mem_singleton.mpr rfl) { map := some 0 } 0 { image := stripImage, revision := 0 }
      rfl rfl rfl
    refine ⟨tex1, g1, ?_, ?_⟩
    · exact g4 1 1 (by decide) (by decide) (by decide) (by decide)
    · exact g5 2 1 (by decide)

theorem loopEnd_counter_zero {F : Type} (b : AnimationData F) (ins : LoopEndInstruction)
    (h0 : b.state.loopCounter = 0) :
    executeLoopEnd b ins
      = { b with state := { b.state with
            timecode := toInt32 ins.newTime, pc := b.state.loopJumpbackIndex } } := by
  simp [executeLoopEnd, h0]

theorem loopEnd_counter_255 {F : Type} (b : AnimationData F) (ins : LoopEndInstruction)
    (h0 : b.state.loopCounter = 255) :
    executeLoopEnd b ins
      = { b with state := { b.state with
            timecode := toInt32 ins.newTime, pc := b.state.loopJumpbackIndex } } := by
  simp [executeLoopEnd, h0]

/-- C38: a loop end executed while `loopCounter` is `0` does not fall through:
like the endless case `loopCounter = 255` it sets `timecode = newTime` and
`pc = loopJumpbackIndex` and leaves the two loop registers alone, so that after
the increment of the dispatch loop the next instruction is the one at
`loopJumpbackIndex + 1`, which is instruction 0 when no loop start was executed
(`loopJumpbackIndex = -1`).  The counter is `0` in a fresh state, after a loop
start with `loopCount = 0`, and after the loop end that exhausts a counted
loop. -/
theorem C38_loop_end_counter_zero {F : Type} (ops : FloatOps F) (data : AnimationData F)
    (ins : LoopEndInstruction) (h0 : data.state.loopCounter = 0) :
    (∃ d1, dispatchBody ops data (Instruction.loopEnd ins) = .ok d1 ∧
      d1.state.timecode = toInt32 ins.newTime ∧
      d1.state.pc = data.state.loopJumpbackIndex + 1 ∧
      d1.state.loopCounter = 0 ∧
      d1.state.loopJumpbackIndex = data.state.loopJumpbackIndex ∧
      d1.animation = data.animation ∧
      (data.state.loopJumpbackIndex = -1 →
        d1.state.pc = 0 ∧ currentInstruction d1 = data.animation.instructions[0]?)) ∧
    (∀ other : AnimationData F, other.state.loopCounter = 255 →
      other.state.loopJumpbackIndex = data.state.loopJumpbackIndex →
      (executeLoopEnd other ins).state.timecode = (executeLoopEnd data ins).state.timecode ∧
      (executeLoopEnd other ins).state.pc = (executeLoopEnd data ins).state.pc) ∧
    (AnimationState.fresh F).loopCounter = 0 ∧
    (AnimationState.fresh F).loopJumpbackIndex = -1 ∧
    (executeLoopStart data ⟨0⟩).state.loopCounter = 0 ∧
    (∀ other : AnimationData F, other.state.loopCounter = 1 →
      (executeLoopEnd other ins).state.loopCounter = 0) := by
  have he := loopEnd_counter_zero data ins h0
  refine ⟨⟨_, rfl, ?_, ?_, ?_, ?_, ?_, ?_⟩, ?_, rfl, rfl, rfl, ?_⟩
  · simp only [execute, he]
  · simp only [execute, he]
  · simp only [execute, he]
    exact h0
  · simp only [execute, he]
  · simp only [execute, he]
  · intro hj
    simp only [execute, he, hj, currentInstruction]
    exact ⟨by norm_num, by norm_num⟩
  · intro other h255 hjb
    rw [loopEnd_counter_255 other ins h255, he]
    exact ⟨rfl, hjb⟩
  · intro other h1
    exact (loopEnd_fallthrough other ins h1).2.2

/-- Witness for C38: the sample player right after `playAnimation` of a
one-keyframe program, where no loop start has been executed. -/
theorem C38_loop_end_counter_zero_witness :
    (keyframePlayer 1).m_animationData.state.loopCounter = 0 ∧
    ∃ d1, dispatchBody ratOps (keyframePlayer 1).m_animationData (Instruction.loopEnd ⟨5, 7⟩)
        = .ok d1 ∧
      d1.state.timecode = 7 ∧ d1.state.pc = 0 ∧
      currentInstruction d1 = (keyframePlayer 1).m_animationData.animation.instructions[0]? := by
  obtain ⟨⟨d1, h1, h2, _, _, _, _, h7⟩, _⟩ :=
    C38_loop_end_counter_zero ratOps (keyframePlayer 1).m_animationData ⟨5, 7⟩ rfl
  refine ⟨rfl, d1, h1, ?_, (h7 rfl).1, (h7 rfl).2⟩
  rw [h2]
  exact toInt32_of_lt 7 (by norm_num)

theorem blitMaterial_done (ins : TextureInstruction) (store : List PSX_Material)
    (acc acc1 : List PSX_Texture × List Nat) (m : Nat)
    (h : blitMaterial ins store acc m = .ok acc1) (hn : acc.2.Nodup) :
    acc1.2.Nodup ∧ ∀ x, x ∈ acc1.2 ↔ (x ∈ acc.2 ∨ (x = m ∧ hasMap store m = true)) := by
  unfold blitMaterial at h
  cases hm : store[m]? with
  | none =>
    rw [hm] at h
    cases h
  | some material =>
    rw [hm] at h
    simp only [] at h
    cases hmap : material.map with
    | none =>
      rw [hmap] at h
      simp only [Except.ok.injEq] at h
      subst h
      refine ⟨hn, fun x => ⟨Or.inl, ?_⟩⟩
      rintro (hx | ⟨_, hx⟩)
      · exact hx
      · simp [hasMap, hm, hmap] at hx
    | some t =>
      rw [hmap] at h
      simp only [] at h
      have hhas : hasMap store m = true := by simp [hasMap, hm, hmap]
      by_cases hd : m ∈ acc.2
      · rw [if_pos hd] at h
        simp only [Except.ok.injEq] at h
        subst h
        refine ⟨hn, fun x => ⟨Or.inl, ?_⟩⟩
        rintro (hx | ⟨rfl, _⟩)
        · exact hx
        · exact hd
      · rw [if_neg hd] at h
        cases ht : acc.1[t]? with
        | none =>
          rw [ht] at h
          cases h
        | some tex =>
          rw [ht] at h
          simp only [Except.ok.injEq] at h
          subst h
          refine ⟨List.nodup_cons.mpr ⟨hd, hn⟩, fun x => ?_⟩
          simp only [List.mem_cons]
          constructor
          · rintro (hx | hx)
            · exact Or.inr ⟨hx, hhas⟩
            · exact Or.inl hx
          · rintro (hx | ⟨hx, _⟩)
            · exact Or.inr hx
            · exact Or.inl hx

theorem blitMaterials_done (ins : TextureInstruction) (store : List PSX_Material)
    (ms : List Nat) :
    ∀ (acc acc1 : List PSX_Texture × List Nat),
      blitMaterials ins store acc ms = .ok acc1 → acc.2.Nodup →
      acc1.2.Nodup ∧ ∀ x, x ∈ acc1.2 ↔ (x ∈ acc.2 ∨ (x ∈ ms ∧ hasMap store x = true)) := by
  induction ms with
  | nil =>
    intro acc acc1 h hn
    simp only [blitMaterials, Except.ok.injEq] at h
    subst h
    exact ⟨hn, fun x => by simp⟩
  | cons m ms ih =>
    intro acc acc1 h hn
    simp only [blitMaterials] at h
    cases h1 : blitMaterial ins store acc m with
    | error f =>
      rw [h1] at h
      cases h
    | ok a1 =>
      rw [h1] at h
      simp only [] at h
      obtain ⟨n1, m1⟩ := blitMaterial_done ins store acc a1 m h1 hn
      obtain ⟨n2, m2⟩ := ih a1 acc1 h n1
      refine ⟨n2, fun x => ?_⟩
      rw [m2 x, m1 x, List.mem_cons]
      constructor
      · rintro ((hx | ⟨rfl, hx⟩) | ⟨hx, hy⟩)
        · exact Or.inl hx
        · exact Or.inr ⟨Or.inl rfl, hx⟩
        · exact Or.inr ⟨Or.inr hx, hy⟩
      · rintro (hx | ⟨rfl | hx, hy⟩)
        · exact Or.inl (Or.inl hx)
        · exact Or.inl (Or.inr ⟨rfl, hy⟩)
        · exact Or.inr ⟨hx, hy⟩

theorem blitNodes_done {F : Type} (ins : TextureInstruction) (store : List PSX_Material)
    (nodes : List (Object3D F)) :
    ∀ (acc acc1 : List PSX_Texture × List Nat),
      blitNodes ins store acc nodes = .ok acc1 → acc.2.Nodup →
      acc1.2.Nodup ∧
        ∀ x, x ∈ acc1.2 ↔
          (x ∈ acc.2 ∨
            (x ∈ nodes.flatMap (fun node => node.materials.getD []) ∧ hasMap store x = true)) := by
  induction nodes with
  | nil =>
    intro acc acc1 h hn
    simp only [blitNodes, Except.ok.injEq] at h
    subst h
    exact ⟨hn, fun x => by simp⟩
  | cons node rest ih =>
    intro acc acc1 h hn
    cases hmat : node.materials with
    | none =>
      simp only [blitNodes, hmat] at h
      obtain ⟨n2, m2⟩ := ih acc acc1 h hn
      refine ⟨n2, fun x => ?_⟩
      rw [m2 x]
      simp [List.flatMap_cons, hmat]
    | some ms0 =>
      simp only [blitNodes, hmat] at h
      cases h1 : blitMaterials ins store acc ms0 with
      | error f =>
        rw [h1] at h
        cases h
      | ok a1 =>
        rw [h1] at h
        simp only [] at h
        obtain ⟨n1, m1⟩ := blitMaterials_done ins store ms0 acc a1 h1 hn
        obtain ⟨n2, m2⟩ := ih a1 acc1 h n1
        refine ⟨n2, fun x => ?_⟩
        rw [m2 x, m1 x]
        simp only [List.flatMap_cons, hmat, Option.getD_some, List.mem_append]
        constructor
        · rintro ((hx | ⟨hx, hy⟩) | ⟨hx, hy⟩)
          · exact Or.inl hx
          · exact Or.inr ⟨Or.inl hx, hy⟩
          · exact Or.inr ⟨Or.inr hx, hy⟩
        · rintro (hx | ⟨hx | hx, hy⟩)
          · exact Or.inl (Or.inl hx)
          · exact Or.inl (Or.inr ⟨hx, hy⟩)
          · exact Or.inr ⟨hx, hy⟩

theorem mapsTo_hasMap (store : List PSX_Material) (t m : Nat) (h : mapsTo store t m = true) :
    hasMap store m = true := by
  unfold mapsTo at h
  unfold hasMap
  cases hm : store[m]? with
  | none =>
    rw [hm] at h
    cases h
  | some material =>
    rw [hm] at h
    simp only [beq_iff_eq] at h
    simp [h]

theorem executeTexture_count {F : Type} (data : AnimationData F) (ins : TextureInstruction)
    (hv : data.model.pointersValid) :
    ∃ store1,
      executeTexture data ins
        = .ok { data with model := { data.model with textureStore := store1 } } ∧
      store1.length = data.model.textureStore.length ∧
      ∀ t, store1[t]?
        = (data.model.textureStore[t]?).map (blitTimes ins (sharers data.model t).length) := by
  have hinv0 : blitInvariant ins data.model.materialStore data.model.textureStore
      (data.model.textureStore, []) := by
    refine ⟨rfl, ?_⟩
    intro t
    cases h : data.model.textureStore[t]? with
    | none => rfl
    | some tex =>
      simp only [h, Option.map_some', blitCount, List.filter_nil, List.length_nil, blitTimes,
        Function.iterate_zero, id_eq, Nat.cast_zero, add_zero]
  obtain ⟨a, e, i, _, _⟩ := blitNodes_ok ins data.model.materialStore data.model.textureStore
    data.model.nodes (data.model.textureStore, []) hv hinv0
  obtain ⟨hn, hmem⟩ := blitNodes_done ins data.model.materialStore data.model.nodes _ _ e
    List.nodup_nil
  refine ⟨a.1, ?_, i.1, ?_⟩
  · unfold executeTexture
    rw [e]
  · intro t
    rw [i.2 t]
    have hperm : (a.2.filter (mapsTo data.model.materialStore t)).Perm (sharers data.model t) := by
      apply (List.perm_ext_iff_of_nodup (hn.filter _)
        ((List.nodup_dedup _).filter _)).mpr
      intro x
      unfold visitedMaterials
      simp only [List.mem_filter, List.mem_dedup, hmem x, List.not_mem_nil, false_or]
      constructor
      · rintro ⟨⟨hx, _⟩, hy⟩
        exact ⟨hx, hy⟩
      · rintro ⟨hx, hy⟩
        exact ⟨⟨hx, mapsTo_hasMap _ _ _ hy⟩, hy⟩
    unfold blitCount
    rw [hperm.length_eq]

/-- C31, the code evaluated: on a model whose node has two materials sharing
one texture, one execution of a texture instruction runs the pixel loops twice
on that image and leaves its revision at 2; with the rows moved up by one, the
image after the execution is the result of two copies (rows 3, 3, 3), not of
one (rows 2, 3, 3).  In general every texture goes through the loops once for
each distinct visited material that points to it.  `convertObject` makes such
materials: a lit and an unlit triangle with the same texture word give two
materials and one texture. -/
theorem C31_shared_texture :
    (∃ (data : PSX_Object3D ℚ) (cache : PSX_TextureCache),
      convertObject texturedEnv PSX_TextureCache.empty
          (objectWith sampleObject [texturedPacket, unlitTexturedPacket])
        = .ok (some data, cache) ∧
      data.materials = sharedData.model.materialStore ∧
      cache.store = sharedData.model.textureStore) ∧
    (executeTexture sharedData scrollBlit).toOption.map (fun d => d.model.textureStore)
      = some [{ image := { width := 4, height := 3,
                           pixels := [3, 3, 3, 3, 3, 3, 3, 3, 3, 3, 3, 3] },
                revision := 2 }] ∧
    blitImage (scrollBlit.srcX * 4) scrollBlit.srcY (scrollBlit.destX * 4) scrollBlit.destY
        (scrollBlit.width * 4) scrollBlit.height rowsImage
      = { width := 4, height := 3, pixels := [2, 2, 2, 2, 3, 3, 3, 3, 3, 3, 3, 3] } ∧
    sharers sharedData.model 0 = [0, 1] ∧
    (∀ {F : Type} (data : AnimationData F) (ins : TextureInstruction),
      data.model.pointersValid →
      ∃ data1, executeTexture data ins = .ok data1 ∧
        ∀ t, data1.model.textureStore[t]?
          = (data.model.textureStore[t]?).map
              (blitTimes ins (sharers data.model t).length)) := by
  refine ⟨⟨_, _, rfl, rfl, rfl⟩, rfl, rfl, by decide, ?_⟩
  intro F data ins hv
  obtain ⟨store1, e, _, h⟩ := executeTexture_count data ins hv
  exact ⟨_, e, h⟩

theorem executeKeyframe_model {F : Type} (ops : FloatOps F) (data data1 : AnimationData F)
    (ins : KeyframeInstruction F) (h : executeKeyframe ops data ins = .ok data1) :
    data1.model = data.model ∧ data1.animation = data.animation := by
  unfold executeKeyframe at h
  cases hk : applyKeyframeEntries ops data.state.momentumData ins.entries with
  | error f =>
    rw [hk] at h
    cases h
  | ok md =>
    rw [hk] at h
    simp only [Except.ok.injEq] at h
    subst h
    exact ⟨rfl, rfl⟩

theorem executeLoopEnd_model {F : Type} (data : AnimationData F) (ins : LoopEndInstruction) :
    (executeLoopEnd data ins).model = data.model ∧
    (executeLoopEnd data ins).animation = data.animation := by
  unfold executeLoopEnd
  split
  · split <;> exact ⟨rfl, rfl⟩
  · exact ⟨rfl, rfl⟩

theorem texturedData_valid : texturedData.model.pointersValid := by
  intro node hn ms hms m hm
  simp only [texturedData, List.mem_singleton] at hn
  subst hn
  simp only [nodeWith, Option.some.injEq] at hms
  subst hms
  simp only [List.mem_singleton] at hm
  subst hm
  exact ⟨{ map := some 0 }, rfl, fun t ht => by
    simp only [Option.some.injEq] at ht
    subst ht
    decide⟩

/-- C32 as amended: executing an instruction never lowers the revision of a
texture; a keyframe, loop start, loop end or play-sound instruction leaves the
texture store as it is; a texture instruction strictly raises the revision of
every texture that a material of the nodes points to, whatever the copy did to
the pixels (by exactly 1 when a single material points to it), and leaves
every other texture as it is; so an image that changed has a revision that
changed, while the converse does not hold. -/
theorem C32_revision {F : Type} (ops : FloatOps F) (data data1 : AnimationData F)
    (ins : Instruction F) (hv : data.model.pointersValid)
    (h : execute ops data ins = .ok data1) :
    (∀ (t : Nat) (tex : PSX_Texture), data.model.textureStore[t]? = some tex →
      ∃ tex1, data1.model.textureStore[t]? = some tex1 ∧
        tex.revision ≤ tex1.revision ∧
        (tex1.image ≠ tex.image → tex.revision < tex1.revision)) ∧
    ((∀ b, ins ≠ Instruction.texture b) →
      data1.model.textureStore = data.model.textureStore) ∧
    (∀ b, ins = Instruction.texture b →
      ∀ (t : Nat) (tex : PSX_Texture), data.model.textureStore[t]? = some tex →
        ∃ tex1, data1.model.textureStore[t]? = some tex1 ∧
          ((∃ m, m ∈ visitedMaterials data.model ∧ mapsTo data.model.materialStore t m = true) →
            tex.revision < tex1.revision) ∧
          ((sharers data.model t).length = 1 → tex1.revision = tex.revision + 1) ∧
          ((∀ m, m ∈ visitedMaterials data.model → mapsTo data.model.materialStore t m = false) →
            tex1 = tex)) := by
  have hsame : data1.model.textureStore = data.model.textureStore →
      ∀ (t : Nat) (tex : PSX_Texture), data.model.textureStore[t]? = some tex →
        ∃ tex1, data1.model.textureStore[t]? = some tex1 ∧
          tex.revision ≤ tex1.revision ∧
          (tex1.image ≠ tex.image → tex.revision < tex1.revision) := by
    intro hs t tex ht
    exact ⟨tex, by rw [hs]; exact ht, le_refl _, fun hne => absurd rfl hne⟩
  cases ins with
  | keyframe k =>
    have hm := (executeKeyframe_model ops data data1 k h).1
    exact ⟨hsame (by rw [hm]), fun _ => by rw [hm], fun b hb => by cases hb⟩
  | loopStart l =>
    simp only [execute, Except.ok.injEq] at h
    subst h
    exact ⟨hsame rfl, fun _ => rfl, fun b hb => by cases hb⟩
  | loopEnd l =>
    simp only [execute, Except.ok.injEq] at h
    subst h
    have hm := (executeLoopEnd_model data l).1
    exact ⟨hsame (by rw [hm]), fun _ => by rw [hm], fun b hb => by cases hb⟩
  | playSound p =>
    simp only [execute, Except.ok.injEq] at h
    subst h
    exact ⟨hsame rfl, fun _ => rfl, fun b hb => by cases hb⟩
  | texture b =>
    obtain ⟨store1, e, _, hst⟩ := executeTexture_count data b hv
    simp only [execute] at h
    rw [e] at h
    simp only [Except.ok.injEq] at h
    subst h
    refine ⟨?_, fun hne => absurd rfl (hne b), ?_⟩
    · intro t tex ht
      have hg := hst t
      rw [ht, Option.map_some'] at hg
      refine ⟨_, hg, ?_, ?_⟩
      · show tex.revision ≤ tex.revision + ((sharers data.model t).length : Int)
        omega
      · intro hne
        show tex.revision < tex.revision + ((sharers data.model t).length : Int)
        have hpos : (sharers data.model t).length ≠ 0 := by
          intro h0
          apply hne
          show (blitImage (b.srcX * 4) b.srcY (b.destX * 4) b.destY (b.width * 4)
            b.height)^[(sharers data.model t).length] tex.image = tex.image
          rw [h0]
          rfl
        omega
    · intro b1 hb t tex ht
      cases hb
      have hg := hst t
      rw [ht, Option.map_some'] at hg
      refine ⟨_, hg, ?_, ?_, ?_⟩
      · rintro ⟨m, hm, hmap⟩
        show tex.revision < tex.revision + ((sharers data.model t).length : Int)
        have hmem : m ∈ sharers data.model t := by
          unfold sharers
          exact List.mem_filter.mpr ⟨List.mem_dedup.mpr hm, hmap⟩
        have hpos : 0 < (sharers data.model t).length := List.length_pos_of_mem hmem
        omega
      · intro h1
        show tex.revision + ((sharers data.model t).length : Int) = tex.revision + 1
        rw [h1]
        rfl
      · intro hno
        have hnil : sharers data.model t = [] := by
          unfold sharers
          apply List.filter_eq_nil_iff.mpr
          intro m hm
          rw [hno m (List.mem_dedup.mp hm)]
          exact Bool.false_ne_true
        unfold blitTimes
        rw [hnil]
        simp

/-- Witness for C32 as amended: the blit of the left half of the strip image
onto its right half raises the revision of the one texture from 0 to 1. -/
theorem C32_revision_witness :
    texturedData.model.pointersValid ∧
    ∃ data1, execute ratOps texturedData (Instruction.texture halfBlit) = .ok data1 ∧
      ∃ tex1, data1.model.textureStore[0]? = some tex1 ∧ tex1.revision = 1 := by
  obtain ⟨store1, e, _, _⟩ := executeTexture_count texturedData halfBlit texturedData_valid
  have h : execute ratOps texturedData (Instruction.texture halfBlit)
      = .ok { texturedData with model := { texturedData.model with textureStore := store1 } } := e
  obtain ⟨_, _, h3⟩ := C32_revision ratOps texturedData _ (Instruction.texture halfBlit)
    texturedData_valid h
  obtain ⟨tex1, g1, _, g2, _⟩ := h3 halfBlit rfl 0 { image := stripImage, revision := 0 } rfl
  refine ⟨texturedData_valid, _, h, tex1, g1, ?_⟩
  rw [g2 (by decide)]
  rfl

/-- C32, counterexample: a blit of an empty rectangle and a blit of a rectangle
onto itself both leave every pixel of the image as it was and raise its
revision from 0 to 1. -/
theorem C32_counterexample :
    (executeTexture texturedData zeroBlit).toOption.map (fun d => d.model.textureStore)
      = some [{ image := stripImage, revision := 1 }] ∧
    (executeTexture texturedData selfBlit).toOption.map (fun d => d.model.textureStore)
      = some [{ image := stripImage, revision := 1 }] ∧
    texturedData.model.textureStore = [{ image := stripImage, revision := 0 }] := by
  exact ⟨rfl, rfl, rfl⟩

theorem toInt32_range (n : Nat) : -2 ^ 31 ≤ toInt32 n ∧ toInt32 n < 2 ^ 31 := by
  unfold toInt32
  have : n % 2 ^ 32 < 2 ^ 32 := Nat.mod_lt _ (by norm_num)
  split <;> omega

theorem applyKeyframeEntries_fault {F : Type} (ops : FloatOps F) (es : List (KeyframeEntry F)) :
    ∀ (md : List (AnimationMomentumData F)) (f : Fault),
      applyKeyframeEntries ops md es = .error f → f = Fault.outOfBounds := by
  induction es with
  | nil =>
    intro md f h
    cases h
  | cons e es ih =>
    intro md f h
    simp only [applyKeyframeEntries] at h
    cases h1 : applyKeyframeEntry ops md e with
    | error g =>
      rw [h1] at h
      simp only [Except.error.injEq] at h
      subst h
      unfold applyKeyframeEntry at h1
      cases hm : md[e.affectedNode]? with
      | none =>
        rw [hm] at h1
        simp only [Except.error.injEq] at h1
        exact h1.symm
      | some m =>
        rw [hm] at h1
        cases h1
    | ok md1 =>
      rw [h1] at h
      exact ih md1 f h

theorem blitMaterial_fault (ins : TextureInstruction) (store : List PSX_Material)
    (acc : List PSX_Texture × List Nat) (m : Nat) (f : Fault)
    (h : blitMaterial ins store acc m = .error f) : f = Fault.outOfBounds := by
  unfold blitMaterial at h
  cases hm : store[m]? with
  | none =>
    rw [hm] at h
    simp only [Except.error.injEq] at h
    exact h.symm
  | some material =>
    rw [hm] at h
    simp only [] at h
    cases hmap : material.map with
    | none =>
      rw [hmap] at h
      cases h
    | some t =>
      rw [hmap] at h
      simp only [] at h
      by_cases hd : m ∈ acc.2
      · rw [if_pos hd] at h
        cases h
      · rw [if_neg hd] at h
        cases ht : acc.1[t]? with
        | none =>
          rw [ht] at h
          simp only [Except.error.injEq] at h
          exact h.symm
        | some tex =>
          rw [ht] at h
          cases h

theorem blitMaterials_fault (ins : TextureInstruction) (store : List PSX_Material)
    (ms : List Nat) :
    ∀ (acc : List PSX_Texture × List Nat) (f : Fault),
      blitMaterials ins store acc ms = .error f → f = Fault.outOfBounds := by
  induction ms with
  | nil =>
    intro acc f h
    cases h
  | cons m ms ih =>
    intro acc f h
    simp only [blitMaterials] at h
    cases h1 : blitMaterial ins store acc m with
    | error g =>
      rw [h1] at h
      simp only [Except.error.injEq] at h
      subst h
      exact blitMaterial_fault ins store acc m g h1
    | ok a1 =>
      rw [h1] at h
      exact ih a1 f h

theorem blitNodes_fault {F : Type} (ins : TextureInstruction) (store : List PSX_Material)
    (nodes : List (Object3D F)) :
    ∀ (acc : List PSX_Texture × List Nat) (f : Fault),
      blitNodes ins store acc nodes = .error f → f = Fault.outOfBounds := by
  induction nodes with
  | nil =>
    intro acc f h
    cases h
  | cons node rest ih =>
    intro acc f h
    cases hmat : node.materials with
    | none =>
      simp only [blitNodes, hmat] at h
      exact ih acc f h
    | some ms0 =>
      simp only [blitNodes, hmat] at h
      cases h1 : blitMaterials ins store acc ms0 with
      | error g =>
        rw [h1] at h
        simp only [Except.error.injEq] at h
        subst h
        exact blitMaterials_fault ins store ms0 acc g h1
      | ok a1 =>
        rw [h1] at h
        exact ih a1 f h

theorem execute_fault {F : Type} (ops : FloatOps F) (data : AnimationData F)
    (ins : Instruction F) (f : Fault) (h : execute ops data ins = .error f) :
    f = Fault.outOfBounds := by
  cases ins with
  | keyframe k =>
    simp only [execute, executeKeyframe] at h
    cases hk : applyKeyframeEntries ops data.state.momentumData k.entries with
    | error g =>
      rw [hk] at h
      simp only [Except.error.injEq] at h
      subst h
      exact applyKeyframeEntries_fault ops k.entries _ g hk
    | ok md =>
      rw [hk] at h
      cases h
  | loopStart l => cases h
  | loopEnd l => cases h
  | playSound p => cases h
  | texture b =>
    simp only [execute, executeTexture] at h
    cases hb : blitNodes b data.model.materialStore (data.model.textureStore, [])
        data.model.nodes with
    | error g =>
      rw [hb] at h
      simp only [Except.error.injEq] at h
      subst h
      exact blitNodes_fault b _ _ _ g hb
    | ok a =>
      rw [hb] at h
      cases h

theorem applyMomentumNodes_fault {F : Type} (ops : FloatOps F)
    (md : List (AnimationMomentumData F)) :
    ∀ (nodes : List (Object3D F)) (f : Fault),
      applyMomentumNodes ops nodes md = .error f → f = Fault.outOfBounds := by
  induction md with
  | nil =>
    intro nodes f h
    cases nodes <;> cases h
  | cons m md ih =>
    intro nodes f h
    cases nodes with
    | nil =>
      simp only [applyMomentumNodes, Except.error.injEq] at h
      exact h.symm
    | cons node nodes =>
      simp only [applyMomentumNodes] at h
      cases h1 : applyMomentumNodes ops nodes md with
      | error g =>
        rw [h1] at h
        simp only [Except.error.injEq] at h
        subst h
        exact ih nodes g h1
      | ok ns =>
        rw [h1] at h
        cases h

theorem execute_keeps {F : Type} (ops : FloatOps F) (data d : AnimationData F)
    (ins : Instruction F) (h : execute ops data ins = .ok d) :
    d.animation = data.animation ∧
    ((d.state.timecode = data.state.timecode ∧ d.state.pc = data.state.pc) ∨
      (∃ e, ins = Instruction.loopEnd e ∧ d.state.timecode = toInt32 e.newTime)) := by
  cases ins with
  | keyframe k =>
    simp only [execute, executeKeyframe] at h
    cases hk : applyKeyframeEntries ops data.state.momentumData k.entries with
    | error g =>
      rw [hk] at h
      cases h
    | ok md =>
      rw [hk] at h
      simp only [Except.ok.injEq] at h
      subst h
      exact ⟨rfl, Or.inl ⟨rfl, rfl⟩⟩
  | loopStart l =>
    simp only [execute, Except.ok.injEq] at h
    subst h
    exact ⟨rfl, Or.inl ⟨rfl, rfl⟩⟩
  | loopEnd l =>
    simp only [execute, Except.ok.injEq] at h
    subst h
    refine ⟨(executeLoopEnd_model data l).2, ?_⟩
    unfold executeLoopEnd
    split
    · split
      · exact Or.inl ⟨rfl, rfl⟩
      · exact Or.inr ⟨l, rfl, rfl⟩
    · exact Or.inr ⟨l, rfl, rfl⟩
  | playSound p =>
    simp only [execute, Except.ok.injEq] at h
    subst h
    exact ⟨rfl, Or.inl ⟨rfl, rfl⟩⟩
  | texture b =>
    simp only [execute, executeTexture] at h
    cases hb : blitNodes b data.model.materialStore (data.model.textureStore, [])
        data.model.nodes with
    | error g =>
      rw [hb] at h
      cases h
    | ok a =>
      rw [hb] at h
      simp only [Except.ok.injEq] at h
      subst h
      exact ⟨rfl, Or.inl ⟨rfl, rfl⟩⟩

/-- C33, counterexample: on the sample player playing the program of a loop
start with count 255 and a loop end whose `newTime` is its own timecode 1, and
on the sample player playing the program of that loop end alone, the first
call of `step` does not end within any number of iterations. -/
theorem C33_counterexample :
    playAnimation ratOps samplePlayer livelockProgram = .ok livelockPlayer ∧
    (∀ fuel, step ratOps fuel livelockPlayer = .error Fault.outOfFuel) ∧
    playAnimation ratOps samplePlayer selfLoopProgram = .ok selfLoopPlayer ∧
    (∀ fuel, step ratOps fuel selfLoopPlayer = .error Fault.outOfFuel) := by
  refine ⟨rfl, ?_, rfl, ?_⟩
  · intro fuel
    cases fuel with
    | zero => rfl
    | succ n =>
      have happ : applyMomentum ratOps livelockPlayer.m_animationData
          = .ok { livelockPlayer.m_animationData with
              model := { livelockPlayer.m_animationData.model with
                nodes := [applyMomentumNode ratOps sampleNode (zeroMomentum ratOps)] } } := rfl
      have hfirst : dispatch ratOps (n + 1) (advanceClocks
            { livelockPlayer.m_animationData with
              model := { livelockPlayer.m_animationData.model with
                nodes := [applyMomentumNode ratOps sampleNode (zeroMomentum ratOps)] } })
          = dispatch ratOps n
              { state := { frameNum := 1, timecode := 1, loopCounter := 255,
                           loopJumpbackIndex := 0, pc := 1,
                           momentumData := [zeroMomentum ratOps] },
                model := { nodes := [applyMomentumNode ratOps sampleNode (zeroMomentum ratOps)],
                           materialStore := [], textureStore := [] },
                animation := livelockProgram, infinite := false } := rfl
      have hs := dispatch_stuck ratOps
        ({ state := { frameNum := 1, timecode := 1, loopCounter := 255, loopJumpbackIndex := 0,
                      pc := 1, momentumData := [zeroMomentum ratOps] },
           model := { nodes := [applyMomentumNode ratOps sampleNode (zeroMomentum ratOps)],
                      materialStore := [], textureStore := [] },
           animation := livelockProgram, infinite := false } : AnimationData ℚ)
        (Instruction.loopEnd ⟨1, 1⟩) rfl rfl n
      unfold step
      simp only [happ, hfirst, hs]
  · intro fuel
    have happ : applyMomentum ratOps selfLoopPlayer.m_animationData
        = .ok { selfLoopPlayer.m_animationData with
            model := { selfLoopPlayer.m_animationData.model with
              nodes := [applyMomentumNode ratOps sampleNode (zeroMomentum ratOps)] } } := rfl
    have hs := dispatch_stuck ratOps
      (advanceClocks { selfLoopPlayer.m_animationData with
            model := { selfLoopPlayer.m_animationData.model with
              nodes := [applyMomentumNode ratOps sampleNode (zeroMomentum ratOps)] } })
      (Instruction.loopEnd ⟨1, 1⟩) rfl rfl fuel
    unfold step
    simp only [happ, hs]

theorem loopRegistersOk_mono {F : Type} (data : AnimationData F) (ex more : List Int)
    (h : loopRegistersOk data ex) : loopRegistersOk data (ex ++ more) := by
  obtain ⟨h1, h2, h3⟩ := h
  refine ⟨h1, h2, ?_⟩
  rcases h3 with h | ⟨a, b, c, d⟩
  · exact Or.inl h
  · exact Or.inr ⟨a, b, c, List.mem_append_left _ d⟩

theorem dispatchBody_registers {F : Type} (ops : FloatOps F) (d d1 : AnimationData F)
    (ins : Instruction F) (ex : List Int) (hinv : loopRegistersOk d ex)
    (hd : dispatchable d = some ins) (hb : dispatchBody ops d ins = .ok d1) :
    d1.animation = d.animation ∧ loopRegistersOk d1 (ex ++ [d.state.pc]) := by
  obtain ⟨hcur, _⟩ := (dispatchable_eq_some d ins).mp hd
  obtain ⟨hpc0, hpclt, hget⟩ := (currentInstruction_eq_some d ins).mp hcur
  obtain ⟨i1, i2, i3⟩ := hinv
  have hjb : d.state.loopJumpbackIndex = -1 ∨
      (0 ≤ d.state.loopJumpbackIndex ∧ d.state.loopJumpbackIndex < d.state.pc ∧
        (∃ l, d.animation.instructions[d.state.loopJumpbackIndex.toNat]?
          = some (Instruction.loopStart l)) ∧
        d.state.loopJumpbackIndex ∈ ex ++ [d.state.pc]) := by
    rcases i3 with h | ⟨a, b, c, e⟩
    · exact Or.inl h
    · exact Or.inr ⟨a, b, c, List.mem_append_left _ e⟩
  have hlen : d.state.pc + 1 ≤ (d.animation.instructions.length : Int) := by omega
  have hkeep : ∀ x : AnimationData F, x.animation = d.animation →
      x.state.pc = d.state.pc + 1 → x.state.loopJumpbackIndex = d.state.loopJumpbackIndex →
      loopRegistersOk x (ex ++ [d.state.pc]) := by
    intro x xa xp xj
    unfold loopRegistersOk
    rw [xa, xp, xj]
    refine ⟨by omega, hlen, ?_⟩
    rcases hjb with h | ⟨a, b, c, e⟩
    · exact Or.inl h
    · exact Or.inr ⟨a, by omega, c, e⟩
  unfold dispatchBody at hb
  cases ins with
  | keyframe k =>
    simp only [execute, executeKeyframe] at hb
    cases hk : applyKeyframeEntries ops d.state.momentumData k.entries with
    | error g =>
      rw [hk] at hb
      cases hb
    | ok md =>
      rw [hk] at hb
      simp only [Except.ok.injEq] at hb
      subst hb
      exact ⟨rfl, hkeep _ rfl rfl rfl⟩
  | loopStart l =>
    simp only [execute, Except.ok.injEq] at hb
    subst hb
    refine ⟨rfl, ?_⟩
    unfold loopRegistersOk
    simp only [executeLoopStart]
    refine ⟨by omega, hlen, Or.inr ⟨hpc0, by omega, ⟨l, hget⟩, ?_⟩⟩
    exact List.mem_append_right _ (List.mem_singleton.mpr rfl)
  | loopEnd l =>
    simp only [execute, Except.ok.injEq] at hb
    subst hb
    refine ⟨(executeLoopEnd_model d l).2, ?_⟩
    have hjump : loopRegistersOk
        ({ d with state := { d.state with
            timecode := toInt32 l.newTime, pc := d.state.loopJumpbackIndex + 1 } } :
          AnimationData F) (ex ++ [d.state.pc]) := by
      unfold loopRegistersOk
      simp only []
      rcases hjb with h | ⟨a, b, c, e⟩
      · rw [h]
        exact ⟨by norm_num, by omega, Or.inl rfl⟩
      · exact ⟨by omega, by omega, Or.inr ⟨a, by omega, c, e⟩⟩
    have hjump2 : ∀ c : Int, loopRegistersOk
        ({ d with state := { d.state with
            loopCounter := c,
            timecode := toInt32 l.newTime, pc := d.state.loopJumpbackIndex + 1 } } :
          AnimationData F) (ex ++ [d.state.pc]) := fun c => hjump
    unfold executeLoopEnd
    split
    · split
      · exact hkeep _ rfl rfl rfl
      · exact hjump2 _
    · exact hjump
  | playSound p =>
    simp only [execute, Except.ok.injEq] at hb
    subst hb
    exact ⟨rfl, hkeep _ rfl rfl rfl⟩
  | texture b =>
    simp only [execute, executeTexture] at hb
    cases hbn : blitNodes b d.model.materialStore (d.model.textureStore, [])
        d.model.nodes with
    | error g =>
      rw [hbn] at hb
      cases hb
    | ok a =>
      rw [hbn] at hb
      simp only [Except.ok.injEq] at hb
      subst hb
      exact ⟨rfl, hkeep _ rfl rfl rfl⟩

theorem dispatch_registers {F : Type} (ops : FloatOps F) :
    ∀ (fuel : Nat) (d d2 : AnimationData F) (ex : List Int),
      dispatch ops fuel d = .ok d2 → loopRegistersOk d ex →
      d2.animation = d.animation ∧ loopRegistersOk d2 (ex ++ dispatchIndices ops fuel d) := by
  intro fuel
  induction fuel with
  | zero =>
    intro d d2 ex h _
    cases h
  | succ n ih =>
    intro d d2 ex h hinv
    unfold dispatch at h
    unfold dispatchIndices
    cases hd : dispatchable d with
    | none =>
      rw [hd] at h
      simp only [Except.ok.injEq] at h
      subst h
      simp only [List.append_nil]
      exact ⟨trivial, hinv⟩
    | some ins =>
      rw [hd] at h
      simp only [] at h ⊢
      cases hb : dispatchBody ops d ins with
      | error f =>
        rw [hb] at h
        cases h
      | ok d1 =>
        rw [hb] at h
        simp only [] at h ⊢
        obtain ⟨a1, r1⟩ := dispatchBody_registers ops d d1 ins ex hinv hd hb
        obtain ⟨a2, r2⟩ := ih d1 d2 _ h r1
        refine ⟨a2.trans a1, ?_⟩
        rw [List.append_assoc] at r2
        exact r2

theorem step_registers {F : Type} (ops : FloatOps F) (fuel : Nat) (p p1 : AnimationPlayer F)
    (sigs : List Signal) (ex : List Int) (h : step ops fuel p = .ok (p1, sigs))
    (hinv : loopRegistersOk p.m_animationData ex) :
    p1.m_animationData.animation = p.m_animationData.animation ∧
    loopRegistersOk p1.m_animationData (ex ++ stepIndices ops fuel p) := by
  obtain ⟨d1, d2, h1, h2, h3, _⟩ := step_ok ops fuel p p1 sigs h
  obtain ⟨hs, ha, _⟩ := applyMomentum_spec ops _ d1 h1
  have hadv : loopRegistersOk (advanceClocks d1) ex := by
    unfold loopRegistersOk advanceClocks
    simp only [hs, ha]
    exact hinv
  obtain ⟨a2, r2⟩ := dispatch_registers ops fuel (advanceClocks d1) d2 ex h2 hadv
  unfold stepIndices
  rw [h1, h3]
  exact ⟨a2.trans ha, r2⟩

theorem stepN_registers {F : Type} (ops : FloatOps F) (fuel : Nat) (p : AnimationPlayer F)
    (hinv : loopRegistersOk p.m_animationData []) :
    ∀ (n : Nat) (r : AnimationPlayer F × List Signal), stepN ops fuel n p = .ok r →
      r.1.m_animationData.animation = p.m_animationData.animation ∧
      loopRegistersOk r.1.m_animationData (executedIndices ops fuel n p) := by
  intro n
  induction n with
  | zero =>
    intro r h
    simp only [stepN, Except.ok.injEq] at h
    subst h
    exact ⟨rfl, hinv⟩
  | succ n ih =>
    intro r h
    unfold stepN at h
    unfold executedIndices
    cases h0 : stepN ops fuel n p with
    | error f =>
      rw [h0] at h
      cases h
    | ok r0 =>
      rw [h0] at h
      simp only [] at h ⊢
      obtain ⟨a0, i0⟩ := ih r0 h0
      cases h1 : step ops fuel r0.1 with
      | error f =>
        rw [h1] at h
        cases h
      | ok r1 =>
        rw [h1] at h
        simp only [Except.ok.injEq] at h
        subst h
        obtain ⟨a1, i1⟩ := step_registers ops fuel r0.1 r1.1 r1.2 _ h1 i0
        exact ⟨a1.trans a0, i1⟩

/-- C37: after `playAnimation` and any number of calls of `step` that return,
the program is the one being played, `pc` is inside `0 .. instructions.size()`,
and `loopJumpbackIndex` is `-1` or the index, below `pc`, of a loop start of the
program that is among the instructions executed since `playAnimation`. -/
theorem C37_pc_and_jumpback {F : Type} (ops : FloatOps F) (fuel n : Nat)
    (player p0 : AnimationPlayer F) (animation : MMD_Animation F)
    (r : AnimationPlayer F × List Signal)
    (hplay : playAnimation ops player animation = .ok p0)
    (hrun : stepN ops fuel n p0 = .ok r) :
    r.1.m_animationData.animation = animation ∧
    0 ≤ r.1.m_animationData.state.pc ∧
    r.1.m_animationData.state.pc ≤ (animation.instructions.length : Int) ∧
    (r.1.m_animationData.state.loopJumpbackIndex = -1 ∨
      (0 ≤ r.1.m_animationData.state.loopJumpbackIndex ∧
        r.1.m_animationData.state.loopJumpbackIndex < r.1.m_animationData.state.pc ∧
        (∃ l, animation.instructions[r.1.m_animationData.state.loopJumpbackIndex.toNat]?
          = some (Instruction.loopStart l)) ∧
        r.1.m_animationData.state.loopJumpbackIndex ∈ executedIndices ops fuel n p0)) := by
  obtain ⟨_, a0, s0, _⟩ := playAnimation_spec ops player p0 animation hplay
  have hinv : loopRegistersOk p0.m_animationData [] := by
    unfold loopRegistersOk
    rw [s0]
    exact ⟨le_refl _, by simp [AnimationState.fresh], Or.inl rfl⟩
  obtain ⟨a1, i1, i2, i3⟩ := stepN_registers ops fuel p0 hinv n r hrun
  rw [a1, a0] at i2 i3
  exact ⟨a1.trans a0, i1, i2, i3⟩

/-- Witness for C37: the sample player after seven ticks of a program that
loops for ever; the loop start at index 0 has been executed. -/
theorem C37_pc_and_jumpback_witness :
    playAnimation ratOps samplePlayer backLoopProgram = .ok backLoopPlayer ∧
    ∃ r, stepN ratOps 4 7 backLoopPlayer = .ok r ∧
      r.1.m_animationData.state.pc = 1 ∧
      r.1.m_animationData.state.loopJumpbackIndex = 0 ∧
      (0 : Int) ∈ executedIndices ratOps 4 7 backLoopPlayer := by
  obtain ⟨r, hr, hpc, hjb⟩ : ∃ r, stepN ratOps 4 7 backLoopPlayer = .ok r ∧
      r.1.m_animationData.state.pc = 1 ∧ r.1.m_animationData.state.loopJumpbackIndex = 0 :=
    ⟨_, rfl, rfl, rfl⟩
  obtain ⟨_, _, _, h4⟩ := C37_pc_and_jumpback ratOps 4 7 samplePlayer backLoopPlayer
    backLoopProgram r rfl hr
  refine ⟨rfl, r, hr, hpc, hjb, ?_⟩
  rcases h4 with h | ⟨_, _, _, h⟩
  · rw [hjb] at h
    cases h
  · rw [hjb] at h
    exact h

theorem packetStart_succ (data : List Nat) (pos : Nat) :
    ∀ j, packetStart data pos (j + 1)
      = packetStart data (pos + 4 * (packetIlen data pos + 1)) j := by
  intro j
  induction j with
  | zero =>
    simp only [packetStart]
    omega
  | succ j ih =>
    rw [packetStart, ih, packetStart]

theorem packetsOf_length (data : List Nat) :
    ∀ (count pos : Nat), (packetsOf data pos count).length = count := by
  intro count
  induction count with
  | zero => intro pos; rfl
  | succ c ih => intro pos; simp [packetsOf, ih]

theorem packetsOf_getElem (data : List Nat) :
    ∀ (count pos j : Nat), j < count →
      (packetsOf data pos count)[j]?
        = some ((data.drop (packetStart data pos j)).take
            (4 + 4 * packetIlen data (packetStart data pos j))) := by
  intro count
  induction count with
  | zero => intro pos j hj; omega
  | succ c ih =>
    intro pos j hj
    cases j with
    | zero =>
      simp only [packetsOf, List.getElem?_cons_zero, packetStart]
      congr 2
      omega
    | succ j =>
      simp only [packetsOf, List.getElem?_cons_succ]
      rw [ih _ j (by omega), packetStart_succ]

theorem packetsOf_wellSized (data : List Nat) :
    ∀ (count pos : Nat), packetsInRange data pos count = true →
      ∀ p ∈ packetsOf data pos count, wellSized p := by
  intro count
  induction count with
  | zero =>
    intro pos _ p hp
    simp [packetsOf] at hp
  | succ c ih =>
    intro pos h p hp
    simp only [packetsInRange, Bool.and_eq_true, decide_eq_true_eq] at h
    obtain ⟨hlen, hrest⟩ := h
    simp only [packetsOf, List.mem_cons] at hp
    rcases hp with hp | hp
    · subst hp
      unfold wellSized
      have h1 : pos + 1 < data.length := by omega
      have hl : ((data.drop pos).take (4 * (packetIlen data pos + 1))).length
          = 4 * (packetIlen data pos + 1) := by
        rw [List.length_take, List.length_drop]
        omega
      have hg : ((data.drop pos).take (4 * (packetIlen data pos + 1))).getD 1 0
          = data.getD (pos + 1) 0 := by
        rw [List.getD_eq_getElem?_getD, List.getD_eq_getElem?_getD,
          List.getElem?_take_of_lt (by omega), List.getElem?_drop]
      rw [hl, hg]
      rfl
    · exact ih _ hrest p hp

theorem append_wellSized (l : TMD_PrimitiveList) (p : List Nat) (h : wellSized p) :
    l.append p
      = .ok { m_primitive_offsets := l.m_primitive_offsets ++ [l.m_packets_data.length / 4],
              m_packets_data := l.m_packets_data ++ p } := by
  obtain ⟨olen, ilen, flag, mode, payload, rfl, hl⟩ := wellSized_cons p h
  have hle : 4 * (ilen % 256 + 1) ≤ (olen :: ilen :: flag :: mode :: payload).length := by
    simp only [List.length_cons]
    omega
  have ht : (olen :: ilen :: flag :: mode :: payload).take (4 * (ilen % 256 + 1))
      = olen :: ilen :: flag :: mode :: payload := by
    apply List.take_of_length_le
    simp only [List.length_cons]
    omega
  simp only [TMD_PrimitiveList.append, packetHeader, hle, if_true, ht]

theorem appendAll_eq (ps : List (List Nat)) :
    ∀ l : TMD_PrimitiveList, (∀ p ∈ ps, wellSized p) →
      appendAll l ps = .ok (appendPackets l ps) := by
  induction ps with
  | nil => intro l _; rfl
  | cons p ps ih =>
    intro l h
    simp only [appendAll, append_wellSized l p (h p (List.mem_cons_self _ _))]
    rw [ih _ (fun q hq => h q (List.mem_cons_of_mem _ hq))]
    simp [appendPackets]

theorem appendPackets_read (ps : List (List Nat)) (hws : ∀ p ∈ ps, wellSized p) :
    (appendPackets { m_packets_data := [], m_primitive_offsets := [] } ps).m_primitive_offsets.length
        = ps.length ∧
    ∀ (j : Nat) (p : List Nat), ps[j]? = some p →
      ∃ mem,
        (appendPackets { m_packets_data := [], m_primitive_offsets := [] } ps).at ((j : Nat) : Int)
          = .ok mem ∧ mem.take p.length = p := by
  constructor
  · obtain ⟨t, ht, hl⟩ := appendPackets_offsets ps
      { m_packets_data := [], m_primitive_offsets := [] }
    rw [ht]
    simpa using hl
  · intro j p hj
    have := appendPackets_at ps { m_packets_data := [], m_primitive_offsets := [] }
      (by simp) hws j p hj
    simp only [List.length_nil, Nat.zero_add] at this
    exact ⟨_, this, List.take_left' rfl⟩

theorem packetStart_inRange (data : List Nat) :
    ∀ (count pos j : Nat), packetsInRange data pos count = true → j < count →
      packetStart data pos j + (4 + 4 * packetIlen data (packetStart data pos j))
        ≤ data.length := by
  intro count
  induction count with
  | zero => intro pos j _ hj; omega
  | succ c ih =>
    intro pos j h hj
    simp only [packetsInRange, Bool.and_eq_true, decide_eq_true_eq] at h
    cases j with
    | zero =>
      simp only [packetStart]
      omega
    | succ j =>
      rw [packetStart_succ]
      exact ih _ j h.2 (by omega)

/-- C34: the size of a packet is `4 + 4 * ilen` bytes whatever its mode byte,
and `readModel` walks the packets of an object by it: for a region that holds
what its headers point to, the primitive list of object `k` has
`primitive_count` entries and `at(j)` points to a copy of the `4 + 4 * ilen_j`
bytes that start at `12 + primitive_offset`, plus the sizes of the packets
before packet `j`.  Appending packets to an empty list and reading them with
`at(j)` gives each packet back, in order. -/
theorem C34_packet_walk (data : List Nat) (outputModel : TMD_Model) (h : tmdInRange data) :
    (∀ header : tmd_primitive_header_t,
      get_primitive_packet_size header = 4 + 4 * header.ilen) ∧
    (∃ (m : TMD_Model) (b : Buffer),
      readModel { m_data := data, m_pos := 0 } outputModel = .ok (true, m, b) ∧
      ∀ k, k < numObjects data → ∃ o, m.m_objects[k]? = some o ∧
        o.m_primitives.m_primitive_offsets.length = (objectHeaderAt data k).primitive_count ∧
        o.m_primitives.count = toInt32 (objectHeaderAt data k).primitive_count ∧
        ∀ j, j < (objectHeaderAt data k).primitive_count →
          ∃ mem, o.m_primitives.at ((j : Nat) : Int) = .ok mem ∧
            mem.take (4 + 4 * packetIlen data
                (packetStart data (12 + (objectHeaderAt data k).primitive_offset) j))
              = (data.drop (packetStart data (12 + (objectHeaderAt data k).primitive_offset) j)).take
                  (4 + 4 * packetIlen data
                    (packetStart data (12 + (objectHeaderAt data k).primitive_offset) j))) ∧
    (∀ ps : List (List Nat), (∀ p ∈ ps, wellSized p) →
      ∃ l, appendAll { m_packets_data := [], m_primitive_offsets := [] } ps = .ok l ∧
        l.m_primitive_offsets.length = ps.length ∧
        ∀ (j : Nat) (p : List Nat), ps[j]? = some p →
          ∃ mem, l.at ((j : Nat) : Int) = .ok mem ∧ mem.take p.length = p) := by
  refine ⟨?_, ?_, ?_⟩
  · intro header
    unfold get_primitive_packet_size
    omega
  · obtain ⟨b, hb, _⟩ := readModel_inRange data outputModel h
    refine ⟨_, b, hb, ?_⟩
    intro k hk
    have hin := (h.2.2 k hk).2.2
    have hws := packetsOf_wellSized data (objectHeaderAt data k).primitive_count
      (12 + (objectHeaderAt data k).primitive_offset) hin
    obtain ⟨hlen, hat⟩ := appendPackets_read _ hws
    rw [packetsOf_length] at hlen
    refine ⟨objectAt data 12 (objectHeaderAt data k), ?_, hlen, ?_, ?_⟩
    · simp only [List.getElem?_map, List.getElem?_range hk, Option.map_some']
    · show toInt32 _ = _
      exact congrArg toInt32 hlen
    · intro j hj
      obtain ⟨mem, hm, ht⟩ := hat j _ (packetsOf_getElem data _ _ j hj)
      refine ⟨mem, hm, ?_⟩
      have hr := packetStart_inRange data _ _ j hin hj
      have hl : ((data.drop (packetStart data (12 + (objectHeaderAt data k).primitive_offset) j)).take
          (4 + 4 * packetIlen data
            (packetStart data (12 + (objectHeaderAt data k).primitive_offset) j))).length
          = 4 + 4 * packetIlen data
            (packetStart data (12 + (objectHeaderAt data k).primitive_offset) j) := by
        rw [List.length_take, List.length_drop]
        omega
      rw [hl] at ht
      exact ht
  · intro ps hws
    obtain ⟨hlen, hat⟩ := appendPackets_read ps hws
    exact ⟨_, appendAll_eq ps _ hws, hlen, hat⟩

/-- Witness for C34: the sample region with one object and one packet, and a
sprite packet followed by a triangle packet appended to an empty list. -/
theorem C34_packet_walk_witness :
    tmdInRange sampleTmd ∧
    (∃ (m : TMD_Model) (b : Buffer),
      readModel { m_data := sampleTmd, m_pos := 0 } { m_objects := [] } = .ok (true, m, b) ∧
      ∃ o mem, m.m_objects[0]? = some o ∧ o.m_primitives.count = 1 ∧
        o.m_primitives.at 0 = .ok mem ∧ mem.take 16 = (sampleTmd.drop 56).take 16) ∧
    (∃ l mem, appendAll { m_packets_data := [], m_primitive_offsets := [] }
        [spritePacket, trianglePacket] = .ok l ∧
      l.at 1 = .ok mem ∧ mem.take 16 = trianglePacket) := by
  obtain ⟨_, ⟨m, b, h1, h2⟩, h3⟩ := C34_packet_walk sampleTmd { m_objects := [] } sampleTmd_inRange
  refine ⟨sampleTmd_inRange, ⟨m, b, h1, ?_⟩, ?_⟩
  · obtain ⟨o, g1, _, g3, g4⟩ := h2 0 (by decide)
    obtain ⟨mem, g5, g6⟩ := g4 0 (by decide)
    exact ⟨o, mem, g1, g3, g5, g6⟩
  · have hws : ∀ p ∈ [spritePacket, trianglePacket], wellSized p := by
      intro p hp
      simp only [List.mem_cons, List.mem_singleton, List.not_mem_nil, or_false] at hp
      rcases hp with h | h <;> subst h <;> rfl
    obtain ⟨l, g1, _, g3⟩ := h3 [spritePacket, trianglePacket] hws
    obtain ⟨mem, g4, g5⟩ := g3 1 trianglePacket rfl
    exact ⟨l, mem, g1, g4, g5⟩

theorem colorFromPsx24bit_value (c : Nat) :
    colorFromPsx24bit c
      = 0xff * 2 ^ 24 + (c % 2 ^ 32 % 256) * 2 ^ 16 + (c % 2 ^ 32 / 256 % 256) * 2 ^ 8
          + c % 2 ^ 32 / 256 % 256 := by
  have hr : (c % 2 ^ 32) &&& 0xff = c % 2 ^ 32 % 256 :=
    Nat.and_pow_two_sub_one_eq_mod _ 8
  have hg : ((c % 2 ^ 32) >>> 8) &&& 0xff = c % 2 ^ 32 / 256 % 256 := by
    rw [Nat.shiftRight_eq_div_pow]
    exact Nat.and_pow_two_sub_one_eq_mod _ 8
  simp only [colorFromPsx24bit, hr, hg]
  exact pack_argb 0xff _ _ _ (Nat.mod_lt _ (by norm_num)) (Nat.mod_lt _ (by norm_num))
    (Nat.mod_lt _ (by norm_num))

/-- C35, the code evaluated: for every word `c`, `colorFromPsx24bit c` has
opaque alpha, red from bits 0-7 and both green and blue from bits 8-15, so
bits 16-23 are not used; and on the image of 12 words that hold the bytes
1, 2, ..., 24 the loop of `generateImage()` gives the pixels `FF010202`,
`FF040505`, `FF080909`, `FF0C0D0D` (the third and the fourth start at an odd
word again), where the bytes `3k`, `3k+1`, `3k+2` would give `FF010203`,
`FF040506`, `FF070809`, `FF0A0B0C`. -/
theorem C35_true_color_pixels :
    (∀ c : Nat, colorFromPsx24bit c / 2 ^ 24 = 0xff ∧
      colorFromPsx24bit c / 2 ^ 16 % 256 = c % 2 ^ 32 % 256 ∧
      colorFromPsx24bit c / 2 ^ 8 % 256 = c % 2 ^ 32 / 256 % 256 ∧
      colorFromPsx24bit c % 256 = c % 2 ^ 32 / 256 % 256) ∧
    (sampleImage24.generateImage).toOption.map (fun im => im.pixelData)
      = some [0xFF010202, 0xFF040505, 0xFF080909, 0xFF0C0D0D] ∧
    (List.range 4).map (specPixel24 sampleImage24.m_imdata.data)
      = [0xFF010203, 0xFF040506, 0xFF070809, 0xFF0A0B0C] := by
  refine ⟨?_, by decide, by decide⟩
  intro c
  rw [colorFromPsx24bit_value]
  have h1 : c % 2 ^ 32 % 256 < 256 := Nat.mod_lt _ (by norm_num)
  have h2 : c % 2 ^ 32 / 256 % 256 < 256 := Nat.mod_lt _ (by norm_num)
  generalize c % 2 ^ 32 % 256 = r at h1 ⊢
  generalize c % 2 ^ 32 / 256 % 256 = g at h2 ⊢
  simp only [show (2 : Nat) ^ 24 = 16777216 from rfl, show (2 : Nat) ^ 16 = 65536 from rfl,
    show (2 : Nat) ^ 8 = 256 from rfl]
  have e1 : (255 * 16777216 + r * 65536 + g * 256 + g) / 65536 = 65280 + r := by omega
  have e2 : (255 * 16777216 + r * 65536 + g * 256 + g) / 256 = 16711680 + r * 256 + g := by
    omega
  rw [e1, e2]
  refine ⟨?_, ?_, ?_, ?_⟩ <;> omega

theorem field_testBit (w k n i : Nat) :
    (w / 2 ^ k % 2 ^ n).testBit i = (decide (i < n) && w.testBit (k + i)) := by
  rw [Nat.testBit_mod_two_pow, ← Nat.shiftRight_eq_div_pow, Nat.testBit_shiftRight]

/-- C36, the code evaluated: of the texture word the page is bits 0-4 and the
mixture rate bits 5-6, of the CLUT word `clutX` is bits 0-5 and `clutY` bits
6-14, and `get_textureinfo_bpp` gives 4, 8, 16 for the color modes 0, 1, 2; but
the color mode, a bit-field of type `uint8_t` after seven bits of the first
byte, is bits 8-9 of the word and not bits 7-8: for the texture word `0x0085`
of the sample packet, whose bits 7-8 hold 1, the color mode is 0 and the depth
reported is 4, not 8. -/
theorem C36_texture_bits :
    (∀ w i : Nat,
      (texturePage w).testBit i = (decide (i < 5) && w.testBit i) ∧
      (mixtureRate w).testBit i = (decide (i < 2) && w.testBit (5 + i)) ∧
      (colorMode w).testBit i = (decide (i < 2) && w.testBit (8 + i)) ∧
      (clutX w).testBit i = (decide (i < 6) && w.testBit i) ∧
      (clutY w).testBit i = (decide (i < 9) && w.testBit (6 + i))) ∧
    (∀ w : Nat,
      (colorMode w = 0 → get_textureinfo_bpp w = .ok 4) ∧
      (colorMode w = 1 → get_textureinfo_bpp w = .ok 8) ∧
      (colorMode w = 2 → get_textureinfo_bpp w = .ok 16)) ∧
    (TMD_Primitive.ofPacket texturedPacket).toOption.map
        (fun p => (p.hasTexture, p.m_textureInfo, p.m_clutInfo))
      = some (true, 0x0085, 0x7803) ∧
    texturePage 0x0085 = 5 ∧ mixtureRate 0x0085 = 0 ∧ 0x0085 / 2 ^ 7 % 4 = 1 ∧
    colorMode 0x0085 = 0 ∧ get_textureinfo_bpp 0x0085 = .ok 4 ∧
    clutX 0x7803 = 3 ∧ clutY 0x7803 = 480 := by
  refine ⟨?_, ?_, by decide, by decide, by decide, by decide, by decide, rfl, by decide,
    by decide⟩
  · intro w i
    refine ⟨?_, ?_, ?_, ?_, ?_⟩
    · have := field_testBit w 0 5 i
      simpa [texturePage] using this
    · exact field_testBit w 5 2 i
    · exact field_testBit w 8 2 i
    · have := field_testBit w 0 6 i
      simpa [clutX] using this
    · exact field_testBit w 6 9 i
  · intro w
    unfold get_textureinfo_bpp
    refine ⟨fun h => ?_, fun h => ?_, fun h => ?_⟩ <;> simp [h]

theorem nodesBelow_nil {F : Type} (n : Nat) : nodesBelow n ([] : List (Instruction F)) := by
  intro k hk
  cases hk

theorem nodesBelow_append {F : Type} (n : Nat) (xs ys : List (Instruction F))
    (hx : nodesBelow n xs) (hy : nodesBelow n ys) : nodesBelow n (xs ++ ys) := by
  intro k hk e he
  rcases List.mem_append.mp hk with h | h
  · exact hx k h e he
  · exact hy k h e he

theorem read_keyframe_entry_node {F : Type} (ops : FloatOps F) (b : Buffer)
    (r : KeyframeEntry F × Buffer) (h : read_keyframe_entry ops b = .ok r) :
    r.1.affectedNode < 64 := by
  unfold read_keyframe_entry at h
  split at h
  · cases h
  · split at h
    · cases h
    · split at h
      · cases h
      · cases h
        show _ &&& 0x3F < 64
        exact Nat.lt_succ_of_le Nat.and_le_right

theorem readKeyframeEntries_nodes {F : Type} (ops : FloatOps F) (fuel : Nat) :
    ∀ (b : Buffer) (acc : List (KeyframeEntry F)) (r : List (KeyframeEntry F) × Buffer),
      (∀ e ∈ acc, e.affectedNode < 64) → readKeyframeEntries ops fuel b acc = .ok r →
      ∀ e ∈ r.1, e.affectedNode < 64 := by
  induction fuel with
  | zero => intro b acc r _ h; simp [readKeyframeEntries] at h
  | succ f ih =>
    intro b acc r hacc h
    simp only [readKeyframeEntries] at h
    split at h
    · cases h
    · split at h
      · cases h
        exact hacc
      · split at h
        · cases h
        · rename_i r1 hr1
          refine ih _ _ _ ?_ h
          intro e he
          rcases List.mem_append.mp he with h1 | h1
          · exact hacc e h1
          · rw [List.mem_singleton.mp h1]
            exact read_keyframe_entry_node ops b r1 hr1

theorem fillOneInstruction_nodes {F : Type} (ops : FloatOps F) (b : Buffer) (header : Nat)
    (r : Option (Instruction F) × Buffer) (h : fillOneInstruction ops b header = .ok r) :
    ∀ ins, r.1 = some ins → nodesBelow 64 [ins] := by
  intro ins hins k hk
  have hk1 : Instruction.keyframe k = ins := List.mem_singleton.mp hk
  subst hk1
  unfold fillOneInstruction at h
  split at h
  · unfold fill_instruction_keyframe at h
    split at h
    · cases h
    · rename_i r0 hr0
      split at hr0
      · cases hr0
      · rename_i r1 hr1
        cases hr0
        cases h
        simp only [Option.some.injEq, Instruction.keyframe.injEq] at hins
        subst hins
        exact readKeyframeEntries_nodes ops _ b [] r1 (fun e he => by cases he) hr1
  · split at h
    · split at h
      · cases h
      · cases h
        simp at hins
    · split at h
      · split at h
        · cases h
        · cases h
          simp at hins
      · split at h
        · split at h
          · cases h
          · cases h
            simp at hins
        · split at h
          · split at h
            · cases h
            · cases h
              simp at hins
          · cases h
            simp at hins

theorem fillInstructions_nodes {F : Type} (ops : FloatOps F) (fuel : Nat) :
    ∀ (b : Buffer) (acc : List (Instruction F)) (r : Bool × List (Instruction F) × Buffer),
      nodesBelow 64 acc → fillInstructions ops fuel b acc = .ok r → nodesBelow 64 r.2.1 := by
  induction fuel with
  | zero => intro b acc r _ h; simp [fillInstructions] at h
  | succ f ih =>
    intro b acc r hacc h
    simp only [fillInstructions] at h
    split at h
    · cases h
      exact hacc
    · split at h
      · cases h
      · split at h
        · cases h
          exact hacc
        · split at h
          · cases h
          · rename_i r1 hr1
            have h1 := fillOneInstruction_nodes ops _ _ r1 hr1
            split at h
            · rename_i ins hins
              exact ih _ _ _ (nodesBelow_append 64 _ _ hacc (h1 ins hins)) h
            · exact ih _ _ _ hacc h

theorem readPoses_length (hasScale : Bool) (n : Nat) :
    ∀ (b : Buffer) (acc : List Position) (r : Bool × List Position × Buffer),
      readPoses hasScale n b acc = .ok r → r.1 = true → r.2.1.length = acc.length + n := by
  induction n with
  | zero =>
    intro b acc r h _
    simp only [readPoses, Except.ok.injEq] at h
    subst h
    rfl
  | succ n ih =>
    intro b acc r h ht
    simp only [readPoses] at h
    by_cases hav : b.availableBelow ((if hasScale then 9 else 6) * 2) = true
    · rw [if_pos hav] at h
      cases h
      cases ht
    · rw [if_neg hav] at h
      cases hp : readPose hasScale b with
      | error f => rw [hp] at h; cases h
      | ok r0 =>
        rw [hp] at h
        have := ih _ _ _ h ht
        rw [this, List.length_append, List.length_singleton]
        omega

theorem fill_animation_shape {F : Type} (ops : FloatOps F) (b : Buffer) (boneCount i : Nat)
    (r : Bool × MMD_Animation F × Buffer)
    (h : fill_animation ops b boneCount (MMD_Animation.new F i) = .ok r) (ht : r.1 = true) :
    decodedShape boneCount r.2.1 := by
  unfold fill_animation at h
  split at h
  · cases h
    cases ht
  · split at h
    · cases h
    · simp only at h
      split at h
      · cases h
      · rename_i r1 hr1
        split at h
        · cases h
          rename_i hf
          cases ht
        · rename_i hf
          have hl := readPoses_length _ _ _ _ r1 hr1 (by
            cases hb : r1.1 with
            | true => rfl
            | false => exact absurd hb hf)
          split at h
          · cases h
          · rename_i r2 hr2
            cases h
            refine ⟨Or.inr ?_, ?_⟩
            · show r1.2.1.length = _
              rw [hl]
              simp [MMD_Animation.new]
            · exact fillInstructions_nodes ops _ _ _ r2 (nodesBelow_nil 64) hr2

theorem new_shape {F : Type} (boneCount i : Nat) :
    decodedShape boneCount (MMD_Animation.new F i) :=
  ⟨Or.inl rfl, nodesBelow_nil 64⟩

theorem readAnimationSlots_shape {F : Type} (ops : FloatOps F) (boneCount : Nat)
    (table : Buffer) :
    ∀ (count i : Nat) (buffer : Buffer) (output : List (MMD_Animation F))
      (r : List (MMD_Animation F) × Buffer),
      (∀ a ∈ output, decodedShape boneCount a) →
      readAnimationSlots ops boneCount table count i buffer output = .ok r →
      ∀ a ∈ r.1, decodedShape boneCount a := by
  intro count
  induction count with
  | zero =>
    intro i buffer output r hout h
    simp only [readAnimationSlots, Except.ok.injEq] at h
    subst h
    exact hout
  | succ c ih =>
    intro i buffer output r hout h
    simp only [readAnimationSlots] at h
    split at h
    · cases h
    · rename_i a ha
      by_cases hz : a ≠ 0
      · rw [if_pos hz] at h
        split at h
        · cases h
        · rename_i r1 hr1
          by_cases hf : r1.1 = false
          · rw [if_pos hf] at h
            cases h
            intro x hx
            cases hx
          · rw [if_neg hf] at h
            have ht : r1.1 = true := by
              cases hb : r1.1 with
              | true => rfl
              | false => exact absurd hb hf
            refine ih _ _ _ r ?_ h
            intro x hx
            rcases List.mem_append.mp hx with h1 | h1
            · exact hout x h1
            · rw [List.mem_singleton.mp h1]
              exact fill_animation_shape ops _ boneCount i r1 hr1 ht
      · rw [if_neg hz] at h
        refine ih _ _ _ r ?_ h
        intro x hx
        rcases List.mem_append.mp hx with h1 | h1
        · exact hout x h1
        · rw [List.mem_singleton.mp h1]
          exact new_shape boneCount i

theorem decode_shape {F : Type} (ops : FloatOps F) (anims : MMD_Animations) (boneCount : Nat)
    (out : List (MMD_Animation F)) (h : anims.decode ops boneCount = .ok out) :
    ∀ a ∈ out, decodedShape boneCount a := by
  unfold MMD_Animations.decode at h
  split at h
  · cases h
    intro a ha
    cases ha
  · split at h
    · cases h
    · rename_i r hr
      cases h
      unfold read_animations at hr
      split at hr
      · split at hr
        · cases hr
        · exact readAnimationSlots_shape ops boneCount _ _ _ _ _ r
            (fun a ha => by cases ha) hr
      · cases hr

theorem executeKeyframe_ok_iff {F : Type} (ops : FloatOps F) (data : AnimationData F)
    (k : KeyframeInstruction F) :
    (∃ d1, executeKeyframe ops data k = .ok d1) ↔
      ∀ e ∈ k.entries, e.affectedNode < data.state.momentumData.length := by
  rw [← applyKeyframeEntries_ok_iff ops k.entries data.state.momentumData]
  unfold executeKeyframe
  cases applyKeyframeEntries ops data.state.momentumData k.entries <;> simp

/-- C39 as amended: in every animation that `decode(boneCount)` returns, the
initial poses are none (an empty slot) or `1 + (boneCount - 1)`, and every
keyframe entry names a node below 64, the six bits of the entry word, which
are not compared with `boneCount`.  So for `boneCount ≥ 1` the initial pose
is applied inside a model of at least `boneCount` nodes, and a keyframe of the
animation is executed inside the momentum table exactly when each of its
entries names a node below the size of the table, which holds for a table of
64 elements or more. -/
theorem C39_decoded_nodes {F : Type} (ops : FloatOps F) (anims : MMD_Animations)
    (boneCount : Nat) (out : List (MMD_Animation F))
    (h : anims.decode ops boneCount = .ok out) :
    ∀ a ∈ out,
      (a.initialPositions.length = 0 ∨ a.initialPositions.length = 1 + (boneCount - 1)) ∧
      (∀ k, Instruction.keyframe k ∈ a.instructions →
        ∀ e ∈ k.entries, e.affectedNode < 64) ∧
      (∀ player : AnimationPlayer F, 1 ≤ boneCount →
        boneCount ≤ player.m_animationData.model.nodes.length →
        ∃ p0, playAnimation ops player a = .ok p0) ∧
      (∀ (data : AnimationData F) (k : KeyframeInstruction F),
        Instruction.keyframe k ∈ a.instructions →
        ((∃ d1, executeKeyframe ops data k = .ok d1) ↔
          ∀ e ∈ k.entries, e.affectedNode < data.state.momentumData.length) ∧
        (64 ≤ data.state.momentumData.length →
          ∃ d1, executeKeyframe ops data k = .ok d1)) := by
  intro a ha
  obtain ⟨hp, hn⟩ := decode_shape ops anims boneCount out h a ha
  refine ⟨hp, hn, ?_, ?_⟩
  · intro player h1 h2
    apply (playAnimation_ok_iff ops player a).mpr
    rcases hp with h0 | h0 <;> omega
  · intro data k hk
    refine ⟨executeKeyframe_ok_iff ops data k, fun h64 => ?_⟩
    apply (executeKeyframe_ok_iff ops data k).mpr
    intro e he
    have := hn k hk e he
    omega

/-- Witness for C39 as amended: the table of one slot decoded for one bone. -/
theorem C39_decoded_nodes_witness :
    (MMD_Animations.mk strayNodeTable).decode ratOps 1 = .ok [strayNodeAnimation] ∧
    strayNodeAnimation.initialPositions.length = 1 ∧
    (∀ k, Instruction.keyframe k ∈ strayNodeAnimation.instructions →
      ∀ e ∈ k.entries, e.affectedNode < 64) ∧
    ∃ p0, playAnimation ratOps samplePlayer strayNodeAnimation = .ok p0 := by
  have hd : (MMD_Animations.mk strayNodeTable).decode ratOps 1 = .ok [strayNodeAnimation] := rfl
  obtain ⟨_, h2, h3, _⟩ := C39_decoded_nodes ratOps (MMD_Animations.mk strayNodeTable) 1
    [strayNodeAnimation] hd strayNodeAnimation (List.mem_singleton.mpr rfl)
  exact ⟨hd, rfl, h2, h3 samplePlayer (le_refl 1) (le_refl 1)⟩

/-- C39, counterexample: a table of one slot, decoded for one bone, gives a
keyframe whose entry names node 5; played on the sample model of one node, the
first call of `step` executes it and indexes the momentum table of one element
at 5.  Decoded for no bone at all, the same table gives one initial pose, and
`playAnimation` on a model without nodes indexes node 0. -/
theorem C39_counterexample :
    (MMD_Animations.mk strayNodeTable).decode ratOps 1 = .ok [strayNodeAnimation] ∧
    samplePlayer.m_animationData.model.nodes.length = 1 ∧
    playAnimation ratOps samplePlayer strayNodeAnimation = .ok strayNodePlayer ∧
    strayNodePlayer.m_animationData.state.momentumData.length = 1 ∧
    step ratOps 4 strayNodePlayer = .error Fault.outOfBounds ∧
    (MMD_Animations.mk strayNodeTable).decode ratOps 0 = .ok [strayNodeAnimation] ∧
    emptyPlayer.m_animationData.model.nodes.length = 0 ∧
    playAnimation ratOps emptyPlayer strayNodeAnimation = .error Fault.outOfBounds :=
  ⟨rfl, rfl, rfl, rfl, rfl, rfl, rfl, rfl⟩

theorem elementsAt_length {α : Type} (l : List α) :
    ∀ (idx : List Nat) (r : List α), elementsAt l idx = .ok r → r.length = idx.length := by
  intro idx
  induction idx with
  | nil =>
    intro r h
    simp only [elementsAt, Except.ok.injEq] at h
    subst h
    rfl
  | cons i rest ih =>
    intro r h
    simp only [elementsAt] at h
    split at h
    · cases h
    · split at h
      · cases h
      · rename_i as has
        cases h
        simp [ih as has]

theorem resize_length {α : Type} (l : List α) (n : Nat) (value : α) :
    (resize l n value).length = n := by
  unfold resize
  split
  · rw [List.length_take]
    omega
  · rw [List.length_append, List.length_replicate]
    omega

theorem isEmpty_false_of_length {α : Type} (l : List α) (n : Nat) (h : l.length = n)
    (hn : 0 < n) : l.isEmpty = false := by
  cases l with
  | nil => simp at h; omega
  | cons a as => rfl

theorem fill_fed {α : Type} (A : List α) (offset : Nat) (dflt : α)
    (hA : A = [] ∨ A.length = offset) (hoff : 0 < offset) :
    (if A.isEmpty = true then resize A offset dflt else A).length = offset := by
  rcases hA with h | h
  · subst h
    simp [resize_length]
  · rw [if_neg (by rw [isEmpty_false_of_length A offset h hoff]; simp)]
    exact h

theorem fill_unfed {α : Type} (A : List α) (n : Nat) (dflt : α) :
    (if A.isEmpty = false then resize A n dflt else A) = [] ∨
      (if A.isEmpty = false then resize A n dflt else A).length = n := by
  cases A with
  | nil => exact Or.inl (by simp)
  | cons a as =>
    refine Or.inr ?_
    simp [resize_length]

theorem fillAttributes_pending {F : Type} (env : ConverterEnv F) (data : PSX_Object3D F)
    (primitive : TMD_Primitive) (added : Nat) (h : meshAligned data) :
    pendingAligned (fillAttributes env data primitive added) primitive added ∧
    (fillAttributes env data primitive added).vertices = data.vertices ∧
    (fillAttributes env data primitive added).primitives = data.primitives := by
  obtain ⟨hN, hC, hU⟩ := h
  unfold fillAttributes
  simp only []
  by_cases hoff : 0 < data.vertices.length
  · rw [if_pos hoff]
    refine ⟨⟨?_, ?_, ?_, ?_, ?_, ?_⟩, rfl, rfl⟩
    · intro hn
      have hnz : ¬ primitive.normalCount = 0 := by omega
      simp only [hn, hnz, true_and, and_false, if_false]
      exact fill_fed data.normals _ _ hN hoff
    · intro hz
      have hn : ¬ 0 < primitive.normalCount := by omega
      simp only [hn, hz, false_and, and_true, if_false]
      exact fill_unfed data.normals _ _
    · intro hn
      have hnz : ¬ primitive.colorCount = 0 := by omega
      simp only [hn, hnz, true_and, false_and, if_false]
      exact fill_fed data.colors _ _ hC hoff
    · intro hz
      have hn : ¬ 0 < primitive.colorCount := by omega
      simp only [hn, hz, false_and, true_and, if_false]
      exact fill_unfed data.colors _ _
    · intro hn
      simp only [hn, true_and, Bool.true_eq_false, false_and, if_false]
      exact fill_fed data.uv _ _ hU hoff
    · intro hz
      simp only [hz, Bool.false_eq_true, false_and, true_and, if_false]
      exact fill_unfed data.uv _ _
  · rw [if_neg hoff]
    have hv : data.vertices.length = 0 := by omega
    have e1 : data.normals = [] := by
      rcases hN with h | h
      · exact h
      · exact List.length_eq_zero.mp (h.trans hv)
    have e2 : data.colors = [] := by
      rcases hC with h | h
      · exact h
      · exact List.length_eq_zero.mp (h.trans hv)
    have e3 : data.uv = [] := by
      rcases hU with h | h
      · exact h
      · exact List.length_eq_zero.mp (h.trans hv)
    refine ⟨⟨?_, ?_, ?_, ?_, ?_, ?_⟩, rfl, rfl⟩
    · intro _
      rw [e1, hv]
      rfl
    · intro _
      exact Or.inl e1
    · intro _
      rw [e2, hv]
      rfl
    · intro _
      exact Or.inl e2
    · intro _
      rw [e3, hv]
      rfl
    · intro _
      exact Or.inl e3

theorem appendCorners_pending {F : Type} (env : ConverterEnv F) (data d : PSX_Object3D F)
    (tmdObj : TMD_Object) (primitive : TMD_Primitive) (uvconv : TMD_TexCoordsConverter F)
    (corners : List Nat) (pending : Nat)
    (h : appendCorners env data tmdObj primitive uvconv corners = .ok d)
    (hp : pendingAligned data primitive (pending + corners.length)) :
    pendingAligned d primitive pending ∧
    d.vertices.length = data.vertices.length + corners.length ∧
    d.primitives = data.primitives := by
  obtain ⟨p1, p2, p3, p4, p5, p6⟩ := hp
  unfold appendCorners at h
  split at h
  · cases h
  · rename_i normals hnorm
    split at h
    · cases h
    · rename_i indices hidx
      split at h
      · cases h
      · rename_i vs hvs
        split at h
        · cases h
        · rename_i colors hcol
          split at h
          · cases h
          · rename_i uv huv
            cases h
            have lv : vs.length = corners.length :=
              (elementsAt_length _ _ _ hvs).trans (elementsAt_length _ _ _ hidx)
            have hN : (0 < primitive.normalCount →
                  normals.length = data.normals.length + corners.length) ∧
                (primitive.normalCount = 0 → normals = data.normals) := by
              by_cases hn : 0 < primitive.normalCount
              · rw [if_pos hn] at hnorm
                split at hnorm
                · cases hnorm
                · rename_i i1 hi1
                  split at hnorm
                  · cases hnorm
                  · rename_i ns hns
                    cases hnorm
                    refine ⟨fun _ => ?_, fun hz => by omega⟩
                    rw [List.length_append, List.length_map, elementsAt_length _ _ _ hns,
                      elementsAt_length _ _ _ hi1, List.length_map]
              · rw [if_neg hn] at hnorm
                cases hnorm
                exact ⟨fun h => absurd h hn, fun _ => rfl⟩
            have hC : (0 < primitive.colorCount →
                  colors.length = data.colors.length + corners.length) ∧
                (primitive.colorCount = 0 → colors = data.colors) := by
              by_cases hn : 0 < primitive.colorCount
              · rw [if_pos hn] at hcol
                split at hcol
                · cases hcol
                · rename_i cs hcs
                  cases hcol
                  refine ⟨fun _ => ?_, fun hz => by omega⟩
                  rw [List.length_append, List.length_map, elementsAt_length _ _ _ hcs,
                    List.length_map]
              · rw [if_neg hn] at hcol
                cases hcol
                exact ⟨fun h => absurd h hn, fun _ => rfl⟩
            have hU : (primitive.hasTexture = true →
                  uv.length = data.uv.length + corners.length) ∧
                (primitive.hasTexture = false → uv = data.uv) := by
              by_cases hn : primitive.hasTexture = true
              · rw [if_pos hn] at huv
                split at huv
                · cases huv
                · rename_i us hus
                  cases huv
                  refine ⟨fun _ => ?_, fun hz => by rw [hn] at hz; cases hz⟩
                  rw [List.length_append, List.length_map, elementsAt_length _ _ _ hus]
              · rw [if_neg hn] at huv
                cases huv
                exact ⟨fun h => absurd h hn, fun _ => rfl⟩
            have hV : (data.vertices ++ vs.map (convertVertex env.ops)).length
                = data.vertices.length + corners.length := by
              rw [List.length_append, List.length_map, lv]
            refine ⟨⟨?_, ?_, ?_, ?_, ?_, ?_⟩, hV, rfl⟩
            · intro hn
              show normals.length = (data.vertices ++ vs.map (convertVertex env.ops)).length
              rw [hV, hN.1 hn, p1 hn]
            · intro hz
              show normals = [] ∨
                normals.length = (data.vertices ++ vs.map (convertVertex env.ops)).length + pending
              rw [hV, hN.2 hz]
              rcases p2 hz with q | q
              · exact Or.inl q
              · exact Or.inr (by omega)
            · intro hn
              show colors.length = (data.vertices ++ vs.map (convertVertex env.ops)).length
              rw [hV, hC.1 hn, p3 hn]
            · intro hz
              show colors = [] ∨
                colors.length = (data.vertices ++ vs.map (convertVertex env.ops)).length + pending
              rw [hV, hC.2 hz]
              rcases p4 hz with q | q
              · exact Or.inl q
              · exact Or.inr (by omega)
            · intro hn
              show uv.length = (data.vertices ++ vs.map (convertVertex env.ops)).length
              rw [hV, hU.1 hn, p5 hn]
            · intro hz
              show uv = [] ∨
                uv.length = (data.vertices ++ vs.map (convertVertex env.ops)).length + pending
              rw [hV, hU.2 hz]
              rcases p6 hz with q | q
              · exact Or.inl q
              · exact Or.inr (by omega)

theorem pendingAligned_zero {F : Type} (data : PSX_Object3D F) (primitive : TMD_Primitive)
    (h : pendingAligned data primitive 0) : meshAligned data := by
  obtain ⟨p1, p2, p3, p4, p5, p6⟩ := h
  refine ⟨?_, ?_, ?_⟩
  · by_cases hn : 0 < primitive.normalCount
    · exact Or.inr (p1 hn)
    · rcases p2 (by omega) with q | q
      · exact Or.inl q
      · exact Or.inr q
  · by_cases hn : 0 < primitive.colorCount
    · exact Or.inr (p3 hn)
    · rcases p4 (by omega) with q | q
      · exact Or.inl q
      · exact Or.inr q
  · by_cases hn : primitive.hasTexture = true
    · exact Or.inr (p5 hn)
    · rcases p6 (by simpa using hn) with q | q
      · exact Or.inl q
      · exact Or.inr q

theorem append_triangles_aligned {F : Type} (env : ConverterEnv F) (data d : PSX_Object3D F)
    (tmdObj : TMD_Object) (primitive : TMD_Primitive) (uvconv : TMD_TexCoordsConverter F)
    (ha : meshAligned data) (h : append_triangles env data tmdObj primitive uvconv = .ok d) :
    meshAligned d ∧
    d.vertices.length = data.vertices.length + (if primitive.vertexCount = 4 then 6 else 3) ∧
    d.primitives = data.primitives := by
  obtain ⟨f1, f2, f3⟩ := fillAttributes_pending env data primitive
    (if primitive.vertexCount = 4 then 6 else 3) ha
  unfold append_triangles at h
  simp only at h
  split at h
  · cases h
  · rename_i d2 hd2
    by_cases hq : primitive.vertexCount = 4
    · have hadd : (if primitive.vertexCount = 4 then 6 else 3) = 6 := if_pos hq
      rw [hadd] at f1 f2 f3 hd2 ⊢
      rw [if_pos hq] at h
      obtain ⟨g1, g2, g3⟩ := appendCorners_pending env _ d2 tmdObj primitive uvconv [2, 1, 0] 3
        hd2 f1
      obtain ⟨k1, k2, k3⟩ := appendCorners_pending env _ d tmdObj primitive uvconv [1, 2, 3] 0
        h g1
      refine ⟨pendingAligned_zero d primitive k1, ?_, k3.trans (g3.trans f3)⟩
      rw [k2, g2, f2]
      rfl
    · have hadd : (if primitive.vertexCount = 4 then 6 else 3) = 3 := if_neg hq
      rw [hadd] at f1 f2 f3 hd2 ⊢
      rw [if_neg hq] at h
      cases h
      obtain ⟨g1, g2, g3⟩ := appendCorners_pending env _ d tmdObj primitive uvconv [2, 1, 0] 0
        hd2 f1
      refine ⟨pendingAligned_zero d primitive g1, ?_, g3.trans f3⟩
      rw [g2, f2]
      rfl

theorem append_line_aligned {F : Type} (env : ConverterEnv F) (data d : PSX_Object3D F)
    (tmdObj : TMD_Object) (primitive : TMD_Primitive)
    (ha : meshAligned data) (h : append_line env data tmdObj primitive = .ok d) :
    meshAligned d ∧ d.vertices.length = data.vertices.length + 2 ∧
    d.primitives = data.primitives := by
  obtain ⟨⟨_, p2, p3, _, _, p6⟩, f2, f3⟩ := fillAttributes_pending env data primitive 2 ha
  unfold append_line at h
  simp only at h
  split at h
  · rename_i hcond
    split at h
    · cases h
    · rename_i indices hidx
      split at h
      · cases h
      · rename_i vs hvs
        split at h
        · rename_i hcc
          split at h
          · cases h
          · rename_i cs hcs
            cases h
            have lv : vs.length = 2 :=
              (elementsAt_length _ _ _ hvs).trans (elementsAt_length _ _ _ hidx)
            have lc : cs.length = 2 := elementsAt_length _ _ _ hcs
            have hV : ((fillAttributes env data primitive 2).vertices
                ++ vs.map (convertVertex env.ops)).length = data.vertices.length + 2 := by
              rw [List.length_append, List.length_map, lv, f2]
            refine ⟨⟨?_, ?_, ?_⟩, hV, f3⟩
            · show (fillAttributes env data primitive 2).normals = [] ∨
                (fillAttributes env data primitive 2).normals.length
                  = ((fillAttributes env data primitive 2).vertices
                      ++ vs.map (convertVertex env.ops)).length
              rw [hV]
              rcases p2 hcond.1 with q | q
              · exact Or.inl q
              · exact Or.inr (by rw [q, f2])
            · refine Or.inr ?_
              show ((fillAttributes env data primitive 2).colors ++ cs.map convertColor).length
                = ((fillAttributes env data primitive 2).vertices
                    ++ vs.map (convertVertex env.ops)).length
              rw [hV, List.length_append, List.length_map, lc, p3 hcc, f2]
            · show (fillAttributes env data primitive 2).uv = [] ∨
                (fillAttributes env data primitive 2).uv.length
                  = ((fillAttributes env data primitive 2).vertices
                      ++ vs.map (convertVertex env.ops)).length
              rw [hV]
              rcases p6 hcond.2 with q | q
              · exact Or.inl q
              · exact Or.inr (by rw [q, f2])
        · cases h
  · cases h

theorem untexturedMaterial_arrays {F : Type} (s : ConvertState F) (primitive : TMD_Primitive)
    (key : MaterialKey) (r : Int × ConvertState F)
    (h : untexturedMaterial s primitive key = .ok r) :
    r.2.data.vertices = s.data.vertices ∧ r.2.data.normals = s.data.normals ∧
    r.2.data.colors = s.data.colors ∧ r.2.data.uv = s.data.uv ∧
    r.2.data.primitives = s.data.primitives := by
  unfold untexturedMaterial at h
  split at h
  · cases h
    exact ⟨rfl, rfl, rfl, rfl, rfl⟩
  · split at h
    · cases h
    · cases h
      exact ⟨rfl, rfl, rfl, rfl, rfl⟩

theorem getMaterialIndex_arrays {F : Type} (env : ConverterEnv F) (s : ConvertState F)
    (primitive : TMD_Primitive) (r : Int × ConvertState F)
    (h : getMaterialIndex env s primitive = .ok r) :
    r.2.data.vertices = s.data.vertices ∧ r.2.data.normals = s.data.normals ∧
    r.2.data.colors = s.data.colors ∧ r.2.data.uv = s.data.uv ∧
    r.2.data.primitives = s.data.primitives := by
  unfold getMaterialIndex at h
  split at h
  · split at h
    · cases h
    · simp only at h
      split at h
      · cases h
        exact ⟨rfl, rfl, rfl, rfl, rfl⟩
      · split at h
        · cases h
          exact ⟨rfl, rfl, rfl, rfl, rfl⟩
        · have hk := untexturedMaterial_arrays _ _ _ r h
          exact hk
  · exact untexturedMaterial_arrays _ _ _ r h

theorem totalCount_append (xs ys : List PrimitiveInfo) :
    totalCount (xs ++ ys) = totalCount xs + totalCount ys := by
  simp [totalCount]

theorem totalCount_take_le (xs : List PrimitiveInfo) (i : Nat) :
    totalCount (xs.take i) ≤ totalCount xs := by
  have h := totalCount_append (xs.take i) (xs.drop i)
  rw [List.take_append_drop] at h
  omega

theorem entries_snoc (P : List PrimitiveInfo) (e : PrimitiveInfo) (n : Nat)
    (hP : ∀ (i : Nat) (x : PrimitiveInfo), P[i]? = some x →
      x.index = toInt32 (totalCount (P.take i)) ∧ entryKind x)
    (hT : totalCount P = n) (he : e.index = toInt32 n) (hk : entryKind e) :
    (∀ (i : Nat) (x : PrimitiveInfo), (P ++ [e])[i]? = some x →
      x.index = toInt32 (totalCount ((P ++ [e]).take i)) ∧ entryKind x) ∧
    totalCount (P ++ [e]) = n + e.count.toNat := by
  constructor
  · intro i x hx
    by_cases hi : i < P.length
    · rw [List.getElem?_append_left hi] at hx
      rw [List.take_append_of_le_length (by omega)]
      exact hP i x hx
    · have hlen : i < (P ++ [e]).length := (List.getElem?_eq_some.mp hx).1
      rw [List.length_append, List.length_singleton] at hlen
      have hi2 : i = P.length := by omega
      subst hi2
      rw [List.getElem?_append_right (le_refl _)] at hx
      simp only [Nat.sub_self, List.getElem?_cons_zero, Option.some.injEq] at hx
      subst hx
      rw [List.take_append_of_le_length (le_refl _), List.take_length, hT]
      exact ⟨he, hk⟩
  · rw [totalCount_append, hT]
    simp [totalCount]

theorem addMesh_aligned {F : Type} (env : ConverterEnv F) (s : ConvertState F) (o : TMD_Object)
    (primitive : TMD_Primitive) (type : PrimitiveType) (count : Int)
    (r : Bool × ConvertState F)
    (hc : (type = PrimitiveType.Line ∧ count = 2) ∨
      (type = PrimitiveType.Quad ∧ count = 6 ∧ primitive.vertexCount = 4) ∨
      (type = PrimitiveType.Triangle ∧ count = 3 ∧ ¬ primitive.vertexCount = 4))
    (hm : meshAligned s.data) (hen : entriesAligned s.data)
    (h : addMesh env s o primitive type count = .ok r) :
    meshAligned r.2.data ∧ entriesAligned r.2.data := by
  unfold addMesh at h
  split at h
  · cases h
  · rename_i r0 hr0
    obtain ⟨a1, a2, a3, a4, a5⟩ := getMaterialIndex_arrays env s primitive r0 hr0
    have hm0 : meshAligned r0.2.data := by
      unfold meshAligned
      rw [a1, a2, a3, a4]
      exact hm
    split at h
    · split at h
      · split at h
        · cases h
        · split at h
          · cases h
          · split at h
            · cases h
            · rename_i d hd
              have hd1 : meshAligned d ∧ d.vertices.length = s.data.vertices.length + count.toNat ∧
                  d.primitives = s.data.primitives := by
                rcases hc with ⟨ht, hcnt⟩ | ⟨ht, hcnt, hv⟩ | ⟨ht, hcnt, hv⟩
                · rw [if_pos ht] at hd
                  obtain ⟨m1, m2, m3⟩ := append_line_aligned env _ d o primitive hm0 hd
                  refine ⟨m1, ?_, m3.trans a5⟩
                  rw [m2, a1, hcnt]
                  rfl
                · rw [if_neg (by rw [ht]; decide)] at hd
                  obtain ⟨m1, m2, m3⟩ := append_triangles_aligned env _ d o primitive _ hm0 hd
                  refine ⟨m1, ?_, m3.trans a5⟩
                  rw [m2, a1, hcnt, if_pos hv]
                  rfl
                · rw [if_neg (by rw [ht]; decide)] at hd
                  obtain ⟨m1, m2, m3⟩ := append_triangles_aligned env _ d o primitive _ hm0 hd
                  refine ⟨m1, ?_, m3.trans a5⟩
                  rw [m2, a1, hcnt, if_neg hv]
                  rfl
              obtain ⟨m1, m2, m3⟩ := hd1
              cases h
              have hkind : entryKind
                  { index := toInt32 s.data.vertices.length, count := count, type := type,
                    materialIndex := r0.1 } := by
                unfold entryKind
                rcases hc with ⟨ht, hcnt⟩ | ⟨ht, hcnt, _⟩ | ⟨ht, hcnt, _⟩
                · exact Or.inr (Or.inr ⟨ht, hcnt⟩)
                · exact Or.inr (Or.inl ⟨ht, hcnt⟩)
                · exact Or.inl ⟨ht, hcnt⟩
              obtain ⟨e1, e2⟩ := entries_snoc s.data.primitives
                { index := toInt32 s.data.vertices.length, count := count, type := type,
                  materialIndex := r0.1 } s.data.vertices.length hen.1 hen.2 rfl hkind
              refine ⟨m1, ?_, ?_⟩
              · show ∀ (i : Nat) (e : PrimitiveInfo), (d.primitives ++ [_])[i]? = some e → _
                rw [m3]
                exact e1
              · show totalCount (d.primitives ++ [_]) = d.vertices.length
                rw [m3, e2, m2]
      · cases h
    · cases h

theorem addPrimitive_aligned {F : Type} (env : ConverterEnv F) (s : ConvertState F)
    (o : TMD_Object) (primitive : TMD_Primitive) (r : Bool × ConvertState F)
    (hm : meshAligned s.data) (hen : entriesAligned s.data)
    (h : addPrimitive env s o primitive = .ok r) :
    meshAligned r.2.data ∧ entriesAligned r.2.data := by
  unfold addPrimitive at h
  split at h
  · split at h
    · rename_i hq
      exact addMesh_aligned env s o primitive _ _ r (Or.inr (Or.inl ⟨rfl, rfl, hq⟩)) hm hen h
    · rename_i hq
      exact addMesh_aligned env s o primitive _ _ r (Or.inr (Or.inr ⟨rfl, rfl, hq⟩)) hm hen h
  · split at h
    · exact addMesh_aligned env s o primitive _ _ r (Or.inl ⟨rfl, rfl⟩) hm hen h
    · cases h
      exact ⟨hm, hen⟩

theorem convertLoop_aligned {F : Type} (env : ConverterEnv F) (object : TMD_Object) :
    ∀ (count : Nat) (i : Int) (s r : ConvertState F),
      convertLoop env object count i s = .ok r →
      meshAligned s.data → entriesAligned s.data →
      meshAligned r.data ∧ entriesAligned r.data := by
  intro count
  induction count with
  | zero =>
    intro i s r h hm hen
    simp only [convertLoop, Except.ok.injEq] at h
    subst h
    exact ⟨hm, hen⟩
  | succ c ih =>
    intro i s r h hm hen
    simp only [convertLoop] at h
    split at h
    · cases h
    · split at h
      · cases h
      · rename_i primitive _
        split at h
        · cases h
        · rename_i r1 hr1
          obtain ⟨m1, e1⟩ := addPrimitive_aligned env s object primitive r1 hm hen hr1
          exact ih _ _ r h m1 e1

theorem empty_aligned (F : Type) :
    meshAligned (PSX_Object3D.empty F) ∧ entriesAligned (PSX_Object3D.empty F) := by
  refine ⟨⟨Or.inl rfl, Or.inl rfl, Or.inl rfl⟩, ?_, rfl⟩
  intro i e h
  simp [PSX_Object3D.empty] at h

/-- C40: in the mesh that `convertObject` returns, whatever the primitives of
the object, each of the arrays `normals`, `colors` and `uv` is empty or as long
as `vertices`; every entry is a triangle of count 3, a quad of count 6 or a
line of count 2; the index of an entry is the sum of the counts of the entries
before it (converted to `int`, so the sum itself for fewer than `2^31`
vertices); and the counts add up to the number of vertices. -/
theorem C40_mesh_aligned {F : Type} (env : ConverterEnv F) (m_textures : PSX_TextureCache)
    (object : TMD_Object) (data : PSX_Object3D F) (cache : PSX_TextureCache)
    (h : convertObject env m_textures object = .ok (some data, cache)) :
    (data.normals = [] ∨ data.normals.length = data.vertices.length) ∧
    (data.colors = [] ∨ data.colors.length = data.vertices.length) ∧
    (data.uv = [] ∨ data.uv.length = data.vertices.length) ∧
    (∀ (i : Nat) (e : PrimitiveInfo), data.primitives[i]? = some e →
      ((e.type = PrimitiveType.Triangle ∧ e.count = 3) ∨
        (e.type = PrimitiveType.Quad ∧ e.count = 6) ∨
        (e.type = PrimitiveType.Line ∧ e.count = 2)) ∧
      e.index = toInt32 (totalCount (data.primitives.take i)) ∧
      (data.vertices.length < 2 ^ 31 →
        e.index = ((totalCount (data.primitives.take i) : Nat) : Int))) ∧
    totalCount data.primitives = data.vertices.length := by
  unfold convertObject at h
  split at h
  · cases h
  · split at h
    · cases h
    · rename_i s hs
      simp only [Except.ok.injEq, Prod.mk.injEq, Option.some.injEq] at h
      obtain ⟨hd, _⟩ := h
      subst hd
      obtain ⟨⟨m1, m2, m3⟩, e1, e2⟩ := convertLoop_aligned env object _ _ _ s hs
        (empty_aligned F).1 (empty_aligned F).2
      refine ⟨m1, m2, m3, ?_, e2⟩
      intro i e hi
      obtain ⟨k1, k2⟩ := e1 i e hi
      refine ⟨k2, k1, fun hlt => ?_⟩
      rw [k1]
      apply toInt32_of_lt
      have := totalCount_take_le s.data.primitives i
      omega

/-- Witness for C40: a flat triangle with a normal followed by a line, which
has none: the normals of the line are default elements. -/
theorem C40_mesh_aligned_witness :
    ∃ (data : PSX_Object3D ℚ) (cache : PSX_TextureCache),
      convertObject sampleEnv PSX_TextureCache.empty
          (objectWith sampleObject [trianglePacket, linePacket]) = .ok (some data, cache) ∧
      data.vertices.length = 5 ∧ data.normals.length = 5 ∧ data.colors.length = 5 ∧
      data.uv = [] ∧
      data.primitives.map (fun e => (e.type, e.index, e.count))
        = [(PrimitiveType.Triangle, 0, 3), (PrimitiveType.Line, 3, 2)] ∧
      totalCount data.primitives = data.vertices.length := by
  obtain ⟨data, cache, h⟩ : ∃ (data : PSX_Object3D ℚ) (cache : PSX_TextureCache),
      convertObject sampleEnv PSX_TextureCache.empty
          (objectWith sampleObject [trianglePacket, linePacket]) = .ok (some data, cache) ∧
      data.vertices.length = 5 ∧ data.normals.length = 5 ∧ data.colors.length = 5 ∧
      data.uv = [] ∧
      data.primitives.map (fun e => (e.type, e.index, e.count))
        = [(PrimitiveType.Triangle, 0, 3), (PrimitiveType.Line, 3, 2)] :=
    ⟨_, _, rfl, rfl, rfl, rfl, rfl, rfl⟩
  obtain ⟨h0, h1, h2, h3, h4, h5⟩ := h
  obtain ⟨_, _, _, _, g⟩ := C40_mesh_aligned sampleEnv PSX_TextureCache.empty
    (objectWith sampleObject [trianglePacket, linePacket]) data cache h0
  exact ⟨data, cache, h0, h1, h2, h3, h4, h5, g⟩

/-- C1: a call of `AnimationPlayer::step` returns exactly when `applyMomentum`
does and, from the state with the clocks advanced (timecode and frame number
one higher, `pc` as it was), the loop dispatches a list of instructions: each
one is the instruction at `pc` while `pc` is inside the instruction list and
the instruction has no timecode (a loop start) or the current timecode, each
is executed and then `pc` is incremented, and the loop ends in the first state
in which the instruction at `pc` has a timecode different from the current one
(or `pc` is outside the list), the timecode being read again in every state;
the state the loop ends in is the state of the player afterwards. -/
theorem C1_dispatch_loop {F : Type} (ops : FloatOps F) (fuel : Nat)
    (player p1 : AnimationPlayer F) (sigs : List Signal) :
    (step ops fuel player = .ok (p1, sigs) ↔
      ∃ d1 d2 l, applyMomentum ops player.m_animationData = .ok d1 ∧
        l.length < fuel ∧ DispatchRun ops (advanceClocks d1) l d2 ∧
        ((pcAtEnd d2 = true ∧ p1 = { m_timerActive := false, m_animationData := d2 } ∧
            sigs = [Signal.stepped, Signal.finished]) ∨
          (pcAtEnd d2 = false ∧ p1 = { player with m_animationData := d2 } ∧
            sigs = [Signal.stepped]))) ∧
    (∀ d : AnimationData F,
      (advanceClocks d).state.timecode = d.state.timecode + 1 ∧
      (advanceClocks d).state.frameNum = d.state.frameNum + 1 ∧
      (advanceClocks d).state.pc = d.state.pc ∧
      (advanceClocks d).animation = d.animation) ∧
    (∀ (d : AnimationData F) (ins : Instruction F), currentInstruction d = some ins ↔
      0 ≤ d.state.pc ∧ d.state.pc.toNat < d.animation.instructions.length ∧
        d.animation.instructions[d.state.pc.toNat]? = some ins) ∧
    (∀ ins : Instruction F, get_timecode ins = none ↔ ∃ l, ins = Instruction.loopStart l) ∧
    (∀ (d : AnimationData F) (ins : Instruction F), dispatchable d = some ins ↔
      currentInstruction d = some ins ∧
        (get_timecode ins = none ∨ get_timecode ins = some d.state.timecode)) ∧
    (∀ (d e : AnimationData F) (ins : Instruction F) (n : Nat),
      dispatchable d = some ins → execute ops d ins = .ok e →
      dispatch ops (n + 1) d =
        dispatch ops n { e with state := { e.state with pc := e.state.pc + 1 } }) ∧
    (∀ (d : AnimationData F) (n : Nat), dispatchable d = none → dispatch ops (n + 1) d = .ok d) := by
  refine ⟨⟨?_, ?_⟩, fun d => ⟨rfl, rfl, rfl, rfl⟩, currentInstruction_eq_some,
    get_timecode_eq_none, dispatchable_eq_some, ?_, ?_⟩
  · intro h
    unfold step at h
    cases h1 : applyMomentum ops player.m_animationData with
    | error f => simp [h1] at h
    | ok d1 =>
      cases h2 : dispatch ops fuel (advanceClocks d1) with
      | error f => simp [h1, h2] at h
      | ok d2 =>
        simp only [h1, h2] at h
        obtain ⟨l, hl, hrun⟩ := run_of_dispatch_ok ops fuel _ d2 h2
        refine ⟨d1, d2, l, rfl, hl, hrun, ?_⟩
        cases he : pcAtEnd d2 with
        | true =>
          simp only [he, if_true, Except.ok.injEq, Prod.mk.injEq] at h
          exact Or.inl ⟨rfl, h.1.symm, h.2.symm⟩
        | false =>
          simp only [he, Bool.false_eq_true, if_false, Except.ok.injEq, Prod.mk.injEq] at h
          exact Or.inr ⟨rfl, h.1.symm, h.2.symm⟩
  · rintro ⟨d1, d2, l, h1, hl, hrun, hend⟩
    have h2 := dispatch_ok_of_run ops _ d2 l hrun fuel hl
    unfold step
    simp only [h1, h2]
    rcases hend with ⟨he, hp, hs⟩ | ⟨he, hp, hs⟩
    · simp only [he, if_true, hp, hs]
    · simp only [he, Bool.false_eq_true, if_false, hp, hs]
  · intro d e ins n hs hex
    simp [dispatch, hs, dispatchBody, hex]
  · intro d n hn
    simp [dispatch, hn]

/-- Witness for C1: on the program `[LoopStart 2, Keyframe tc 1, LoopEnd tc 1
newTime 5, PlaySound tc 1]` a call of `step` at timecode 0 advances the clock
to 1, dispatches the first three instructions and stops at the keyframe, whose
timecode 1 now differs from the timecode 5 set by the loop end. -/
theorem C1_dispatch_loop_witness :
    ∃ p1 d1 l, step ratOps 4 gatedPlayer = .ok (p1, [Signal.stepped]) ∧
      applyMomentum ratOps gatedPlayer.m_animationData = .ok d1 ∧
      DispatchRun ratOps (advanceClocks d1) l p1.m_animationData ∧ l.length < 4 ∧
      (advanceClocks d1).state.timecode = 1 ∧ (advanceClocks d1).state.pc = 0 ∧
      p1.m_animationData.state.pc = 1 ∧ p1.m_animationData.state.timecode = 5 := by
  obtain ⟨p1, h, hpc, htc⟩ : ∃ p1, step ratOps 4 gatedPlayer = .ok (p1, [Signal.stepped]) ∧
      p1.m_animationData.state.pc = 1 ∧ p1.m_animationData.state.timecode = 5 :=
    ⟨_, rfl, rfl, rfl⟩
  obtain ⟨d1, d2, l, h1, hl, hrun, hend⟩ :=
    (C1_dispatch_loop ratOps 4 gatedPlayer p1 [Signal.stepped]).1.mp h
  have hd2 : p1.m_animationData = d2 := by
    rcases hend with ⟨_, hp, _⟩ | ⟨_, hp, _⟩
    · rw [hp]
    · rw [hp]
  have hst := applyMomentum_spec ratOps _ d1 h1
  have htc1 : (advanceClocks d1).state.timecode = 1 := by
    show d1.state.timecode + 1 = 1
    rw [hst.1]
    rfl
  have hpc1 : (advanceClocks d1).state.pc = 0 := by
    show d1.state.pc = 0
    rw [hst.1]
    rfl
  rw [← hd2] at hrun
  exact ⟨p1, d1, l, h, h1, hrun, hl, htc1, hpc1, hpc, htc⟩

theorem dispatchBody_state {F : Type} (ops : FloatOps F) (d d1 : AnimationData F)
    (ins : Instruction F) (hb : dispatchBody ops d ins = .ok d1) :
    d1.animation = d.animation ∧
    (((∀ l, ins ≠ Instruction.loopStart l) ∧ (∀ e, ins ≠ Instruction.loopEnd e)) →
      d1.state.timecode = d.state.timecode ∧ d1.state.pc = d.state.pc + 1 ∧
      d1.state.loopJumpbackIndex = d.state.loopJumpbackIndex ∧
      d1.state.loopCounter = d.state.loopCounter) ∧
    (∀ l, ins = Instruction.loopStart l →
      d1.state.timecode = d.state.timecode ∧ d1.state.pc = d.state.pc + 1 ∧
      d1.state.loopJumpbackIndex = d.state.pc ∧
      d1.state.loopCounter = toInt32 l.loopCount) ∧
    (∀ e, ins = Instruction.loopEnd e →
      d1 = { executeLoopEnd d e with
             state := { (executeLoopEnd d e).state with
                        pc := (executeLoopEnd d e).state.pc + 1 } }) := by
  unfold dispatchBody at hb
  cases ins with
  | keyframe k =>
    simp only [execute, executeKeyframe] at hb
    cases hk : applyKeyframeEntries ops d.state.momentumData k.entries with
    | error g =>
      rw [hk] at hb
      cases hb
    | ok md =>
      rw [hk] at hb
      simp only [Except.ok.injEq] at hb
      subst hb
      exact ⟨rfl, fun _ => ⟨rfl, rfl, rfl, rfl⟩, fun l h => (by cases h), fun e h => (by cases h)⟩
  | loopStart l =>
    simp only [execute, Except.ok.injEq] at hb
    subst hb
    refine ⟨rfl, fun h => absurd rfl (h.1 l), ?_, fun e h => (by cases h)⟩
    intro l1 h
    cases h
    exact ⟨rfl, rfl, rfl, rfl⟩
  | loopEnd e =>
    simp only [execute, Except.ok.injEq] at hb
    subst hb
    refine ⟨(executeLoopEnd_model d e).2, fun h => absurd rfl (h.2 e), fun l h => (by cases h), ?_⟩
    intro e1 h
    cases h
    rfl
  | playSound p =>
    simp only [execute, Except.ok.injEq] at hb
    subst hb
    exact ⟨rfl, fun _ => ⟨rfl, rfl, rfl, rfl⟩, fun l h => (by cases h), fun e h => (by cases h)⟩
  | texture b =>
    simp only [execute, executeTexture] at hb
    cases hbn : blitNodes b d.model.materialStore (d.model.textureStore, [])
        d.model.nodes with
    | error g =>
      rw [hbn] at hb
      cases hb
    | ok a =>
      rw [hbn] at hb
      simp only [Except.ok.injEq] at hb
      subst hb
      exact ⟨rfl, fun _ => ⟨rfl, rfl, rfl, rfl⟩, fun l h => (by cases h), fun e h => (by cases h)⟩

theorem dispatchBody_fault {F : Type} (ops : FloatOps F) (d : AnimationData F)
    (ins : Instruction F) (f : Fault) (h : dispatchBody ops d ins = .error f) :
    f = Fault.outOfBounds := by
  unfold dispatchBody at h
  cases he : execute ops d ins with
  | error g =>
    rw [he] at h
    simp only [Except.error.injEq] at h
    subst h
    exact execute_fault ops d ins g he
  | ok d0 =>
    rw [he] at h
    cases h

theorem dispatchEnds_mono {F : Type} (ops : FloatOps F) (d : AnimationData F) (n m : Nat)
    (h : dispatchEnds ops d n) (hnm : n ≤ m) : dispatchEnds ops d m :=
  fun fuel hf => h fuel (le_trans hnm hf)

theorem dispatchEnds_blocked {F : Type} (ops : FloatOps F) (d : AnimationData F)
    (h : dispatchable d = none) : dispatchEnds ops d 1 := by
  intro fuel hf
  cases fuel with
  | zero => omega
  | succ n =>
    simp only [dispatch, h]
    intro hc
    cases hc

theorem dispatchEnds_step {F : Type} (ops : FloatOps F) (d : AnimationData F)
    (ins : Instruction F) (n : Nat) (hd : dispatchable d = some ins)
    (h : ∀ d1, dispatchBody ops d ins = .ok d1 → dispatchEnds ops d1 n) :
    dispatchEnds ops d (n + 1) := by
  intro fuel hf
  cases fuel with
  | zero => omega
  | succ k =>
    simp only [dispatch, hd]
    cases hb : dispatchBody ops d ins with
    | error g =>
      simp only []
      intro hc
      have := dispatchBody_fault ops d ins g hb
      rw [this] at hc
      cases hc
    | ok d1 =>
      simp only []
      exact h d1 hb k (by omega)

theorem jump_cases {F : Type} (ops : FloatOps F) (a : MMD_Animation F) (d d1 : AnimationData F)
    (ins : Instruction F) (hself : noSelfLoop a) (hinv : jumpInv a d)
    (hd : dispatchable d = some ins) (hb : dispatchBody ops d ins = .ok d1) :
    jumpInv a d1 ∧ d.state.pc < (a.instructions.length : Int) ∧
    ((d1.state.pc = d.state.pc + 1 ∧ d1.state.timecode = d.state.timecode ∧
        d1.state.loopJumpbackIndex = d.state.loopJumpbackIndex) ∨
      (d1.state.pc = d.state.pc + 1 ∧ d1.state.loopJumpbackIndex = d.state.pc) ∨
      (d1.state.pc = d.state.loopJumpbackIndex + 1 ∧ d1.state.timecode ≠ d.state.timecode ∧
        d1.state.loopJumpbackIndex = d.state.loopJumpbackIndex)) := by
  obtain ⟨hcur, htc⟩ := (dispatchable_eq_some d ins).mp hd
  obtain ⟨hpc0, hpclt, hget⟩ := (currentInstruction_eq_some d ins).mp hcur
  obtain ⟨ha, i1, i2, i3, i4⟩ := hinv
  rw [ha] at hpclt hget
  have hlt : d.state.pc < (a.instructions.length : Int) := by omega
  obtain ⟨s1, s2, s3, s4⟩ := dispatchBody_state ops d d1 ins hb
  have hplain : d1.state.timecode = d.state.timecode → d1.state.pc = d.state.pc + 1 →
      d1.state.loopJumpbackIndex = d.state.loopJumpbackIndex →
      jumpInv a d1 ∧ d.state.pc < (a.instructions.length : Int) ∧
      ((d1.state.pc = d.state.pc + 1 ∧ d1.state.timecode = d.state.timecode ∧
          d1.state.loopJumpbackIndex = d.state.loopJumpbackIndex) ∨
        (d1.state.pc = d.state.pc + 1 ∧ d1.state.loopJumpbackIndex = d.state.pc) ∨
        (d1.state.pc = d.state.loopJumpbackIndex + 1 ∧ d1.state.timecode ≠ d.state.timecode ∧
          d1.state.loopJumpbackIndex = d.state.loopJumpbackIndex)) := by
    intro t1 t2 t3
    refine ⟨⟨s1.trans ha, ?_, ?_, ?_, ?_⟩, hlt, Or.inl ⟨t2, t1, t3⟩⟩ <;> omega
  cases ins with
  | keyframe k =>
    obtain ⟨t1, t2, t3, _⟩ := s2 ⟨fun l h => (by cases h), fun e h => (by cases h)⟩
    exact hplain t1 t2 t3
  | playSound p =>
    obtain ⟨t1, t2, t3, _⟩ := s2 ⟨fun l h => (by cases h), fun e h => (by cases h)⟩
    exact hplain t1 t2 t3
  | texture b =>
    obtain ⟨t1, t2, t3, _⟩ := s2 ⟨fun l h => (by cases h), fun e h => (by cases h)⟩
    exact hplain t1 t2 t3
  | loopStart l =>
    obtain ⟨t1, t2, t3, _⟩ := s3 l rfl
    refine ⟨⟨s1.trans ha, ?_, ?_, ?_, ?_⟩, hlt, Or.inr (Or.inl ⟨t2, t3⟩)⟩ <;> omega
  | loopEnd e =>
    have hd1 := s4 e rfl
    have hmem : Instruction.loopEnd e ∈ a.instructions := by
      obtain ⟨hi, hv⟩ := List.getElem?_eq_some.mp hget
      rw [← hv]
      exact List.getElem_mem hi
    have hne := hself e hmem
    have htc1 : toInt32 e.timecode = d.state.timecode := by
      rcases htc with h | h
      · cases h
      · simpa [get_timecode] using h
    have hjump : d1.state.pc = d.state.loopJumpbackIndex + 1 →
        d1.state.timecode = toInt32 e.newTime →
        d1.state.loopJumpbackIndex = d.state.loopJumpbackIndex →
        jumpInv a d1 ∧ d.state.pc < (a.instructions.length : Int) ∧
        ((d1.state.pc = d.state.pc + 1 ∧ d1.state.timecode = d.state.timecode ∧
            d1.state.loopJumpbackIndex = d.state.loopJumpbackIndex) ∨
          (d1.state.pc = d.state.pc + 1 ∧ d1.state.loopJumpbackIndex = d.state.pc) ∨
          (d1.state.pc = d.state.loopJumpbackIndex + 1 ∧
            d1.state.timecode ≠ d.state.timecode ∧
            d1.state.loopJumpbackIndex = d.state.loopJumpbackIndex)) := by
      intro t1 t2 t3
      refine ⟨⟨s1.trans ha, ?_, ?_, ?_, ?_⟩, hlt, Or.inr (Or.inr ⟨t1, ?_, t3⟩)⟩
      · omega
      · omega
      · omega
      · omega
      · rw [t2, ← htc1]
        exact hne
    have hcases : ((executeLoopEnd d e).state.timecode = d.state.timecode ∧
          (executeLoopEnd d e).state.pc = d.state.pc ∧
          (executeLoopEnd d e).state.loopJumpbackIndex = d.state.loopJumpbackIndex) ∨
        ((executeLoopEnd d e).state.timecode = toInt32 e.newTime ∧
          (executeLoopEnd d e).state.pc = d.state.loopJumpbackIndex ∧
          (executeLoopEnd d e).state.loopJumpbackIndex = d.state.loopJumpbackIndex) := by
      unfold executeLoopEnd
      split
      · split
        · exact Or.inl ⟨rfl, rfl, rfl⟩
        · exact Or.inr ⟨rfl, rfl, rfl⟩
      · exact Or.inr ⟨rfl, rfl, rfl⟩
    have e1 : d1.state.timecode = (executeLoopEnd d e).state.timecode := by rw [hd1]
    have e2 : d1.state.pc = (executeLoopEnd d e).state.pc + 1 := by rw [hd1]
    have e3 : d1.state.loopJumpbackIndex = (executeLoopEnd d e).state.loopJumpbackIndex := by
      rw [hd1]
    rcases hcases with ⟨c1, c2, c3⟩ | ⟨c1, c2, c3⟩
    · exact hplain (e1.trans c1) (by rw [e2, c2]) (e3.trans c3)
    · exact hjump (by rw [e2, c2]) (e1.trans c1) (e3.trans c3)

theorem gated_bounded {F : Type} (ops : FloatOps F) (a : MMD_Animation F)
    (hself : noSelfLoop a) (m W : Nat)
    (H : ∀ d : AnimationData F, jumpInv a d →
      (a.instructions.length : Int) ≤ d.state.loopJumpbackIndex + (m : Int) →
      dispatchEnds ops d (m * W)) :
    ∀ (k : Nat) (d : AnimationData F), jumpInv a d →
      (a.instructions.length : Int) ≤ d.state.loopJumpbackIndex + (m : Int) + 1 →
      landingGated a d → (a.instructions.length : Int) ≤ d.state.pc + (k : Int) →
      dispatchEnds ops d (k + 2 + m * W) := by
  intro k
  induction k with
  | zero =>
    intro d hinv hlev hgate hrem
    cases hd : dispatchable d with
    | none => exact dispatchEnds_mono ops d _ _ (dispatchEnds_blocked ops d hd) (by omega)
    | some ins =>
      exfalso
      obtain ⟨hcur, _⟩ := (dispatchable_eq_some d ins).mp hd
      obtain ⟨_, hpclt, _⟩ := (currentInstruction_eq_some d ins).mp hcur
      rw [hinv.1] at hpclt
      have := hinv.2.1
      omega
  | succ k ih =>
    intro d hinv hlev hgate hrem
    cases hd : dispatchable d with
    | none => exact dispatchEnds_mono ops d _ _ (dispatchEnds_blocked ops d hd) (by omega)
    | some ins =>
      have hstep : dispatchEnds ops d (k + 2 + m * W + 1) := by
        apply dispatchEnds_step ops d ins _ hd
        intro d1 hb
        obtain ⟨hinv1, hlt, hcase⟩ := jump_cases ops a d d1 ins hself hinv hd hb
        rcases hcase with ⟨c1, c2, c3⟩ | ⟨c1, c2⟩ | ⟨c1, c2, c3⟩
        · apply ih d1 hinv1
          · rw [c3]; exact hlev
          · obtain ⟨ins0, g1, g2⟩ := hgate
            exact ⟨ins0, by rw [c3]; exact g1, by rw [c2]; exact g2⟩
          · rw [c1]; push_cast at hrem ⊢; omega
        · have hi := hinv.2.2.2.2
          exact dispatchEnds_mono ops d1 _ _ (H d1 hinv1 (by rw [c2]; omega)) (by omega)
        · have hblocked : dispatchable d1 = none := by
            rw [dispatchable_eq_none]
            intro ins1 hc1
            obtain ⟨_, _, hg1⟩ := (currentInstruction_eq_some d1 ins1).mp hc1
            obtain ⟨ins0, g1, g2⟩ := hgate
            rw [hinv1.1, c1, g1] at hg1
            simp only [Option.some.injEq] at hg1
            subst hg1
            exact ⟨_, g2, fun h => c2 h.symm⟩
          exact dispatchEnds_mono ops d1 _ _ (dispatchEnds_blocked ops d1 hblocked) (by omega)
      exact dispatchEnds_mono ops d _ _ hstep (by omega)

theorem loop_bounded {F : Type} (ops : FloatOps F) (a : MMD_Animation F)
    (hself : noSelfLoop a) (m W : Nat)
    (H : ∀ d : AnimationData F, jumpInv a d →
      (a.instructions.length : Int) ≤ d.state.loopJumpbackIndex + (m : Int) →
      dispatchEnds ops d (m * W)) :
    ∀ (k : Nat) (d : AnimationData F), jumpInv a d →
      (a.instructions.length : Int) ≤ d.state.loopJumpbackIndex + (m : Int) + 1 →
      (a.instructions.length : Int) ≤ d.state.pc + (k : Int) →
      dispatchEnds ops d (k + (a.instructions.length + 4) + m * W) := by
  have hland : ∀ d1 : AnimationData F, jumpInv a d1 →
      (a.instructions.length : Int) ≤ d1.state.loopJumpbackIndex + (m : Int) + 1 →
      d1.state.pc = d1.state.loopJumpbackIndex + 1 →
      dispatchEnds ops d1 (a.instructions.length + 2 + m * W) := by
    intro d1 hinv1 hlev1 hpc1
    cases hd1 : dispatchable d1 with
    | none => exact dispatchEnds_mono ops d1 _ _ (dispatchEnds_blocked ops d1 hd1) (by omega)
    | some ins1 =>
      obtain ⟨hcur1, htc1⟩ := (dispatchable_eq_some d1 ins1).mp hd1
      obtain ⟨_, _, hget1⟩ := (currentInstruction_eq_some d1 ins1).mp hcur1
      rcases htc1 with hnone | hsome
      · obtain ⟨l, hl⟩ := (get_timecode_eq_none ins1).mp hnone
        have hstep : dispatchEnds ops d1 (m * W + 1) := by
          apply dispatchEnds_step ops d1 ins1 _ hd1
          intro d2 hb2
          obtain ⟨hinv2, _, _⟩ := jump_cases ops a d1 d2 ins1 hself hinv1 hd1 hb2
          obtain ⟨_, _, s3, _⟩ := dispatchBody_state ops d1 d2 ins1 hb2
          obtain ⟨_, _, t3, _⟩ := s3 l hl
          exact H d2 hinv2 (by rw [t3, hpc1]; omega)
        exact dispatchEnds_mono ops d1 _ _ hstep (by omega)
      · have hgate : landingGated a d1 := by
          refine ⟨ins1, ?_, hsome⟩
          rw [← hpc1, ← hinv1.1]
          exact hget1
        have h0 := hinv1.2.1
        exact gated_bounded ops a hself m W H a.instructions.length d1 hinv1 hlev1 hgate
          (by omega)
  intro k
  induction k with
  | zero =>
    intro d hinv hlev hrem
    cases hd : dispatchable d with
    | none => exact dispatchEnds_mono ops d _ _ (dispatchEnds_blocked ops d hd) (by omega)
    | some ins =>
      exfalso
      obtain ⟨hcur, _⟩ := (dispatchable_eq_some d ins).mp hd
      obtain ⟨_, hpclt, _⟩ := (currentInstruction_eq_some d ins).mp hcur
      rw [hinv.1] at hpclt
      have := hinv.2.1
      omega
  | succ k ih =>
    intro d hinv hlev hrem
    cases hd : dispatchable d with
    | none => exact dispatchEnds_mono ops d _ _ (dispatchEnds_blocked ops d hd) (by omega)
    | some ins =>
      have hstep : dispatchEnds ops d (k + (a.instructions.length + 4) + m * W + 1) := by
        apply dispatchEnds_step ops d ins _ hd
        intro d1 hb
        obtain ⟨hinv1, hlt, hcase⟩ := jump_cases ops a d d1 ins hself hinv hd hb
        rcases hcase with ⟨c1, c2, c3⟩ | ⟨c1, c2⟩ | ⟨c1, c2, c3⟩
        · apply ih d1 hinv1
          · rw [c3]; exact hlev
          · rw [c1]; push_cast at hrem ⊢; omega
        · have hi := hinv.2.2.2.2
          exact dispatchEnds_mono ops d1 _ _ (H d1 hinv1 (by rw [c2]; omega)) (by omega)
        · exact dispatchEnds_mono ops d1 _ _
            (hland d1 hinv1 (by rw [c3]; exact hlev) (by rw [c1, c3])) (by omega)
      exact dispatchEnds_mono ops d _ _ hstep (by omega)

theorem dispatch_bounded {F : Type} (ops : FloatOps F) (a : MMD_Animation F)
    (hself : noSelfLoop a) :
    ∀ (m : Nat) (d : AnimationData F), jumpInv a d →
      (a.instructions.length : Int) ≤ d.state.loopJumpbackIndex + (m : Int) →
      dispatchEnds ops d (m * (2 * a.instructions.length + 4)) := by
  intro m
  induction m with
  | zero =>
    intro d hinv hlev
    obtain ⟨_, _, i2, _, i4⟩ := hinv
    exfalso
    push_cast at hlev
    omega
  | succ m ih =>
    intro d hinv hlev
    have h0 := hinv.2.1
    have hb := loop_bounded ops a hself m (2 * a.instructions.length + 4) ih
      a.instructions.length d hinv (by push_cast at hlev; omega) (by omega)
    refine dispatchEnds_mono ops d _ _ hb ?_
    have hmul : (m + 1) * (2 * a.instructions.length + 4)
        = m * (2 * a.instructions.length + 4) + (2 * a.instructions.length + 4) :=
      Nat.succ_mul m _
    rw [hmul]
    omega

theorem dispatchIndices_length {F : Type} (ops : FloatOps F) :
    ∀ (n : Nat) (d : AnimationData F), dispatch ops n d ≠ .error Fault.outOfFuel →
      ∀ fuel, (dispatchIndices ops fuel d).length ≤ n := by
  intro n
  induction n with
  | zero =>
    intro d h
    exact absurd rfl h
  | succ n ih =>
    intro d h fuel
    cases fuel with
    | zero => simp [dispatchIndices]
    | succ f =>
      unfold dispatchIndices
      unfold dispatch at h
      cases hd : dispatchable d with
      | none => simp
      | some ins =>
        rw [hd] at h
        simp only [] at h ⊢
        cases hb : dispatchBody ops d ins with
        | error g => simp
        | ok d1 =>
          rw [hb] at h
          simp only [] at h ⊢
          have := ih d1 h f
          simp only [List.length_cons]
          omega

theorem dispatch_stable {F : Type} (ops : FloatOps F) :
    ∀ (n : Nat) (d : AnimationData F), dispatch ops n d ≠ .error Fault.outOfFuel →
      ∀ m, n ≤ m → dispatch ops m d = dispatch ops n d := by
  intro n
  induction n with
  | zero =>
    intro d h
    exact absurd rfl h
  | succ n ih =>
    intro d h m hm
    cases m with
    | zero => omega
    | succ m =>
      unfold dispatch at h ⊢
      cases hd : dispatchable d with
      | none => rfl
      | some ins =>
        rw [hd] at h
        simp only [] at h ⊢
        cases hb : dispatchBody ops d ins with
        | error g => rfl
        | ok d1 =>
          rw [hb] at h
          simp only [] at h ⊢
          exact ih d1 h m (by omega)

theorem reachable_jumpInv {F : Type} (ops : FloatOps F) (fuel n : Nat)
    (player p0 : AnimationPlayer F) (animation : MMD_Animation F)
    (r : AnimationPlayer F × List Signal)
    (hplay : playAnimation ops player animation = .ok p0)
    (hrun : stepN ops fuel n p0 = .ok r) : jumpInv animation r.1.m_animationData := by
  obtain ⟨_, a0, s0, _⟩ := playAnimation_spec ops player p0 animation hplay
  have hinv : loopRegistersOk p0.m_animationData [] := by
    unfold loopRegistersOk
    rw [s0]
    exact ⟨le_refl _, by simp [AnimationState.fresh], Or.inl rfl⟩
  obtain ⟨a1, i1, i2, i3⟩ := stepN_registers ops fuel p0 hinv n r hrun
  rw [a1, a0] at i2
  refine ⟨a1.trans a0, i1, i2, ?_⟩
  rcases i3 with h | ⟨h1, h2, _⟩
  · rw [h]
    omega
  · omega

/-- C33 as amended: when no loop end of the program has a `newTime` equal to
its own timecode, every call of `step` in a state reached from `playAnimation`
by calls of `step` ends within a number of iterations that depends on the
length of the program only (it returns, or stops on an access outside the
momentum table or the stores), a larger budget gives the same result, and it
executes at most that number of instructions: an iteration moves `pc` forward by one, except a loop-back, and
after a loop-back that changed the timecode the loop comes to a loop start,
which moves the jump-back index up, or goes on with instructions of the new
timecode only, so that the next loop-back lands on an instruction of another
timecode and the loop stops.  This covers programs with a loop start of count
255. -/
theorem C33_step_terminates {F : Type} (ops : FloatOps F) (fuel0 n : Nat)
    (player p0 : AnimationPlayer F) (animation : MMD_Animation F)
    (r : AnimationPlayer F × List Signal)
    (hplay : playAnimation ops player animation = .ok p0)
    (hrun : stepN ops fuel0 n p0 = .ok r)
    (hself : noSelfLoop animation) :
    ∀ fuel, stepBudget animation ≤ fuel →
      step ops fuel r.1 ≠ .error Fault.outOfFuel ∧
      step ops fuel r.1 = step ops (stepBudget animation) r.1 ∧
      (stepIndices ops fuel r.1).length ≤ stepBudget animation := by
  intro fuel hfuel
  have hinv := reachable_jumpInv ops fuel0 n player p0 animation r hplay hrun
  unfold step stepIndices
  cases h1 : applyMomentum ops r.1.m_animationData with
  | error f =>
    simp only [List.length_nil, Nat.zero_le, and_true]
    intro h
    simp only [Except.error.injEq] at h
    subst h
    unfold applyMomentum at h1
    cases hn : applyMomentumNodes ops r.1.m_animationData.model.nodes
        r.1.m_animationData.state.momentumData with
    | error g =>
      rw [hn] at h1
      simp only [Except.error.injEq] at h1
      have := applyMomentumNodes_fault ops _ _ g hn
      rw [this] at h1
      cases h1
    | ok ns =>
      rw [hn] at h1
      cases h1
  | ok d1 =>
    simp only []
    obtain ⟨hs, ha, _⟩ := applyMomentum_spec ops _ d1 h1
    have hinv1 : jumpInv animation (advanceClocks d1) := by
      unfold jumpInv advanceClocks
      simp only [hs, ha]
      exact hinv
    have hlev : (animation.instructions.length : Int)
        ≤ (advanceClocks d1).state.loopJumpbackIndex
          + ((animation.instructions.length + 1 : Nat) : Int) := by
      have := hinv1.2.2.2.1
      push_cast
      omega
    have hterm := dispatch_bounded ops animation hself _ (advanceClocks d1) hinv1 hlev
    have hlen := dispatchIndices_length ops _ (advanceClocks d1)
      (hterm (stepBudget animation) (le_refl _)) fuel
    have hstable := dispatch_stable ops _ (advanceClocks d1)
      (hterm (stepBudget animation) (le_refl _)) fuel hfuel
    refine ⟨?_, by rw [hstable], hlen⟩
    cases h2 : dispatch ops fuel (advanceClocks d1) with
    | error f =>
      simp only []
      intro h
      simp only [Except.error.injEq] at h
      subst h
      exact hterm fuel hfuel h2
    | ok d2 =>
      simp only []
      split <;> exact fun h => by cases h

/-- Witness for C33 as amended: the sample player after seven ticks of a
program that loops for ever, one round every three ticks, and after three
ticks of a program whose endless loop moves the clock forward. -/
theorem C33_step_terminates_witness :
    noSelfLoop backLoopProgram ∧ noSelfLoop forwardLoopProgram ∧
    (∃ p0 r, playAnimation ratOps samplePlayer backLoopProgram = .ok p0 ∧
      stepN ratOps 4 7 p0 = .ok r ∧
      step ratOps (stepBudget backLoopProgram) r.1 ≠ .error Fault.outOfFuel ∧
      stepBudget backLoopProgram = 40) ∧
    (∃ p0 r, playAnimation ratOps samplePlayer forwardLoopProgram = .ok p0 ∧
      stepN ratOps 4 3 p0 = .ok r ∧
      step ratOps (stepBudget forwardLoopProgram) r.1 ≠ .error Fault.outOfFuel ∧
      r.1.m_animationData.state.pc = 1 ∧ r.1.m_animationData.state.timecode = 5) := by
  have hback : noSelfLoop backLoopProgram := by
    intro e he
    simp only [backLoopProgram, List.mem_cons, List.mem_singleton, List.not_mem_nil,
      Instruction.loopEnd.injEq, or_false, false_or, reduceCtorEq] at he
    subst he
    decide
  have hfwd : noSelfLoop forwardLoopProgram := by
    intro e he
    simp only [forwardLoopProgram, List.mem_cons, List.mem_singleton, List.not_mem_nil,
      Instruction.loopEnd.injEq, or_false, false_or, reduceCtorEq] at he
    subst he
    decide
  refine ⟨hback, hfwd, ⟨_, _, rfl, rfl, ?_, rfl⟩, ⟨_, _, rfl, rfl, ?_, rfl, rfl⟩⟩
  · exact (C33_step_terminates ratOps 4 7 samplePlayer _ backLoopProgram _ rfl rfl hback
      _ (le_refl _)).1
  · exact (C33_step_terminates ratOps 4 3 samplePlayer _ forwardLoopProgram _ rfl rfl hfwd
      _ (le_refl _)).1

end MMDViewer
